import Mathlib

/-!
Carrot: lexer, parser and IR lowering.

A shallow embedding of `tokenizer.go`, `parser.go` and `generator.go`.

* Go `panic(...)` and run-time nil dereferences are values of `Failure`; every
  function that can panic returns `Except Failure _`.
* Go's linked lists (`Token.next`) are Lean lists; `*Node` is the type `Node`,
  whose constructor `Node.null` is the nil pointer.
* Loops and recursive descent are driven by an explicit budget; running out of
  it is the separate outcome `Failure.fuel`, which no source path produces and
  which `Tokenize` and `Parse` are proved never to return.
-/

namespace Carrot

/-- How a run of the compiler can stop abnormally. -/
inductive Failure where
  /-- A Go `panic("...")` with its message. -/
  | panic (msg : String)
  /-- A Go run-time panic: nil pointer dereference. -/
  | nilDeref
  /-- The recursion budget of the embedding ran out (no counterpart in the source). -/
  | fuel
  deriving DecidableEq, Repr

deriving instance DecidableEq for Except

/-! ## tokenizer.go -/

/-- Kinds of token, `TokenType` in `tokenizer.go`. -/
inductive TokenType where
  | TokenTypeHead
  | TokenTypeReserved
  | TokenTypeIdentifier
  | TokenTypeNumber
  | TokenTypeEof
  deriving DecidableEq, Repr

export TokenType (TokenTypeHead TokenTypeReserved TokenTypeIdentifier TokenTypeNumber TokenTypeEof)

/-- One `Token` of `tokenizer.go`; the `next` pointer is the tail of the list the
token sits in. -/
structure Token where
  tokenType : TokenType
  str : String
  value : Int
  deriving DecidableEq, Repr

/-- Go `unicode.IsSpace`: the Unicode White_Space property. -/
def isSpace (r : Char) : Bool :=
  let n := r.toNat
  (0x09 ≤ n && n ≤ 0x0D) || n == 0x20 || n == 0x85 || n == 0xA0 || n == 0x1680 ||
  (0x2000 ≤ n && n ≤ 0x200A) || n == 0x2028 || n == 0x2029 || n == 0x202F ||
  n == 0x205F || n == 0x3000

/-- Code point ranges of general category L (Lu, Ll, Lt, Lm, Lo) above Latin-1,
Unicode 14.0: the `unicode.Letter` range table behind Go `unicode.IsLetter`. -/
def letterRanges : List (Nat × Nat) :=
  [(0x100, 0x2C1), (0x2C6, 0x2D1), (0x2E0, 0x2E4), (0x2EC, 0x2EC), (0x2EE, 0x2EE),
    (0x370, 0x374), (0x376, 0x377), (0x37A, 0x37D), (0x37F, 0x37F), (0x386, 0x386),
    (0x388, 0x38A), (0x38C, 0x38C), (0x38E, 0x3A1), (0x3A3, 0x3F5), (0x3F7, 0x481),
    (0x48A, 0x52F), (0x531, 0x556), (0x559, 0x559), (0x560, 0x588), (0x5D0, 0x5EA),
    (0x5EF, 0x5F2), (0x620, 0x64A), (0x66E, 0x66F), (0x671, 0x6D3), (0x6D5, 0x6D5),
    (0x6E5, 0x6E6), (0x6EE, 0x6EF), (0x6FA, 0x6FC), (0x6FF, 0x6FF), (0x710, 0x710),
    (0x712, 0x72F), (0x74D, 0x7A5), (0x7B1, 0x7B1), (0x7CA, 0x7EA), (0x7F4, 0x7F5),
    (0x7FA, 0x7FA), (0x800, 0x815), (0x81A, 0x81A), (0x824, 0x824), (0x828, 0x828),
    (0x840, 0x858), (0x860, 0x86A), (0x870, 0x887), (0x889, 0x88E), (0x8A0, 0x8C9),
    (0x904, 0x939), (0x93D, 0x93D), (0x950, 0x950), (0x958, 0x961), (0x971, 0x980),
    (0x985, 0x98C), (0x98F, 0x990), (0x993, 0x9A8), (0x9AA, 0x9B0), (0x9B2, 0x9B2),
    (0x9B6, 0x9B9), (0x9BD, 0x9BD), (0x9CE, 0x9CE), (0x9DC, 0x9DD), (0x9DF, 0x9E1),
    (0x9F0, 0x9F1), (0x9FC, 0x9FC), (0xA05, 0xA0A), (0xA0F, 0xA10), (0xA13, 0xA28),
    (0xA2A, 0xA30), (0xA32, 0xA33), (0xA35, 0xA36), (0xA38, 0xA39), (0xA59, 0xA5C),
    (0xA5E, 0xA5E), (0xA72, 0xA74), (0xA85, 0xA8D), (0xA8F, 0xA91), (0xA93, 0xAA8),
    (0xAAA, 0xAB0), (0xAB2, 0xAB3), (0xAB5, 0xAB9), (0xABD, 0xABD), (0xAD0, 0xAD0),
    (0xAE0, 0xAE1), (0xAF9, 0xAF9), (0xB05, 0xB0C), (0xB0F, 0xB10), (0xB13, 0xB28),
    (0xB2A, 0xB30), (0xB32, 0xB33), (0xB35, 0xB39), (0xB3D, 0xB3D), (0xB5C, 0xB5D),
    (0xB5F, 0xB61), (0xB71, 0xB71), (0xB83, 0xB83), (0xB85, 0xB8A), (0xB8E, 0xB90),
    (0xB92, 0xB95), (0xB99, 0xB9A), (0xB9C, 0xB9C), (0xB9E, 0xB9F), (0xBA3, 0xBA4),
    (0xBA8, 0xBAA), (0xBAE, 0xBB9), (0xBD0, 0xBD0), (0xC05, 0xC0C), (0xC0E, 0xC10),
    (0xC12, 0xC28), (0xC2A, 0xC39), (0xC3D, 0xC3D), (0xC58, 0xC5A), (0xC5D, 0xC5D),
    (0xC60, 0xC61), (0xC80, 0xC80), (0xC85, 0xC8C), (0xC8E, 0xC90), (0xC92, 0xCA8),
    (0xCAA, 0xCB3), (0xCB5, 0xCB9), (0xCBD, 0xCBD), (0xCDD, 0xCDE), (0xCE0, 0xCE1),
    (0xCF1, 0xCF2), (0xD04, 0xD0C), (0xD0E, 0xD10), (0xD12, 0xD3A), (0xD3D, 0xD3D),
    (0xD4E, 0xD4E), (0xD54, 0xD56), (0xD5F, 0xD61), (0xD7A, 0xD7F), (0xD85, 0xD96),
    (0xD9A, 0xDB1), (0xDB3, 0xDBB), (0xDBD, 0xDBD), (0xDC0, 0xDC6), (0xE01, 0xE30),
    (0xE32, 0xE33), (0xE40, 0xE46), (0xE81, 0xE82), (0xE84, 0xE84), (0xE86, 0xE8A),
    (0xE8C, 0xEA3), (0xEA5, 0xEA5), (0xEA7, 0xEB0), (0xEB2, 0xEB3), (0xEBD, 0xEBD),
    (0xEC0, 0xEC4), (0xEC6, 0xEC6), (0xEDC, 0xEDF), (0xF00, 0xF00), (0xF40, 0xF47),
    (0xF49, 0xF6C), (0xF88, 0xF8C), (0x1000, 0x102A), (0x103F, 0x103F), (0x1050, 0x1055),
    (0x105A, 0x105D), (0x1061, 0x1061), (0x1065, 0x1066), (0x106E, 0x1070), (0x1075, 0x1081),
    (0x108E, 0x108E), (0x10A0, 0x10C5), (0x10C7, 0x10C7), (0x10CD, 0x10CD), (0x10D0, 0x10FA),
    (0x10FC, 0x1248), (0x124A, 0x124D), (0x1250, 0x1256), (0x1258, 0x1258), (0x125A, 0x125D),
    (0x1260, 0x1288), (0x128A, 0x128D), (0x1290, 0x12B0), (0x12B2, 0x12B5), (0x12B8, 0x12BE),
    (0x12C0, 0x12C0), (0x12C2, 0x12C5), (0x12C8, 0x12D6), (0x12D8, 0x1310), (0x1312, 0x1315),
    (0x1318, 0x135A), (0x1380, 0x138F), (0x13A0, 0x13F5), (0x13F8, 0x13FD), (0x1401, 0x166C),
    (0x166F, 0x167F), (0x1681, 0x169A), (0x16A0, 0x16EA), (0x16F1, 0x16F8), (0x1700, 0x1711),
    (0x171F, 0x1731), (0x1740, 0x1751), (0x1760, 0x176C), (0x176E, 0x1770), (0x1780, 0x17B3),
    (0x17D7, 0x17D7), (0x17DC, 0x17DC), (0x1820, 0x1878), (0x1880, 0x1884), (0x1887, 0x18A8),
    (0x18AA, 0x18AA), (0x18B0, 0x18F5), (0x1900, 0x191E), (0x1950, 0x196D), (0x1970, 0x1974),
    (0x1980, 0x19AB), (0x19B0, 0x19C9), (0x1A00, 0x1A16), (0x1A20, 0x1A54), (0x1AA7, 0x1AA7),
    (0x1B05, 0x1B33), (0x1B45, 0x1B4C), (0x1B83, 0x1BA0), (0x1BAE, 0x1BAF), (0x1BBA, 0x1BE5),
    (0x1C00, 0x1C23), (0x1C4D, 0x1C4F), (0x1C5A, 0x1C7D), (0x1C80, 0x1C88), (0x1C90, 0x1CBA),
    (0x1CBD, 0x1CBF), (0x1CE9, 0x1CEC), (0x1CEE, 0x1CF3), (0x1CF5, 0x1CF6), (0x1CFA, 0x1CFA),
    (0x1D00, 0x1DBF), (0x1E00, 0x1F15), (0x1F18, 0x1F1D), (0x1F20, 0x1F45), (0x1F48, 0x1F4D),
    (0x1F50, 0x1F57), (0x1F59, 0x1F59), (0x1F5B, 0x1F5B), (0x1F5D, 0x1F5D), (0x1F5F, 0x1F7D),
    (0x1F80, 0x1FB4), (0x1FB6, 0x1FBC), (0x1FBE, 0x1FBE), (0x1FC2, 0x1FC4), (0x1FC6, 0x1FCC),
    (0x1FD0, 0x1FD3), (0x1FD6, 0x1FDB), (0x1FE0, 0x1FEC), (0x1FF2, 0x1FF4), (0x1FF6, 0x1FFC),
    (0x2071, 0x2071), (0x207F, 0x207F), (0x2090, 0x209C), (0x2102, 0x2102), (0x2107, 0x2107),
    (0x210A, 0x2113), (0x2115, 0x2115), (0x2119, 0x211D), (0x2124, 0x2124), (0x2126, 0x2126),
    (0x2128, 0x2128), (0x212A, 0x212D), (0x212F, 0x2139), (0x213C, 0x213F), (0x2145, 0x2149),
    (0x214E, 0x214E), (0x2183, 0x2184), (0x2C00, 0x2CE4), (0x2CEB, 0x2CEE), (0x2CF2, 0x2CF3),
    (0x2D00, 0x2D25), (0x2D27, 0x2D27), (0x2D2D, 0x2D2D), (0x2D30, 0x2D67), (0x2D6F, 0x2D6F),
    (0x2D80, 0x2D96), (0x2DA0, 0x2DA6), (0x2DA8, 0x2DAE), (0x2DB0, 0x2DB6), (0x2DB8, 0x2DBE),
    (0x2DC0, 0x2DC6), (0x2DC8, 0x2DCE), (0x2DD0, 0x2DD6), (0x2DD8, 0x2DDE), (0x2E2F, 0x2E2F),
    (0x3005, 0x3006), (0x3031, 0x3035), (0x303B, 0x303C), (0x3041, 0x3096), (0x309D, 0x309F),
    (0x30A1, 0x30FA), (0x30FC, 0x30FF), (0x3105, 0x312F), (0x3131, 0x318E), (0x31A0, 0x31BF),
    (0x31F0, 0x31FF), (0x3400, 0x4DBF), (0x4E00, 0xA48C), (0xA4D0, 0xA4FD), (0xA500, 0xA60C),
    (0xA610, 0xA61F), (0xA62A, 0xA62B), (0xA640, 0xA66E), (0xA67F, 0xA69D), (0xA6A0, 0xA6E5),
    (0xA717, 0xA71F), (0xA722, 0xA788), (0xA78B, 0xA7CA), (0xA7D0, 0xA7D1), (0xA7D3, 0xA7D3),
    (0xA7D5, 0xA7D9), (0xA7F2, 0xA801), (0xA803, 0xA805), (0xA807, 0xA80A), (0xA80C, 0xA822),
    (0xA840, 0xA873), (0xA882, 0xA8B3), (0xA8F2, 0xA8F7), (0xA8FB, 0xA8FB), (0xA8FD, 0xA8FE),
    (0xA90A, 0xA925), (0xA930, 0xA946), (0xA960, 0xA97C), (0xA984, 0xA9B2), (0xA9CF, 0xA9CF),
    (0xA9E0, 0xA9E4), (0xA9E6, 0xA9EF), (0xA9FA, 0xA9FE), (0xAA00, 0xAA28), (0xAA40, 0xAA42),
    (0xAA44, 0xAA4B), (0xAA60, 0xAA76), (0xAA7A, 0xAA7A), (0xAA7E, 0xAAAF), (0xAAB1, 0xAAB1),
    (0xAAB5, 0xAAB6), (0xAAB9, 0xAABD), (0xAAC0, 0xAAC0), (0xAAC2, 0xAAC2), (0xAADB, 0xAADD),
    (0xAAE0, 0xAAEA), (0xAAF2, 0xAAF4), (0xAB01, 0xAB06), (0xAB09, 0xAB0E), (0xAB11, 0xAB16),
    (0xAB20, 0xAB26), (0xAB28, 0xAB2E), (0xAB30, 0xAB5A), (0xAB5C, 0xAB69), (0xAB70, 0xABE2),
    (0xAC00, 0xD7A3), (0xD7B0, 0xD7C6), (0xD7CB, 0xD7FB), (0xF900, 0xFA6D), (0xFA70, 0xFAD9),
    (0xFB00, 0xFB06), (0xFB13, 0xFB17), (0xFB1D, 0xFB1D), (0xFB1F, 0xFB28), (0xFB2A, 0xFB36),
    (0xFB38, 0xFB3C), (0xFB3E, 0xFB3E), (0xFB40, 0xFB41), (0xFB43, 0xFB44), (0xFB46, 0xFBB1),
    (0xFBD3, 0xFD3D), (0xFD50, 0xFD8F), (0xFD92, 0xFDC7), (0xFDF0, 0xFDFB), (0xFE70, 0xFE74),
    (0xFE76, 0xFEFC), (0xFF21, 0xFF3A), (0xFF41, 0xFF5A), (0xFF66, 0xFFBE), (0xFFC2, 0xFFC7),
    (0xFFCA, 0xFFCF), (0xFFD2, 0xFFD7), (0xFFDA, 0xFFDC), (0x10000, 0x1000B), (0x1000D, 0x10026),
    (0x10028, 0x1003A), (0x1003C, 0x1003D), (0x1003F, 0x1004D), (0x10050, 0x1005D),
    (0x10080, 0x100FA), (0x10280, 0x1029C), (0x102A0, 0x102D0), (0x10300, 0x1031F),
    (0x1032D, 0x10340), (0x10342, 0x10349), (0x10350, 0x10375), (0x10380, 0x1039D),
    (0x103A0, 0x103C3), (0x103C8, 0x103CF), (0x10400, 0x1049D), (0x104B0, 0x104D3),
    (0x104D8, 0x104FB), (0x10500, 0x10527), (0x10530, 0x10563), (0x10570, 0x1057A),
    (0x1057C, 0x1058A), (0x1058C, 0x10592), (0x10594, 0x10595), (0x10597, 0x105A1),
    (0x105A3, 0x105B1), (0x105B3, 0x105B9), (0x105BB, 0x105BC), (0x10600, 0x10736),
    (0x10740, 0x10755), (0x10760, 0x10767), (0x10780, 0x10785), (0x10787, 0x107B0),
    (0x107B2, 0x107BA), (0x10800, 0x10805), (0x10808, 0x10808), (0x1080A, 0x10835),
    (0x10837, 0x10838), (0x1083C, 0x1083C), (0x1083F, 0x10855), (0x10860, 0x10876),
    (0x10880, 0x1089E), (0x108E0, 0x108F2), (0x108F4, 0x108F5), (0x10900, 0x10915),
    (0x10920, 0x10939), (0x10980, 0x109B7), (0x109BE, 0x109BF), (0x10A00, 0x10A00),
    (0x10A10, 0x10A13), (0x10A15, 0x10A17), (0x10A19, 0x10A35), (0x10A60, 0x10A7C),
    (0x10A80, 0x10A9C), (0x10AC0, 0x10AC7), (0x10AC9, 0x10AE4), (0x10B00, 0x10B35),
    (0x10B40, 0x10B55), (0x10B60, 0x10B72), (0x10B80, 0x10B91), (0x10C00, 0x10C48),
    (0x10C80, 0x10CB2), (0x10CC0, 0x10CF2), (0x10D00, 0x10D23), (0x10E80, 0x10EA9),
    (0x10EB0, 0x10EB1), (0x10F00, 0x10F1C), (0x10F27, 0x10F27), (0x10F30, 0x10F45),
    (0x10F70, 0x10F81), (0x10FB0, 0x10FC4), (0x10FE0, 0x10FF6), (0x11003, 0x11037),
    (0x11071, 0x11072), (0x11075, 0x11075), (0x11083, 0x110AF), (0x110D0, 0x110E8),
    (0x11103, 0x11126), (0x11144, 0x11144), (0x11147, 0x11147), (0x11150, 0x11172),
    (0x11176, 0x11176), (0x11183, 0x111B2), (0x111C1, 0x111C4), (0x111DA, 0x111DA),
    (0x111DC, 0x111DC), (0x11200, 0x11211), (0x11213, 0x1122B), (0x11280, 0x11286),
    (0x11288, 0x11288), (0x1128A, 0x1128D), (0x1128F, 0x1129D), (0x1129F, 0x112A8),
    (0x112B0, 0x112DE), (0x11305, 0x1130C), (0x1130F, 0x11310), (0x11313, 0x11328),
    (0x1132A, 0x11330), (0x11332, 0x11333), (0x11335, 0x11339), (0x1133D, 0x1133D),
    (0x11350, 0x11350), (0x1135D, 0x11361), (0x11400, 0x11434), (0x11447, 0x1144A),
    (0x1145F, 0x11461), (0x11480, 0x114AF), (0x114C4, 0x114C5), (0x114C7, 0x114C7),
    (0x11580, 0x115AE), (0x115D8, 0x115DB), (0x11600, 0x1162F), (0x11644, 0x11644),
    (0x11680, 0x116AA), (0x116B8, 0x116B8), (0x11700, 0x1171A), (0x11740, 0x11746),
    (0x11800, 0x1182B), (0x118A0, 0x118DF), (0x118FF, 0x11906), (0x11909, 0x11909),
    (0x1190C, 0x11913), (0x11915, 0x11916), (0x11918, 0x1192F), (0x1193F, 0x1193F),
    (0x11941, 0x11941), (0x119A0, 0x119A7), (0x119AA, 0x119D0), (0x119E1, 0x119E1),
    (0x119E3, 0x119E3), (0x11A00, 0x11A00), (0x11A0B, 0x11A32), (0x11A3A, 0x11A3A),
    (0x11A50, 0x11A50), (0x11A5C, 0x11A89), (0x11A9D, 0x11A9D), (0x11AB0, 0x11AF8),
    (0x11C00, 0x11C08), (0x11C0A, 0x11C2E), (0x11C40, 0x11C40), (0x11C72, 0x11C8F),
    (0x11D00, 0x11D06), (0x11D08, 0x11D09), (0x11D0B, 0x11D30), (0x11D46, 0x11D46),
    (0x11D60, 0x11D65), (0x11D67, 0x11D68), (0x11D6A, 0x11D89), (0x11D98, 0x11D98),
    (0x11EE0, 0x11EF2), (0x11FB0, 0x11FB0), (0x12000, 0x12399), (0x12480, 0x12543),
    (0x12F90, 0x12FF0), (0x13000, 0x1342E), (0x14400, 0x14646), (0x16800, 0x16A38),
    (0x16A40, 0x16A5E), (0x16A70, 0x16ABE), (0x16AD0, 0x16AED), (0x16B00, 0x16B2F),
    (0x16B40, 0x16B43), (0x16B63, 0x16B77), (0x16B7D, 0x16B8F), (0x16E40, 0x16E7F),
    (0x16F00, 0x16F4A), (0x16F50, 0x16F50), (0x16F93, 0x16F9F), (0x16FE0, 0x16FE1),
    (0x16FE3, 0x16FE3), (0x17000, 0x187F7), (0x18800, 0x18CD5), (0x18D00, 0x18D08),
    (0x1AFF0, 0x1AFF3), (0x1AFF5, 0x1AFFB), (0x1AFFD, 0x1AFFE), (0x1B000, 0x1B122),
    (0x1B150, 0x1B152), (0x1B164, 0x1B167), (0x1B170, 0x1B2FB), (0x1BC00, 0x1BC6A),
    (0x1BC70, 0x1BC7C), (0x1BC80, 0x1BC88), (0x1BC90, 0x1BC99), (0x1D400, 0x1D454),
    (0x1D456, 0x1D49C), (0x1D49E, 0x1D49F), (0x1D4A2, 0x1D4A2), (0x1D4A5, 0x1D4A6),
    (0x1D4A9, 0x1D4AC), (0x1D4AE, 0x1D4B9), (0x1D4BB, 0x1D4BB), (0x1D4BD, 0x1D4C3),
    (0x1D4C5, 0x1D505), (0x1D507, 0x1D50A), (0x1D50D, 0x1D514), (0x1D516, 0x1D51C),
    (0x1D51E, 0x1D539), (0x1D53B, 0x1D53E), (0x1D540, 0x1D544), (0x1D546, 0x1D546),
    (0x1D54A, 0x1D550), (0x1D552, 0x1D6A5), (0x1D6A8, 0x1D6C0), (0x1D6C2, 0x1D6DA),
    (0x1D6DC, 0x1D6FA), (0x1D6FC, 0x1D714), (0x1D716, 0x1D734), (0x1D736, 0x1D74E),
    (0x1D750, 0x1D76E), (0x1D770, 0x1D788), (0x1D78A, 0x1D7A8), (0x1D7AA, 0x1D7C2),
    (0x1D7C4, 0x1D7CB), (0x1DF00, 0x1DF1E), (0x1E100, 0x1E12C), (0x1E137, 0x1E13D),
    (0x1E14E, 0x1E14E), (0x1E290, 0x1E2AD), (0x1E2C0, 0x1E2EB), (0x1E7E0, 0x1E7E6),
    (0x1E7E8, 0x1E7EB), (0x1E7ED, 0x1E7EE), (0x1E7F0, 0x1E7FE), (0x1E800, 0x1E8C4),
    (0x1E900, 0x1E943), (0x1E94B, 0x1E94B), (0x1EE00, 0x1EE03), (0x1EE05, 0x1EE1F),
    (0x1EE21, 0x1EE22), (0x1EE24, 0x1EE24), (0x1EE27, 0x1EE27), (0x1EE29, 0x1EE32),
    (0x1EE34, 0x1EE37), (0x1EE39, 0x1EE39), (0x1EE3B, 0x1EE3B), (0x1EE42, 0x1EE42),
    (0x1EE47, 0x1EE47), (0x1EE49, 0x1EE49), (0x1EE4B, 0x1EE4B), (0x1EE4D, 0x1EE4F),
    (0x1EE51, 0x1EE52), (0x1EE54, 0x1EE54), (0x1EE57, 0x1EE57), (0x1EE59, 0x1EE59),
    (0x1EE5B, 0x1EE5B), (0x1EE5D, 0x1EE5D), (0x1EE5F, 0x1EE5F), (0x1EE61, 0x1EE62),
    (0x1EE64, 0x1EE64), (0x1EE67, 0x1EE6A), (0x1EE6C, 0x1EE72), (0x1EE74, 0x1EE77),
    (0x1EE79, 0x1EE7C), (0x1EE7E, 0x1EE7E), (0x1EE80, 0x1EE89), (0x1EE8B, 0x1EE9B),
    (0x1EEA1, 0x1EEA3), (0x1EEA5, 0x1EEA9), (0x1EEAB, 0x1EEBB), (0x20000, 0x2A6DF),
    (0x2A700, 0x2B738), (0x2B740, 0x2B81D), (0x2B820, 0x2CEA1), (0x2CEB0, 0x2EBE0),
    (0x2F800, 0x2FA1D), (0x30000, 0x3134A)]

/-- Go `unicode.IsLetter`: Latin-1 is answered directly, other code points by
the range table. -/
def isLetter (r : Char) : Bool :=
  let n := r.toNat
  if n ≤ 0xFF then
    (0x41 ≤ n && n ≤ 0x5A) || (0x61 ≤ n && n ≤ 0x7A) || n == 0xAA || n == 0xB5 || n == 0xBA ||
    (0xC0 ≤ n && n ≤ 0xD6) || (0xD8 ≤ n && n ≤ 0xF6) || 0xF8 ≤ n
  else
    letterRanges.any fun p => p.1 ≤ n && n ≤ p.2

/-- Value of a string of ASCII decimal digits, `none` when a character is not one. -/
def digitsValue : List Char → Nat → Option Nat
  | [], acc => some acc
  | c :: cs, acc =>
    if '0' ≤ c ∧ c ≤ '9' then digitsValue cs (acc * 10 + (c.toNat - '0'.toNat)) else none

/-- Go `strconv.Atoi` on a 64-bit platform, on the runes of its argument:
an optional sign, at least one ASCII digit, and a value that fits `int`. -/
def atoi (s : List Char) : Option Int :=
  match s with
  | [] => none
  | '+' :: ds =>
    if ds.isEmpty then none else
    (digitsValue ds 0).bind fun n => if n < 2 ^ 63 then some (n : Int) else none
  | '-' :: ds =>
    if ds.isEmpty then none else
    (digitsValue ds 0).bind fun n => if n ≤ 2 ^ 63 then some (-(n : Int)) else none
  | ds => (digitsValue ds 0).bind fun n => if n < 2 ^ 63 then some (n : Int) else none

/-- The keyword and operator table of `Tokenize`, in source order. -/
def prefixes : List String :=
  ["==", "!=", "<=", ">=", "var", "return", "if", "else", "fnc", "for", "break"]

/-- The `for _, prefix := range prefixes` loop at position `i`, given
`rest = runes[i:]`: the first entry with `i+length < limit` whose runes equal
`runes[i : i+length]`. -/
def matchPrefix (rest : List Char) : Option String :=
  prefixes.find? fun p => decide (p.data.length < rest.length) && (rest.take p.data.length == p.data)

/-- The identifier loop: the letters from `runes[vi:]` on, and what follows them. -/
def scanIdentifier : List Char → List Char × List Char
  | [] => ([], [])
  | vc :: rest =>
    if isLetter vc then
      let (identifier, rest') := scanIdentifier rest
      (vc :: identifier, rest')
    else ([], vc :: rest)

/-- The number loop: `vc` is the text read so far, `resolvedValue` its value;
each step appends the next rune and keeps it when `Atoi` still succeeds. -/
def scanNumber : List Char → List Char → Int → Int × List Char
  | [], _, resolvedValue => (resolvedValue, [])
  | r :: rest, vc, resolvedValue =>
    match atoi (vc ++ [r]) with
    | some value => scanNumber rest (vc ++ [r]) value
    | none => (resolvedValue, r :: rest)

/-- The single-character tokens of `Tokenize`. -/
def punctuation : List Char := "+-*/()=<>;\x7b\x7d".data

/-- The end-of-input token appended by `Tokenize`. -/
def eofToken : Token := { tokenType := TokenTypeEof, str := "eof", value := 0 }

/-- One iteration of the loop `for i < limit` of `Tokenize` at `r = runes[i]`,
given `rest = runes[i+1:]`: the token it links after `current` (none for white
space) and `runes[i:]` for the new `i`, or the panic. -/
def tokenizeStep (r : Char) (rest : List Char) : Except Failure (Option Token × List Char) :=
  if isSpace r then .ok (none, rest)
  else
    match matchPrefix (r :: rest) with
    | some matchedPrefix =>
      .ok (some { tokenType := TokenTypeReserved, str := matchedPrefix, value := 0 },
        (r :: rest).drop matchedPrefix.data.length)
    | none =>
      if isLetter r then
        let (identifier, rest') := scanIdentifier (r :: rest)
        .ok (some { tokenType := TokenTypeIdentifier, str := String.mk identifier, value := 0 },
          rest')
      else if punctuation.contains r then
        .ok (some { tokenType := TokenTypeReserved, str := String.singleton r, value := 0 }, rest)
      else
        match atoi [r] with
        | some value =>
          let (resolvedValue, rest') := scanNumber (r :: rest) [] value
          .ok (some { tokenType := TokenTypeNumber, str := toString resolvedValue,
                      value := resolvedValue }, rest')
        | none => .error (.panic "Invalid Token")

/-- The loop `for i < limit` of `Tokenize` from position `i`, given `runes[i:]`;
the result is the list of tokens linked after `current`, ending with the
end-of-input token. One unit of budget per iteration. -/
def tokenizeLoop : Nat → List Char → Except Failure (List Token)
  | 0, _ => .error .fuel
  | _ + 1, [] => .ok [eofToken]
  | fuel + 1, r :: rest =>
    match tokenizeStep r rest with
    | .error e => .error e
    | .ok (none, rest') => tokenizeLoop fuel rest'
    | .ok (some token, rest') => (tokenizeLoop fuel rest').map fun ts => token :: ts

/-- `Tokenize(input)`: every iteration of the loop advances `i`, so a budget of
`limit + 1` iterations is never used up (`tokenizeLoop_total`). -/
def Tokenize (input : String) : Except Failure (List Token) :=
  tokenizeLoop (input.data.length + 1) input.data

/-! ## parser.go -/

/-- Kinds of node, `NodeType` in `parser.go`. -/
inductive NodeType where
  | NodeTypeSum
  | NodeTypeSub
  | NodeTypeMul
  | NodeTypeDiv
  | NodeTypeEqual
  | NodeTypeNotEqual
  | NodeTypeLT
  | NodeTypeLE
  | NodeTypeReturn
  | NodeTypeAlloc
  | NodeTypeAssign
  | NodeTypeLVar
  | NodeTypeIF
  | NodeTypeBlock
  | NodeTypeNum
  | NodeTypeFor
  | NodeTypeBreak
  | NodeTypeFunction
  | NodeTypeFunctionCall
  deriving DecidableEq, Repr

export NodeType (NodeTypeSum NodeTypeSub NodeTypeMul NodeTypeDiv NodeTypeEqual NodeTypeNotEqual
  NodeTypeLT NodeTypeLE NodeTypeReturn NodeTypeAlloc NodeTypeAssign NodeTypeLVar NodeTypeIF
  NodeTypeBlock NodeTypeNum NodeTypeFor NodeTypeBreak NodeTypeFunction NodeTypeFunctionCall)

/-- A `*Node` of `parser.go`: `null` is the nil pointer, `mk` a pointer to a
struct with the source's fields in the source's order. -/
inductive Node where
  | null
  | mk (nodeType : NodeType) (lhs rhs : Node) (value : Int) (str : String)
      (cond then_ els next blockBody args : Node) (argDefs : List String)
  deriving DecidableEq, Repr

namespace Node

/-- The struct literal `&Node{nodeType: t}`: every other field has its zero value. -/
def new (t : NodeType) : Node := mk t null null 0 "" null null null null null null []

/-- `&Node{nodeType: t}` followed by `binary.lhs = lhs; binary.rhs = rhs`. -/
def binary (t : NodeType) (lhs rhs : Node) : Node :=
  mk t lhs rhs 0 "" null null null null null null []

/-- `&Node{nodeType: NodeTypeNum, value: value}`. -/
def num (value : Int) : Node := mk NodeTypeNum null null value "" null null null null null null []

/-- `&Node{nodeType: NodeTypeLVar, str: identifier}`. -/
def lvar (identifier : String) : Node :=
  mk NodeTypeLVar null null 0 identifier null null null null null null []

/-- `&Node{nodeType: NodeTypeFunctionCall, str: identifier, args: args}`. -/
def call (identifier : String) (args : Node) : Node :=
  mk NodeTypeFunctionCall null null 0 identifier null null null null null args []

/-- `&Node{nodeType: NodeTypeReturn}` with `node.lhs = lhs`. -/
def ret (lhs : Node) : Node := mk NodeTypeReturn lhs null 0 "" null null null null null null []

/-- `&Node{nodeType: NodeTypeIF}` with `cond`, `then` and `els` assigned. -/
def ifNode (cond then_ els : Node) : Node :=
  mk NodeTypeIF null null 0 "" cond then_ els null null null []

/-- `&Node{nodeType: NodeTypeFor}` with `node.blockBody = body`. -/
def forNode (body : Node) : Node := mk NodeTypeFor null null 0 "" null null null null body null []

/-- `&Node{nodeType: NodeTypeBlock}` with `node.blockBody = head`. -/
def block (head : Node) : Node := mk NodeTypeBlock null null 0 "" null null null null head null []

/-- `&Node{nodeType: NodeTypeFunction, argDefs: argDefs}` with `str` and
`blockBody` assigned. -/
def function (name : String) (argDefs : List String) (body : Node) : Node :=
  mk NodeTypeFunction null null 0 name null null null null body null argDefs

/-- The assignment `current.next = next`. Every node it is applied to comes out
of `stmt` or `expr`, which never return nil. -/
def setNext : Node → Node → Node
  | null, _ => null
  | mk t lhs rhs value str cond then_ els _ blockBody args argDefs, next =>
    mk t lhs rhs value str cond then_ els next blockBody args argDefs

/-- The chain built by `current.next = ...; current = current.next` over the
nodes in the order they were parsed; the empty chain is nil. -/
def link : List Node → Node
  | [] => null
  | n :: ns => setNext n (link ns)

/-- The nodes of a `next` chain, each with its `next` field as it is. -/
def chain : Node → List Node
  | null => []
  | mk t lhs rhs value str cond then_ els next blockBody args argDefs =>
    mk t lhs rhs value str cond then_ els next blockBody args argDefs :: chain next

end Node

/-- The state of a `ParserContext` is `currentToken`, here the tokens from it on
(`[]` for nil); a parsing method returns its result and the new state. -/
abbrev Parser (α : Type) := List Token → Except Failure (α × List Token)

/-- `ctx.consume(str)`. -/
def consume (str : String) (toks : List Token) : Bool × List Token :=
  match toks with
  | [] => (false, [])
  | token :: next =>
    if token.tokenType = TokenTypeReserved ∧ token.str = str then (true, next)
    else (false, token :: next)

/-- `ctx.consumeIdentifier()`. -/
def consumeIdentifier (toks : List Token) : String × List Token :=
  match toks with
  | [] => ("", [])
  | token :: next =>
    if token.tokenType = TokenTypeIdentifier then (token.str, next) else ("", token :: next)

/-- `ctx.expect(str)`. -/
def expect (str : String) : Parser Unit
  | [] => .error (.panic "invalid token")
  | token :: next =>
    if token.tokenType = TokenTypeReserved ∧ token.str = str then .ok ((), next)
    else .error (.panic "expected token")

/-- `ctx.expectNumber()`. -/
def expectNumber : Parser Int
  | [] => .error (.panic "invalid token")
  | token :: next =>
    if token.tokenType = TokenTypeNumber then .ok (token.value, next)
    else .error (.panic "expected number")

/-- `ctx.expectIdentifier()`. -/
def expectIdentifier : Parser String
  | [] => .error (.panic "invalid token")
  | token :: next =>
    if token.tokenType = TokenTypeIdentifier then .ok (token.str, next)
    else .error (.panic "expected identifier")

/-- The loop of `argDefs` after the first name: `, name` repeated. -/
def argDefsLoop : Nat → List String → Parser (List String)
  | 0, _, _ => .error .fuel
  | k + 1, defs, toks =>
    match consume "," toks with
    | (true, toks) =>
      let (identifier, toks) := consumeIdentifier toks
      argDefsLoop k (defs ++ [identifier]) toks
    | (false, toks) => .ok (defs, toks)

/-- `ctx.argDefs()`. -/
def argDefs : Parser (List String) := fun toks =>
  match consume ")" toks with
  | (true, toks) => .ok ([], toks)
  | (false, toks) =>
    let (identifier, toks) := consumeIdentifier toks
    do
      let (defs, toks) ← argDefsLoop (toks.length + 1) [identifier] toks
      let ((), toks) ← expect ")" toks
      return (defs, toks)

/-- The loop of `args` after the first argument: `, expr` repeated; the nodes
are returned in order, to be linked by `next`. -/
def argsLoop (expr : Parser Node) : Nat → Parser (List Node)
  | 0, _ => .error .fuel
  | k + 1, toks =>
    match consume "," toks with
    | (true, toks) => do
      let (node, toks) ← expr toks
      let (nodes, toks) ← argsLoop expr k toks
      return (node :: nodes, toks)
    | (false, toks) => .ok ([], toks)

/-- `ctx.args()`, with `expr` the method it calls for each argument. -/
def args (expr : Parser Node) : Parser Node := fun toks =>
  match consume ")" toks with
  | (true, toks) => .ok (Node.null, toks)
  | (false, toks) => do
    let (head, toks) ← expr toks
    let (nodes, toks) ← argsLoop expr (toks.length + 1) toks
    let ((), toks) ← expect ")" toks
    return (Node.link (head :: nodes), toks)

/-- `ctx.primary()`, with `expr` the method it calls recursively. -/
def primary (expr : Parser Node) : Parser Node := fun toks =>
  match consume "(" toks with
  | (true, toks) => do
    let (node, toks) ← expr toks
    let ((), toks) ← expect ")" toks
    return (node, toks)
  | (false, toks) =>
    let (identifier, toks) := consumeIdentifier toks
    if identifier ≠ "" then
      match consume "(" toks with
      | (true, toks) => do
        let (args, toks) ← args expr toks
        return (Node.call identifier args, toks)
      | (false, toks) => .ok (Node.lvar identifier, toks)
    else do
      let (num, toks) ← expectNumber toks
      return (Node.num num, toks)

/-- `ctx.unary()`. -/
def unary (expr : Parser Node) : Parser Node := fun toks =>
  match consume "+" toks with
  | (true, toks) => primary expr toks
  | (false, toks) =>
    match consume "-" toks with
    | (true, toks) => do
      let (rhs, toks) ← primary expr toks
      return (Node.binary NodeTypeSub (Node.num 0) rhs, toks)
    | (false, toks) => primary expr toks

/-- The `for` loop of `mul`, entered with `node` and repeated while `*` or `/`
follows. -/
def mulLoop (expr : Parser Node) : Nat → Node → Parser Node
  | 0, _, _ => .error .fuel
  | k + 1, node, toks =>
    match consume "*" toks with
    | (true, toks) => do
      let (pri, toks) ← unary expr toks
      mulLoop expr k (Node.binary NodeTypeMul node pri) toks
    | (false, toks) =>
      match consume "/" toks with
      | (true, toks) => do
        let (pri, toks) ← unary expr toks
        mulLoop expr k (Node.binary NodeTypeDiv node pri) toks
      | (false, toks) => .ok (node, toks)

/-- `ctx.mul()`. -/
def mul (expr : Parser Node) : Parser Node := fun toks => do
  let (node, toks) ← unary expr toks
  mulLoop expr (toks.length + 1) node toks

/-- The `for` loop of `add`. -/
def addLoop (expr : Parser Node) : Nat → Node → Parser Node
  | 0, _, _ => .error .fuel
  | k + 1, node, toks =>
    match consume "+" toks with
    | (true, toks) => do
      let (mul, toks) ← mul expr toks
      addLoop expr k (Node.binary NodeTypeSum node mul) toks
    | (false, toks) =>
      match consume "-" toks with
      | (true, toks) => do
        let (mul, toks) ← mul expr toks
        addLoop expr k (Node.binary NodeTypeSub node mul) toks
      | (false, toks) => .ok (node, toks)

/-- `ctx.add()`. -/
def add (expr : Parser Node) : Parser Node := fun toks => do
  let (node, toks) ← mul expr toks
  addLoop expr (toks.length + 1) node toks

/-- The `for` loop of `relational`; `>` and `>=` build `LT` and `LE` with the
operands exchanged. -/
def relationalLoop (expr : Parser Node) : Nat → Node → Parser Node
  | 0, _, _ => .error .fuel
  | k + 1, node, toks =>
    match consume "<" toks with
    | (true, toks) => do
      let (add, toks) ← add expr toks
      relationalLoop expr k (Node.binary NodeTypeLT node add) toks
    | (false, toks) =>
      match consume "<=" toks with
      | (true, toks) => do
        let (add, toks) ← add expr toks
        relationalLoop expr k (Node.binary NodeTypeLE node add) toks
      | (false, toks) =>
        match consume ">" toks with
        | (true, toks) => do
          let (add, toks) ← add expr toks
          relationalLoop expr k (Node.binary NodeTypeLT add node) toks
        | (false, toks) =>
          match consume ">=" toks with
          | (true, toks) => do
            let (add, toks) ← add expr toks
            relationalLoop expr k (Node.binary NodeTypeLE add node) toks
          | (false, toks) => .ok (node, toks)

/-- `ctx.relational()`. -/
def relational (expr : Parser Node) : Parser Node := fun toks => do
  let (node, toks) ← add expr toks
  relationalLoop expr (toks.length + 1) node toks

/-- The `for` loop of `equality`. -/
def equalityLoop (expr : Parser Node) : Nat → Node → Parser Node
  | 0, _, _ => .error .fuel
  | k + 1, node, toks =>
    match consume "==" toks with
    | (true, toks) => do
      let (relational, toks) ← relational expr toks
      equalityLoop expr k (Node.binary NodeTypeEqual node relational) toks
    | (false, toks) =>
      match consume "!=" toks with
      | (true, toks) => do
        let (relational, toks) ← relational expr toks
        equalityLoop expr k (Node.binary NodeTypeNotEqual node relational) toks
      | (false, toks) => .ok (node, toks)

/-- `ctx.equality()`. -/
def equality (expr : Parser Node) : Parser Node := fun toks => do
  let (node, toks) ← relational expr toks
  equalityLoop expr (toks.length + 1) node toks

/-- `ctx.expr()` with a budget for the nesting of `expr` inside `primary` and
`args`: `expr` is `equality`, whose recursive calls of `expr` get one less. -/
def expr : Nat → Parser Node
  | 0 => fun _ => .error .fuel
  | d + 1 => equality (expr d)

/-- `ctx.assign()`. -/
def assign (expr : Parser Node) : Parser Node := fun toks => do
  let (node, toks) ← expr toks
  match consume "=" toks with
  | (true, toks) => do
    let (rhs, toks) ← expr toks
    return (Node.binary NodeTypeAssign node rhs, toks)
  | (false, toks) => return (node, toks)

/-- The loop of the `{` case of `stmt`: statements until `}`. -/
def blockLoop (stmt : Parser Node) : Nat → Parser (List Node)
  | 0, _ => .error .fuel
  | k + 1, toks =>
    match consume "\x7d" toks with
    | (true, toks) => .ok ([], toks)
    | (false, toks) => do
      let (node, toks) ← stmt toks
      let (nodes, toks) ← blockLoop stmt k toks
      return (node :: nodes, toks)

/-- `ctx.stmt()` with a budget `d` for the nesting of statements; expressions
inside get the same budget. -/
def stmt : Nat → Parser Node
  | 0 => fun _ => .error .fuel
  | d + 1 => fun toks =>
    match consume "fnc" toks with
    | (true, toks) => do
      let (name, toks) ← expectIdentifier toks
      let ((), toks) ← expect "(" toks
      let (argDefs, toks) ← argDefs toks
      let (body, toks) ← stmt d toks
      return (Node.function name argDefs body, toks)
    | (false, toks) =>
    match consume "return" toks with
    | (true, toks) => do
      let (lhs, toks) ← assign (expr d) toks
      let ((), toks) ← expect ";" toks
      return (Node.ret lhs, toks)
    | (false, toks) =>
    match consume "if" toks with
    | (true, toks) => do
      let ((), toks) ← expect "(" toks
      let (cond, toks) ← expr d toks
      let ((), toks) ← expect ")" toks
      let (then_, toks) ← stmt d toks
      match consume "else" toks with
      | (true, toks) => do
        let (els, toks) ← stmt d toks
        return (Node.ifNode cond then_ els, toks)
      | (false, toks) => return (Node.ifNode cond then_ Node.null, toks)
    | (false, toks) =>
    match consume "for" toks with
    | (true, toks) => do
      let (body, toks) ← stmt d toks
      return (Node.forNode body, toks)
    | (false, toks) =>
    match consume "break" toks with
    | (true, toks) => do
      let ((), toks) ← expect ";" toks
      return (Node.new NodeTypeBreak, toks)
    | (false, toks) =>
    match consume "\x7b" toks with
    | (true, toks) => do
      let (nodes, toks) ← blockLoop (stmt d) (toks.length + 1) toks
      return (Node.block (Node.link nodes), toks)
    | (false, toks) =>
    match consume "var" toks with
    | (true, toks) => do
      let (node, toks) ← expr d toks
      match consume "=" toks with
      | (true, toks) => do
        let (rhs, toks) ← expr d toks
        let ((), toks) ← expect ";" toks
        return (Node.binary NodeTypeAlloc node rhs, toks)
      | (false, toks) => do
        let ((), toks) ← expect ";" toks
        return (node, toks)
    | (false, toks) => do
      let (node, toks) ← assign (expr d) toks
      let ((), toks) ← expect ";" toks
      return (node, toks)

/-- The loop of `program` after the first statement; reading
`ctx.currentToken.tokenType` with `currentToken == nil` is a nil dereference. -/
def programLoop (stmt : Parser Node) : Nat → Parser (List Node)
  | 0, _ => .error .fuel
  | _ + 1, [] => .error .nilDeref
  | k + 1, token :: next =>
    if token.tokenType = TokenTypeEof then .ok ([], token :: next)
    else do
      let (node, toks) ← stmt (token :: next)
      let (nodes, toks) ← programLoop stmt k toks
      return (node :: nodes, toks)

/-- `ctx.program()`. -/
def program (d : Nat) : Parser Node := fun toks => do
  let (head, toks) ← stmt d toks
  let (nodes, toks) ← programLoop (stmt d) (toks.length + 1) toks
  return (Node.link (head :: nodes), toks)

/-- `ctx.Parse()` for a context created on `tokens`. A statement or a
parenthesised expression nested `n` deep has consumed `n` tokens, so the budget
is never used up (`Parse_ne_fuel`). -/
def Parse (tokens : List Token) : Except Failure Node :=
  (program (tokens.length + 2) tokens).map Prod.fst

/-- `Tokenize` followed by `Parse`, as in `compile` of `main.go`. -/
def parseSource (input : String) : Except Failure Node :=
  (Tokenize input).bind Parse

/-! ## generator.go

The IR builder of `github.com/llir/llvm` is represented by what its calls
record: an instruction appended to a block, a terminator stored in a block's
`Term`, a block appended to a function, a function appended to the module.
Pointers to blocks, functions and Go maps are indices into the lists of
`GenState`. Printing the module (`module.String()`) is not part of the model. -/

/-- The LLVM types the generator uses. -/
inductive IRType where
  | I1
  | I8
  | I32
  | I64
  | Void
  | Pointer (elem : IRType)
  deriving DecidableEq, Repr

/-- A `value.Value`: constants, parameters and the results of instructions.
An instruction is identified by the number it got when it was created. -/
inductive Value where
  /-- `constant.NewInt(typ, x)`. -/
  | constInt (typ : IRType) (x : Int)
  /-- `fnc.Params[i]` of the function `fnc`. -/
  | param (fnc : Nat) (i : Nat) (typ : IRType)
  /-- The result of instruction `id`. -/
  | inst (id : Nat) (typ : IRType)
  /-- `constant.NewGetElementPtr` into the global `name` at indices zero, zero. -/
  | globalElem (name : String)
  deriving DecidableEq, Repr

/-- `v.Type()`. -/
def Value.type : Value → IRType
  | .constInt typ _ => typ
  | .param _ _ typ => typ
  | .inst _ typ => typ
  | .globalElem _ => .Pointer .I8

/-- The predicates of `icmp` the generator uses. -/
inductive IPred where
  | EQ
  | NE
  | SLT
  | SLE
  deriving DecidableEq, Repr

/-- Instructions, each with the number identifying its result where it has one. -/
inductive Inst where
  | alloca (id : Nat) (elemType : IRType)
  | store (src dst : Value)
  | load (id : Nat) (elemType : IRType) (src : Value)
  | add (id : Nat) (x y : Value)
  | sub (id : Nat) (x y : Value)
  | mul (id : Nat) (x y : Value)
  | sdiv (id : Nat) (x y : Value)
  | icmp (id : Nat) (pred : IPred) (x y : Value)
  | call (id : Nat) (callee : Nat) (args : List Value)
  deriving DecidableEq, Repr

/-- Terminators. `NewRet(nil)` is `ret none`; `NewBr` stores the target it is
given, which is nil when the scope has no `forLeaveBlock`. -/
inductive Terminator where
  | ret (x : Option Value)
  | br (target : Option Nat)
  | condBr (cond : Value) (targetTrue targetFalse : Nat)
  deriving DecidableEq, Repr

/-- An `ir.Block`: its name, the function owning it (`Parent`), `Insts` and `Term`. -/
structure Block where
  name : String
  parent : Nat
  insts : List Inst
  term : Option Terminator
  deriving DecidableEq, Repr

/-- An `ir.Func`: name, return type, parameters, variadic flag and `Blocks`. -/
structure Func where
  name : String
  retType : IRType
  params : List (String × IRType)
  variadic : Bool
  blocks : List Nat
  deriving DecidableEq, Repr

/-- The module under construction together with everything the generator
reaches through pointers, and the package variable `blockIndex`. -/
structure GenState where
  /-- `module.Funcs`; a `*ir.Func` is an index into it. -/
  funcs : List Func
  /-- `module.Globals` as name and content. -/
  globals : List (String × String)
  /-- Every `ir.Block` created; a `*ir.Block` is an index into it. -/
  blocks : List Block
  /-- Every `vars` map created; a map value is an index into it. -/
  vars : List (List (String × Value))
  /-- Every `functions` map created; an entry is the `target` of its `FunctionContext`. -/
  functions : List (List (String × Nat))
  /-- The package variable `blockIndex`, a `uint64`. -/
  blockIndex : Nat
  /-- The number the next instruction gets. -/
  nextId : Nat
  deriving DecidableEq, Repr

/-- A `*BlockContext`; `null` is nil. The fields of a context are never
assigned after it is built, so a context is the value of its fields. -/
inductive BlockContext where
  | null
  | mk (block : Nat) (parentVariableContext parentFunctionContext : BlockContext)
      (functions vars : Nat)
  deriving DecidableEq, Repr

/-- A `Scope`; `module` is the one module of `GenState`. -/
structure Scope where
  ctx : BlockContext
  ifLeaveBlock : Option Nat
  forLeaveBlock : Option Nat
  functions : Option Nat
  deriving DecidableEq, Repr

/-- Replace the element at an index of a list. -/
def updateAt {α : Type} (f : α → α) : Nat → List α → List α
  | _, [] => []
  | 0, x :: xs => f x :: xs
  | n + 1, x :: xs => x :: updateAt f n xs

namespace GenState

/-- `module.NewFunc(name, retType, params...)`. -/
def newFunc (st : GenState) (name : String) (retType : IRType)
    (params : List (String × IRType)) : Nat × GenState :=
  (st.funcs.length,
    { st with funcs := st.funcs ++ [{ name := name, retType := retType, params := params,
                                      variadic := false, blocks := [] }] })

/-- `fnc.NewBlock(name)`. -/
def newBlock (st : GenState) (fnc : Nat) (name : String) : Nat × GenState :=
  (st.blocks.length,
    { st with
      blocks := st.blocks ++ [{ name := name, parent := fnc, insts := [], term := none }]
      funcs := updateAt (fun f => { f with blocks := f.blocks ++ [st.blocks.length] }) fnc st.funcs })

/-- `make(map[string]value.Value)`. -/
def newVars (st : GenState) : Nat × GenState :=
  (st.vars.length, { st with vars := st.vars ++ [[]] })

/-- `make(map[string]*FunctionContext)`. -/
def newFunctions (st : GenState) : Nat × GenState :=
  (st.functions.length, { st with functions := st.functions ++ [[]] })

/-- `m[name]` for a `vars` map. -/
def lookupVar (st : GenState) (m : Nat) (name : String) : Option Value :=
  (st.vars.getD m []).lookup name

/-- `m[name] = v` for a `vars` map. -/
def setVar (st : GenState) (m : Nat) (name : String) (v : Value) : GenState :=
  { st with vars := updateAt (fun t => (name, v) :: t) m st.vars }

/-- `m[name]` for a `functions` map. -/
def lookupFunction (st : GenState) (m : Nat) (name : String) : Option Nat :=
  (st.functions.getD m []).lookup name

/-- `m[name] = &FunctionContext{target: fnc}` for a `functions` map. -/
def setFunction (st : GenState) (m : Nat) (name : String) (fnc : Nat) : GenState :=
  { st with functions := updateAt (fun t => (name, fnc) :: t) m st.functions }

/-- Append an instruction to a block, `block.Insts = append(block.Insts, inst)`. -/
def appendInst (st : GenState) (block : Nat) (inst : Inst) : GenState :=
  { st with blocks := updateAt (fun b => { b with insts := b.insts ++ [inst] }) block st.blocks }

/-- A builder method that creates an instruction with a result: the instruction
gets the next number, is appended to the block, and is the value returned. -/
def newInst (st : GenState) (block : Nat) (build : Nat → Inst) (typ : IRType) :
    Value × GenState :=
  (.inst st.nextId typ, { appendInst st block (build st.nextId) with nextId := st.nextId + 1 })

/-- The methods `NewRet`, `NewBr` and `NewCondBr`: `block.Term = term`. -/
def setTerm (st : GenState) (block : Nat) (term : Terminator) : GenState :=
  { st with blocks := updateAt (fun b => { b with term := some term }) block st.blocks }

/-- `block.Term` of a block; `none` is nil. -/
def termOf (st : GenState) (block : Nat) : Option Terminator :=
  (st.blocks.get? block).bind Block.term

/-- `block.Parent` of a block. -/
def parentOf (st : GenState) (block : Nat) : Nat :=
  ((st.blocks.get? block).map Block.parent).getD 0

/-- `fnc.Name()`. -/
def funcName (st : GenState) (fnc : Nat) : String :=
  ((st.funcs.get? fnc).map Func.name).getD ""

end GenState

namespace BlockContext

/-- `ctx.Block`; reading it through a nil context is a nil dereference. -/
def blockOf : BlockContext → Except Failure Nat
  | null => .error .nilDeref
  | mk block _ _ _ _ => .ok block

/-- `ctx.vars`. -/
def varsOf : BlockContext → Except Failure Nat
  | null => .error .nilDeref
  | mk _ _ _ _ vars => .ok vars

/-- `ctx.functions`. -/
def functionsOf : BlockContext → Except Failure Nat
  | null => .error .nilDeref
  | mk _ _ _ functions _ => .ok functions

/-- `ctx.newFunctionContext(block)`. -/
def newFunctionContext (ctx : BlockContext) (block : Nat) (st : GenState) :
    BlockContext × GenState :=
  let (functions, st) := st.newFunctions
  let (vars, st) := st.newVars
  (mk block null ctx functions vars, st)

/-- `ctx.newChildContext(block)`. -/
def newChildContext (ctx : BlockContext) (block : Nat) (st : GenState) :
    BlockContext × GenState :=
  let (functions, st) := st.newFunctions
  let (vars, st) := st.newVars
  (mk block ctx ctx functions vars, st)

/-- `ctx.copyContext(block)`. -/
def copyContext : BlockContext → Nat → Except Failure BlockContext
  | null, _ => .error .nilDeref
  | mk _ parentVariableContext parentFunctionContext functions vars, block =>
    .ok (mk block parentVariableContext parentFunctionContext functions vars)

/-- `ctx.findVariable(name)`. -/
def findVariable : BlockContext → String → GenState → Except Failure Value
  | null, _, _ => .error .nilDeref
  | mk _ parentVariableContext _ _ vars, name, st =>
    match st.lookupVar vars name with
    | some v => .ok v
    | none =>
      match parentVariableContext with
      | null => .error (.panic "Not Found Variable")
      | mk b pv pf fs vs => findVariable (mk b pv pf fs vs) name st

/-- `ctx.findFunction(name)`. -/
def findFunction : BlockContext → String → GenState → Except Failure Nat
  | null, _, _ => .error .nilDeref
  | mk _ _ parentFunctionContext functions _, name, st =>
    match st.lookupFunction functions name with
    | some target => .ok target
    | none =>
      match parentFunctionContext with
      | null => .error (.panic "Not Found Function")
      | mk b pv pf fs vs => findFunction (mk b pv pf fs vs) name st

end BlockContext

/-- The package function `blockName()`. -/
def blockName (st : GenState) : String × GenState :=
  ("block-" ++ toString st.blockIndex, { st with blockIndex := (st.blockIndex + 1) % 2 ^ 64 })

/-- What lowering an expression yields: its value and the new state. -/
abbrev ExprLowering := BlockContext → GenState → Except Failure (Value × GenState)

/-- What lowering a chain of argument expressions yields. -/
abbrev ArgsLowering := BlockContext → GenState → Except Failure (List Value × GenState)

/-- The body of the two-operand cases of `resolveExpr`: both operands, left
first, then the instruction. -/
def resolveBinary (lhs rhs : ExprLowering) (build : Nat → Value → Value → Inst)
    (typ : Value → IRType) : ExprLowering := fun ctx st => do
  let (l, st) ← lhs ctx st
  let (r, st) ← rhs ctx st
  let block ← ctx.blockOf
  return st.newInst block (fun id => build id l r) (typ l)

/-- The body of `callFunction` for a node with name `fncName`, given the
lowering of its `args` chain. -/
def callFunctionWith (args : ArgsLowering) (fncName : String) : ExprLowering := fun ctx st => do
  let (args, st) ← args ctx st
  let fnc ← ctx.findFunction fncName st
  let block ← ctx.blockOf
  return st.newInst block (fun id => .call id fnc args)
    (((st.funcs.get? fnc).map Func.retType).getD .Void)

/-- The `switch` of `resolveExpr` on a non-nil node with the given `nodeType`,
`value` and `str`, given the lowerings of its `lhs`, `rhs` and `args`. -/
def resolveExprWith (lhs rhs : ExprLowering) (args : ArgsLowering) (nodeType : NodeType)
    (value : Int) (str : String) : ExprLowering :=
  match nodeType with
  | .NodeTypeSum => resolveBinary lhs rhs .add Value.type
  | .NodeTypeSub => resolveBinary lhs rhs .sub Value.type
  | .NodeTypeMul => resolveBinary lhs rhs .mul Value.type
  | .NodeTypeDiv => resolveBinary lhs rhs .sdiv Value.type
  | .NodeTypeEqual => resolveBinary lhs rhs (fun id => .icmp id .EQ) (fun _ => .I1)
  | .NodeTypeNotEqual => resolveBinary lhs rhs (fun id => .icmp id .NE) (fun _ => .I1)
  | .NodeTypeLT => resolveBinary lhs rhs (fun id => .icmp id .SLT) (fun _ => .I1)
  | .NodeTypeLE => resolveBinary lhs rhs (fun id => .icmp id .SLE) (fun _ => .I1)
  | .NodeTypeNum => fun _ st => .ok (.constInt .I32 value, st)
  | .NodeTypeLVar => fun ctx st => do
    let v ← ctx.findVariable str st
    if v.type = .Pointer .I32 then
      let block ← ctx.blockOf
      return st.newInst block (fun id => .load id .I32 v) .I32
    else
      return (v, st)
  | .NodeTypeFunctionCall => callFunctionWith args str
  | _ => fun _ _ => .error (.panic "Invalid Node Type")

mutual
/-- `ctx.resolveExpr(node)`; a nil node is dereferenced by `node.nodeType`. -/
def resolveExpr : Node → ExprLowering
  | .null => fun _ _ => .error .nilDeref
  | .mk nodeType lhs rhs value str _ _ _ _ _ args _ =>
    resolveExprWith (resolveExpr lhs) (resolveExpr rhs) (resolveArgs args) nodeType value str
/-- The loop of `callFunction` over the chain `current = current.next`:
`resolveExpr` of each node in turn, the values collected in order. -/
def resolveArgs : Node → ArgsLowering
  | .null => fun _ st => .ok ([], st)
  | .mk nodeType lhs rhs value str _ _ _ next _ args _ => fun ctx st => do
    let (v, st) ←
      resolveExprWith (resolveExpr lhs) (resolveExpr rhs) (resolveArgs args) nodeType value str ctx st
    let (vs, st) ← resolveArgs next ctx st
    return (v :: vs, st)
end

/-- `ctx.callFunction(node)`. -/
def callFunction : Node → ExprLowering
  | .null => fun _ _ => .error .nilDeref
  | .mk _ _ _ _ str _ _ _ _ _ args _ => callFunctionWith (resolveArgs args) str

/-- `node.str`; nil is dereferenced. -/
def Node.strOf : Node → Except Failure String
  | .null => .error .nilDeref
  | .mk _ _ _ _ str _ _ _ _ _ _ _ => .ok str

/-- `s.newChildScope(ctx, forLeaveBlock)`. -/
def Scope.newChildScope (_s : Scope) (ctx : BlockContext) (forLeaveBlock : Option Nat) : Scope :=
  { ctx := ctx, ifLeaveBlock := none, forLeaveBlock := forLeaveBlock, functions := none }

/-- What lowering statements in a scope yields: the scope as the statements
left it (`s.ctx` is reassigned by `if` and `for`) and the new state. -/
abbrev StmtLowering := Scope → GenState → Except Failure (Scope × GenState)

/-- Bind the parameters, `fncScope.ctx.vars[arg] = fnc.Params[i]` for each `i`. -/
def bindParams (vars fnc : Nat) : List String → Nat → GenState → GenState
  | [], _, st => st
  | arg :: rest, i, st => bindParams vars fnc rest (i + 1) (st.setVar vars arg (.param fnc i .I32))

/-- The `switch` of `s.resolveStmt(node)` on a non-nil node, given
`resolveStmts` of its `then`, `els` and `blockBody`. The loop of the
`NodeTypeBlock` case is the loop of `resolveStmts` on `node.blockBody`. -/
def resolveStmtWith (thenStmts elsStmts bodyStmts : StmtLowering) (nodeType : NodeType)
    (lhs rhs : Node) (str : String) (cond els : Node) (args : Node) (argDefs : List String) :
    StmtLowering := fun s st =>
  match nodeType with
  | .NodeTypeReturn => do
    let (result, st) ← resolveExpr lhs s.ctx st
    let block ← s.ctx.blockOf
    return (s, st.setTerm block (.ret (some result)))
  | .NodeTypeIF => do
    let (bName, st) := blockName st
    let block ← s.ctx.blockOf
    let (thenBlock, st) := st.newBlock (st.parentOf block) (bName ++ "-then")
    let (leaveBlock, st) := st.newBlock (st.parentOf block) (bName ++ "-leave")
    let (elseBlock, st) :=
      if els ≠ .null then st.newBlock (st.parentOf block) (bName ++ "-else") else (leaveBlock, st)
    let (c, st) ← resolveExpr cond s.ctx st
    let st := st.setTerm block (.condBr c thenBlock elseBlock)
    let (thenBlockContext, st) := s.ctx.newChildContext thenBlock st
    let thenScope := { s.newChildScope thenBlockContext s.forLeaveBlock with
                       ifLeaveBlock := some leaveBlock }
    let (_, st) ← thenStmts thenScope st
    let st := if st.termOf thenBlock = none then st.setTerm thenBlock (.br (some leaveBlock)) else st
    let st ←
      if els ≠ .null then do
        let (elseBlockContext, st) := s.ctx.newChildContext elseBlock st
        let elseScope := { s.newChildScope elseBlockContext s.forLeaveBlock with
                           ifLeaveBlock := some leaveBlock }
        let (_, st) ← elsStmts elseScope st
        pure st
      else pure st
    let ctx ← s.ctx.copyContext leaveBlock
    let s := { s with ctx := ctx }
    match s.ifLeaveBlock with
    | some outer => return (s, st.setTerm leaveBlock (.br (some outer)))
    | none => return (s, st)
  | .NodeTypeFunction => do
    let block ← s.ctx.blockOf
    let fncName := st.funcName (st.parentOf block) ++ "_" ++ str
    let (fnc, st) := st.newFunc fncName .I32 (argDefs.map fun arg => (arg, .I32))
    let (bName, st) := blockName st
    let (fncBlock, st) := st.newBlock fnc bName
    let (fncBlockContext, st) := s.ctx.newFunctionContext fncBlock st
    let functions ← s.ctx.functionsOf
    let st := st.setFunction functions str fnc
    let fncScope := s.newChildScope fncBlockContext none
    let vars ← fncScope.ctx.varsOf
    let st := bindParams vars fnc argDefs 0 st
    let (_, st) ← bodyStmts fncScope st
    let st := if st.termOf fncBlock = none then st.setTerm fncBlock (.ret none) else st
    return (s, st)
  | .NodeTypeFunctionCall => do
    let (_, st) ← callFunctionWith (resolveArgs args) str s.ctx st
    return (s, st)
  | .NodeTypeAssign => do
    let name ← lhs.strOf
    let v ← s.ctx.findVariable name st
    let (vr, st) ← resolveExpr rhs s.ctx st
    let block ← s.ctx.blockOf
    return (s, st.appendInst block (.store vr v))
  | .NodeTypeAlloc => do
    let block ← s.ctx.blockOf
    let (v, st) := st.newInst block (fun id => .alloca id .I32) (.Pointer .I32)
    let (vr, st) ← resolveExpr rhs s.ctx st
    let st := st.appendInst block (.store vr v)
    let name ← lhs.strOf
    let vars ← s.ctx.varsOf
    return (s, st.setVar vars name v)
  | .NodeTypeFor => do
    let (bName, st) := blockName st
    let block ← s.ctx.blockOf
    let (loopBlock, st) := st.newBlock (st.parentOf block) (bName ++ "-for")
    let (leaveBlock, st) := st.newBlock (st.parentOf block) (bName ++ "-leave-for")
    let st := st.setTerm block (.br (some loopBlock))
    let (loopBlockContext, st) := s.ctx.newChildContext loopBlock st
    let loopScope := { s.newChildScope loopBlockContext none with
                       forLeaveBlock := some leaveBlock }
    let (loopScope, st) ← bodyStmts loopScope st
    let current ← loopScope.ctx.blockOf
    let st := st.setTerm current (.br (some loopBlock))
    let ctx ← s.ctx.copyContext leaveBlock
    return ({ s with ctx := ctx }, st)
  | .NodeTypeBreak => do
    let block ← s.ctx.blockOf
    return (s, st.setTerm block (.br s.forLeaveBlock))
  | .NodeTypeBlock => bodyStmts s st
  | _ => .ok (s, st)

/-- `s.resolveStmts(node)`: `resolveStmt` of each node of the `next` chain in
turn. -/
def resolveStmts : Node → StmtLowering
  | .null => fun s st => .ok (s, st)
  | .mk nodeType lhs rhs _ str cond then_ els next blockBody args argDefs => fun s st => do
    let (s, st) ←
      resolveStmtWith (resolveStmts then_) (resolveStmts els) (resolveStmts blockBody)
        nodeType lhs rhs str cond els args argDefs s st
    resolveStmts next s st

/-- `s.resolveStmt(node)`; a nil node is dereferenced by `node.nodeType`. -/
def resolveStmt : Node → StmtLowering
  | .null => fun _ _ => .error .nilDeref
  | .mk nodeType lhs rhs _ str cond then_ els _ blockBody args argDefs =>
    resolveStmtWith (resolveStmts then_) (resolveStmts els) (resolveStmts blockBody)
      nodeType lhs rhs str cond els args argDefs

/-- `s.registerGlobalFuncs()` on the empty module: `printf`, `printValue` with
its one block, the format string, and the global function table. -/
def registerGlobalFuncs : Scope × GenState :=
  let st : GenState :=
    { funcs := [], globals := [], blocks := [], vars := [], functions := [],
      blockIndex := 0, nextId := 0 }
  let (printf, st) := st.newFunc "printf" .I32 [("format", .Pointer .I8)]
  let st := { st with funcs := updateAt (fun f => { f with variadic := true }) printf st.funcs }
  let (printValue, st) := st.newFunc "printValue" .Void [("value", .I32)]
  let (printValueBlock, st) := st.newBlock printValue ""
  let st := { st with globals := st.globals ++ [(".intF", "%d\n")] }
  let message := Value.globalElem ".intF"
  let value := Value.param printValue 0 .I32
  let (_, st) := st.newInst printValueBlock (fun id => .call id printf [message, value]) .I32
  let st := st.setTerm printValueBlock (.ret none)
  let (globalFuncs, st) := st.newFunctions
  let st := st.setFunction globalFuncs "printValue" printValue
  ({ ctx := .null, ifLeaveBlock := none, forLeaveBlock := none, functions := some globalFuncs }, st)

/-- `GenerateIR(node)` up to the module it has built when `resolveStmts`
returns, with `blockIndex` at its initial value zero. -/
def GenerateIR (node : Node) : Except Failure GenState :=
  let (scope, st) := registerGlobalFuncs
  let (mainFunc, st) := st.newFunc "main" .I32 []
  let (mainBlock, st) := st.newBlock mainFunc ""
  let (vars, st) := st.newVars
  let mainBlockContext := BlockContext.mk mainBlock .null .null (scope.functions.getD 0) vars
  let scope := { scope with ctx := mainBlockContext }
  (resolveStmts node scope st).map Prod.snd

/-- The pipeline of `compile` in `main.go` up to the module in memory. -/
def compileSource (input : String) : Except Failure GenState :=
  (parseSource input).bind GenerateIR

/-! ## Vocabulary for the statements about the lexer -/

/-- The characters `Tokenize` has a case for: white space, letters, ASCII
decimal digits and the single-character tokens. -/
def recognized (c : Char) : Bool :=
  isSpace c || isLetter c || punctuation.contains c || (decide ('0' ≤ c) && decide (c ≤ '9'))

/-- Whether the text after a `!` makes it the start of a `!=` that is followed
by at least one more character. -/
def continuesNotEqual : List Char → Bool
  | '=' :: _ :: _ => true
  | _ => false

/-- Whether a text has a character that is not recognized and is not a `!`
starting a `!=` followed by at least one more character. -/
def hasInvalid : List Char → Bool
  | [] => false
  | c :: post => (!recognized c && !(c == '!' && continuesNotEqual post)) || hasInvalid post

/-- The reserved words among `prefixes`. -/
def keywords : List String := ["var", "return", "if", "else", "fnc", "for", "break"]

/-- The source text rebuilt from a token sequence: the lexemes of the tokens
before the end-of-input token, joined by single spaces. -/
def reconstruct (ts : List Token) : String :=
  " ".intercalate (ts.dropLast.map Token.str)

/-- The kinds of the tokens `Tokenize` returns for a source text. -/
def tokenKinds (input : String) : Except Failure (List TokenType) :=
  (Tokenize input).map fun ts => ts.map Token.tokenType

/-- Re-lexing: the kinds of the tokens of the text rebuilt from the tokens of `input`. -/
def relexKinds (input : String) : Except Failure (List TokenType) :=
  (Tokenize input).bind fun ts => tokenKinds (reconstruct ts)

/-! ## Vocabulary for the statements about the parser -/

/-- The four levels of binary operators of the expression grammar. -/
inductive Level where
  | equality
  | relational
  | additive
  | multiplicative
  deriving DecidableEq, Repr

namespace Level

/-- The parsing method of a level. -/
def parser : Level → Parser Node → Parser Node
  | equality => Carrot.equality
  | relational => Carrot.relational
  | additive => Carrot.add
  | multiplicative => Carrot.mul

/-- The method a level calls for each operand: the next-higher level. -/
def operand : Level → Parser Node → Parser Node
  | equality => Carrot.relational
  | relational => Carrot.add
  | additive => Carrot.mul
  | multiplicative => Carrot.unary

/-- The loop of the parsing method of a level. -/
def loop : Level → Parser Node → Nat → Node → Parser Node
  | equality => Carrot.equalityLoop
  | relational => Carrot.relationalLoop
  | additive => Carrot.addLoop
  | multiplicative => Carrot.mulLoop

/-- The operators of a level that keep the order of their operands, each with
the kind of node it builds. -/
def operators : Level → List (String × NodeType)
  | equality => [("==", NodeTypeEqual), ("!=", NodeTypeNotEqual)]
  | relational => [("<", NodeTypeLT), ("<=", NodeTypeLE)]
  | additive => [("+", NodeTypeSum), ("-", NodeTypeSub)]
  | multiplicative => [("*", NodeTypeMul), ("/", NodeTypeDiv)]

/-- Every lexeme on which the loop of a level goes round again. -/
def continues : Level → List String
  | equality => ["==", "!="]
  | relational => ["<", "<=", ">", ">="]
  | additive => ["+", "-"]
  | multiplicative => ["*", "/"]

end Level

/-- The token list does not start with a Reserved token whose lexeme is one of
`ops`: `consume` fails for each of them. -/
def startsWithNone (ops : List String) (toks : List Token) : Prop :=
  ∀ op ∈ ops, (consume op toks).1 = false

/-- The tokens `toks` are the text of the operand `a` for the method `p`:
followed by anything that does not start with one of `stop`, `p` reads exactly
`toks` and returns `a`. -/
def ParsesAs (p : Parser Node) (stop : List String) (toks : List Token) (a : Node) : Prop :=
  ∀ r, startsWithNone stop r → p (toks ++ r) = .ok (a, r)

/-- The tokens `toks` are the text of the primary `a` whenever the budget for
nested expressions is at least `d`. A primary that is a name is followed by
something other than `(`. -/
def IsPrimary (d : Nat) (toks : List Token) (a : Node) : Prop :=
  ∀ e, d ≤ e → ParsesAs (primary (expr e)) ["("] toks a

/-- A Reserved token as `Tokenize` makes it. -/
def reserved (str : String) : Token := { tokenType := TokenTypeReserved, str := str, value := 0 }

/-- An Identifier token as `Tokenize` makes it. -/
def identifier (str : String) : Token :=
  { tokenType := TokenTypeIdentifier, str := str, value := 0 }

/-- Whether a token can be the first token of an expression: a name, a number,
`(`, or a sign. -/
def startsExpression (t : Token) : Bool :=
  t.tokenType = TokenTypeIdentifier || t.tokenType = TokenTypeNumber ||
  (t.tokenType = TokenTypeReserved && (t.str = "(" || t.str = "+" || t.str = "-"))

/-- The lexemes of the binary operators of all four levels. -/
def binaryOperators : List String := ["*", "/", "+", "-", "<", "<=", ">", ">=", "==", "!="]

/-- The tokens `toks` are the text of the additive expression `a` whenever the
budget for nested expressions is at least `d`: followed by anything that starts
with none of `(`, `*`, `/`, `+`, `-`, the method `add` reads exactly `toks` and
returns `a`. -/
def IsAdditive (d : Nat) (toks : List Token) (a : Node) : Prop :=
  ∀ e, d ≤ e → ParsesAs (add (expr e)) ["(", "*", "/", "+", "-"] toks a

/-! ## Vocabulary for the budgets of the parser -/

/-- A parsing method that, where it succeeds, has moved `currentToken` forward. -/
def Shrinks {α : Type} (p : Parser α) : Prop :=
  ∀ toks x r, p toks = .ok (x, r) → r.length < toks.length

/-- A parsing method that does not use up its budget on fewer than `n` tokens. -/
def NoFuelBelow {α : Type} (p : Parser α) (n : Nat) : Prop :=
  ∀ toks, toks.length < n → p toks ≠ .error .fuel

/-! ## Vocabulary for the statements about the lowering -/

/-- The scope and the state `GenerateIR` calls `resolveStmts` with: the global
functions registered, `main` and its entry block created. -/
def mainScope : Scope × GenState :=
  let (scope, st) := registerGlobalFuncs
  let (mainFunc, st) := st.newFunc "main" .I32 []
  let (mainBlock, st) := st.newBlock mainFunc ""
  let (vars, st) := st.newVars
  ({ scope with ctx := BlockContext.mk mainBlock .null .null (scope.functions.getD 0) vars }, st)

/-- The name and terminator of every block of a module, in creation order. -/
def GenState.blockTerms (st : GenState) : List (String × Option Terminator) :=
  st.blocks.map fun b => (b.name, b.term)

/-- A context with its block replaced, as `copyContext` builds it. -/
def BlockContext.withBlock : BlockContext → Nat → BlockContext
  | .null, _ => .null
  | .mk _ parentVariableContext parentFunctionContext functions vars, block =>
    .mk block parentVariableContext parentFunctionContext functions vars

/-- The `vars` maps along the `parentVariableContext` chain, innermost first. -/
def BlockContext.varChain : BlockContext → List Nat
  | .null => []
  | .mk _ parentVariableContext _ _ vars => vars :: varChain parentVariableContext

/-- The `functions` maps along the `parentFunctionContext` chain, innermost first. -/
def BlockContext.functionChain : BlockContext → List Nat
  | .null => []
  | .mk _ _ parentFunctionContext functions _ => functions :: functionChain parentFunctionContext

/-- The innermost binding of a name in a list of `vars` maps. -/
def GenState.innermostVar (st : GenState) (name : String) : List Nat → Option Value
  | [] => none
  | m :: ms =>
    match st.lookupVar m name with
    | some v => some v
    | none => innermostVar st name ms

/-- The innermost binding of a name in a list of `functions` maps. -/
def GenState.innermostFunction (st : GenState) (name : String) : List Nat → Option Nat
  | [] => none
  | m :: ms =>
    match st.lookupFunction m name with
    | some f => some f
    | none => innermostFunction st name ms

/-- What lowering in a scope with current block `b`, `vars` map `vs` and
`functions` map `fs` leaves alone: nothing is removed, and the blocks and maps
that existed before, other than `b`, `vs` and `fs`, are as they were. The name
of a block never changes. -/
structure Frame (b vs fs : Nat) (st st' : GenState) : Prop where
  blocks_le : st.blocks.length ≤ st'.blocks.length
  vars_le : st.vars.length ≤ st'.vars.length
  functions_le : st.functions.length ≤ st'.functions.length
  blocks_old : ∀ k, k < st.blocks.length → k ≠ b → st'.blocks.get? k = st.blocks.get? k
  blocks_name : ∀ k, k < st.blocks.length →
    (st'.blocks.get? k).map Block.name = (st.blocks.get? k).map Block.name
  vars_old : ∀ m, m < st.vars.length → m ≠ vs → st'.vars.get? m = st.vars.get? m
  functions_old : ∀ m, m < st.functions.length → m ≠ fs →
    st'.functions.get? m = st.functions.get? m

/-- What the `NodeTypeFor` case of `resolveStmt` has made when it starts on the
body. -/
structure ForEntry where
  loopBlock : Nat
  leaveBlock : Nat
  loopScope : Scope
  state : GenState

/-- The `NodeTypeFor` case of `resolveStmt` up to the lowering of the body: the
name, the blocks `loop` and `leave`, the branch from the current block into the
loop, and the scope the body is lowered in. -/
def forEnter (s : Scope) (st : GenState) : Except Failure ForEntry := do
  let (bName, st) := blockName st
  let block ← s.ctx.blockOf
  let (loopBlock, st) := st.newBlock (st.parentOf block) (bName ++ "-for")
  let (leaveBlock, st) := st.newBlock (st.parentOf block) (bName ++ "-leave-for")
  let st := st.setTerm block (.br (some loopBlock))
  let (loopBlockContext, st) := s.ctx.newChildContext loopBlock st
  return { loopBlock := loopBlock, leaveBlock := leaveBlock,
           loopScope := { s.newChildScope loopBlockContext none with
                          forLeaveBlock := some leaveBlock },
           state := st }

/-- The `NodeTypeFor` case of `resolveStmt` after the body: `loopBlock` and
`leaveBlock` are the blocks `forEnter` made, `r` is what the lowering of the
body returned. -/
def forLeave (s : Scope) (loopBlock leaveBlock : Nat) (r : Scope × GenState) :
    Except Failure (Scope × GenState) := do
  let current ← r.1.ctx.blockOf
  let st := r.2.setTerm current (.br (some loopBlock))
  let ctx ← s.ctx.copyContext leaveBlock
  return ({ s with ctx := ctx }, st)

/-- What the `NodeTypeIF` case of `resolveStmt` has made when it starts on the
then-branch. -/
structure IfEntry where
  thenBlock : Nat
  leaveBlock : Nat
  elseBlock : Nat
  thenScope : Scope
  state : GenState

/-- The `NodeTypeIF` case of `resolveStmt` up to the lowering of the
then-branch: the name, the blocks, the condition, the conditional branch, and
the scope of the then-branch. -/
def ifEnter (cond els : Node) (s : Scope) (st : GenState) : Except Failure IfEntry := do
  let (bName, st) := blockName st
  let block ← s.ctx.blockOf
  let (thenBlock, st) := st.newBlock (st.parentOf block) (bName ++ "-then")
  let (leaveBlock, st) := st.newBlock (st.parentOf block) (bName ++ "-leave")
  let (elseBlock, st) :=
    if els ≠ .null then st.newBlock (st.parentOf block) (bName ++ "-else") else (leaveBlock, st)
  let (c, st) ← resolveExpr cond s.ctx st
  let st := st.setTerm block (.condBr c thenBlock elseBlock)
  let (thenBlockContext, st) := s.ctx.newChildContext thenBlock st
  return { thenBlock := thenBlock, leaveBlock := leaveBlock, elseBlock := elseBlock,
           thenScope := { s.newChildScope thenBlockContext s.forLeaveBlock with
                          ifLeaveBlock := some leaveBlock },
           state := st }

/-- The `NodeTypeIF` case of `resolveStmt` between the branches: the branch to
`leave` the then block gets when its `Term` is nil. -/
def ifFallThrough (thenBlock leaveBlock : Nat) (st : GenState) : GenState :=
  if st.termOf thenBlock = none then st.setTerm thenBlock (.br (some leaveBlock)) else st

/-- The scope the else-branch is lowered in, and the state with its context. -/
def elseEnter (s : Scope) (elseBlock leaveBlock : Nat) (st : GenState) : Scope × GenState :=
  let (elseBlockContext, st) := s.ctx.newChildContext elseBlock st
  ({ s.newChildScope elseBlockContext s.forLeaveBlock with ifLeaveBlock := some leaveBlock }, st)

/-- The `NodeTypeIF` case of `resolveStmt` after the branches: `leave` becomes
the current block, and gets a branch when the scope has an `ifLeaveBlock`. -/
def ifLeave (s : Scope) (leaveBlock : Nat) (st : GenState) : Except Failure (Scope × GenState) := do
  let ctx ← s.ctx.copyContext leaveBlock
  let s := { s with ctx := ctx }
  match s.ifLeaveBlock with
  | some outer => return (s, st.setTerm leaveBlock (.br (some outer)))
  | none => return (s, st)

/-- The `NodeTypeFunction` case of `resolveStmt` up to the lowering of the
body: the function, its entry block, its registration in the `functions` map of
the current context, and the scope of the body with the parameters bound. The
first component is the entry block. -/
def functionEnter (str : String) (argDefs : List String) (s : Scope) (st : GenState) :
    Except Failure (Nat × Scope × GenState) := do
  let block ← s.ctx.blockOf
  let fncName := st.funcName (st.parentOf block) ++ "_" ++ str
  let (fnc, st) := st.newFunc fncName .I32 (argDefs.map fun arg => (arg, .I32))
  let (bName, st) := blockName st
  let (fncBlock, st) := st.newBlock fnc bName
  let (fncBlockContext, st) := s.ctx.newFunctionContext fncBlock st
  let functions ← s.ctx.functionsOf
  let st := st.setFunction functions str fnc
  let fncScope := s.newChildScope fncBlockContext none
  let vars ← fncScope.ctx.varsOf
  let st := bindParams vars fnc argDefs 0 st
  return (fncBlock, fncScope, st)

/-- The `NodeTypeFunction` case of `resolveStmt` after the body: the `ret` the
entry block gets when its `Term` is nil. -/
def functionLeave (fncBlock : Nat) (st : GenState) : GenState :=
  if st.termOf fncBlock = none then st.setTerm fncBlock (.ret none) else st

/-- What lowering an expression in a context with current block `b` leaves
alone: everything but the instructions of `b` and the instruction counter. -/
structure ExprFrame (b : Nat) (st st' : GenState) : Prop where
  vars_eq : st'.vars = st.vars
  functions_eq : st'.functions = st.functions
  blockIndex_eq : st'.blockIndex = st.blockIndex
  blocks_len : st'.blocks.length = st.blocks.length
  blocks_old : ∀ k, k ≠ b → st'.blocks.get? k = st.blocks.get? k
  blocks_sig : ∀ k, (st'.blocks.get? k).map (fun x => (x.name, x.parent, x.term)) =
    (st.blocks.get? k).map (fun x => (x.name, x.parent, x.term))

/-- An expression lowering that changes only what `ExprFrame` allows. -/
def ExprLowering.Frames (f : ExprLowering) : Prop :=
  ∀ b pv pf fs vs st v st', f (.mk b pv pf fs vs) st = .ok (v, st') → ExprFrame b st st'

/-- An argument lowering that changes only what `ExprFrame` allows. -/
def ArgsLowering.Frames (f : ArgsLowering) : Prop :=
  ∀ b pv pf fs vs st v st', f (.mk b pv pf fs vs) st = .ok (v, st') → ExprFrame b st st'

/-- A statement lowering that, started in a context with a current block that
exists, changes only what `Frame` allows and at most the current block of the
scope, to one that did not exist before. -/
def StmtLowering.Frames (f : StmtLowering) : Prop :=
  ∀ s st s' st' b pv pf fs vs, s.ctx = .mk b pv pf fs vs → b < st.blocks.length →
    f s st = .ok (s', st') →
    ∃ b', s' = { s with ctx := .mk b' pv pf fs vs } ∧ (b' = b ∨ st.blocks.length ≤ b') ∧
      b' < st'.blocks.length ∧ Frame b vs fs st st'

/-- The state `forEnter` returns in a context with current block `b`. -/
def forState (b : Nat) (st : GenState) : GenState :=
  let (bName, st) := blockName st
  let (loopBlock, st) := st.newBlock (st.parentOf b) (bName ++ "-for")
  let (_, st) := st.newBlock (st.parentOf b) (bName ++ "-leave-for")
  let st := st.setTerm b (.br (some loopBlock))
  st.newFunctions.2.newVars.2

/-- The state of `ifEnter` in a context with current block `b` when it starts
on the condition. -/
def ifBlocks (els : Node) (b : Nat) (st : GenState) : GenState :=
  let (bName, st) := blockName st
  let (_, st) := st.newBlock (st.parentOf b) (bName ++ "-then")
  let (_, st) := st.newBlock (st.parentOf b) (bName ++ "-leave")
  if els ≠ .null then (st.newBlock (st.parentOf b) (bName ++ "-else")).2 else st

/-- The state `functionEnter` returns in a context with current block `b` and
`functions` map `fs`. -/
def functionState (str : String) (argDefs : List String) (b fs : Nat) (st : GenState) :
    GenState :=
  let fncName := st.funcName (st.parentOf b) ++ "_" ++ str
  let (fnc, st) := st.newFunc fncName .I32 (argDefs.map fun arg => (arg, .I32))
  let (bName, st) := blockName st
  let (_, st) := st.newBlock fnc bName
  let vars := st.vars.length
  let st := st.newFunctions.2.newVars.2
  let st := st.setFunction fs str fnc
  bindParams vars fnc argDefs 0 st

/-- The scope the if and for cases of `resolveStmt` make for a branch or body
in state `st`: a context from `newChildContext` for the given block, whose maps
are the next two to be created, and the given leave blocks. -/
def childScope (s : Scope) (block : Nat) (ifLeaveBlock forLeaveBlock : Option Nat)
    (st : GenState) : Scope :=
  { ctx := .mk block s.ctx s.ctx st.functions.length st.vars.length
    ifLeaveBlock := ifLeaveBlock
    forLeaveBlock := forLeaveBlock
    functions := none }

/-- Whether the statements of a `next` chain declare `name` in the scope they are
lowered in: one of them, or one in a block among them, is a `NodeTypeAlloc` whose
`lhs.str` is `name`. Declarations inside the branches of an `if`, the body of a
`for` and the body of a function are lowered in scopes of their own. -/
def Node.declares (name : String) : Node → Bool
  | .null => false
  | .mk nodeType lhs _ _ _ _ _ _ next blockBody _ _ =>
    decide (nodeType = .NodeTypeAlloc ∧ lhs.strOf = .ok name) ||
      (decide (nodeType = .NodeTypeBlock) && declares name blockBody) || declares name next

/-- A statement lowering that, started in a context with `vars` map `vs`, leaves
the binding of `name` in `vs` as it was. -/
def StmtLowering.Keeps (name : String) (f : StmtLowering) : Prop :=
  ∀ s st s' st' b pv pf fs vs, s.ctx = .mk b pv pf fs vs → b < st.blocks.length →
    vs < st.vars.length → f s st = .ok (s', st') →
    st'.lookupVar vs name = st.lookupVar vs name

/-- The endings of the names `resolveStmt` gives to blocks: those of the blocks
of an `if`, those of the blocks of a `for`, and none for the entry block of a
function. -/
def blockSuffixes : List String := ["-then", "-leave", "-else", "-for", "-leave-for", ""]

/-- The name of a block made at counter value `i` with the given ending. -/
def blockLabel (i : Nat) (suffix : String) : String := "block-" ++ toString i ++ suffix

/-- The number of times lowering the statements of a `next` chain calls
`blockName`: once for each `if`, `for` and function definition among them, in
the branches and bodies included. Expressions never call it. -/
def Node.nameRequests : Node → Nat
  | .null => 0
  | .mk nodeType _ _ _ _ _ then_ els next blockBody _ _ =>
    (match nodeType with
      | .NodeTypeIF => 1 + nameRequests then_ + nameRequests els
      | .NodeTypeFor => 1 + nameRequests blockBody
      | .NodeTypeFunction => 1 + nameRequests blockBody
      | .NodeTypeBlock => nameRequests blockBody
      | _ => 0) + nameRequests next

/-- The name of a block of a module. -/
def GenState.nameOf (st : GenState) (k : Nat) : Option String :=
  (st.blocks.get? k).map Block.name

/-- The blocks made between two states are named by the counter values in
between, each with one of the endings, and no two of them have the same name. -/
structure NewNames (st st' : GenState) : Prop where
  labelled : ∀ k, st.blocks.length ≤ k → k < st'.blocks.length →
    ∃ i suffix, st.blockIndex ≤ i ∧ i < st'.blockIndex ∧ suffix ∈ blockSuffixes ∧
      st'.nameOf k = some (blockLabel i suffix)
  distinct : ∀ k k', st.blocks.length ≤ k → k < st'.blocks.length →
    st.blocks.length ≤ k' → k' < st'.blocks.length → st'.nameOf k = st'.nameOf k' → k = k'

/-- A statement lowering that calls `blockName` `k` times: when the counter
does not wrap, it ends `k` higher and the blocks made are named as `NewNames`
says. -/
def StmtLowering.Names (k : Nat) (f : StmtLowering) : Prop :=
  ∀ s st s' st' b pv pf fs vs, s.ctx = .mk b pv pf fs vs → b < st.blocks.length →
    st.blockIndex + k < 2 ^ 64 → f s st = .ok (s', st') →
    st'.blockIndex = st.blockIndex + k ∧ NewNames st st'

/-- Two states with the same blocks by number and name and the same counter. -/
structure SameNames (st st' : GenState) : Prop where
  blocks_len : st'.blocks.length = st.blocks.length
  names : ∀ k, st'.nameOf k = st.nameOf k
  blockIndex_eq : st'.blockIndex = st.blockIndex

/-- The kinds of node `resolveExpr` lowers with `lhs` first and `rhs` second. -/
def binaryKinds : List NodeType :=
  [.NodeTypeSum, .NodeTypeSub, .NodeTypeMul, .NodeTypeDiv, .NodeTypeEqual, .NodeTypeNotEqual,
    .NodeTypeLT, .NodeTypeLE]

/-- A moment of the lowering. `stmts node s st`: the loop of `resolveStmts`, or
of the `NodeTypeBlock` case, is about to call `s.resolveStmt(node)` for `node`
of a `next` chain. `expr node ctx st`: `ctx.resolveExpr(node)` is called.
`args node ctx st`: the loop of `callFunction` is about to lower `node` of the
chain of arguments. `st` is the state at that moment. -/
inductive Point where
  | stmts (node : Node) (s : Scope) (st : GenState)
  | expr (node : Node) (ctx : BlockContext) (st : GenState)
  | args (node : Node) (ctx : BlockContext) (st : GenState)

/-- The node of a point. -/
def Point.node : Point → Node
  | .stmts node _ _ => node
  | .expr node _ _ => node
  | .args node _ _ => node

/-- The context names are looked up in at a point. -/
def Point.ctx : Point → BlockContext
  | .stmts _ s _ => s.ctx
  | .expr _ ctx _ => ctx
  | .args _ ctx _ => ctx

/-- The state at a point. -/
def Point.state : Point → GenState
  | .stmts _ _ st => st
  | .expr _ _ st => st
  | .args _ _ st => st

/-- How the lowering gets from a point to one it leads to directly: on to the
next statement of the chain, into a branch of an `if`, into the body of a
`for`, of a block or of a function, or into an expression of a statement, an
operand of an expression or an argument of a call. -/
inductive StepKind where
  | next
  | thenBranch
  | elseBranch
  | loopBody
  | blockBody
  | functionBody
  | operand
  deriving DecidableEq, Repr

/-- The steps of the lowering, read off `resolveStmts`, `resolveStmt`,
`resolveExpr` and `callFunction`: `Step p k q` when the lowering, standing at
`p`, gets to `q` next by a step of kind `k`. -/
inductive Step : Point → StepKind → Point → Prop
  /-- The assignment `current = current.next` once `s.resolveStmt(current)` has returned. -/
  | next (t : NodeType) (lhs rhs : Node) (v : Int) (str : String)
      (cond th el nx bb ar : Node) (ad : List String) (s s1 : Scope) (st st1 : GenState) :
      resolveStmt (.mk t lhs rhs v str cond th el nx bb ar ad) s st = .ok (s1, st1) →
      Step (.stmts (.mk t lhs rhs v str cond th el nx bb ar ad) s st) .next (.stmts nx s1 st1)
  /-- The call `thenScope.resolveStmts(node.then)`. -/
  | thenBranch (lhs rhs : Node) (v : Int) (str : String) (cond th el nx bb ar : Node)
      (ad : List String) (s : Scope) (st : GenState) (e : IfEntry) :
      ifEnter cond el s st = .ok e →
      Step (.stmts (.mk .NodeTypeIF lhs rhs v str cond th el nx bb ar ad) s st) .thenBranch
        (.stmts th e.thenScope e.state)
  /-- The call `elseScope.resolveStmts(node.els)`. -/
  | elseBranch (lhs rhs : Node) (v : Int) (str : String) (cond th el nx bb ar : Node)
      (ad : List String) (s : Scope) (st : GenState) (e : IfEntry) (r : Scope × GenState) :
      ifEnter cond el s st = .ok e → resolveStmts th e.thenScope e.state = .ok r →
      el ≠ .null →
      Step (.stmts (.mk .NodeTypeIF lhs rhs v str cond th el nx bb ar ad) s st) .elseBranch
        (.stmts el
          (elseEnter s e.elseBlock e.leaveBlock
            (ifFallThrough e.thenBlock e.leaveBlock r.2)).1
          (elseEnter s e.elseBlock e.leaveBlock
            (ifFallThrough e.thenBlock e.leaveBlock r.2)).2)
  /-- The call `loopScope.resolveStmts(node.blockBody)`. -/
  | loopBody (lhs rhs : Node) (v : Int) (str : String) (cond th el nx bb ar : Node)
      (ad : List String) (s : Scope) (st : GenState) (e : ForEntry) :
      forEnter s st = .ok e →
      Step (.stmts (.mk .NodeTypeFor lhs rhs v str cond th el nx bb ar ad) s st) .loopBody
        (.stmts bb e.loopScope e.state)
  /-- The loop of the `NodeTypeBlock` case, started at `node.blockBody`. -/
  | blockBody (lhs rhs : Node) (v : Int) (str : String) (cond th el nx bb ar : Node)
      (ad : List String) (s : Scope) (st : GenState) :
      Step (.stmts (.mk .NodeTypeBlock lhs rhs v str cond th el nx bb ar ad) s st) .blockBody
        (.stmts bb s st)
  /-- The call `fncScope.resolveStmts(node.blockBody)`. -/
  | functionBody (lhs rhs : Node) (v : Int) (str : String) (cond th el nx bb ar : Node)
      (ad : List String) (s : Scope) (st : GenState) (e : Nat × Scope × GenState) :
      functionEnter str ad s st = .ok e →
      Step (.stmts (.mk .NodeTypeFunction lhs rhs v str cond th el nx bb ar ad) s st)
        .functionBody (.stmts bb e.2.1 e.2.2)
  /-- The call `s.ctx.resolveExpr(node.lhs)` of the `NodeTypeReturn` case. -/
  | returned (lhs rhs : Node) (v : Int) (str : String) (cond th el nx bb ar : Node)
      (ad : List String) (s : Scope) (st : GenState) :
      Step (.stmts (.mk .NodeTypeReturn lhs rhs v str cond th el nx bb ar ad) s st) .operand
        (.expr lhs s.ctx st)
  /-- The call `s.ctx.resolveExpr(node.cond)` of the `NodeTypeIF` case, after the
  blocks have been made. -/
  | condition (lhs rhs : Node) (v : Int) (str : String) (cond th el nx bb ar : Node)
      (ad : List String) (s : Scope) (st : GenState) (b : Nat) :
      s.ctx.blockOf = .ok b →
      Step (.stmts (.mk .NodeTypeIF lhs rhs v str cond th el nx bb ar ad) s st) .operand
        (.expr cond s.ctx (ifBlocks el b st))
  /-- The call `s.ctx.resolveExpr(node.rhs)` of the `NodeTypeAssign` case, after
  `findVariable` has returned. -/
  | assigned (lhs rhs : Node) (v : Int) (str : String) (cond th el nx bb ar : Node)
      (ad : List String) (s : Scope) (st : GenState) (name : String) (slot : Value) :
      lhs.strOf = .ok name → s.ctx.findVariable name st = .ok slot →
      Step (.stmts (.mk .NodeTypeAssign lhs rhs v str cond th el nx bb ar ad) s st) .operand
        (.expr rhs s.ctx st)
  /-- The call `s.ctx.resolveExpr(node.rhs)` of the `NodeTypeAlloc` case, after
  `NewAlloca`. -/
  | declared (lhs rhs : Node) (v : Int) (str : String) (cond th el nx bb ar : Node)
      (ad : List String) (s : Scope) (st : GenState) (b : Nat) :
      s.ctx.blockOf = .ok b →
      Step (.stmts (.mk .NodeTypeAlloc lhs rhs v str cond th el nx bb ar ad) s st) .operand
        (.expr rhs s.ctx (st.newInst b (fun id => .alloca id .I32) (.Pointer .I32)).2)
  /-- The call `s.ctx.callFunction(node)` of the `NodeTypeFunctionCall` case. -/
  | called (lhs rhs : Node) (v : Int) (str : String) (cond th el nx bb ar : Node)
      (ad : List String) (s : Scope) (st : GenState) :
      Step (.stmts (.mk .NodeTypeFunctionCall lhs rhs v str cond th el nx bb ar ad) s st)
        .operand (.args ar s.ctx st)
  /-- The call `ctx.resolveExpr(node.lhs)` of a two-operand case. -/
  | left (t : NodeType) (lhs rhs : Node) (v : Int) (str : String)
      (cond th el nx bb ar : Node) (ad : List String) (ctx : BlockContext) (st : GenState) :
      t ∈ binaryKinds →
      Step (.expr (.mk t lhs rhs v str cond th el nx bb ar ad) ctx st) .operand
        (.expr lhs ctx st)
  /-- The call `ctx.resolveExpr(node.rhs)` of a two-operand case, once `lhs` is
  lowered. -/
  | right (t : NodeType) (lhs rhs : Node) (v : Int) (str : String)
      (cond th el nx bb ar : Node) (ad : List String) (ctx : BlockContext)
      (st st1 : GenState) (l : Value) :
      t ∈ binaryKinds → resolveExpr lhs ctx st = .ok (l, st1) →
      Step (.expr (.mk t lhs rhs v str cond th el nx bb ar ad) ctx st) .operand
        (.expr rhs ctx st1)
  /-- The call `ctx.callFunction(node)` of the `NodeTypeFunctionCall` case of
  `resolveExpr`. -/
  | arguments (lhs rhs : Node) (v : Int) (str : String) (cond th el nx bb ar : Node)
      (ad : List String) (ctx : BlockContext) (st : GenState) :
      Step (.expr (.mk .NodeTypeFunctionCall lhs rhs v str cond th el nx bb ar ad) ctx st)
        .operand (.args ar ctx st)
  /-- The call `ctx.resolveExpr(current)` in the loop of `callFunction`. -/
  | argument (t : NodeType) (lhs rhs : Node) (v : Int) (str : String)
      (cond th el nx bb ar : Node) (ad : List String) (ctx : BlockContext) (st : GenState) :
      Step (.args (.mk t lhs rhs v str cond th el nx bb ar ad) ctx st) .operand
        (.expr (.mk t lhs rhs v str cond th el nx bb ar ad) ctx st)
  /-- The assignment `current = current.next` in the loop of `callFunction`. -/
  | nextArgument (t : NodeType) (lhs rhs : Node) (v : Int) (str : String)
      (cond th el nx bb ar : Node) (ad : List String) (ctx : BlockContext)
      (st st1 : GenState) (a : Value) :
      resolveExpr (.mk t lhs rhs v str cond th el nx bb ar ad) ctx st = .ok (a, st1) →
      Step (.args (.mk t lhs rhs v str cond th el nx bb ar ad) ctx st) .operand
        (.args nx ctx st1)

/-- The point `q` is reached from the point `p` in the course of the lowering. -/
def Reaches : Point → Point → Prop :=
  Relation.ReflTransGen fun p q => ∃ k, Step p k q

/-- The point `q` is reached from the point `p` within the scope of the binding
`name` has at `p`: by steps that do not enter the body of a function and do not
go on past a statement that declares `name` in the scope it is lowered in. -/
def InScope (name : String) : Point → Point → Prop :=
  Relation.ReflTransGen fun p q =>
    ∃ k, Step p k q ∧ k ≠ .functionBody ∧
      (k = .next → (p.node.setNext .null).declares name = false)

/-- At a point with context `ctx` and state `st` the name resolves to `slot`:
the context has a current block that exists, its `vars` maps exist, and
`findVariable` returns `slot`. -/
structure Resolves (name : String) (slot : Value) (ctx : BlockContext) (st : GenState) :
    Prop where
  block : ∃ b pv pf fs vs, ctx = .mk b pv pf fs vs ∧ b < st.blocks.length
  chain : ∀ m ∈ ctx.varChain, m < st.vars.length
  finds : ctx.findVariable name st = .ok slot

/-! ## Lexer: how one iteration consumes input -/

theorem digitsValue_all (l : List Char) (acc n : Nat) (h : digitsValue l acc = some n) :
    ∀ c ∈ l, '0' ≤ c ∧ c ≤ '9' := by
  induction l generalizing acc with
  | nil => simp
  | cons x xs ih =>
    unfold digitsValue at h
    split at h
    · rename_i hx
      intro c hc
      rcases List.mem_cons.mp hc with rfl | hc
      · exact hx
      · exact ih _ h c hc
    · cases h

theorem atoi_snoc_digit (vc : List Char) (r : Char) (v : Int) (h : atoi (vc ++ [r]) = some v) :
    '0' ≤ r ∧ r ≤ '9' := by
  have key : ∀ ds : List Char, ∀ f : Nat → Option Int,
      ((digitsValue ds 0).bind f = some v) → ∀ c ∈ ds, '0' ≤ c ∧ c ≤ '9' := by
    intro ds f hf
    cases hd : digitsValue ds 0 with
    | none => simp [hd] at hf
    | some n => exact digitsValue_all ds 0 n hd
  unfold atoi at h
  split at h
  · cases vc <;> simp at *
  · rename_i ds heq
    split at h
    · cases h
    · have hall := key ds _ h
      cases vc with
      | nil =>
        simp at heq
        obtain ⟨rfl, rfl⟩ := heq
        simp at *
      | cons x xs =>
        simp at heq
        obtain ⟨-, rfl⟩ := heq
        exact hall r (by simp)
  · rename_i ds heq
    split at h
    · cases h
    · have hall := key ds _ h
      cases vc with
      | nil =>
        simp at heq
        obtain ⟨rfl, rfl⟩ := heq
        simp at *
      | cons x xs =>
        simp at heq
        obtain ⟨-, rfl⟩ := heq
        exact hall r (by simp)
  · exact key _ _ h r (by simp)

theorem char_le_iff (a b : Char) : a ≤ b ↔ a.toNat ≤ b.toNat := by
  exact Iff.rfl

theorem atoi_digit (r : Char) (h : '0' ≤ r ∧ r ≤ '9') : ∃ v, atoi [r] = some v := by
  have h0 : '0'.toNat ≤ r.toNat := (char_le_iff _ _).mp h.1
  have h9 : r.toNat ≤ '9'.toNat := (char_le_iff _ _).mp h.2
  have e0 : '0'.toNat = 48 := by decide
  have e9 : '9'.toNat = 57 := by decide
  unfold atoi
  split
  · simp at *
  · rename_i heq
    simp at heq
    rw [heq.1] at h0
    have : '+'.toNat = 43 := by decide
    omega
  · rename_i heq
    simp at heq
    rw [heq.1] at h0
    have : '-'.toNat = 45 := by decide
    omega
  · simp only [digitsValue, h, and_self, if_true]
    have hlt : 0 * 10 + (r.toNat - '0'.toNat) < 2 ^ 63 := by
      have : (2:Nat)^63 = 9223372036854775808 := by norm_num
      omega
    refine ⟨((0 * 10 + (r.toNat - '0'.toNat) : Nat) : Int), ?_⟩
    simp only [Option.bind, if_pos hlt]

theorem scanIdentifier_spec (l : List Char) :
    ∃ pre, l = pre ++ (scanIdentifier l).2 ∧ (scanIdentifier l).1 = pre ∧
      ∀ c ∈ pre, isLetter c = true := by
  induction l with
  | nil => exact ⟨[], by simp [scanIdentifier]⟩
  | cons x xs ih =>
    obtain ⟨pre, h1, h2, h3⟩ := ih
    by_cases hx : isLetter x = true
    · refine ⟨x :: pre, ?_, ?_, ?_⟩
      · simp only [scanIdentifier, hx, if_true, List.cons_append]
        rw [← h1]
      · simp only [scanIdentifier, hx, if_true, h2]
      · intro c hc
        rcases List.mem_cons.mp hc with rfl | hc
        · exact hx
        · exact h3 c hc
    · exact ⟨[], by simp [scanIdentifier, hx]⟩

theorem scanNumber_spec (l vc : List Char) (v : Int) :
    ∃ pre, l = pre ++ (scanNumber l vc v).2 ∧ ∀ c ∈ pre, '0' ≤ c ∧ c ≤ '9' := by
  induction l generalizing vc v with
  | nil => exact ⟨[], by simp [scanNumber]⟩
  | cons x xs ih =>
    cases hx : atoi (vc ++ [x]) with
    | none => exact ⟨[], by simp [scanNumber, hx]⟩
    | some value =>
      obtain ⟨pre, h1, h2⟩ := ih (vc ++ [x]) value
      refine ⟨x :: pre, ?_, ?_⟩
      · simp only [scanNumber, hx, List.cons_append]
        rw [← h1]
      · intro c hc
        rcases List.mem_cons.mp hc with rfl | hc
        · exact atoi_snoc_digit vc _ value hx
        · exact h2 c hc

theorem matchPrefix_some (l : List Char) (p : String) (h : matchPrefix l = some p) :
    p ∈ prefixes ∧ p.data.length < l.length ∧ l.take p.data.length = p.data := by
  unfold matchPrefix at h
  have hm := List.mem_of_find?_eq_some h
  have hp := List.find?_some h
  simp only [Bool.and_eq_true, decide_eq_true_eq, beq_iff_eq] at hp
  exact ⟨hm, hp.1, hp.2⟩

theorem prefixes_chars :
    ∀ p ∈ prefixes, p.data ≠ [] ∧ ((∀ c ∈ p.data, recognized c = true) ∨ p.data = ['!', '=']) := by
  decide

theorem recognized_of_digit (c : Char) (h : '0' ≤ c ∧ c ≤ '9') : recognized c = true := by
  simp [recognized, h.1, h.2]

theorem tokenizeStep_space (r : Char) (rest : List Char) (hsp : isSpace r = true) :
    tokenizeStep r rest = .ok (none, rest) := by
  simp only [tokenizeStep, hsp, if_true]

theorem tokenizeStep_prefix (r : Char) (rest : List Char) (p : String)
    (hsp : isSpace r = false) (hp : matchPrefix (r :: rest) = some p) :
    tokenizeStep r rest =
      .ok (some { tokenType := TokenTypeReserved, str := p, value := 0 },
        (r :: rest).drop p.data.length) := by
  simp only [tokenizeStep, hsp, hp, Bool.false_eq_true, if_false]

theorem tokenizeStep_letter (r : Char) (rest : List Char)
    (hsp : isSpace r = false) (hp : matchPrefix (r :: rest) = none) (hlet : isLetter r = true) :
    tokenizeStep r rest =
      .ok (some { tokenType := TokenTypeIdentifier,
                  str := String.mk (r :: (scanIdentifier rest).1), value := 0 },
        (scanIdentifier rest).2) := by
  simp only [tokenizeStep, hsp, hp, hlet, Bool.false_eq_true, if_false, if_true, scanIdentifier]

theorem tokenizeStep_punctuation (r : Char) (rest : List Char)
    (hsp : isSpace r = false) (hp : matchPrefix (r :: rest) = none) (hlet : isLetter r = false)
    (hpu : punctuation.contains r = true) :
    tokenizeStep r rest =
      .ok (some { tokenType := TokenTypeReserved, str := String.singleton r, value := 0 },
        rest) := by
  simp only [tokenizeStep, hsp, hp, hlet, hpu, Bool.false_eq_true, if_false, if_true]

theorem tokenizeStep_number (r : Char) (rest : List Char) (value : Int)
    (hsp : isSpace r = false) (hp : matchPrefix (r :: rest) = none) (hlet : isLetter r = false)
    (hpu : punctuation.contains r = false) (hv : atoi [r] = some value) :
    tokenizeStep r rest =
      .ok (some { tokenType := TokenTypeNumber,
                  str := toString (scanNumber rest [r] value).1,
                  value := (scanNumber rest [r] value).1 },
        (scanNumber rest [r] value).2) := by
  simp only [tokenizeStep, hsp, hp, hlet, hpu, hv, Bool.false_eq_true, if_false, scanNumber,
    List.nil_append]

theorem tokenizeStep_invalid (r : Char) (rest : List Char)
    (hsp : isSpace r = false) (hp : matchPrefix (r :: rest) = none) (hlet : isLetter r = false)
    (hpu : punctuation.contains r = false) (hv : atoi [r] = none) :
    tokenizeStep r rest = .error (.panic "Invalid Token") := by
  simp only [tokenizeStep, hsp, hp, hlet, hpu, hv, Bool.false_eq_true, if_false]

/-- The cases of one iteration, in the order the source tries them. -/
theorem tokenizeStep_cases (r : Char) (rest : List Char) :
    (isSpace r = true ∧ tokenizeStep r rest = .ok (none, rest)) ∨
    (∃ p, isSpace r = false ∧ matchPrefix (r :: rest) = some p ∧
      tokenizeStep r rest =
        .ok (some { tokenType := TokenTypeReserved, str := p, value := 0 },
          (r :: rest).drop p.data.length)) ∨
    (isSpace r = false ∧ matchPrefix (r :: rest) = none ∧ isLetter r = true ∧
      tokenizeStep r rest =
        .ok (some { tokenType := TokenTypeIdentifier,
                    str := String.mk (r :: (scanIdentifier rest).1), value := 0 },
          (scanIdentifier rest).2)) ∨
    (isSpace r = false ∧ matchPrefix (r :: rest) = none ∧ isLetter r = false ∧
      punctuation.contains r = true ∧
      tokenizeStep r rest =
        .ok (some { tokenType := TokenTypeReserved, str := String.singleton r, value := 0 },
          rest)) ∨
    (∃ value, isSpace r = false ∧ matchPrefix (r :: rest) = none ∧ isLetter r = false ∧
      punctuation.contains r = false ∧ atoi [r] = some value ∧
      tokenizeStep r rest =
        .ok (some { tokenType := TokenTypeNumber,
                    str := toString (scanNumber rest [r] value).1,
                    value := (scanNumber rest [r] value).1 },
          (scanNumber rest [r] value).2)) ∨
    (isSpace r = false ∧ matchPrefix (r :: rest) = none ∧ isLetter r = false ∧
      punctuation.contains r = false ∧ atoi [r] = none ∧
      tokenizeStep r rest = .error (.panic "Invalid Token")) := by
  cases hsp : isSpace r with
  | true => exact Or.inl ⟨rfl, tokenizeStep_space r rest hsp⟩
  | false =>
    cases hp : matchPrefix (r :: rest) with
    | some p => exact Or.inr (Or.inl ⟨p, rfl, rfl, tokenizeStep_prefix r rest p hsp hp⟩)
    | none =>
      cases hlet : isLetter r with
      | true =>
        exact Or.inr (Or.inr (Or.inl ⟨rfl, rfl, rfl, tokenizeStep_letter r rest hsp hp hlet⟩))
      | false =>
        cases hpu : punctuation.contains r with
        | true =>
          exact Or.inr (Or.inr (Or.inr (Or.inl
            ⟨rfl, rfl, rfl, rfl, tokenizeStep_punctuation r rest hsp hp hlet hpu⟩)))
        | false =>
          cases hv : atoi [r] with
          | some value =>
            exact Or.inr (Or.inr (Or.inr (Or.inr (Or.inl
              ⟨value, rfl, rfl, rfl, rfl, rfl,
                tokenizeStep_number r rest value hsp hp hlet hpu hv⟩))))
          | none =>
            exact Or.inr (Or.inr (Or.inr (Or.inr (Or.inr
              ⟨rfl, rfl, rfl, rfl, rfl, tokenizeStep_invalid r rest hsp hp hlet hpu hv⟩))))

/-- What one iteration consumes: a non-empty piece of the input, all of whose
characters are recognized, or `!=` with more input after it. -/
theorem tokenizeStep_consumes (r : Char) (rest : List Char) (t : Option Token)
    (rest' : List Char) (h : tokenizeStep r rest = .ok (t, rest')) :
    ∃ pre, r :: rest = pre ++ rest' ∧ pre ≠ [] ∧
      ((∀ c ∈ pre, recognized c = true) ∨ (pre = ['!', '='] ∧ rest' ≠ [])) := by
  rcases tokenizeStep_cases r rest with ⟨hsp, e⟩ | ⟨p, -, hp, e⟩ | ⟨-, -, hlet, e⟩ |
    ⟨-, -, -, hpu, e⟩ | ⟨value, -, -, -, -, hv, e⟩ | ⟨-, -, -, -, -, e⟩
  · rw [e] at h
    injection h with h
    injection h with _ h
    subst h
    exact ⟨[r], rfl, by simp, Or.inl (by simp [recognized, hsp])⟩
  · rw [e] at h
    obtain ⟨hmem, hlen, htake⟩ := matchPrefix_some _ _ hp
    injection h with h
    injection h with _ h
    subst h
    obtain ⟨hne, hchars⟩ := prefixes_chars p hmem
    refine ⟨p.data, ?_, hne, ?_⟩
    · conv => lhs; rw [← List.take_append_drop p.data.length (r :: rest)]
      rw [htake]
    · rcases hchars with hc | hc
      · exact Or.inl hc
      · refine Or.inr ⟨hc, ?_⟩
        intro hd
        have := congrArg List.length hd
        simp only [List.length_drop, List.length_nil] at this
        omega
  · rw [e] at h
    obtain ⟨pre, h1, -, h3⟩ := scanIdentifier_spec rest
    injection h with h
    injection h with _ h
    subst h
    refine ⟨r :: pre, by rw [List.cons_append, ← h1], by simp, Or.inl ?_⟩
    intro c hc
    rcases List.mem_cons.mp hc with rfl | hc
    · simp [recognized, hlet]
    · simp [recognized, h3 c hc]
  · rw [e] at h
    injection h with h
    injection h with _ h
    subst h
    refine ⟨[r], rfl, by simp, Or.inl ?_⟩
    intro c hc
    rw [List.mem_singleton.mp hc]
    simp only [recognized, hpu, Bool.or_true, Bool.true_or]
  · rw [e] at h
    obtain ⟨pre, h1, h3⟩ := scanNumber_spec rest [r] value
    injection h with h
    injection h with _ h
    subst h
    refine ⟨r :: pre, by rw [List.cons_append, ← h1], by simp, Or.inl ?_⟩
    intro c hc
    rcases List.mem_cons.mp hc with rfl | hc
    · exact recognized_of_digit _ (atoi_snoc_digit [] _ value hv)
    · exact recognized_of_digit _ (h3 c hc)
  · rw [e] at h
    cases h

/-- The only failure of an iteration is the panic of `Tokenize`. -/
theorem tokenizeStep_error (r : Char) (rest : List Char) (e : Failure)
    (h : tokenizeStep r rest = .error e) : e = .panic "Invalid Token" := by
  rcases tokenizeStep_cases r rest with ⟨-, e'⟩ | ⟨p, -, -, e'⟩ | ⟨-, -, -, e'⟩ |
    ⟨-, -, -, -, e'⟩ | ⟨value, -, -, -, -, -, e'⟩ | ⟨-, -, -, -, -, e'⟩ <;>
  · rw [e'] at h
    first
      | (injection h with h; exact h.symm)
      | cases h

/-- An iteration at a recognized character links a token or skips white space. -/
theorem tokenizeStep_recognized (r : Char) (rest : List Char) (h : recognized r = true) :
    ∃ t rest', tokenizeStep r rest = .ok (t, rest') := by
  rcases tokenizeStep_cases r rest with ⟨-, e'⟩ | ⟨p, -, -, e'⟩ | ⟨-, -, -, e'⟩ |
    ⟨-, -, -, -, e'⟩ | ⟨value, -, -, -, -, -, e'⟩ | ⟨hsp, -, hlet, hpu, hv, -⟩
  · exact ⟨_, _, e'⟩
  · exact ⟨_, _, e'⟩
  · exact ⟨_, _, e'⟩
  · exact ⟨_, _, e'⟩
  · exact ⟨_, _, e'⟩
  · exfalso
    have hd : '0' ≤ r ∧ r ≤ '9' := by
      simpa only [recognized, hsp, hlet, hpu, Bool.or_false, Bool.false_or, Bool.and_eq_true,
        decide_eq_true_eq] using h
    obtain ⟨v, hv'⟩ := atoi_digit r hd
    rw [hv'] at hv
    cases hv

/-! ## Lexer: the loop -/

theorem tokenizeLoop_cons (fuel : Nat) (r : Char) (rest : List Char) :
    tokenizeLoop (fuel + 1) (r :: rest) =
      match tokenizeStep r rest with
      | .error e => .error e
      | .ok (none, rest') => tokenizeLoop fuel rest'
      | .ok (some token, rest') => (tokenizeLoop fuel rest').map fun ts => token :: ts := rfl

theorem tokenizeStep_shorter (r : Char) (rest : List Char) (t : Option Token)
    (rest' : List Char) (h : tokenizeStep r rest = .ok (t, rest')) :
    rest'.length ≤ rest.length := by
  obtain ⟨pre, h1, h2, -⟩ := tokenizeStep_consumes r rest t rest' h
  have := congrArg List.length h1
  simp only [List.length_cons, List.length_append] at this
  have : 0 < pre.length := List.length_pos.mpr h2
  omega

/-- A budget above the length of the input gives the same result as any other. -/
theorem tokenizeLoop_fuel (f1 f2 : Nat) (rest : List Char)
    (h1 : rest.length < f1) (h2 : rest.length < f2) :
    tokenizeLoop f1 rest = tokenizeLoop f2 rest := by
  induction f1 generalizing f2 rest with
  | zero => omega
  | succ n ih =>
    cases f2 with
    | zero => omega
    | succ m =>
      cases rest with
      | nil => rfl
      | cons r rs =>
        rw [tokenizeLoop_cons, tokenizeLoop_cons]
        cases hs : tokenizeStep r rs with
        | error e => rfl
        | ok p =>
          obtain ⟨t, rest'⟩ := p
          have hlen := tokenizeStep_shorter r rs t rest' hs
          simp only [List.length_cons] at h1 h2
          have e := ih m rest' (by omega) (by omega)
          cases t with
          | none => exact e
          | some token => simp only [e]

/-- The loop never uses up a budget above the length of the input. -/
theorem tokenizeLoop_total (fuel : Nat) (rest : List Char) (h : rest.length < fuel) :
    tokenizeLoop fuel rest ≠ .error .fuel := by
  induction fuel generalizing rest with
  | zero => omega
  | succ n ih =>
    cases rest with
    | nil =>
      intro hc
      cases hc
    | cons r rs =>
      rw [tokenizeLoop_cons]
      cases hs : tokenizeStep r rs with
      | error e =>
        rw [tokenizeStep_error r rs e hs]
        intro hc
        cases hc
      | ok p =>
        obtain ⟨t, rest'⟩ := p
        have hlen := tokenizeStep_shorter r rs t rest' hs
        simp only [List.length_cons] at h
        have e := ih rest' (by omega)
        cases t with
        | none => exact e
        | some token =>
          simp only
          cases hl : tokenizeLoop n rest' with
          | error e' =>
            rw [hl] at e
            intro hc
            apply e
            simp only [Except.map] at hc
            exact hc
          | ok ts =>
            intro hc
            cases hc

theorem continuesNotEqual_true (l : List Char) (h : continuesNotEqual l = true) :
    ∃ d post', l = '=' :: d :: post' := by
  unfold continuesNotEqual at h
  split at h
  · exact ⟨_, _, rfl⟩
  · cases h

theorem hasInvalid_append (pre l : List Char) (h : ∀ c ∈ pre, recognized c = true) :
    hasInvalid (pre ++ l) = hasInvalid l := by
  induction pre with
  | nil => rfl
  | cons x xs ih =>
    have hx := h x (by simp)
    simp only [List.cons_append, hasInvalid, hx, Bool.not_true, Bool.false_and, Bool.false_or]
    exact ih fun c hc => h c (by simp [hc])

theorem hasInvalid_notEqual (l : List Char) (h : l ≠ []) :
    hasInvalid ('!' :: '=' :: l) = hasInvalid l := by
  cases l with
  | nil => exact absurd rfl h
  | cons x xs =>
    have e : recognized '=' = true := by decide
    simp [hasInvalid, continuesNotEqual, e]

/-- An iteration neither consumes nor creates an invalid character. -/
theorem tokenizeStep_hasInvalid (r : Char) (rest : List Char) (t : Option Token)
    (rest' : List Char) (h : tokenizeStep r rest = .ok (t, rest')) :
    hasInvalid (r :: rest) = hasInvalid rest' := by
  obtain ⟨pre, h1, -, h3⟩ := tokenizeStep_consumes r rest t rest' h
  rw [h1]
  rcases h3 with h3 | ⟨rfl, h3⟩
  · exact hasInvalid_append pre rest' h3
  · exact hasInvalid_notEqual rest' h3

/-- On input with an invalid character the loop panics. -/
theorem tokenizeLoop_invalid (fuel : Nat) (rest : List Char) (h : rest.length < fuel)
    (hbad : hasInvalid rest = true) :
    tokenizeLoop fuel rest = .error (.panic "Invalid Token") := by
  induction fuel generalizing rest with
  | zero => omega
  | succ n ih =>
    cases rest with
    | nil => simp [hasInvalid] at hbad
    | cons r rs =>
      rw [tokenizeLoop_cons]
      cases hs : tokenizeStep r rs with
      | error e => rw [tokenizeStep_error r rs e hs]
      | ok p =>
        obtain ⟨t, rest'⟩ := p
        have hlen := tokenizeStep_shorter r rs t rest' hs
        simp only [List.length_cons] at h
        rw [tokenizeStep_hasInvalid r rs t rest' hs] at hbad
        have e := ih rest' (by omega) hbad
        cases t with
        | none => exact e
        | some token => simp only [e, Except.map]

theorem matchPrefix_notEqual (x : Char) (xs : List Char) :
    matchPrefix ('!' :: '=' :: x :: xs) = some "!=" := by
  simp [matchPrefix, prefixes, List.find?]

/-- On input without an invalid character the loop returns a token sequence. -/
theorem tokenizeLoop_valid (fuel : Nat) (rest : List Char) (h : rest.length < fuel)
    (hok : hasInvalid rest = false) :
    ∃ ts, tokenizeLoop fuel rest = .ok ts := by
  induction fuel generalizing rest with
  | zero => omega
  | succ n ih =>
    cases rest with
    | nil => exact ⟨_, rfl⟩
    | cons r rs =>
      rw [tokenizeLoop_cons]
      have hstep : ∃ t rest', tokenizeStep r rs = .ok (t, rest') := by
        cases hr : recognized r with
        | true => exact tokenizeStep_recognized r rs hr
        | false =>
          simp only [hasInvalid, hr, Bool.not_false, Bool.true_and, Bool.or_eq_false_iff,
            Bool.not_eq_false', Bool.and_eq_true, beq_iff_eq] at hok
          obtain ⟨⟨rfl, hc⟩, -⟩ := hok
          obtain ⟨x, xs, rfl⟩ := continuesNotEqual_true rs hc
          exact ⟨_, _, tokenizeStep_prefix _ _ _ (by decide) (matchPrefix_notEqual x xs)⟩
      obtain ⟨t, rest', hs⟩ := hstep
      have hlen := tokenizeStep_shorter r rs t rest' hs
      simp only [List.length_cons] at h
      rw [tokenizeStep_hasInvalid r rs t rest' hs] at hok
      obtain ⟨ts, e⟩ := ih rest' (by omega) hok
      rw [hs]
      cases t with
      | none => exact ⟨ts, e⟩
      | some token => exact ⟨token :: ts, by simp only [e, Except.map]⟩

theorem hasInvalid_of_recognized (l : List Char) (h : ∀ c ∈ l, recognized c = true) :
    hasInvalid l = false := by
  have := hasInvalid_append l [] h
  simpa [hasInvalid] using this

theorem hasInvalid_of_split (pre : List Char) (c : Char) (post : List Char)
    (hc : recognized c = false) (hne : ¬ (c = '!' ∧ ∃ d post', post = '=' :: d :: post')) :
    hasInvalid (pre ++ c :: post) = true := by
  induction pre with
  | nil =>
    have : (c == '!' && continuesNotEqual post) = false := by
      cases h : (c == '!' && continuesNotEqual post) with
      | false => rfl
      | true =>
        exfalso
        simp only [Bool.and_eq_true, beq_iff_eq] at h
        apply hne
        exact ⟨h.1, continuesNotEqual_true post h.2⟩
    simp [hasInvalid, hc, this]
  | cons x xs ih => simp [hasInvalid, ih]

/-! ## Claims about the lexer -/

/-- C2: `Tokenize` never uses up its budget (it terminates on every input); it
returns a token sequence when every character is white space, a letter, an
ASCII digit or one of the single-character tokens; and it panics with
"Invalid Token" when some character is none of these and is not a `!` that
starts a `!=` followed by at least one more character. -/
theorem C2_tokenize_fails_exactly_on_unrecognized (input : String) :
    Tokenize input ≠ .error .fuel ∧
    ((∀ c ∈ input.data, recognized c = true) → ∃ ts, Tokenize input = .ok ts) ∧
    (∀ pre c post, input.data = pre ++ c :: post → recognized c = false →
      ¬ (c = '!' ∧ ∃ d post', post = '=' :: d :: post') →
      Tokenize input = .error (.panic "Invalid Token")) := by
  refine ⟨?_, ?_, ?_⟩
  · exact tokenizeLoop_total _ _ (Nat.lt_succ_self _)
  · intro h
    exact tokenizeLoop_valid _ _ (Nat.lt_succ_self _) (hasInvalid_of_recognized _ h)
  · intro pre c post hsplit hc hne
    apply tokenizeLoop_invalid _ _ (Nat.lt_succ_self _)
    rw [hsplit]
    exact hasInvalid_of_split pre c post hc hne

/-- C2 at two inputs: `var x = 1;` is tokenized, `a, b` is not. -/
theorem C2_witness :
    (∃ ts, Tokenize "var x = 1;" = .ok ts) ∧
    Tokenize "a, b" = .error (.panic "Invalid Token") :=
  ⟨(C2_tokenize_fails_exactly_on_unrecognized "var x = 1;").2.1 (by decide),
   (C2_tokenize_fails_exactly_on_unrecognized "a, b").2.2 ['a'] ',' [' ', 'b'] rfl (by decide)
     (by simp)⟩

/-- `Tokenize` succeeds exactly on the inputs without an invalid character. -/
theorem tokenize_ok_iff (input : String) :
    (∃ ts, Tokenize input = .ok ts) ↔ hasInvalid input.data = false := by
  constructor
  · rintro ⟨ts, h⟩
    cases hb : hasInvalid input.data with
    | false => rfl
    | true =>
      have := tokenizeLoop_invalid _ _ (Nat.lt_succ_self input.data.length) hb
      unfold Tokenize at h
      rw [this] at h
      cases h
  · exact tokenizeLoop_valid _ _ (Nat.lt_succ_self _)

/-- C3: a keyword that ends the input is lexed as an identifier: each keyword as
the whole input, and `break` at the end of `x = 1; break`. -/
theorem C3_keyword_at_end_is_identifier :
    keywords.map Tokenize =
      keywords.map (fun kw =>
        .ok [{ tokenType := TokenTypeIdentifier, str := kw, value := 0 }, eofToken]) ∧
    Tokenize "x = 1; break" =
      .ok [{ tokenType := TokenTypeIdentifier, str := "x", value := 0 },
           { tokenType := TokenTypeReserved, str := "=", value := 0 },
           { tokenType := TokenTypeNumber, str := "1", value := 1 },
           { tokenType := TokenTypeReserved, str := ";", value := 0 },
           { tokenType := TokenTypeIdentifier, str := "break", value := 0 }, eofToken] := by
  decide

/-- C4 as stated fails: `iffy` is lexed as the keyword `if` followed by the
identifier `fy`, not as the single identifier `iffy`. -/
theorem C4_iffy_counterexample :
    Tokenize "iffy" =
      .ok [{ tokenType := TokenTypeReserved, str := "if", value := 0 },
           { tokenType := TokenTypeIdentifier, str := "fy", value := 0 }, eofToken] ∧
    Tokenize "iffy" ≠
      .ok [{ tokenType := TokenTypeIdentifier, str := "iffy", value := 0 }, eofToken] := by
  decide

theorem matchPrefix_keyword (kw : String) (c : Char) (rest : List Char) (hkw : kw ∈ keywords) :
    matchPrefix (kw.data ++ c :: rest) = some kw := by
  simp only [keywords, List.mem_cons, List.mem_singleton, List.not_mem_nil, or_false] at hkw
  rcases hkw with rfl | rfl | rfl | rfl | rfl | rfl | rfl <;>
    simp [matchPrefix, prefixes, List.find?]

/-- C4 as amended: where the text still to be lexed starts with a keyword
followed by at least one more character, the loop links a Reserved token for
the keyword and goes on with what follows it; so does `Tokenize` on an input
that starts with a keyword. -/
theorem C4_keyword_prefix_is_reserved (kw : String) (c : Char) (rest : List Char)
    (hkw : kw ∈ keywords) :
    (∀ fuel, (kw.data ++ c :: rest).length < fuel →
      tokenizeLoop fuel (kw.data ++ c :: rest) =
        (tokenizeLoop fuel (c :: rest)).map fun ts =>
          { tokenType := TokenTypeReserved, str := kw, value := 0 } :: ts) ∧
    Tokenize (String.mk (kw.data ++ c :: rest)) =
      (Tokenize (String.mk (c :: rest))).map fun ts =>
        { tokenType := TokenTypeReserved, str := kw, value := 0 } :: ts := by
  have hstep : ∀ fuel, (kw.data ++ c :: rest).length < fuel + 1 →
      tokenizeLoop (fuel + 1) (kw.data ++ c :: rest) =
        (tokenizeLoop fuel (c :: rest)).map fun ts =>
          { tokenType := TokenTypeReserved, str := kw, value := 0 } :: ts := by
    intro fuel _
    have hmp := matchPrefix_keyword kw c rest hkw
    obtain ⟨k0, ks, hk⟩ : ∃ k0 ks, kw.data = k0 :: ks := by
      simp only [keywords, List.mem_cons, List.mem_singleton, List.not_mem_nil, or_false] at hkw
      rcases hkw with rfl | rfl | rfl | rfl | rfl | rfl | rfl <;> exact ⟨_, _, rfl⟩
    have hsp : isSpace k0 = false := by
      simp only [keywords, List.mem_cons, List.mem_singleton, List.not_mem_nil, or_false] at hkw
      rcases hkw with rfl | rfl | rfl | rfl | rfl | rfl | rfl <;>
        (injection hk with h1 _; subst h1; decide)
    have hdrop : (kw.data ++ c :: rest).drop kw.data.length = c :: rest := by simp
    rw [hk, List.cons_append] at hmp ⊢
    rw [tokenizeLoop_cons, tokenizeStep_prefix k0 _ kw hsp hmp]
    simp only
    rw [← List.cons_append, ← hk, hdrop]
  constructor
  · intro fuel hf
    cases fuel with
    | zero => omega
    | succ n =>
      rw [hstep n hf]
      have hlen : (c :: rest).length < n := by
        simp only [List.length_append, List.length_cons] at hf ⊢
        have : 0 < kw.data.length := by
          simp only [keywords, List.mem_cons, List.mem_singleton, List.not_mem_nil,
            or_false] at hkw
          rcases hkw with rfl | rfl | rfl | rfl | rfl | rfl | rfl <;> decide
        omega
      rw [tokenizeLoop_fuel n (n + 1) (c :: rest) hlen (by omega)]
  · unfold Tokenize
    simp only
    rw [hstep _ (Nat.lt_succ_self _)]
    have hlen : (c :: rest).length < (kw.data ++ c :: rest).length := by
      simp only [List.length_append, List.length_cons]
      have : 0 < kw.data.length := by
        simp only [keywords, List.mem_cons, List.mem_singleton, List.not_mem_nil,
          or_false] at hkw
        rcases hkw with rfl | rfl | rfl | rfl | rfl | rfl | rfl <;> decide
      omega
    rw [tokenizeLoop_fuel _ ((c :: rest).length + 1) (c :: rest) hlen (Nat.lt_succ_self _)]

/-- C4 as amended, at `iffy`: the tokens are `if` and then those of `fy`. -/
theorem C4_witness :
    "if" ∈ keywords ∧
    Tokenize (String.mk ("if".data ++ 'f' :: ['y'])) =
      (Tokenize (String.mk ('f' :: ['y']))).map fun ts =>
        { tokenType := TokenTypeReserved, str := "if", value := 0 } :: ts :=
  ⟨by decide, (C4_keyword_prefix_is_reserved "if" 'f' ['y'] (by decide)).2⟩

/-- C5: re-lexing changes the token kinds when the input ends in a
multi-character operator or keyword followed by white space: `a == ` has the
kinds Identifier, Reserved, Eof and its rebuilt text `a ==` has Identifier,
Reserved, Reserved, Eof; `if ` has Reserved, Eof and `if` has Identifier, Eof;
the rebuilt text of `a != ` is not tokenized at all. -/
theorem C5_relex_changes_kinds :
    tokenKinds "a == " = .ok [TokenTypeIdentifier, TokenTypeReserved, TokenTypeEof] ∧
    relexKinds "a == " =
      .ok [TokenTypeIdentifier, TokenTypeReserved, TokenTypeReserved, TokenTypeEof] ∧
    tokenKinds "if " = .ok [TokenTypeReserved, TokenTypeEof] ∧
    relexKinds "if " = .ok [TokenTypeIdentifier, TokenTypeEof] ∧
    tokenKinds "a != " = .ok [TokenTypeIdentifier, TokenTypeReserved, TokenTypeEof] ∧
    relexKinds "a != " = .error (.panic "Invalid Token") := by
  decide

/-- No source text with a comma in it is tokenized. -/
theorem tokenize_comma (input : String) (h : ',' ∈ input.data) :
    Tokenize input = .error (.panic "Invalid Token") := by
  obtain ⟨pre, post, hsplit⟩ := List.append_of_mem h
  apply tokenizeLoop_invalid _ _ (Nat.lt_succ_self _)
  rw [hsplit]
  exact hasInvalid_of_split pre ',' post (by decide) (by simp)

/-- C6: the program with comma-separated parameters and arguments is rejected
by `Tokenize`, so `Parse` is never reached. -/
theorem C6_comma_program_rejected :
    Tokenize "fnc add(a, b) \x7b return a + b; \x7d var x = add(2, 3); printValue(x);" =
      .error (.panic "Invalid Token") ∧
    parseSource "fnc add(a, b) \x7b return a + b; \x7d var x = add(2, 3); printValue(x);" =
      .error (.panic "Invalid Token") := by
  decide

/-! ## Parser: the loops of the binary operators -/

theorem consume_reserved (s : String) (v : Int) (t : List Token) :
    consume s ({ tokenType := TokenTypeReserved, str := s, value := v } :: t) = (true, t) := by
  simp [consume]

theorem consume_of_false (s : String) (toks : List Token) (h : (consume s toks).1 = false) :
    consume s toks = (false, toks) := by
  unfold consume at h ⊢
  split
  · rfl
  · split
    · rename_i hc
      simp [hc] at h
    · rfl

theorem consume_other (s s' : String) (v : Int) (t : List Token) (h : s' ≠ s) :
    consume s ({ tokenType := TokenTypeReserved, str := s', value := v } :: t) =
      (false, { tokenType := TokenTypeReserved, str := s', value := v } :: t) := by
  simp [consume, h]

theorem Level.parser_eq (l : Level) (e : Parser Node) (toks : List Token) :
    l.parser e toks =
      (l.operand e toks).bind fun p => l.loop e (p.2.length + 1) p.1 p.2 := by
  cases l <;> rfl

/-- The loop stops where none of its operators follows. -/
theorem Level.loop_stop (l : Level) (e : Parser Node) (k : Nat) (node : Node)
    (r : List Token) (hr : startsWithNone l.continues r) :
    l.loop e (k + 1) node r = .ok (node, r) := by
  cases l <;>
    simp only [Level.continues, startsWithNone, List.mem_cons, List.mem_singleton,
      List.not_mem_nil, or_false, forall_eq_or_imp, forall_eq] at hr
  · simp only [Level.loop, equalityLoop, consume_of_false _ _ hr.1, consume_of_false _ _ hr.2]
  · simp only [Level.loop, relationalLoop, consume_of_false _ _ hr.1,
      consume_of_false _ _ hr.2.1, consume_of_false _ _ hr.2.2.1, consume_of_false _ _ hr.2.2.2]
  · simp only [Level.loop, addLoop, consume_of_false _ _ hr.1, consume_of_false _ _ hr.2]
  · simp only [Level.loop, mulLoop, consume_of_false _ _ hr.1, consume_of_false _ _ hr.2]

/-- One round of the loop at an operator that keeps the order of its operands. -/
theorem Level.loop_step (l : Level) (e : Parser Node) (k : Nat) (node b : Node)
    (op : String) (ty : NodeType) (v : Int) (t t' : List Token)
    (hop : (op, ty) ∈ l.operators) (hb : l.operand e t = .ok (b, t')) :
    l.loop e (k + 1) node ({ tokenType := TokenTypeReserved, str := op, value := v } :: t) =
      l.loop e k (Node.binary ty node b) t' := by
  cases l <;>
    simp only [Level.operators, List.mem_cons, List.mem_singleton, List.not_mem_nil, or_false,
      Prod.mk.injEq] at hop <;>
    simp only [Level.operand] at hb <;>
    rcases hop with ⟨rfl, rfl⟩ | ⟨rfl, rfl⟩
  · simp only [Level.loop, equalityLoop, consume_reserved, hb, bind, Except.bind]
  · simp only [Level.loop, equalityLoop, consume_other "==" "!=" v t (by decide), consume_reserved, hb,
      bind, Except.bind]
  · simp only [Level.loop, relationalLoop, consume_reserved, hb, bind, Except.bind]
  · simp only [Level.loop, relationalLoop, consume_other "<" "<=" v t (by decide), consume_reserved, hb,
      bind, Except.bind]
  · simp only [Level.loop, addLoop, consume_reserved, hb, bind, Except.bind]
  · simp only [Level.loop, addLoop, consume_other "+" "-" v t (by decide), consume_reserved, hb,
      bind, Except.bind]
  · simp only [Level.loop, mulLoop, consume_reserved, hb, bind, Except.bind]
  · simp only [Level.loop, mulLoop, consume_other "*" "/" v t (by decide), consume_reserved, hb,
      bind, Except.bind]

/-- A level with no operator after its first operand returns that operand. -/
theorem Level.parser_single (l : Level) (e : Parser Node) (toks r : List Token) (a : Node)
    (ha : l.operand e toks = .ok (a, r)) (hr : startsWithNone l.continues r) :
    l.parser e toks = .ok (a, r) := by
  rw [Level.parser_eq, ha]
  exact Level.loop_stop l e _ a r hr

/-- A level with one operator between two operands builds one node. -/
theorem Level.parser_pair (l : Level) (e : Parser Node) (toks t r : List Token) (a b : Node)
    (op : String) (ty : NodeType) (v : Int) (hop : (op, ty) ∈ l.operators)
    (ha : l.operand e toks = .ok (a, { tokenType := TokenTypeReserved, str := op, value := v } :: t))
    (hb : l.operand e t = .ok (b, r)) (hr : startsWithNone l.continues r) :
    l.parser e toks = .ok (Node.binary ty a b, r) := by
  rw [Level.parser_eq, ha]
  simp only [Except.bind, List.length_cons]
  rw [Level.loop_step l e _ a b op ty v t r hop hb]
  exact Level.loop_stop l e _ _ r hr

/-- No operand can be read where the tokens have run out. -/
theorem Level.operand_nil (l : Level) (e : Parser Node) :
    l.operand e [] = .error (.panic "invalid token") := by
  cases l <;>
    simp [Level.operand, Carrot.relational, Carrot.add, Carrot.mul, unary, primary, consume, consumeIdentifier,
      expectNumber, bind, Except.bind]

theorem startsWithNone_reserved (ops : List String) (s : String) (v : Int) (t : List Token)
    (h : s ∉ ops) :
    startsWithNone ops ({ tokenType := TokenTypeReserved, str := s, value := v } :: t) := by
  intro op hop
  have : s ≠ op := fun e => h (e ▸ hop)
  simp [consume, this]

theorem startsWithNone_mono (ops ops' : List String) (r : List Token) (hsub : ∀ s ∈ ops, s ∈ ops')
    (h : startsWithNone ops' r) : startsWithNone ops r :=
  fun op hop => h op (hsub op hop)

/-- `primary` does not succeed on a sign, so `unary` is `primary` wherever
`primary` succeeds. -/
theorem unary_of_primary (e : Parser Node) (toks : List Token) (x : Node × List Token)
    (h : primary e toks = .ok x) : unary e toks = .ok x := by
  have key : ∀ s : String, s ≠ "(" → consume s toks = (false, toks) := by
    intro s hs
    apply consume_of_false
    cases toks with
    | nil => rfl
    | cons t ts =>
      by_cases hc : t.tokenType = TokenTypeReserved ∧ t.str = s
      · exfalso
        have h1 : ¬ (t.tokenType = TokenTypeReserved ∧ t.str = "(") := by
          rintro ⟨-, h2⟩
          exact hs (hc.2 ▸ h2)
        have h2 : t.tokenType ≠ TokenTypeIdentifier := by
          rw [hc.1]
          decide
        have h3 : t.tokenType ≠ TokenTypeNumber := by
          rw [hc.1]
          decide
        simp [primary, consume, consumeIdentifier, expectNumber, h1, h2, h3, bind,
          Except.bind] at h
      · simp [consume, hc]
  simp only [unary, key "+" (by decide), key "-" (by decide), h]

/-- C7: at each of the four levels, where the operand method reads `a`, then
`b` after an operator `op1`, then `c` after an operator `op2` of that level, and
no operator of the level follows, the method of the level returns
`op2(op1(a, b), c)`. -/
theorem C7_binary_operators_left_associative (l : Level) (d : Nat)
    (toks t1 t2 rest : List Token) (a b c : Node) (op1 op2 : String) (ty1 ty2 : NodeType)
    (v1 v2 : Int)
    (h1 : (op1, ty1) ∈ l.operators) (h2 : (op2, ty2) ∈ l.operators)
    (ha : l.operand (expr d) toks =
      .ok (a, { tokenType := TokenTypeReserved, str := op1, value := v1 } :: t1))
    (hb : l.operand (expr d) t1 =
      .ok (b, { tokenType := TokenTypeReserved, str := op2, value := v2 } :: t2))
    (hc : l.operand (expr d) t2 = .ok (c, rest))
    (hrest : startsWithNone l.continues rest) :
    l.parser (expr d) toks = .ok (Node.binary ty2 (Node.binary ty1 a b) c, rest) := by
  rw [Level.parser_eq, ha]
  cases t1 with
  | nil =>
    rw [Level.operand_nil] at hb
    cases hb
  | cons x xs =>
    simp only [Except.bind, List.length_cons]
    rw [Level.loop_step l _ _ a b op1 ty1 v1 (x :: xs) _ h1 hb,
      Level.loop_step l _ _ _ c op2 ty2 v2 t2 rest h2 hc]
    exact Level.loop_stop l _ _ _ rest hrest

/-- C7 at `a < b < c;`: `relational` returns `LT(LT(a, b), c)` and stops at
`;`, and `Parse` of the source returns that tree. -/
theorem C7_witness :
    Level.relational.parser (expr 0)
        [identifier "a", reserved "<", identifier "b", reserved "<", identifier "c",
         reserved ";", eofToken] =
      .ok (Node.binary NodeTypeLT (Node.binary NodeTypeLT (Node.lvar "a") (Node.lvar "b"))
            (Node.lvar "c"), [reserved ";", eofToken]) ∧
    parseSource "a < b < c;" =
      .ok (Node.binary NodeTypeLT (Node.binary NodeTypeLT (Node.lvar "a") (Node.lvar "b"))
            (Node.lvar "c")) :=
  ⟨C7_binary_operators_left_associative Level.relational 0 _
      [identifier "b", reserved "<", identifier "c", reserved ";", eofToken]
      [identifier "c", reserved ";", eofToken] [reserved ";", eofToken]
      (Node.lvar "a") (Node.lvar "b") (Node.lvar "c") "<" "<" NodeTypeLT NodeTypeLT 0 0
      (by decide) (by decide) (by decide) (by decide) (by decide)
      (startsWithNone_reserved _ ";" 0 [eofToken] (by decide)),
   by decide⟩

/-! ## Parser: precedence -/

theorem unary_isPrimary (d : Nat) (ta : List Token) (a : Node) (h : IsPrimary d ta a)
    (e : Nat) (he : d ≤ e) (r : List Token) (hr : startsWithNone ["("] r) :
    unary (expr e) (ta ++ r) = .ok (a, r) :=
  unary_of_primary _ _ _ (h e he r hr)

theorem relational_of_add (p : Parser Node) (toks r : List Token) (x : Node)
    (h : add p toks = .ok (x, r)) (hr : startsWithNone ["<", "<=", ">", ">="] r) :
    relational p toks = .ok (x, r) :=
  Level.parser_single .relational p toks r x h hr

theorem equality_of_relational (p : Parser Node) (toks r : List Token) (x : Node)
    (h : relational p toks = .ok (x, r)) (hr : startsWithNone ["==", "!="] r) :
    equality p toks = .ok (x, r) :=
  Level.parser_single .equality p toks r x h hr

theorem add_of_mul (p : Parser Node) (toks r : List Token) (x : Node)
    (h : mul p toks = .ok (x, r)) (hr : startsWithNone ["+", "-"] r) :
    add p toks = .ok (x, r) :=
  Level.parser_single .additive p toks r x h hr

theorem mul_of_unary (p : Parser Node) (toks r : List Token) (x : Node)
    (h : unary p toks = .ok (x, r)) (hr : startsWithNone ["*", "/"] r) :
    mul p toks = .ok (x, r) :=
  Level.parser_single .multiplicative p toks r x h hr

/-- A parenthesised expression is a primary with the node of the expression. -/
theorem primary_paren (p : Parser Node) (toks r : List Token) (x : Node) (v v' : Int)
    (h : p toks = .ok (x, { tokenType := TokenTypeReserved, str := ")", value := v' } :: r)) :
    primary p ({ tokenType := TokenTypeReserved, str := "(", value := v } :: toks) =
      .ok (x, r) := by
  simp [primary, consume, h, bind, Except.bind, expect, pure, Except.pure]

/-- C8: for primaries `a`, `b`, `c` (token lists `ta`, `tb`, `tc`) and a rest
that starts with no binary operator and no `(`, `expr` returns
`Sum(a, Mul(b, c))` for `a + b * c`, `Sum(Mul(a, b), c)` for `a * b + c`,
`LT(a, Sum(b, c))` for `a < b + c`, `Equal(a, LT(b, c))` for `a == b < c`, and
`Mul(Sum(a, b), c)` for `(a + b) * c`, each time leaving the rest. -/
theorem C8_precedence (d : Nat) (ta tb tc rest : List Token) (a b c : Node)
    (ha : IsPrimary d ta a) (hb : IsPrimary d tb b) (hc : IsPrimary d tc c)
    (hrest : startsWithNone ("(" :: binaryOperators) rest) (e : Nat) (he : d ≤ e) :
    expr (e + 1) (ta ++ (reserved "+" :: (tb ++ (reserved "*" :: (tc ++ rest))))) =
      .ok (Node.binary NodeTypeSum a (Node.binary NodeTypeMul b c), rest) ∧
    expr (e + 1) (ta ++ (reserved "*" :: (tb ++ (reserved "+" :: (tc ++ rest))))) =
      .ok (Node.binary NodeTypeSum (Node.binary NodeTypeMul a b) c, rest) ∧
    expr (e + 1) (ta ++ (reserved "<" :: (tb ++ (reserved "+" :: (tc ++ rest))))) =
      .ok (Node.binary NodeTypeLT a (Node.binary NodeTypeSum b c), rest) ∧
    expr (e + 1) (ta ++ (reserved "==" :: (tb ++ (reserved "<" :: (tc ++ rest))))) =
      .ok (Node.binary NodeTypeEqual a (Node.binary NodeTypeLT b c), rest) ∧
    expr (e + 2)
        (reserved "(" :: (ta ++ (reserved "+" :: (tb ++
          (reserved ")" :: reserved "*" :: (tc ++ rest)))))) =
      .ok (Node.binary NodeTypeMul (Node.binary NodeTypeSum a b) c, rest) := by
  have sub : ∀ ops : List String, (∀ s ∈ ops, s ∈ "(" :: binaryOperators) →
      startsWithNone ops rest := fun ops h => startsWithNone_mono ops _ rest h hrest
  have rs : ∀ (ops : List String) (s : String) (t : List Token), s ∉ ops →
      startsWithNone ops (reserved s :: t) := fun ops s t h =>
    startsWithNone_reserved ops s 0 t h
  -- the last operand, at both budgets
  have uc : ∀ e', d ≤ e' → unary (expr e') (tc ++ rest) = .ok (c, rest) := fun e' he' =>
    unary_isPrimary d tc c hc e' he' rest (sub _ (by decide))
  have mc : ∀ e', d ≤ e' → mul (expr e') (tc ++ rest) = .ok (c, rest) := fun e' he' =>
    mul_of_unary _ _ _ _ (uc e' he') (sub _ (by decide))
  have ua : ∀ (s : String) (t : List Token), s ≠ "(" →
      unary (expr e) (ta ++ (reserved s :: t)) = .ok (a, reserved s :: t) := fun s t hs =>
    unary_isPrimary d ta a ha e he _ (rs _ s t (by simpa using hs))
  have ub : ∀ (s : String) (t : List Token), s ≠ "(" →
      unary (expr e) (tb ++ (reserved s :: t)) = .ok (b, reserved s :: t) := fun s t hs =>
    unary_isPrimary d tb b hb e he _ (rs _ s t (by simpa using hs))
  have ma : ∀ (s : String) (t : List Token), s ∉ ["(", "*", "/"] →
      mul (expr e) (ta ++ (reserved s :: t)) = .ok (a, reserved s :: t) := fun s t hs =>
    mul_of_unary _ _ _ _ (ua s t (fun h => hs (by simp [h])))
      (rs _ s t (fun h => hs (by simp only [List.mem_cons] at h ⊢; exact Or.inr h)))
  have mb : ∀ (s : String) (t : List Token), s ∉ ["(", "*", "/"] →
      mul (expr e) (tb ++ (reserved s :: t)) = .ok (b, reserved s :: t) := fun s t hs =>
    mul_of_unary _ _ _ _ (ub s t (fun h => hs (by simp [h])))
      (rs _ s t (fun h => hs (by simp only [List.mem_cons] at h ⊢; exact Or.inr h)))
  refine ⟨?_, ?_, ?_, ?_, ?_⟩
  · -- a + b * c
    show equality (expr e) _ = _
    refine equality_of_relational _ _ _ _ ?_ (sub _ (by decide))
    refine relational_of_add _ _ _ _ ?_ (sub _ (by decide))
    refine Level.parser_pair .additive (expr e) _ _ rest a _ "+" NodeTypeSum 0 (by decide)
      (ma "+" _ (by decide)) ?_ (sub _ (by decide))
    exact Level.parser_pair .multiplicative (expr e) _ _ rest b c "*" NodeTypeMul 0
      (by decide) (ub "*" _ (by decide)) (uc e he) (sub _ (by decide))
  · -- a * b + c
    show equality (expr e) _ = _
    refine equality_of_relational _ _ _ _ ?_ (sub _ (by decide))
    refine relational_of_add _ _ _ _ ?_ (sub _ (by decide))
    refine Level.parser_pair .additive (expr e) _ _ rest _ c "+" NodeTypeSum 0 (by decide)
      ?_ (mc e he) (sub _ (by decide))
    exact Level.parser_pair .multiplicative (expr e) _ _ _ a b "*" NodeTypeMul 0
      (by decide) (ua "*" _ (by decide)) (ub "+" _ (by decide)) (rs _ "+" _ (by decide))
  · -- a < b + c
    show equality (expr e) _ = _
    refine equality_of_relational _ _ _ _ ?_ (sub _ (by decide))
    refine Level.parser_pair .relational (expr e) _ _ rest a _ "<" NodeTypeLT 0 (by decide)
      (add_of_mul _ _ _ _ (ma "<" _ (by decide)) (rs _ "<" _ (by decide))) ?_
      (sub _ (by decide))
    exact Level.parser_pair .additive (expr e) _ _ rest b c "+" NodeTypeSum 0 (by decide)
      (mb "+" _ (by decide)) (mc e he) (sub _ (by decide))
  · -- a == b < c
    show equality (expr e) _ = _
    refine Level.parser_pair .equality (expr e) _ _ rest a _ "==" NodeTypeEqual 0 (by decide)
      (relational_of_add _ _ _ _
        (add_of_mul _ _ _ _ (ma "==" _ (by decide)) (rs _ "==" _ (by decide)))
        (rs _ "==" _ (by decide))) ?_ (sub _ (by decide))
    exact Level.parser_pair .relational (expr e) _ _ rest b c "<" NodeTypeLT 0 (by decide)
      (add_of_mul _ _ _ _ (mb "<" _ (by decide)) (rs _ "<" _ (by decide)))
      (add_of_mul _ _ _ _ (mc e he) (sub _ (by decide))) (sub _ (by decide))
  · -- (a + b) * c
    have inner : expr (e + 1) (ta ++ (reserved "+" :: (tb ++
        (reserved ")" :: reserved "*" :: (tc ++ rest))))) =
        .ok (Node.binary NodeTypeSum a b, reserved ")" :: reserved "*" :: (tc ++ rest)) := by
      show equality (expr e) _ = _
      refine equality_of_relational _ _ _ _ ?_ (rs _ ")" _ (by decide))
      refine relational_of_add _ _ _ _ ?_ (rs _ ")" _ (by decide))
      exact Level.parser_pair .additive (expr e) _ _ _ a b "+" NodeTypeSum 0 (by decide)
        (ma "+" _ (by decide)) (mb ")" _ (by decide)) (rs _ ")" _ (by decide))
    have pAB : primary (expr (e + 1)) (reserved "(" :: (ta ++ (reserved "+" :: (tb ++
        (reserved ")" :: reserved "*" :: (tc ++ rest)))))) =
        .ok (Node.binary NodeTypeSum a b, reserved "*" :: (tc ++ rest)) := by
      exact primary_paren (expr (e + 1)) _ _ _ 0 0 inner
    show equality (expr (e + 1)) _ = _
    refine equality_of_relational _ _ _ _ ?_ (sub _ (by decide))
    refine relational_of_add _ _ _ _ ?_ (sub _ (by decide))
    refine add_of_mul _ _ _ _ ?_ (sub _ (by decide))
    exact Level.parser_pair .multiplicative (expr (e + 1)) _ _ rest _ c "*" NodeTypeMul 0
      (by decide) (unary_of_primary _ _ _ pAB) (uc (e + 1) (by omega)) (sub _ (by decide))

/-- A name that is not followed by `(` is a primary, at every budget. -/
theorem isPrimary_identifier (name : String) (h : name ≠ "") :
    IsPrimary 0 [identifier name] (Node.lvar name) := by
  intro e _ r hr
  have hc := consume_of_false "(" r (hr "(" (by simp))
  have h1 : consume "(" ([identifier name] ++ r) = (false, [identifier name] ++ r) := by
    simp [consume, identifier]
  have h2 : consumeIdentifier ([identifier name] ++ r) = (name, r) := by
    simp [consumeIdentifier, identifier]
  simp only [primary, h1, h2, hc, ne_eq, h, not_false_eq_true, if_true]

/-- C8 at the names `a`, `b`, `c` followed by `;`, and `Parse` of two of the
source texts. -/
theorem C8_witness :
    (expr 1 ([identifier "a"] ++ (reserved "+" :: ([identifier "b"] ++ (reserved "*" ::
        ([identifier "c"] ++ [reserved ";", eofToken]))))) =
      .ok (Node.binary NodeTypeSum (Node.lvar "a")
            (Node.binary NodeTypeMul (Node.lvar "b") (Node.lvar "c")), [reserved ";", eofToken]) ∧
    expr 1 ([identifier "a"] ++ (reserved "*" :: ([identifier "b"] ++ (reserved "+" ::
        ([identifier "c"] ++ [reserved ";", eofToken]))))) =
      .ok (Node.binary NodeTypeSum (Node.binary NodeTypeMul (Node.lvar "a") (Node.lvar "b"))
            (Node.lvar "c"), [reserved ";", eofToken]) ∧
    expr 1 ([identifier "a"] ++ (reserved "<" :: ([identifier "b"] ++ (reserved "+" ::
        ([identifier "c"] ++ [reserved ";", eofToken]))))) =
      .ok (Node.binary NodeTypeLT (Node.lvar "a")
            (Node.binary NodeTypeSum (Node.lvar "b") (Node.lvar "c")), [reserved ";", eofToken]) ∧
    expr 1 ([identifier "a"] ++ (reserved "==" :: ([identifier "b"] ++ (reserved "<" ::
        ([identifier "c"] ++ [reserved ";", eofToken]))))) =
      .ok (Node.binary NodeTypeEqual (Node.lvar "a")
            (Node.binary NodeTypeLT (Node.lvar "b") (Node.lvar "c")), [reserved ";", eofToken]) ∧
    expr 2 (reserved "(" :: ([identifier "a"] ++ (reserved "+" :: ([identifier "b"] ++
        (reserved ")" :: reserved "*" :: ([identifier "c"] ++ [reserved ";", eofToken])))))) =
      .ok (Node.binary NodeTypeMul (Node.binary NodeTypeSum (Node.lvar "a") (Node.lvar "b"))
            (Node.lvar "c"), [reserved ";", eofToken])) ∧
    parseSource "a + b * c;" =
      .ok (Node.binary NodeTypeSum (Node.lvar "a")
            (Node.binary NodeTypeMul (Node.lvar "b") (Node.lvar "c"))) ∧
    parseSource "(a + b) * c;" =
      .ok (Node.binary NodeTypeMul (Node.binary NodeTypeSum (Node.lvar "a") (Node.lvar "b"))
            (Node.lvar "c")) :=
  ⟨C8_precedence 0 [identifier "a"] [identifier "b"] [identifier "c"] [reserved ";", eofToken]
      (Node.lvar "a") (Node.lvar "b") (Node.lvar "c")
      (isPrimary_identifier "a" (by decide)) (isPrimary_identifier "b" (by decide))
      (isPrimary_identifier "c" (by decide))
      (startsWithNone_reserved _ ";" 0 [eofToken] (by decide)) 0 (Nat.le_refl 0),
   by decide, by decide⟩

/-! ## Parser: statements -/

/-- Where the next token cannot start an expression, `expr` panics in
`expectNumber`. -/
theorem expr_not_start (d : Nat) (t : Token) (rest : List Token)
    (ht : startsExpression t = false) :
    expr (d + 1) (t :: rest) = .error (.panic "expected number") := by
  simp only [startsExpression, Bool.or_eq_false_iff, decide_eq_false_iff_not,
    Bool.and_eq_false_imp, decide_eq_true_eq, Bool.or_eq_false_iff] at ht
  obtain ⟨⟨h1, h2⟩, h3⟩ := ht
  have c1 : ¬ (t.tokenType = TokenTypeReserved ∧ t.str = "(") := fun h => (h3 h.1).1.1 h.2
  have c2 : ¬ (t.tokenType = TokenTypeReserved ∧ t.str = "+") := fun h => (h3 h.1).1.2 h.2
  have c3 : ¬ (t.tokenType = TokenTypeReserved ∧ t.str = "-") := fun h => (h3 h.1).2 h.2
  simp [expr, equality, relational, add, mul, unary, primary, consume, consumeIdentifier,
    expectNumber, bind, Except.bind, h1, h2, c1, c2, c3]

/-- A name followed by `=` is read by `expr` as a variable, up to the `=`; a
name with the empty lexeme makes `expr` panic. -/
theorem expr_name_assign (d : Nat) (name : String) (v1 v2 : Int) (rest : List Token) :
    expr (d + 1) ({ tokenType := TokenTypeIdentifier, str := name, value := v1 } ::
        { tokenType := TokenTypeReserved, str := "=", value := v2 } :: rest) =
      if name = "" then .error (.panic "expected number")
      else .ok (Node.lvar name, { tokenType := TokenTypeReserved, str := "=", value := v2 } :: rest) := by
  by_cases h : name = ""
  · simp [expr, equality, relational, add, mul, unary, primary, consume, consumeIdentifier,
      expectNumber, bind, Except.bind, h]
  · rw [if_neg h]
    have hp : primary (expr d) ({ tokenType := TokenTypeIdentifier, str := name, value := v1 } ::
        { tokenType := TokenTypeReserved, str := "=", value := v2 } :: rest) =
        .ok (Node.lvar name, { tokenType := TokenTypeReserved, str := "=", value := v2 } :: rest) := by
      simp [primary, consume, consumeIdentifier, h]
    show equality (expr d) _ = _
    refine equality_of_relational _ _ _ _ ?_ (startsWithNone_reserved _ "=" v2 rest (by decide))
    refine relational_of_add _ _ _ _ ?_ (startsWithNone_reserved _ "=" v2 rest (by decide))
    refine add_of_mul _ _ _ _ ?_ (startsWithNone_reserved _ "=" v2 rest (by decide))
    exact mul_of_unary _ _ _ _ (unary_of_primary _ _ _ hp)
      (startsWithNone_reserved _ "=" v2 rest (by decide))

/-- The `var` case of `stmt`. -/
theorem stmt_var (d : Nat) (v0 : Int) (toks : List Token) :
    stmt (d + 1) ({ tokenType := TokenTypeReserved, str := "var", value := v0 } :: toks) =
      (expr d toks).bind fun p =>
        match consume "=" p.2 with
        | (true, toks) =>
          (expr d toks).bind fun q =>
            (expect ";" q.2).bind fun u => .ok (Node.binary NodeTypeAlloc p.1 q.1, u.2)
        | (false, toks) => (expect ";" toks).bind fun u => .ok (p.1, u.2) := by
  rw [stmt]
  simp only [consume_other "fnc" "var" v0 toks (by decide),
    consume_other "return" "var" v0 toks (by decide),
    consume_other "if" "var" v0 toks (by decide),
    consume_other "for" "var" v0 toks (by decide),
    consume_other "break" "var" v0 toks (by decide),
    consume_other "\x7b" "var" v0 toks (by decide), consume_reserved]
  rfl

/-- C9: a token list that starts with `var`, a name, `=` and a token that
cannot start an expression makes `stmt` (at every budget that lets it reach
the expressions) and `Parse` panic with "expected number"; no node is returned. -/
theorem C9_missing_initializer_rejected (name : String) (v0 v1 v2 : Int) (t : Token)
    (rest : List Token) (ht : startsExpression t = false) :
    (∀ d, stmt (d + 2)
        ({ tokenType := TokenTypeReserved, str := "var", value := v0 } ::
         { tokenType := TokenTypeIdentifier, str := name, value := v1 } ::
         { tokenType := TokenTypeReserved, str := "=", value := v2 } :: t :: rest) =
      .error (.panic "expected number")) ∧
    Parse ({ tokenType := TokenTypeReserved, str := "var", value := v0 } ::
        { tokenType := TokenTypeIdentifier, str := name, value := v1 } ::
        { tokenType := TokenTypeReserved, str := "=", value := v2 } :: t :: rest) =
      .error (.panic "expected number") := by
  have hs : ∀ d, stmt (d + 1 + 1)
      ({ tokenType := TokenTypeReserved, str := "var", value := v0 } ::
        { tokenType := TokenTypeIdentifier, str := name, value := v1 } ::
        { tokenType := TokenTypeReserved, str := "=", value := v2 } :: t :: rest) =
      .error (.panic "expected number") := by
    intro d
    rw [stmt_var, expr_name_assign]
    by_cases h : name = ""
    · rw [if_pos h]
      rfl
    · rw [if_neg h]
      simp only [Except.bind, consume_reserved, expr_not_start _ t rest ht]
  refine ⟨hs, ?_⟩
  have hlen : ({ tokenType := TokenTypeReserved, str := "var", value := v0 } ::
        { tokenType := TokenTypeIdentifier, str := name, value := v1 } ::
        { tokenType := TokenTypeReserved, str := "=", value := v2 } :: t :: rest : List Token).length
        + 2 = (rest.length + 4) + 1 + 1 := by
    simp only [List.length_cons]
  unfold Parse program
  rw [hlen, hs]
  rfl

/-- C9 at the tokens of `var x = ;`. -/
theorem C9_witness :
    Tokenize "var x = ;" =
      .ok [reserved "var", identifier "x", reserved "=", reserved ";", eofToken] ∧
    Parse [reserved "var", identifier "x", reserved "=", reserved ";", eofToken] =
      .error (.panic "expected number") :=
  ⟨by decide,
   (C9_missing_initializer_rejected "x" 0 0 0 (reserved ";") [eofToken] (by decide)).2⟩

/-- C10: on the token list of an empty or blank source, which is the
end-of-input token alone, `Parse` panics with "expected number": `program`
calls `stmt` before it looks for the end of the input. -/
theorem C10_empty_program_rejected :
    Tokenize "" = .ok [eofToken] ∧ Tokenize " \n\t " = .ok [eofToken] ∧
    Parse [eofToken] = .error (.panic "expected number") ∧
    parseSource "" = .error (.panic "expected number") := by
  decide

theorem consume_length (s : String) (toks r : List Token) (b : Bool)
    (h : consume s toks = (b, r)) :
    r.length ≤ toks.length ∧ (b = true → r.length < toks.length) := by
  unfold consume at h
  split at h
  · injection h with h1 h2
    subst h1 h2
    simp
  · split at h
    · injection h with h1 h2
      subst h1 h2
      simp
    · injection h with h1 h2
      subst h1 h2
      simp

theorem consumeIdentifier_length (toks : List Token) :
    (consumeIdentifier toks).2.length ≤ toks.length := by
  unfold consumeIdentifier
  split
  · simp
  · split <;> simp

theorem consumeIdentifier_name (toks : List Token) (h : (consumeIdentifier toks).1 ≠ "") :
    (consumeIdentifier toks).2.length < toks.length := by
  cases toks with
  | nil => simp [consumeIdentifier] at h
  | cons t ts =>
    by_cases ht : t.tokenType = TokenTypeIdentifier
    · simp [consumeIdentifier, ht]
    · simp [consumeIdentifier, ht] at h

theorem expect_ok (s : String) (toks r : List Token) (u : Unit)
    (h : expect s toks = .ok (u, r)) : r.length < toks.length := by
  unfold expect at h
  split at h
  · cases h
  · split at h
    · injection h with h
      injection h with _ h2
      subst h2
      simp
    · cases h

theorem expectNumber_ok (toks r : List Token) (n : Int)
    (h : expectNumber toks = .ok (n, r)) : r.length < toks.length := by
  unfold expectNumber at h
  split at h
  · cases h
  · split at h
    · injection h with h
      injection h with _ h2
      subst h2
      simp
    · cases h

theorem expectIdentifier_ok (toks r : List Token) (n : String)
    (h : expectIdentifier toks = .ok (n, r)) : r.length < toks.length := by
  unfold expectIdentifier at h
  split at h
  · cases h
  · split at h
    · injection h with h
      injection h with _ h2
      subst h2
      simp
    · cases h

theorem bind_ok {ε α β : Type} (x : Except ε α) (f : α → Except ε β) (b : β)
    (h : (x >>= f) = .ok b) : ∃ a, x = .ok a ∧ f a = .ok b := by
  cases x with
  | error e => cases h
  | ok a => exact ⟨a, rfl, h⟩

theorem argsLoop_length (e : Parser Node) (he : Shrinks e) (k : Nat) (toks r : List Token)
    (ns : List Node) (h : argsLoop e k toks = .ok (ns, r)) : r.length ≤ toks.length := by
  induction k generalizing toks ns with
  | zero => cases h
  | succ k ih =>
    unfold argsLoop at h
    rcases hc : consume "," toks with ⟨b, t1⟩
    rw [hc] at h
    have hl := consume_length _ _ _ _ hc
    cases b with
    | false =>
      simp only at h
      injection h with h
      injection h with _ h2
      subst h2
      exact hl.1
    | true =>
      simp only at h
      obtain ⟨⟨n1, t2⟩, h1, h2⟩ := bind_ok _ _ _ h
      obtain ⟨⟨n2, t3⟩, h3, h4⟩ := bind_ok _ _ _ h2
      simp only [pure, Except.pure, Except.ok.injEq, Prod.mk.injEq] at h4
      obtain ⟨-, rfl⟩ := h4
      have := he _ _ _ h1
      have := ih _ _ h3
      simp only at this
      omega

theorem shrinks_args (e : Parser Node) (he : Shrinks e) : Shrinks (args e) := by
  intro toks x r h
  unfold args at h
  rcases hc : consume ")" toks with ⟨b, t1⟩
  rw [hc] at h
  have hl := consume_length _ _ _ _ hc
  cases b with
  | true =>
    simp only [Except.ok.injEq, Prod.mk.injEq] at h
    obtain ⟨-, rfl⟩ := h
    exact hl.2 rfl
  | false =>
    simp only at h
    obtain ⟨⟨n1, t2⟩, h1, h2⟩ := bind_ok _ _ _ h
    obtain ⟨⟨n2, t3⟩, h3, h4⟩ := bind_ok _ _ _ h2
    obtain ⟨⟨u, t4⟩, h5, h6⟩ := bind_ok _ _ _ h4
    simp only [pure, Except.pure, Except.ok.injEq, Prod.mk.injEq] at h6
    obtain ⟨-, rfl⟩ := h6
    have := he _ _ _ h1
    have := argsLoop_length e he _ _ _ _ h3
    have := expect_ok _ _ _ _ h5
    simp only at *
    omega

theorem shrinks_primary (e : Parser Node) (he : Shrinks e) : Shrinks (primary e) := by
  intro toks x r h
  unfold primary at h
  rcases hc : consume "(" toks with ⟨b, t1⟩
  rw [hc] at h
  have hl := consume_length _ _ _ _ hc
  cases b with
  | true =>
    simp only at h
    obtain ⟨⟨n1, t2⟩, h1, h2⟩ := bind_ok _ _ _ h
    obtain ⟨⟨u, t3⟩, h3, h4⟩ := bind_ok _ _ _ h2
    simp only [pure, Except.pure, Except.ok.injEq, Prod.mk.injEq] at h4
    obtain ⟨-, rfl⟩ := h4
    have := he _ _ _ h1
    have := expect_ok _ _ _ _ h3
    simp only at *
    omega
  | false =>
    simp only at h
    have hi := consumeIdentifier_length t1
    split at h
    · rcases hc2 : consume "(" (consumeIdentifier t1).2 with ⟨b2, t2⟩
      rw [hc2] at h
      have hl2 := consume_length _ _ _ _ hc2
      cases b2 with
      | true =>
        simp only at h
        obtain ⟨⟨n1, t3⟩, h1, h2⟩ := bind_ok _ _ _ h
        simp only [pure, Except.pure, Except.ok.injEq, Prod.mk.injEq] at h2
        obtain ⟨-, rfl⟩ := h2
        have := shrinks_args e he _ _ _ h1
        have := hl2.2 rfl
        omega
      | false =>
        simp only [Except.ok.injEq, Prod.mk.injEq] at h
        obtain ⟨-, rfl⟩ := h
        rename_i hne
        -- a name was consumed
        have := consumeIdentifier_name t1 hne
        omega
    · obtain ⟨⟨n1, t3⟩, h1, h2⟩ := bind_ok _ _ _ h
      simp only [pure, Except.pure, Except.ok.injEq, Prod.mk.injEq] at h2
      obtain ⟨-, rfl⟩ := h2
      have := expectNumber_ok _ _ _ h1
      omega

theorem shrinks_unary (e : Parser Node) (he : Shrinks e) : Shrinks (unary e) := by
  intro toks x r h
  unfold unary at h
  rcases hc : consume "+" toks with ⟨b, t1⟩
  rw [hc] at h
  have hl := consume_length _ _ _ _ hc
  cases b with
  | true =>
    have := shrinks_primary e he _ _ _ h
    omega
  | false =>
    simp only at h
    rcases hc2 : consume "-" t1 with ⟨b2, t2⟩
    rw [hc2] at h
    have hl2 := consume_length _ _ _ _ hc2
    cases b2 with
    | true =>
      simp only at h
      obtain ⟨⟨n1, t3⟩, h1, h2⟩ := bind_ok _ _ _ h
      simp only [pure, Except.pure, Except.ok.injEq, Prod.mk.injEq] at h2
      obtain ⟨-, rfl⟩ := h2
      have := shrinks_primary e he _ _ _ h1
      omega
    | false =>
      have := shrinks_primary e he _ _ _ h
      omega

theorem mulLoop_length (e : Parser Node) (hs : Shrinks (unary e)) (k : Nat) (node : Node)
    (toks r : List Token) (x : Node) (h : mulLoop e k node toks = .ok (x, r)) :
    r.length ≤ toks.length := by
  induction k generalizing node toks with
  | zero => cases h
  | succ k ih =>
    unfold mulLoop at h
    rcases hc0 : consume "*" toks with ⟨b0, t1⟩
    rw [hc0] at h
    have hl0 := (consume_length _ _ _ _ hc0).1
    cases b0 with
    | true =>
      simp only at h
      obtain ⟨⟨n1, t'⟩, h1, h2⟩ := bind_ok _ _ _ h
      have h3 := hs _ _ _ h1
      have h4 := ih _ _ h2
      simp only at h3 h4
      omega
    | false =>
      simp only at h
      rcases hc1 : consume "/" t1 with ⟨b1, t2⟩
      rw [hc1] at h
      have hl1 := (consume_length _ _ _ _ hc1).1
      cases b1 with
      | true =>
        simp only at h
        obtain ⟨⟨n1, t'⟩, h1, h2⟩ := bind_ok _ _ _ h
        have h3 := hs _ _ _ h1
        have h4 := ih _ _ h2
        simp only at h3 h4
        omega
      | false =>
        simp only at h
        simp only [Except.ok.injEq, Prod.mk.injEq] at h
        obtain ⟨-, rfl⟩ := h
        omega

theorem shrinks_mul (e : Parser Node) (he : Shrinks e) : Shrinks (mul e) := by
  intro toks x r h
  unfold mul at h
  obtain ⟨⟨n1, t1⟩, h1, h2⟩ := bind_ok _ _ _ h
  have h3 := shrinks_unary e he _ _ _ h1
  have h4 := mulLoop_length e (shrinks_unary e he) _ _ _ _ _ h2
  simp only at h3 h4
  omega

theorem addLoop_length (e : Parser Node) (hs : Shrinks (mul e)) (k : Nat) (node : Node)
    (toks r : List Token) (x : Node) (h : addLoop e k node toks = .ok (x, r)) :
    r.length ≤ toks.length := by
  induction k generalizing node toks with
  | zero => cases h
  | succ k ih =>
    unfold addLoop at h
    rcases hc0 : consume "+" toks with ⟨b0, t1⟩
    rw [hc0] at h
    have hl0 := (consume_length _ _ _ _ hc0).1
    cases b0 with
    | true =>
      simp only at h
      obtain ⟨⟨n1, t'⟩, h1, h2⟩ := bind_ok _ _ _ h
      have h3 := hs _ _ _ h1
      have h4 := ih _ _ h2
      simp only at h3 h4
      omega
    | false =>
      simp only at h
      rcases hc1 : consume "-" t1 with ⟨b1, t2⟩
      rw [hc1] at h
      have hl1 := (consume_length _ _ _ _ hc1).1
      cases b1 with
      | true =>
        simp only at h
        obtain ⟨⟨n1, t'⟩, h1, h2⟩ := bind_ok _ _ _ h
        have h3 := hs _ _ _ h1
        have h4 := ih _ _ h2
        simp only at h3 h4
        omega
      | false =>
        simp only at h
        simp only [Except.ok.injEq, Prod.mk.injEq] at h
        obtain ⟨-, rfl⟩ := h
        omega

theorem shrinks_add (e : Parser Node) (he : Shrinks e) : Shrinks (add e) := by
  intro toks x r h
  unfold add at h
  obtain ⟨⟨n1, t1⟩, h1, h2⟩ := bind_ok _ _ _ h
  have h3 := shrinks_mul e he _ _ _ h1
  have h4 := addLoop_length e (shrinks_mul e he) _ _ _ _ _ h2
  simp only at h3 h4
  omega

theorem relationalLoop_length (e : Parser Node) (hs : Shrinks (add e)) (k : Nat) (node : Node)
    (toks r : List Token) (x : Node) (h : relationalLoop e k node toks = .ok (x, r)) :
    r.length ≤ toks.length := by
  induction k generalizing node toks with
  | zero => cases h
  | succ k ih =>
    unfold relationalLoop at h
    rcases hc0 : consume "<" toks with ⟨b0, t1⟩
    rw [hc0] at h
    have hl0 := (consume_length _ _ _ _ hc0).1
    cases b0 with
    | true =>
      simp only at h
      obtain ⟨⟨n1, t'⟩, h1, h2⟩ := bind_ok _ _ _ h
      have h3 := hs _ _ _ h1
      have h4 := ih _ _ h2
      simp only at h3 h4
      omega
    | false =>
      simp only at h
      rcases hc1 : consume "<=" t1 with ⟨b1, t2⟩
      rw [hc1] at h
      have hl1 := (consume_length _ _ _ _ hc1).1
      cases b1 with
      | true =>
        simp only at h
        obtain ⟨⟨n1, t'⟩, h1, h2⟩ := bind_ok _ _ _ h
        have h3 := hs _ _ _ h1
        have h4 := ih _ _ h2
        simp only at h3 h4
        omega
      | false =>
        simp only at h
        rcases hc2 : consume ">" t2 with ⟨b2, t3⟩
        rw [hc2] at h
        have hl2 := (consume_length _ _ _ _ hc2).1
        cases b2 with
        | true =>
          simp only at h
          obtain ⟨⟨n1, t'⟩, h1, h2⟩ := bind_ok _ _ _ h
          have h3 := hs _ _ _ h1
          have h4 := ih _ _ h2
          simp only at h3 h4
          omega
        | false =>
          simp only at h
          rcases hc3 : consume ">=" t3 with ⟨b3, t4⟩
          rw [hc3] at h
          have hl3 := (consume_length _ _ _ _ hc3).1
          cases b3 with
          | true =>
            simp only at h
            obtain ⟨⟨n1, t'⟩, h1, h2⟩ := bind_ok _ _ _ h
            have h3 := hs _ _ _ h1
            have h4 := ih _ _ h2
            simp only at h3 h4
            omega
          | false =>
            simp only at h
            simp only [Except.ok.injEq, Prod.mk.injEq] at h
            obtain ⟨-, rfl⟩ := h
            omega

theorem shrinks_relational (e : Parser Node) (he : Shrinks e) : Shrinks (relational e) := by
  intro toks x r h
  unfold relational at h
  obtain ⟨⟨n1, t1⟩, h1, h2⟩ := bind_ok _ _ _ h
  have h3 := shrinks_add e he _ _ _ h1
  have h4 := relationalLoop_length e (shrinks_add e he) _ _ _ _ _ h2
  simp only at h3 h4
  omega

theorem equalityLoop_length (e : Parser Node) (hs : Shrinks (relational e)) (k : Nat) (node : Node)
    (toks r : List Token) (x : Node) (h : equalityLoop e k node toks = .ok (x, r)) :
    r.length ≤ toks.length := by
  induction k generalizing node toks with
  | zero => cases h
  | succ k ih =>
    unfold equalityLoop at h
    rcases hc0 : consume "==" toks with ⟨b0, t1⟩
    rw [hc0] at h
    have hl0 := (consume_length _ _ _ _ hc0).1
    cases b0 with
    | true =>
      simp only at h
      obtain ⟨⟨n1, t'⟩, h1, h2⟩ := bind_ok _ _ _ h
      have h3 := hs _ _ _ h1
      have h4 := ih _ _ h2
      simp only at h3 h4
      omega
    | false =>
      simp only at h
      rcases hc1 : consume "!=" t1 with ⟨b1, t2⟩
      rw [hc1] at h
      have hl1 := (consume_length _ _ _ _ hc1).1
      cases b1 with
      | true =>
        simp only at h
        obtain ⟨⟨n1, t'⟩, h1, h2⟩ := bind_ok _ _ _ h
        have h3 := hs _ _ _ h1
        have h4 := ih _ _ h2
        simp only at h3 h4
        omega
      | false =>
        simp only at h
        simp only [Except.ok.injEq, Prod.mk.injEq] at h
        obtain ⟨-, rfl⟩ := h
        omega

theorem shrinks_equality (e : Parser Node) (he : Shrinks e) : Shrinks (equality e) := by
  intro toks x r h
  unfold equality at h
  obtain ⟨⟨n1, t1⟩, h1, h2⟩ := bind_ok _ _ _ h
  have h3 := shrinks_relational e he _ _ _ h1
  have h4 := equalityLoop_length e (shrinks_relational e he) _ _ _ _ _ h2
  simp only at h3 h4
  omega

theorem shrinks_expr (d : Nat) : Shrinks (expr d) := by
  induction d with
  | zero =>
    intro toks x r h
    cases h
  | succ d ih => exact shrinks_equality (expr d) ih

/-! ## Parser: the budget is never used up -/

theorem bind_ne_fuel {α β : Type} (x : Except Failure α) (f : α → Except Failure β)
    (hx : x ≠ .error .fuel) (hf : ∀ a, x = .ok a → f a ≠ .error .fuel) :
    (x >>= f) ≠ .error .fuel := by
  cases x with
  | error e =>
    intro h
    have he : e = .fuel := by
      injection h
    exact hx (by rw [he])
  | ok a => exact hf a rfl

theorem ok_ne_fuel {α : Type} (a : α) : (Except.ok a : Except Failure α) ≠ .error .fuel := by
  intro h
  cases h

theorem expect_ne_fuel (s : String) (toks : List Token) : expect s toks ≠ .error .fuel := by
  unfold expect
  split
  · intro h
    cases h
  · split <;> intro h <;> cases h

theorem expectNumber_ne_fuel (toks : List Token) : expectNumber toks ≠ .error .fuel := by
  unfold expectNumber
  split
  · intro h
    cases h
  · split <;> intro h <;> cases h

theorem expectIdentifier_ne_fuel (toks : List Token) :
    expectIdentifier toks ≠ .error .fuel := by
  unfold expectIdentifier
  split
  · intro h
    cases h
  · split <;> intro h <;> cases h

theorem argsLoop_ne_fuel (e : Parser Node) (n : Nat) (he : Shrinks e) (hf : NoFuelBelow e n)
    (k : Nat) (toks : List Token) (hk : toks.length < k) (hn : toks.length ≤ n) :
    argsLoop e k toks ≠ .error .fuel := by
  induction k generalizing toks with
  | zero => omega
  | succ k ih =>
    unfold argsLoop
    rcases hc : consume "," toks with ⟨b, t1⟩
    have hl := consume_length _ _ _ _ hc
    cases b with
    | false => exact ok_ne_fuel _
    | true =>
      have hlt := hl.2 rfl
      simp only
      apply bind_ne_fuel
      · exact hf t1 (by omega)
      · rintro ⟨n1, t2⟩ h1
        have h2 := he _ _ _ h1
        apply bind_ne_fuel
        · exact ih t2 (by omega) (by omega)
        · rintro ⟨n2, t3⟩ _
          exact ok_ne_fuel _

theorem args_ne_fuel (e : Parser Node) (n : Nat) (he : Shrinks e) (hf : NoFuelBelow e n) :
    NoFuelBelow (args e) n := by
  intro toks hn
  unfold args
  rcases hc : consume ")" toks with ⟨b, t1⟩
  have hl := consume_length _ _ _ _ hc
  cases b with
  | true => exact ok_ne_fuel _
  | false =>
    simp only
    apply bind_ne_fuel
    · exact hf t1 (by omega)
    · rintro ⟨n1, t2⟩ h1
      have h2 := he _ _ _ h1
      apply bind_ne_fuel
      · exact argsLoop_ne_fuel e n he hf _ t2 (Nat.lt_succ_self _) (by omega)
      · rintro ⟨n2, t3⟩ _
        apply bind_ne_fuel
        · exact expect_ne_fuel _ _
        · rintro ⟨u, t4⟩ _
          exact ok_ne_fuel _

theorem primary_ne_fuel (e : Parser Node) (n : Nat) (he : Shrinks e) (hf : NoFuelBelow e n) :
    NoFuelBelow (primary e) (n + 1) := by
  intro toks hn
  unfold primary
  rcases hc : consume "(" toks with ⟨b, t1⟩
  have hl := consume_length _ _ _ _ hc
  cases b with
  | true =>
    have hlt := hl.2 rfl
    simp only
    apply bind_ne_fuel
    · exact hf t1 (by omega)
    · rintro ⟨n1, t2⟩ _
      apply bind_ne_fuel
      · exact expect_ne_fuel _ _
      · rintro ⟨u, t3⟩ _
        exact ok_ne_fuel _
  | false =>
    simp only
    split
    · rename_i hne
      have hi := consumeIdentifier_name t1 hne
      rcases hc2 : consume "(" (consumeIdentifier t1).2 with ⟨b2, t2⟩
      have hl2 := consume_length _ _ _ _ hc2
      cases b2 with
      | true =>
        simp only
        apply bind_ne_fuel
        · exact args_ne_fuel e n he hf t2 (by omega)
        · rintro ⟨n1, t3⟩ _
          exact ok_ne_fuel _
      | false => exact ok_ne_fuel _
    · apply bind_ne_fuel
      · exact expectNumber_ne_fuel _
      · rintro ⟨n1, t3⟩ _
        exact ok_ne_fuel _

theorem unary_ne_fuel (e : Parser Node) (n : Nat) (he : Shrinks e) (hf : NoFuelBelow e n) :
    NoFuelBelow (unary e) (n + 1) := by
  intro toks hn
  unfold unary
  rcases hc : consume "+" toks with ⟨b, t1⟩
  have hl := consume_length _ _ _ _ hc
  cases b with
  | true => exact primary_ne_fuel e n he hf t1 (by omega)
  | false =>
    simp only
    rcases hc2 : consume "-" t1 with ⟨b2, t2⟩
    have hl2 := consume_length _ _ _ _ hc2
    cases b2 with
    | true =>
      simp only
      apply bind_ne_fuel
      · exact primary_ne_fuel e n he hf t2 (by omega)
      · rintro ⟨n1, t3⟩ _
        exact ok_ne_fuel _
    | false => exact primary_ne_fuel e n he hf t2 (by omega)

theorem mulLoop_ne_fuel (e : Parser Node) (n : Nat) (hs : Shrinks (unary e))
    (hf : NoFuelBelow (unary e) (n + 1)) (k : Nat) (node : Node) (toks : List Token)
    (hk : toks.length < k) (hn : toks.length ≤ n) :
    mulLoop e k node toks ≠ .error .fuel := by
  induction k generalizing node toks with
  | zero => omega
  | succ k ih =>
    unfold mulLoop
    rcases hc0 : consume "*" toks with ⟨b0, t1⟩
    have hl0 := consume_length _ _ _ _ hc0
    cases b0 with
    | true =>
      have hlt := hl0.2 rfl
      simp only
      apply bind_ne_fuel
      · exact hf t1 (by omega)
      · rintro ⟨n1, t'⟩ h1
        have h3 := hs _ _ _ h1
        exact ih _ t' (by omega) (by omega)
    | false =>
      have hle0 := hl0.1
      simp only
      rcases hc1 : consume "/" t1 with ⟨b1, t2⟩
      have hl1 := consume_length _ _ _ _ hc1
      cases b1 with
      | true =>
        have hlt := hl1.2 rfl
        simp only
        apply bind_ne_fuel
        · exact hf t2 (by omega)
        · rintro ⟨n1, t'⟩ h1
          have h3 := hs _ _ _ h1
          exact ih _ t' (by omega) (by omega)
      | false =>
        have hle1 := hl1.1
        simp only
        exact ok_ne_fuel _

theorem mul_ne_fuel (e : Parser Node) (n : Nat) (he : Shrinks e) (hf : NoFuelBelow e n) :
    NoFuelBelow (mul e) (n + 1) := by
  intro toks hn
  unfold mul
  apply bind_ne_fuel
  · exact unary_ne_fuel e n he hf toks hn
  · rintro ⟨n1, t1⟩ h1
    have h3 := shrinks_unary e he _ _ _ h1
    exact mulLoop_ne_fuel e n (shrinks_unary e he) (unary_ne_fuel e n he hf) _ _ t1
      (Nat.lt_succ_self _) (by omega)

theorem addLoop_ne_fuel (e : Parser Node) (n : Nat) (hs : Shrinks (mul e))
    (hf : NoFuelBelow (mul e) (n + 1)) (k : Nat) (node : Node) (toks : List Token)
    (hk : toks.length < k) (hn : toks.length ≤ n) :
    addLoop e k node toks ≠ .error .fuel := by
  induction k generalizing node toks with
  | zero => omega
  | succ k ih =>
    unfold addLoop
    rcases hc0 : consume "+" toks with ⟨b0, t1⟩
    have hl0 := consume_length _ _ _ _ hc0
    cases b0 with
    | true =>
      have hlt := hl0.2 rfl
      simp only
      apply bind_ne_fuel
      · exact hf t1 (by omega)
      · rintro ⟨n1, t'⟩ h1
        have h3 := hs _ _ _ h1
        exact ih _ t' (by omega) (by omega)
    | false =>
      have hle0 := hl0.1
      simp only
      rcases hc1 : consume "-" t1 with ⟨b1, t2⟩
      have hl1 := consume_length _ _ _ _ hc1
      cases b1 with
      | true =>
        have hlt := hl1.2 rfl
        simp only
        apply bind_ne_fuel
        · exact hf t2 (by omega)
        · rintro ⟨n1, t'⟩ h1
          have h3 := hs _ _ _ h1
          exact ih _ t' (by omega) (by omega)
      | false =>
        have hle1 := hl1.1
        simp only
        exact ok_ne_fuel _

theorem add_ne_fuel (e : Parser Node) (n : Nat) (he : Shrinks e) (hf : NoFuelBelow e n) :
    NoFuelBelow (add e) (n + 1) := by
  intro toks hn
  unfold add
  apply bind_ne_fuel
  · exact mul_ne_fuel e n he hf toks hn
  · rintro ⟨n1, t1⟩ h1
    have h3 := shrinks_mul e he _ _ _ h1
    exact addLoop_ne_fuel e n (shrinks_mul e he) (mul_ne_fuel e n he hf) _ _ t1
      (Nat.lt_succ_self _) (by omega)

theorem relationalLoop_ne_fuel (e : Parser Node) (n : Nat) (hs : Shrinks (add e))
    (hf : NoFuelBelow (add e) (n + 1)) (k : Nat) (node : Node) (toks : List Token)
    (hk : toks.length < k) (hn : toks.length ≤ n) :
    relationalLoop e k node toks ≠ .error .fuel := by
  induction k generalizing node toks with
  | zero => omega
  | succ k ih =>
    unfold relationalLoop
    rcases hc0 : consume "<" toks with ⟨b0, t1⟩
    have hl0 := consume_length _ _ _ _ hc0
    cases b0 with
    | true =>
      have hlt := hl0.2 rfl
      simp only
      apply bind_ne_fuel
      · exact hf t1 (by omega)
      · rintro ⟨n1, t'⟩ h1
        have h3 := hs _ _ _ h1
        exact ih _ t' (by omega) (by omega)
    | false =>
      have hle0 := hl0.1
      simp only
      rcases hc1 : consume "<=" t1 with ⟨b1, t2⟩
      have hl1 := consume_length _ _ _ _ hc1
      cases b1 with
      | true =>
        have hlt := hl1.2 rfl
        simp only
        apply bind_ne_fuel
        · exact hf t2 (by omega)
        · rintro ⟨n1, t'⟩ h1
          have h3 := hs _ _ _ h1
          exact ih _ t' (by omega) (by omega)
      | false =>
        have hle1 := hl1.1
        simp only
        rcases hc2 : consume ">" t2 with ⟨b2, t3⟩
        have hl2 := consume_length _ _ _ _ hc2
        cases b2 with
        | true =>
          have hlt := hl2.2 rfl
          simp only
          apply bind_ne_fuel
          · exact hf t3 (by omega)
          · rintro ⟨n1, t'⟩ h1
            have h3 := hs _ _ _ h1
            exact ih _ t' (by omega) (by omega)
        | false =>
          have hle2 := hl2.1
          simp only
          rcases hc3 : consume ">=" t3 with ⟨b3, t4⟩
          have hl3 := consume_length _ _ _ _ hc3
          cases b3 with
          | true =>
            have hlt := hl3.2 rfl
            simp only
            apply bind_ne_fuel
            · exact hf t4 (by omega)
            · rintro ⟨n1, t'⟩ h1
              have h3 := hs _ _ _ h1
              exact ih _ t' (by omega) (by omega)
          | false =>
            have hle3 := hl3.1
            simp only
            exact ok_ne_fuel _

theorem relational_ne_fuel (e : Parser Node) (n : Nat) (he : Shrinks e) (hf : NoFuelBelow e n) :
    NoFuelBelow (relational e) (n + 1) := by
  intro toks hn
  unfold relational
  apply bind_ne_fuel
  · exact add_ne_fuel e n he hf toks hn
  · rintro ⟨n1, t1⟩ h1
    have h3 := shrinks_add e he _ _ _ h1
    exact relationalLoop_ne_fuel e n (shrinks_add e he) (add_ne_fuel e n he hf) _ _ t1
      (Nat.lt_succ_self _) (by omega)

theorem equalityLoop_ne_fuel (e : Parser Node) (n : Nat) (hs : Shrinks (relational e))
    (hf : NoFuelBelow (relational e) (n + 1)) (k : Nat) (node : Node) (toks : List Token)
    (hk : toks.length < k) (hn : toks.length ≤ n) :
    equalityLoop e k node toks ≠ .error .fuel := by
  induction k generalizing node toks with
  | zero => omega
  | succ k ih =>
    unfold equalityLoop
    rcases hc0 : consume "==" toks with ⟨b0, t1⟩
    have hl0 := consume_length _ _ _ _ hc0
    cases b0 with
    | true =>
      have hlt := hl0.2 rfl
      simp only
      apply bind_ne_fuel
      · exact hf t1 (by omega)
      · rintro ⟨n1, t'⟩ h1
        have h3 := hs _ _ _ h1
        exact ih _ t' (by omega) (by omega)
    | false =>
      have hle0 := hl0.1
      simp only
      rcases hc1 : consume "!=" t1 with ⟨b1, t2⟩
      have hl1 := consume_length _ _ _ _ hc1
      cases b1 with
      | true =>
        have hlt := hl1.2 rfl
        simp only
        apply bind_ne_fuel
        · exact hf t2 (by omega)
        · rintro ⟨n1, t'⟩ h1
          have h3 := hs _ _ _ h1
          exact ih _ t' (by omega) (by omega)
      | false =>
        have hle1 := hl1.1
        simp only
        exact ok_ne_fuel _

theorem equality_ne_fuel (e : Parser Node) (n : Nat) (he : Shrinks e) (hf : NoFuelBelow e n) :
    NoFuelBelow (equality e) (n + 1) := by
  intro toks hn
  unfold equality
  apply bind_ne_fuel
  · exact relational_ne_fuel e n he hf toks hn
  · rintro ⟨n1, t1⟩ h1
    have h3 := shrinks_relational e he _ _ _ h1
    exact equalityLoop_ne_fuel e n (shrinks_relational e he) (relational_ne_fuel e n he hf) _ _ t1
      (Nat.lt_succ_self _) (by omega)

/-- `expr` with budget `d` does not use it up on fewer than `d` tokens. -/
theorem expr_ne_fuel (d : Nat) : NoFuelBelow (expr d) d := by
  induction d with
  | zero =>
    intro toks h
    omega
  | succ d ih => exact equality_ne_fuel (expr d) d (shrinks_expr d) ih

/-! ## Parser: statements move forward and stay within the budget -/

theorem shrinks_assign (e : Parser Node) (he : Shrinks e) : Shrinks (assign e) := by
  intro toks x r h
  unfold assign at h
  obtain ⟨⟨n1, t1⟩, h1, h2⟩ := bind_ok _ _ _ h
  have h3 := he _ _ _ h1
  simp only at h2
  rcases hc : consume "=" t1 with ⟨b, t2⟩
  rw [hc] at h2
  have hl := (consume_length _ _ _ _ hc).1
  cases b with
  | true =>
    simp only at h2
    obtain ⟨⟨n2, t3⟩, h4, h5⟩ := bind_ok _ _ _ h2
    simp only [pure, Except.pure, Except.ok.injEq, Prod.mk.injEq] at h5
    obtain ⟨-, rfl⟩ := h5
    have h6 := he _ _ _ h4
    omega
  | false =>
    simp only [pure, Except.pure, Except.ok.injEq, Prod.mk.injEq] at h2
    obtain ⟨-, rfl⟩ := h2
    omega

theorem assign_ne_fuel (e : Parser Node) (n : Nat) (he : Shrinks e) (hf : NoFuelBelow e n) :
    NoFuelBelow (assign e) n := by
  intro toks hn
  unfold assign
  apply bind_ne_fuel
  · exact hf toks hn
  · rintro ⟨n1, t1⟩ h1
    have h3 := he _ _ _ h1
    simp only
    rcases hc : consume "=" t1 with ⟨b, t2⟩
    have hl := (consume_length _ _ _ _ hc).1
    cases b with
    | true =>
      simp only
      apply bind_ne_fuel
      · exact hf t2 (by omega)
      · rintro ⟨n2, t3⟩ _
        exact ok_ne_fuel _
    | false => exact ok_ne_fuel _

theorem argDefsLoop_length (k : Nat) (defs ds : List String) (toks r : List Token)
    (h : argDefsLoop k defs toks = .ok (ds, r)) : r.length ≤ toks.length := by
  induction k generalizing defs toks with
  | zero => cases h
  | succ k ih =>
    unfold argDefsLoop at h
    rcases hc : consume "," toks with ⟨b, t1⟩
    rw [hc] at h
    have hl := (consume_length _ _ _ _ hc).1
    cases b with
    | true =>
      simp only at h
      have h1 := ih _ _ h
      have h2 := consumeIdentifier_length t1
      omega
    | false =>
      simp only [Except.ok.injEq, Prod.mk.injEq] at h
      obtain ⟨-, rfl⟩ := h
      omega

theorem argDefsLoop_ne_fuel (k : Nat) (defs : List String) (toks : List Token)
    (hk : toks.length < k) : argDefsLoop k defs toks ≠ .error .fuel := by
  induction k generalizing defs toks with
  | zero => omega
  | succ k ih =>
    unfold argDefsLoop
    rcases hc : consume "," toks with ⟨b, t1⟩
    have hl := consume_length _ _ _ _ hc
    cases b with
    | true =>
      have hlt := hl.2 rfl
      have h2 := consumeIdentifier_length t1
      simp only
      exact ih _ _ (by omega)
    | false => exact ok_ne_fuel _

theorem shrinks_argDefs : Shrinks argDefs := by
  intro toks x r h
  unfold argDefs at h
  rcases hc : consume ")" toks with ⟨b, t1⟩
  rw [hc] at h
  have hl := consume_length _ _ _ _ hc
  cases b with
  | true =>
    simp only [Except.ok.injEq, Prod.mk.injEq] at h
    obtain ⟨-, rfl⟩ := h
    exact hl.2 rfl
  | false =>
    simp only at h
    obtain ⟨⟨ds, t2⟩, h1, h2⟩ := bind_ok _ _ _ h
    obtain ⟨⟨u, t3⟩, h3, h4⟩ := bind_ok _ _ _ h2
    simp only [pure, Except.pure, Except.ok.injEq, Prod.mk.injEq] at h4
    obtain ⟨-, rfl⟩ := h4
    have h5 := argDefsLoop_length _ _ _ _ _ h1
    have h6 := expect_ok _ _ _ _ h3
    have h7 := consumeIdentifier_length t1
    have h8 := hl.1
    simp only at h5 h6
    omega

theorem argDefs_ne_fuel (toks : List Token) : argDefs toks ≠ .error .fuel := by
  unfold argDefs
  rcases hc : consume ")" toks with ⟨b, t1⟩
  cases b with
  | true => exact ok_ne_fuel _
  | false =>
    simp only
    apply bind_ne_fuel
    · exact argDefsLoop_ne_fuel _ _ _ (Nat.lt_succ_self _)
    · rintro ⟨ds, t2⟩ _
      apply bind_ne_fuel
      · exact expect_ne_fuel _ _
      · rintro ⟨u, t3⟩ _
        exact ok_ne_fuel _

theorem blockLoop_length (s : Parser Node) (hs : Shrinks s) (k : Nat) (toks r : List Token)
    (ns : List Node) (h : blockLoop s k toks = .ok (ns, r)) : r.length < toks.length := by
  induction k generalizing toks ns with
  | zero => cases h
  | succ k ih =>
    unfold blockLoop at h
    rcases hc : consume "\x7d" toks with ⟨b, t1⟩
    rw [hc] at h
    have hl := consume_length _ _ _ _ hc
    cases b with
    | true =>
      simp only [Except.ok.injEq, Prod.mk.injEq] at h
      obtain ⟨-, rfl⟩ := h
      exact hl.2 rfl
    | false =>
      simp only at h
      obtain ⟨⟨n1, t2⟩, h1, h2⟩ := bind_ok _ _ _ h
      obtain ⟨⟨n2, t3⟩, h3, h4⟩ := bind_ok _ _ _ h2
      simp only [pure, Except.pure, Except.ok.injEq, Prod.mk.injEq] at h4
      obtain ⟨-, rfl⟩ := h4
      have h5 := hs _ _ _ h1
      have h6 := ih _ _ h3
      have h7 := hl.1
      simp only at h6
      omega

theorem blockLoop_ne_fuel (s : Parser Node) (m : Nat) (hs : Shrinks s) (hf : NoFuelBelow s m)
    (k : Nat) (toks : List Token) (hk : toks.length < k) (hm : toks.length < m) :
    blockLoop s k toks ≠ .error .fuel := by
  induction k generalizing toks with
  | zero => omega
  | succ k ih =>
    unfold blockLoop
    rcases hc : consume "\x7d" toks with ⟨b, t1⟩
    have hl := (consume_length _ _ _ _ hc).1
    cases b with
    | true => exact ok_ne_fuel _
    | false =>
      simp only
      apply bind_ne_fuel
      · exact hf t1 (by omega)
      · rintro ⟨n1, t2⟩ h1
        have h2 := hs _ _ _ h1
        apply bind_ne_fuel
        · exact ih t2 (by omega) (by omega)
        · rintro ⟨n2, t3⟩ _
          exact ok_ne_fuel _

theorem programLoop_ne_fuel (s : Parser Node) (m : Nat) (hs : Shrinks s) (hf : NoFuelBelow s m)
    (k : Nat) (toks : List Token) (hk : toks.length < k) (hm : toks.length < m) :
    programLoop s k toks ≠ .error .fuel := by
  induction k generalizing toks with
  | zero => omega
  | succ k ih =>
    cases toks with
    | nil =>
      intro h
      cases h
    | cons t ts =>
      unfold programLoop
      split
      · exact ok_ne_fuel _
      · apply bind_ne_fuel
        · exact hf _ hm
        · rintro ⟨n1, t2⟩ h1
          have h2 := hs _ _ _ h1
          apply bind_ne_fuel
          · exact ih t2 (by omega) (by omega)
          · rintro ⟨n2, t3⟩ _
            exact ok_ne_fuel _

theorem shrinks_stmt (d : Nat) : Shrinks (stmt d) := by
  induction d with
  | zero =>
    intro toks x r h
    cases h
  | succ d ih =>
    intro toks x r h
    have he := shrinks_expr d
    rw [stmt] at h
    simp only at h
    rcases hc1 : consume "fnc" toks with ⟨b1, t1⟩
    rw [hc1] at h
    have hl1 := consume_length _ _ _ _ hc1
    cases b1 with
    | true =>
      simp only at h
      obtain ⟨⟨a1, u1⟩, g1, h⟩ := bind_ok _ _ _ h
      obtain ⟨⟨a2, u2⟩, g2, h⟩ := bind_ok _ _ _ h
      obtain ⟨⟨a3, u3⟩, g3, h⟩ := bind_ok _ _ _ h
      obtain ⟨⟨a4, u4⟩, g4, h⟩ := bind_ok _ _ _ h
      simp only [pure, Except.pure, Except.ok.injEq, Prod.mk.injEq] at h
      obtain ⟨-, rfl⟩ := h
      have k1 := expectIdentifier_ok _ _ _ g1
      have k2 := expect_ok _ _ _ _ g2
      have k3 := shrinks_argDefs _ _ _ g3
      have k4 := ih _ _ _ g4
      have k0 := hl1.1
      simp only at k2 k3 k4
      omega
    | false =>
    have hle1 := hl1.1
    simp only at h
    rcases hc2 : consume "return" t1 with ⟨b2, t2⟩
    rw [hc2] at h
    have hl2 := consume_length _ _ _ _ hc2
    cases b2 with
    | true =>
      simp only at h
      obtain ⟨⟨a1, u1⟩, g1, h⟩ := bind_ok _ _ _ h
      obtain ⟨⟨a2, u2⟩, g2, h⟩ := bind_ok _ _ _ h
      simp only [pure, Except.pure, Except.ok.injEq, Prod.mk.injEq] at h
      obtain ⟨-, rfl⟩ := h
      have k1 := shrinks_assign _ he _ _ _ g1
      have k2 := expect_ok _ _ _ _ g2
      have k0 := hl2.1
      simp only at k2
      omega
    | false =>
    have hle2 := hl2.1
    simp only at h
    rcases hc3 : consume "if" t2 with ⟨b3, t3⟩
    rw [hc3] at h
    have hl3 := consume_length _ _ _ _ hc3
    cases b3 with
    | true =>
      simp only at h
      obtain ⟨⟨a1, u1⟩, g1, h⟩ := bind_ok _ _ _ h
      obtain ⟨⟨a2, u2⟩, g2, h⟩ := bind_ok _ _ _ h
      obtain ⟨⟨a3, u3⟩, g3, h⟩ := bind_ok _ _ _ h
      obtain ⟨⟨a4, u4⟩, g4, h⟩ := bind_ok _ _ _ h
      have k1 := expect_ok _ _ _ _ g1
      have k2 := he _ _ _ g2
      have k3 := expect_ok _ _ _ _ g3
      have k4 := ih _ _ _ g4
      have k0 := hl3.1
      simp only at k2 k3 k4 h
      rcases hc : consume "else" u4 with ⟨b, t⟩
      rw [hc] at h
      have hl := (consume_length _ _ _ _ hc).1
      cases b with
      | true =>
        simp only at h
        obtain ⟨⟨a5, u5⟩, g5, h⟩ := bind_ok _ _ _ h
        simp only [pure, Except.pure, Except.ok.injEq, Prod.mk.injEq] at h
        obtain ⟨-, rfl⟩ := h
        have k5 := ih _ _ _ g5
        omega
      | false =>
        simp only [pure, Except.pure, Except.ok.injEq, Prod.mk.injEq] at h
        obtain ⟨-, rfl⟩ := h
        omega
    | false =>
    have hle3 := hl3.1
    simp only at h
    rcases hc4 : consume "for" t3 with ⟨b4, t4⟩
    rw [hc4] at h
    have hl4 := consume_length _ _ _ _ hc4
    cases b4 with
    | true =>
      simp only at h
      obtain ⟨⟨a1, u1⟩, g1, h⟩ := bind_ok _ _ _ h
      simp only [pure, Except.pure, Except.ok.injEq, Prod.mk.injEq] at h
      obtain ⟨-, rfl⟩ := h
      have k1 := ih _ _ _ g1
      have k0 := hl4.1
      omega
    | false =>
    have hle4 := hl4.1
    simp only at h
    rcases hc5 : consume "break" t4 with ⟨b5, t5⟩
    rw [hc5] at h
    have hl5 := consume_length _ _ _ _ hc5
    cases b5 with
    | true =>
      simp only at h
      obtain ⟨⟨a1, u1⟩, g1, h⟩ := bind_ok _ _ _ h
      simp only [pure, Except.pure, Except.ok.injEq, Prod.mk.injEq] at h
      obtain ⟨-, rfl⟩ := h
      have k1 := expect_ok _ _ _ _ g1
      have k0 := hl5.1
      omega
    | false =>
    have hle5 := hl5.1
    simp only at h
    rcases hc6 : consume "\x7b" t5 with ⟨b6, t6⟩
    rw [hc6] at h
    have hl6 := consume_length _ _ _ _ hc6
    cases b6 with
    | true =>
      simp only at h
      obtain ⟨⟨a1, u1⟩, g1, h⟩ := bind_ok _ _ _ h
      simp only [pure, Except.pure, Except.ok.injEq, Prod.mk.injEq] at h
      obtain ⟨-, rfl⟩ := h
      have k1 := blockLoop_length _ ih _ _ _ _ g1
      have k0 := hl6.1
      omega
    | false =>
    have hle6 := hl6.1
    simp only at h
    rcases hc7 : consume "var" t6 with ⟨b7, t7⟩
    rw [hc7] at h
    have hl7 := consume_length _ _ _ _ hc7
    cases b7 with
    | true =>
      simp only at h
      obtain ⟨⟨a1, u1⟩, g1, h⟩ := bind_ok _ _ _ h
      have k1 := he _ _ _ g1
      have k0 := hl7.1
      simp only at h
      rcases hc : consume "=" u1 with ⟨b, t⟩
      rw [hc] at h
      have hl := (consume_length _ _ _ _ hc).1
      cases b with
      | true =>
        simp only at h
        obtain ⟨⟨a2, u2⟩, g2, h⟩ := bind_ok _ _ _ h
        obtain ⟨⟨a3, u3⟩, g3, h⟩ := bind_ok _ _ _ h
        simp only [pure, Except.pure, Except.ok.injEq, Prod.mk.injEq] at h
        obtain ⟨-, rfl⟩ := h
        have k2 := he _ _ _ g2
        have k3 := expect_ok _ _ _ _ g3
        simp only at k3
        omega
      | false =>
        simp only at h
        obtain ⟨⟨a2, u2⟩, g2, h⟩ := bind_ok _ _ _ h
        simp only [pure, Except.pure, Except.ok.injEq, Prod.mk.injEq] at h
        obtain ⟨-, rfl⟩ := h
        have k2 := expect_ok _ _ _ _ g2
        omega
    | false =>
      have hle7 := hl7.1
      simp only at h
      obtain ⟨⟨a1, u1⟩, g1, h⟩ := bind_ok _ _ _ h
      obtain ⟨⟨a2, u2⟩, g2, h⟩ := bind_ok _ _ _ h
      simp only [pure, Except.pure, Except.ok.injEq, Prod.mk.injEq] at h
      obtain ⟨-, rfl⟩ := h
      have k1 := shrinks_assign _ he _ _ _ g1
      have k2 := expect_ok _ _ _ _ g2
      simp only at k2
      omega

/-- `stmt` with budget `d + 1` does not use it up on fewer than `d` tokens. -/
theorem stmt_ne_fuel (d : Nat) : NoFuelBelow (stmt (d + 1)) d := by
  induction d with
  | zero =>
    intro toks h
    omega
  | succ d ih =>
    intro toks hn
    have he := shrinks_expr (d + 1)
    have hf := expr_ne_fuel (d + 1)
    have hs := shrinks_stmt (d + 1)
    rw [stmt]
    simp only
    rcases hc1 : consume "fnc" toks with ⟨b1, t1⟩
    have hl1 := consume_length _ _ _ _ hc1
    cases b1 with
    | true =>
      have hlt := hl1.2 rfl
      simp only
      apply bind_ne_fuel
      · exact expectIdentifier_ne_fuel _
      · rintro ⟨a1, u1⟩ g1
        have k1 := expectIdentifier_ok _ _ _ g1
        apply bind_ne_fuel
        · exact expect_ne_fuel _ _
        · rintro ⟨a2, u2⟩ g2
          have k2 := expect_ok _ _ _ _ g2
          apply bind_ne_fuel
          · exact argDefs_ne_fuel _
          · rintro ⟨a3, u3⟩ g3
            have k3 := shrinks_argDefs _ _ _ g3
            apply bind_ne_fuel
            · exact ih u3 (by simp only at *; omega)
            · rintro ⟨a4, u4⟩ _
              exact ok_ne_fuel _
    | false =>
    have hle1 := hl1.1
    simp only
    rcases hc2 : consume "return" t1 with ⟨b2, t2⟩
    have hl2 := consume_length _ _ _ _ hc2
    cases b2 with
    | true =>
      simp only
      apply bind_ne_fuel
      · exact assign_ne_fuel _ _ he hf t2 (by omega)
      · rintro ⟨a1, u1⟩ _
        apply bind_ne_fuel
        · exact expect_ne_fuel _ _
        · rintro ⟨a2, u2⟩ _
          exact ok_ne_fuel _
    | false =>
    have hle2 := hl2.1
    simp only
    rcases hc3 : consume "if" t2 with ⟨b3, t3⟩
    have hl3 := consume_length _ _ _ _ hc3
    cases b3 with
    | true =>
      have hlt := hl3.2 rfl
      simp only
      apply bind_ne_fuel
      · exact expect_ne_fuel _ _
      · rintro ⟨a1, u1⟩ g1
        have k1 := expect_ok _ _ _ _ g1
        apply bind_ne_fuel
        · exact hf u1 (by omega)
        · rintro ⟨a2, u2⟩ g2
          have k2 := he _ _ _ g2
          apply bind_ne_fuel
          · exact expect_ne_fuel _ _
          · rintro ⟨a3, u3⟩ g3
            have k3 := expect_ok _ _ _ _ g3
            apply bind_ne_fuel
            · exact ih u3 (by simp only at *; omega)
            · rintro ⟨a4, u4⟩ g4
              have k4 := hs _ _ _ g4
              simp only
              rcases hc : consume "else" u4 with ⟨b, t⟩
              have hl := (consume_length _ _ _ _ hc).1
              cases b with
              | true =>
                simp only
                apply bind_ne_fuel
                · exact ih t (by simp only at *; omega)
                · rintro ⟨a5, u5⟩ _
                  exact ok_ne_fuel _
              | false => exact ok_ne_fuel _
    | false =>
    have hle3 := hl3.1
    simp only
    rcases hc4 : consume "for" t3 with ⟨b4, t4⟩
    have hl4 := consume_length _ _ _ _ hc4
    cases b4 with
    | true =>
      have hlt := hl4.2 rfl
      simp only
      apply bind_ne_fuel
      · exact ih t4 (by omega)
      · rintro ⟨a1, u1⟩ _
        exact ok_ne_fuel _
    | false =>
    have hle4 := hl4.1
    simp only
    rcases hc5 : consume "break" t4 with ⟨b5, t5⟩
    have hl5 := consume_length _ _ _ _ hc5
    cases b5 with
    | true =>
      simp only
      apply bind_ne_fuel
      · exact expect_ne_fuel _ _
      · rintro ⟨a1, u1⟩ _
        exact ok_ne_fuel _
    | false =>
    have hle5 := hl5.1
    simp only
    rcases hc6 : consume "\x7b" t5 with ⟨b6, t6⟩
    have hl6 := consume_length _ _ _ _ hc6
    cases b6 with
    | true =>
      have hlt := hl6.2 rfl
      simp only
      apply bind_ne_fuel
      · exact blockLoop_ne_fuel _ d hs ih _ t6 (Nat.lt_succ_self _) (by omega)
      · rintro ⟨a1, u1⟩ _
        exact ok_ne_fuel _
    | false =>
    have hle6 := hl6.1
    simp only
    rcases hc7 : consume "var" t6 with ⟨b7, t7⟩
    have hl7 := consume_length _ _ _ _ hc7
    cases b7 with
    | true =>
      simp only
      apply bind_ne_fuel
      · exact hf t7 (by omega)
      · rintro ⟨a1, u1⟩ g1
        have k1 := he _ _ _ g1
        simp only
        rcases hc : consume "=" u1 with ⟨b, t⟩
        have hl := (consume_length _ _ _ _ hc).1
        cases b with
        | true =>
          simp only
          apply bind_ne_fuel
          · exact hf t (by omega)
          · rintro ⟨a2, u2⟩ _
            apply bind_ne_fuel
            · exact expect_ne_fuel _ _
            · rintro ⟨a3, u3⟩ _
              exact ok_ne_fuel _
        | false =>
          simp only
          apply bind_ne_fuel
          · exact expect_ne_fuel _ _
          · rintro ⟨a2, u2⟩ _
            exact ok_ne_fuel _
    | false =>
      have hle7 := hl7.1
      simp only
      apply bind_ne_fuel
      · exact assign_ne_fuel _ _ he hf t7 (by omega)
      · rintro ⟨a1, u1⟩ _
        apply bind_ne_fuel
        · exact expect_ne_fuel _ _
        · rintro ⟨a2, u2⟩ _
          exact ok_ne_fuel _

/-- `Parse` never uses up its budget: on every token list it returns a node
or panics as the source does. -/
theorem Parse_ne_fuel (tokens : List Token) : Parse tokens ≠ .error .fuel := by
  unfold Parse program
  have hs := shrinks_stmt (tokens.length + 2)
  have hf := stmt_ne_fuel (tokens.length + 1)
  have key : (do
      let (head, toks) ← stmt (tokens.length + 2) tokens
      let (nodes, toks) ← programLoop (stmt (tokens.length + 2)) (toks.length + 1) toks
      pure (Node.link (head :: nodes), toks) : Except Failure (Node × List Token)) ≠
      .error .fuel := by
    apply bind_ne_fuel
    · exact hf tokens (Nat.lt_succ_self _)
    · rintro ⟨a1, u1⟩ g1
      have k1 := hs _ _ _ g1
      apply bind_ne_fuel
      · exact programLoop_ne_fuel _ _ hs hf _ u1 (Nat.lt_succ_self _) (by omega)
      · rintro ⟨a2, u2⟩ _
        exact ok_ne_fuel _
  intro h
  apply key
  revert h
  generalize (do
      let (head, toks) ← stmt (tokens.length + 2) tokens
      let (nodes, toks) ← programLoop (stmt (tokens.length + 2)) (toks.length + 1) toks
      pure (Node.link (head :: nodes), toks) : Except Failure (Node × List Token)) = res
  intro h
  cases res with
  | error e =>
    simp only [Except.map] at h
    injection h with h
    rw [h]
  | ok a => cases h

/-! ## Lowering: the state operations -/

theorem updateAt_length {α : Type} (f : α → α) (i : Nat) (l : List α) :
    (updateAt f i l).length = l.length := by
  induction l generalizing i with
  | nil => cases i <;> rfl
  | cons x xs ih =>
    cases i with
    | zero => rfl
    | succ i => simp [updateAt, ih]

theorem get?_updateAt_ne {α : Type} (f : α → α) (i k : Nat) (l : List α) (h : k ≠ i) :
    (updateAt f i l).get? k = l.get? k := by
  induction l generalizing i k with
  | nil => cases i <;> rfl
  | cons x xs ih =>
    cases i with
    | zero =>
      cases k with
      | zero => exact absurd rfl h
      | succ k => rfl
    | succ i =>
      cases k with
      | zero => rfl
      | succ k =>
        simp only [updateAt, List.get?_cons_succ]
        exact ih i k (fun e => h (by rw [e]))

theorem get?_updateAt_eq {α : Type} (f : α → α) (i : Nat) (l : List α) :
    (updateAt f i l).get? i = (l.get? i).map f := by
  induction l generalizing i with
  | nil => cases i <;> rfl
  | cons x xs ih =>
    cases i with
    | zero => rfl
    | succ i =>
      simp only [updateAt, List.get?_cons_succ]
      exact ih i

theorem get?_append_old {α : Type} (l l' : List α) (k : Nat) (h : k < l.length) :
    (l ++ l').get? k = l.get? k := by
  induction l generalizing k with
  | nil => simp at h
  | cons x xs ih =>
    cases k with
    | zero => rfl
    | succ k =>
      simp only [List.cons_append, List.get?_cons_succ]
      exact ih k (by simpa using h)

theorem get?_map_updateAt {α β : Type} (f : α → α) (g : α → β) (i k : Nat) (l : List α)
    (hg : ∀ a, g (f a) = g a) :
    ((updateAt f i l).get? k).map g = (l.get? k).map g := by
  by_cases h : k = i
  · subst h
    rw [get?_updateAt_eq]
    cases l.get? k <;> simp [hg]
  · rw [get?_updateAt_ne f i k l h]

theorem Frame.refl (b vs fs : Nat) (st : GenState) : Frame b vs fs st st :=
  ⟨Nat.le_refl _, Nat.le_refl _, Nat.le_refl _, fun _ _ _ => rfl, fun _ _ => rfl,
    fun _ _ _ => rfl, fun _ _ _ => rfl⟩

/-- Two runs in a row, the second in the same block and maps or in new ones. -/
theorem Frame.trans {b vs fs b' vs' fs' : Nat} {st st1 st2 : GenState}
    (h1 : Frame b vs fs st st1) (h2 : Frame b' vs' fs' st1 st2)
    (hb : b' = b ∨ st.blocks.length ≤ b') (hv : vs' = vs ∨ st.vars.length ≤ vs')
    (hf : fs' = fs ∨ st.functions.length ≤ fs') : Frame b vs fs st st2 := by
  refine ⟨Nat.le_trans h1.blocks_le h2.blocks_le, Nat.le_trans h1.vars_le h2.vars_le,
    Nat.le_trans h1.functions_le h2.functions_le, ?_, ?_, ?_, ?_⟩
  · intro k hk hne
    rw [h2.blocks_old k (Nat.lt_of_lt_of_le hk h1.blocks_le) (by omega), h1.blocks_old k hk hne]
  · intro k hk
    rw [h2.blocks_name k (Nat.lt_of_lt_of_le hk h1.blocks_le), h1.blocks_name k hk]
  · intro m hm hne
    rw [h2.vars_old m (Nat.lt_of_lt_of_le hm h1.vars_le) (by omega), h1.vars_old m hm hne]
  · intro m hm hne
    rw [h2.functions_old m (Nat.lt_of_lt_of_le hm h1.functions_le) (by omega),
      h1.functions_old m hm hne]

/-- The block and maps a frame is stated for can be any that it leaves alone
anyway. -/
theorem Frame.weaken {b vs fs b' vs' fs' : Nat} {st st' : GenState}
    (h : Frame b vs fs st st')
    (hb : b = b' ∨ st.blocks.length ≤ b) (hv : vs = vs' ∨ st.vars.length ≤ vs)
    (hf : fs = fs' ∨ st.functions.length ≤ fs) : Frame b' vs' fs' st st' :=
  ⟨h.blocks_le, h.vars_le, h.functions_le,
    fun k hk hne => h.blocks_old k hk (by omega), h.blocks_name,
    fun m hm hne => h.vars_old m hm (by omega),
    fun m hm hne => h.functions_old m hm (by omega)⟩

theorem frame_setTerm (st : GenState) (b vs fs : Nat) (t : Terminator) :
    Frame b vs fs st (st.setTerm b t) := by
  refine ⟨?_, Nat.le_refl _, Nat.le_refl _, ?_, ?_, fun _ _ _ => rfl, fun _ _ _ => rfl⟩
  · simp [GenState.setTerm, updateAt_length]
  · intro k _ hne
    exact get?_updateAt_ne _ _ _ _ hne
  · intro k _
    exact get?_map_updateAt _ _ _ _ _ (fun _ => rfl)

theorem frame_appendInst (st : GenState) (b vs fs : Nat) (i : Inst) :
    Frame b vs fs st (st.appendInst b i) := by
  refine ⟨?_, Nat.le_refl _, Nat.le_refl _, ?_, ?_, fun _ _ _ => rfl, fun _ _ _ => rfl⟩
  · simp [GenState.appendInst, updateAt_length]
  · intro k _ hne
    exact get?_updateAt_ne _ _ _ _ hne
  · intro k _
    exact get?_map_updateAt _ _ _ _ _ (fun _ => rfl)

theorem frame_newInst (st : GenState) (b vs fs : Nat) (build : Nat → Inst) (typ : IRType) :
    Frame b vs fs st (st.newInst b build typ).2 := by
  have h := frame_appendInst st b vs fs (build st.nextId)
  exact ⟨h.blocks_le, h.vars_le, h.functions_le, h.blocks_old, h.blocks_name, h.vars_old,
    h.functions_old⟩

theorem frame_newBlock (st : GenState) (b vs fs fnc : Nat) (name : String) :
    Frame b vs fs st (st.newBlock fnc name).2 := by
  refine ⟨?_, Nat.le_refl _, Nat.le_refl _, ?_, ?_, fun _ _ _ => rfl, fun _ _ _ => rfl⟩
  · simp [GenState.newBlock]
  · intro k hk _
    exact get?_append_old _ _ _ hk
  · intro k hk
    simp only [GenState.newBlock]
    rw [get?_append_old _ _ _ hk]

theorem frame_newVars (st : GenState) (b vs fs : Nat) : Frame b vs fs st st.newVars.2 := by
  refine ⟨Nat.le_refl _, ?_, Nat.le_refl _, fun _ _ _ => rfl, fun _ _ => rfl, ?_,
    fun _ _ _ => rfl⟩
  · simp [GenState.newVars]
  · intro m hm _
    exact get?_append_old _ _ _ hm

theorem frame_newFunctions (st : GenState) (b vs fs : Nat) :
    Frame b vs fs st st.newFunctions.2 := by
  refine ⟨Nat.le_refl _, Nat.le_refl _, ?_, fun _ _ _ => rfl, fun _ _ => rfl,
    fun _ _ _ => rfl, ?_⟩
  · simp [GenState.newFunctions]
  · intro m hm _
    exact get?_append_old _ _ _ hm

theorem frame_setVar (st : GenState) (b vs fs : Nat) (name : String) (v : Value) :
    Frame b vs fs st (st.setVar vs name v) := by
  refine ⟨Nat.le_refl _, ?_, Nat.le_refl _, fun _ _ _ => rfl, fun _ _ => rfl, ?_,
    fun _ _ _ => rfl⟩
  · simp [GenState.setVar, updateAt_length]
  · intro m _ hne
    exact get?_updateAt_ne _ _ _ _ hne

theorem frame_setFunction (st : GenState) (b vs fs : Nat) (name : String) (f : Nat) :
    Frame b vs fs st (st.setFunction fs name f) := by
  refine ⟨Nat.le_refl _, Nat.le_refl _, ?_, fun _ _ _ => rfl, fun _ _ => rfl,
    fun _ _ _ => rfl, ?_⟩
  · simp [GenState.setFunction, updateAt_length]
  · intro m _ hne
    exact get?_updateAt_ne _ _ _ _ hne

theorem frame_blockName (st : GenState) (b vs fs : Nat) : Frame b vs fs st (blockName st).2 :=
  ⟨Nat.le_refl _, Nat.le_refl _, Nat.le_refl _, fun _ _ _ => rfl, fun _ _ => rfl,
    fun _ _ _ => rfl, fun _ _ _ => rfl⟩

theorem frame_newFunc (st : GenState) (b vs fs : Nat) (name : String) (t : IRType)
    (ps : List (String × IRType)) : Frame b vs fs st (st.newFunc name t ps).2 :=
  ⟨Nat.le_refl _, Nat.le_refl _, Nat.le_refl _, fun _ _ _ => rfl, fun _ _ => rfl,
    fun _ _ _ => rfl, fun _ _ _ => rfl⟩

theorem frame_bindParams (b vs fs fnc : Nat) (args : List String) (i : Nat) (st : GenState) :
    Frame b vs fs st (bindParams vs fnc args i st) := by
  induction args generalizing i st with
  | nil => exact Frame.refl _ _ _ _
  | cons a rest ih =>
    simp only [bindParams]
    exact Frame.trans (frame_setVar st b vs fs a _) (ih _ _) (Or.inl rfl) (Or.inl rfl)
      (Or.inl rfl)

/-! ## Lowering: the cases of `resolveStmt` -/

theorem resolveStmtWith_for (thenS elsS bodyS : StmtLowering) (lhs rhs : Node) (str : String)
    (cond els args : Node) (argDefs : List String) (s : Scope) (st : GenState) :
    resolveStmtWith thenS elsS bodyS .NodeTypeFor lhs rhs str cond els args argDefs s st =
      (forEnter s st).bind fun e =>
        (bodyS e.loopScope e.state).bind (forLeave s e.loopBlock e.leaveBlock) := by
  rcases s with ⟨ctx, il, fl, fn⟩
  cases ctx with
  | null => rfl
  | mk b pv pf fs vs => rfl

theorem resolveStmtWith_if (thenS elsS bodyS : StmtLowering) (lhs rhs : Node) (str : String)
    (cond els args : Node) (argDefs : List String) (s : Scope) (st : GenState) :
    resolveStmtWith thenS elsS bodyS .NodeTypeIF lhs rhs str cond els args argDefs s st =
      (ifEnter cond els s st).bind fun e =>
        (thenS e.thenScope e.state).bind fun r =>
          (if els ≠ .null then
              (elsS (elseEnter s e.elseBlock e.leaveBlock
                      (ifFallThrough e.thenBlock e.leaveBlock r.2)).1
                    (elseEnter s e.elseBlock e.leaveBlock
                      (ifFallThrough e.thenBlock e.leaveBlock r.2)).2).map Prod.snd
            else .ok (ifFallThrough e.thenBlock e.leaveBlock r.2)).bind
            (ifLeave s e.leaveBlock) := by
  rcases s with ⟨ctx, il, fl, fn⟩
  cases ctx with
  | null => rfl
  | mk b pv pf fs vs =>
    simp only [resolveStmtWith, ifEnter, elseEnter, ifFallThrough, BlockContext.blockOf, bind,
      Except.bind,
      pure, Except.pure, Except.map]
    cases resolveExpr cond _ _ with
    | error e => rfl
    | ok c =>
      simp only []
      cases thenS _ _ with
      | error e => rfl
      | ok r =>
        simp only []
        by_cases he : els = .null
        · subst he
          simp only [ne_eq, not_true_eq_false, ↓reduceIte]
          cases il <;> rfl
        · simp only [ne_eq, he, not_false_eq_true, ↓reduceIte]
          cases elsS _ _ with
          | error e => rfl
          | ok r2 => cases il <;> rfl

theorem resolveStmtWith_function (thenS elsS bodyS : StmtLowering) (lhs rhs : Node)
    (str : String) (cond els args : Node) (argDefs : List String) (s : Scope) (st : GenState) :
    resolveStmtWith thenS elsS bodyS .NodeTypeFunction lhs rhs str cond els args argDefs s st =
      (functionEnter str argDefs s st).bind fun e =>
        (bodyS e.2.1 e.2.2).bind fun r => .ok (s, functionLeave e.1 r.2) := by
  rcases s with ⟨ctx, il, fl, fn⟩
  cases ctx with
  | null => rfl
  | mk b pv pf fs vs => rfl

/-! ## Lowering of expressions: what it leaves alone -/

theorem ok_pair {ε α β : Type} {a : α × β} {x : α} {y : β}
    (h : (Except.ok a : Except ε (α × β)) = .ok (x, y)) : a.1 = x ∧ a.2 = y := by
  injection h with h
  subst h
  exact ⟨rfl, rfl⟩

theorem ExprFrame.unchanged (b : Nat) (st : GenState) : ExprFrame b st st :=
  ⟨rfl, rfl, rfl, rfl, fun _ _ => rfl, fun _ => rfl⟩

theorem ExprFrame.andThen {b : Nat} {st st1 st2 : GenState} (h1 : ExprFrame b st st1)
    (h2 : ExprFrame b st1 st2) : ExprFrame b st st2 :=
  ⟨h2.vars_eq.trans h1.vars_eq, h2.functions_eq.trans h1.functions_eq,
    h2.blockIndex_eq.trans h1.blockIndex_eq, h2.blocks_len.trans h1.blocks_len,
    fun k hk => (h2.blocks_old k hk).trans (h1.blocks_old k hk),
    fun k => (h2.blocks_sig k).trans (h1.blocks_sig k)⟩

theorem ExprFrame.sig {b : Nat} {st st' : GenState} (h : ExprFrame b st st') (k : Nat)
    {α : Type}
    (g : String × Nat × Option Terminator → α) :
    (st'.blocks.get? k).map (fun x => g (x.name, x.parent, x.term)) =
      (st.blocks.get? k).map (fun x => g (x.name, x.parent, x.term)) := by
  have := congrArg (Option.map g) (h.blocks_sig k)
  simpa [Option.map_map, Function.comp_def] using this

theorem ExprFrame.frame {b : Nat} {st st' : GenState} (h : ExprFrame b st st')
    (vs fs : Nat) :
    Frame b vs fs st st' :=
  ⟨Nat.le_of_eq h.blocks_len.symm, Nat.le_of_eq (by rw [h.vars_eq]),
    Nat.le_of_eq (by rw [h.functions_eq]), fun k _ hne => h.blocks_old k hne,
    fun k _ => h.sig k (fun x => x.1),
    fun m _ _ => by rw [h.vars_eq], fun m _ _ => by rw [h.functions_eq]⟩

theorem ExprFrame.termOf {b : Nat} {st st' : GenState} (h : ExprFrame b st st')
    (k : Nat) :
    st'.termOf k = st.termOf k := by
  have := congrArg (fun o => Option.bind o id) (h.sig k (fun x => x.2.2))
  simpa [GenState.termOf, Option.bind_map, Function.comp_def] using this

theorem ExprFrame.parentOf {b : Nat} {st st' : GenState} (h : ExprFrame b st st')
    (k : Nat) :
    st'.parentOf k = st.parentOf k := by
  have := congrArg (fun o => Option.getD o 0) (h.sig k (fun x => x.2.1))
  simpa [GenState.parentOf] using this

theorem exprFrame_appendInst (st : GenState) (b : Nat) (i : Inst) :
    ExprFrame b st (st.appendInst b i) := by
  refine ⟨rfl, rfl, rfl, ?_, ?_, ?_⟩
  · simp [GenState.appendInst, updateAt_length]
  · intro k hne
    exact get?_updateAt_ne _ _ _ _ hne
  · intro k
    exact get?_map_updateAt _ _ _ _ _ (fun _ => rfl)

theorem exprFrame_newInst (st : GenState) (b : Nat) (build : Nat → Inst) (typ : IRType) :
    ExprFrame b st (st.newInst b build typ).2 := by
  have h := exprFrame_appendInst st b (build st.nextId)
  exact ⟨h.vars_eq, h.functions_eq, h.blockIndex_eq, h.blocks_len, h.blocks_old, h.blocks_sig⟩

theorem resolveBinary_frames (lhs rhs : ExprLowering) (hl : lhs.Frames) (hr : rhs.Frames)
    (build : Nat → Value → Value → Inst) (typ : Value → IRType) :
    ExprLowering.Frames (resolveBinary lhs rhs build typ) := by
  intro b pv pf fs vs st v st' h
  simp only [resolveBinary] at h
  obtain ⟨⟨l, st1⟩, h1, h⟩ := bind_ok _ _ _ h
  obtain ⟨⟨r, st2⟩, h2, h⟩ := bind_ok _ _ _ h
  simp only [BlockContext.blockOf, bind, Except.bind, pure, Except.pure] at h
  obtain ⟨_, hs⟩ := ok_pair h
  subst hs
  exact ((hl _ _ _ _ _ _ _ _ h1).andThen (hr _ _ _ _ _ _ _ _ h2)).andThen
    (exprFrame_newInst _ _ _ _)

theorem callFunctionWith_frames (args : ArgsLowering) (ha : args.Frames) (name : String) :
    ExprLowering.Frames (callFunctionWith args name) := by
  intro b pv pf fs vs st v st' h
  simp only [callFunctionWith] at h
  obtain ⟨⟨l, st1⟩, h1, h⟩ := bind_ok _ _ _ h
  obtain ⟨fnc, h2, h⟩ := bind_ok _ _ _ h
  simp only [BlockContext.blockOf, bind, Except.bind, pure, Except.pure] at h
  obtain ⟨_, hs⟩ := ok_pair h
  subst hs
  exact (ha _ _ _ _ _ _ _ _ h1).andThen (exprFrame_newInst _ _ _ _)

theorem resolveExprWith_frames (lhs rhs : ExprLowering) (args : ArgsLowering) (hl : lhs.Frames)
    (hr : rhs.Frames) (ha : args.Frames) (t : NodeType) (value : Int) (str : String) :
    ExprLowering.Frames (resolveExprWith lhs rhs args t value str) := by
  cases t
  case NodeTypeNum =>
    intro b pv pf fs vs st v st' h
    simp only [resolveExprWith] at h
    obtain ⟨_, hs⟩ := ok_pair h
    subst hs
    exact ExprFrame.unchanged _ _
  case NodeTypeLVar =>
    intro b pv pf fs vs st v st' h
    simp only [resolveExprWith] at h
    obtain ⟨x, h1, h⟩ := bind_ok _ _ _ h
    by_cases hx : x.type = .Pointer .I32
    · simp only [hx, ↓reduceIte, BlockContext.blockOf, bind, Except.bind, pure,
        Except.pure] at h
      obtain ⟨_, hs⟩ := ok_pair h
      subst hs
      exact exprFrame_newInst _ _ _ _
    · simp only [hx, ↓reduceIte, pure, Except.pure] at h
      obtain ⟨_, hs⟩ := ok_pair h
      subst hs
      exact ExprFrame.unchanged _ _
  case NodeTypeFunctionCall => exact callFunctionWith_frames args ha str
  case NodeTypeSum => exact resolveBinary_frames lhs rhs hl hr .add Value.type
  case NodeTypeSub => exact resolveBinary_frames lhs rhs hl hr .sub Value.type
  case NodeTypeMul => exact resolveBinary_frames lhs rhs hl hr .mul Value.type
  case NodeTypeDiv => exact resolveBinary_frames lhs rhs hl hr .sdiv Value.type
  case NodeTypeEqual =>
    exact resolveBinary_frames lhs rhs hl hr (fun id => .icmp id .EQ) (fun _ => .I1)
  case NodeTypeNotEqual =>
    exact resolveBinary_frames lhs rhs hl hr (fun id => .icmp id .NE) (fun _ => .I1)
  case NodeTypeLT =>
    exact resolveBinary_frames lhs rhs hl hr (fun id => .icmp id .SLT) (fun _ => .I1)
  case NodeTypeLE =>
    exact resolveBinary_frames lhs rhs hl hr (fun id => .icmp id .SLE) (fun _ => .I1)
  all_goals
    intro b pv pf fs vs st v st' h
    cases h

theorem resolveExpr_resolveArgs_frames (n : Node) :
    (resolveExpr n).Frames ∧ (resolveArgs n).Frames := by
  induction n with
  | null =>
    constructor
    · intro b pv pf fs vs st v st' h
      simp only [resolveExpr] at h
      cases h
    · intro b pv pf fs vs st v st' h
      simp only [resolveArgs] at h
      obtain ⟨_, hs⟩ := ok_pair h
      subst hs
      exact ExprFrame.unchanged _ _
  | mk t l r v s c th el nx bb ar ad ihl ihr _ _ _ ihnx _ ihar =>
    have hw := resolveExprWith_frames (resolveExpr l) (resolveExpr r) (resolveArgs ar) ihl.1
      ihr.1 ihar.2 t v s
    constructor
    · intro b pv pf fs vs st v st' h
      rw [resolveExpr] at h
      exact hw _ _ _ _ _ _ _ _ h
    · intro b pv pf fs vs st x st' h
      rw [resolveArgs] at h
      obtain ⟨⟨a, st1⟩, h1, h⟩ := bind_ok _ _ _ h
      obtain ⟨⟨as, st2⟩, h2, h⟩ := bind_ok _ _ _ h
      simp only [pure, Except.pure] at h
      obtain ⟨_, hs⟩ := ok_pair h
      subst hs
      exact (hw _ _ _ _ _ _ _ _ h1).andThen (ihnx.2 _ _ _ _ _ _ _ _ h2)

theorem resolveExpr_frame {n : Node} {b : Nat} {pv pf : BlockContext} {fs vs : Nat}
    {st st' : GenState} {v : Value} (h : resolveExpr n (.mk b pv pf fs vs) st = .ok (v, st')) :
    ExprFrame b st st' :=
  (resolveExpr_resolveArgs_frames n).1 _ _ _ _ _ _ _ _ h

theorem resolveArgs_frame {n : Node} {b : Nat} {pv pf : BlockContext} {fs vs : Nat}
    {st st' : GenState} {v : List Value}
    (h : resolveArgs n (.mk b pv pf fs vs) st = .ok (v, st')) : ExprFrame b st st' :=
  (resolveExpr_resolveArgs_frames n).2 _ _ _ _ _ _ _ _ h

/-! ## Lowering: what `for`, `if` and `fnc` do before and after their bodies -/

theorem newChildContext_eq (ctx : BlockContext) (block : Nat) (st : GenState) :
    ctx.newChildContext block st =
      (.mk block ctx ctx st.functions.length st.vars.length, st.newFunctions.2.newVars.2) :=
  rfl

theorem newFunctionContext_eq (ctx : BlockContext) (block : Nat) (st : GenState) :
    ctx.newFunctionContext block st =
      (.mk block .null ctx st.functions.length st.vars.length, st.newFunctions.2.newVars.2) :=
  rfl

theorem frame_newTables (st : GenState) (b vs fs : Nat) :
    Frame b vs fs st st.newFunctions.2.newVars.2 :=
  (frame_newFunctions st b vs fs).trans (frame_newVars _ b vs fs) (Or.inl rfl) (Or.inl rfl)
    (Or.inl rfl)

theorem forEnter_eq {s : Scope} {b : Nat} {pv pf : BlockContext} {fs vs : Nat}
    (hctx : s.ctx = .mk b pv pf fs vs) (st : GenState) :
    forEnter s st = .ok
      { loopBlock := st.blocks.length
        leaveBlock := st.blocks.length + 1
        loopScope := childScope s st.blocks.length none (some (st.blocks.length + 1)) st
        state := forState b st } := by
  rcases s with ⟨ctx, il, fl, fn⟩
  simp only at hctx
  subst hctx
  simp [forEnter, childScope, forState, blockName, GenState.newBlock, BlockContext.blockOf,
    BlockContext.newChildContext, GenState.newFunctions, GenState.newVars, GenState.setTerm,
    Scope.newChildScope, bind, Except.bind, pure, Except.pure]

theorem get?_append_length {α : Type} (l : List α) (x : α) (l' : List α) :
    (l ++ x :: l').get? l.length = some x := by
  induction l with
  | nil => rfl
  | cons y ys ih => simpa using ih

theorem get?_append_length_succ {α : Type} (l : List α) (x y : α) (l' : List α) :
    (l ++ x :: y :: l').get? (l.length + 1) = some y := by
  induction l with
  | nil => rfl
  | cons z zs ih => simpa using ih

theorem get?_append_length_succ_succ {α : Type} (l : List α) (x y z : α) (l' : List α) :
    (l ++ x :: y :: z :: l').get? (l.length + 2) = some z := by
  induction l with
  | nil => rfl
  | cons w ws ih => simpa using ih

theorem termOf_setTerm_eq (st : GenState) (b : Nat) (t : Terminator)
    (hb : b < st.blocks.length) : (st.setTerm b t).termOf b = some t := by
  simp only [GenState.termOf, GenState.setTerm, get?_updateAt_eq]
  cases h : st.blocks.get? b with
  | none =>
    rw [List.get?_eq_none] at h
    omega
  | some x => rfl

theorem termOf_setTerm_ne (st : GenState) (b k : Nat) (t : Terminator) (h : k ≠ b) :
    (st.setTerm b t).termOf k = st.termOf k := by
  simp only [GenState.termOf, GenState.setTerm, get?_updateAt_ne _ _ _ _ h]

theorem termOf_eq_of_get? {st st' : GenState} {k : Nat}
    (h : st'.blocks.get? k = st.blocks.get? k) : st'.termOf k = st.termOf k := by
  simp only [GenState.termOf, h]

theorem forState_eq (b : Nat) (st : GenState) :
    forState b st =
      (((((blockName st).2.newBlock ((blockName st).2.parentOf b)
            ((blockName st).1 ++ "-for")).2.newBlock
          (((blockName st).2.newBlock ((blockName st).2.parentOf b)
            ((blockName st).1 ++ "-for")).2.parentOf b)
          ((blockName st).1 ++ "-leave-for")).2.setTerm b
        (.br (some st.blocks.length))).newFunctions.2).newVars.2 :=
  rfl

theorem frame_forState (b vs fs : Nat) (st : GenState) : Frame b vs fs st (forState b st) := by
  rw [forState_eq]
  refine Frame.trans (Frame.trans (Frame.trans (Frame.trans (frame_blockName st b vs fs)
    (frame_newBlock _ b vs fs _ _) ?_ ?_ ?_) (frame_newBlock _ b vs fs _ _) ?_ ?_ ?_)
    (frame_setTerm _ b vs fs _) ?_ ?_ ?_) (frame_newTables _ b vs fs) ?_ ?_ ?_
  all_goals exact Or.inl rfl

theorem forState_blocks (b : Nat) (st : GenState) :
    ∃ p q, (forState b st).blocks =
      updateAt (fun x => { x with term := some (.br (some st.blocks.length)) }) b
        (st.blocks ++ [⟨"block-" ++ toString st.blockIndex ++ "-for", p, [], none⟩,
          ⟨"block-" ++ toString st.blockIndex ++ "-leave-for", q, [], none⟩]) := by
  have h : (forState b st).blocks =
      updateAt (fun x => { x with term := some (.br (some st.blocks.length)) }) b
        ((st.blocks ++ [⟨"block-" ++ toString st.blockIndex ++ "-for",
            (blockName st).2.parentOf b, [], none⟩]) ++
          [⟨"block-" ++ toString st.blockIndex ++ "-leave-for",
            ((blockName st).2.newBlock ((blockName st).2.parentOf b)
              ((blockName st).1 ++ "-for")).2.parentOf b, [], none⟩]) := rfl
  rw [List.append_assoc] at h
  exact ⟨_, _, h⟩

theorem forState_blocks_length (b : Nat) (st : GenState) :
    (forState b st).blocks.length = st.blocks.length + 2 := by
  obtain ⟨p, q, h⟩ := forState_blocks b st
  rw [h, updateAt_length]
  simp

theorem forState_vars (b : Nat) (st : GenState) : (forState b st).vars = st.vars ++ [[]] :=
  rfl

theorem forState_functions (b : Nat) (st : GenState) :
    (forState b st).functions = st.functions ++ [[]] :=
  rfl

theorem forState_blockIndex (b : Nat) (st : GenState) :
    (forState b st).blockIndex = (st.blockIndex + 1) % 2 ^ 64 :=
  rfl

theorem forState_termOf (b : Nat) (st : GenState) (hb : b < st.blocks.length) :
    (forState b st).termOf b = some (.br (some st.blocks.length)) := by
  obtain ⟨p, q, h⟩ := forState_blocks b st
  simp only [GenState.termOf, h, get?_updateAt_eq]
  rw [get?_append_old _ _ _ hb]
  cases hg : st.blocks.get? b with
  | none =>
    rw [List.get?_eq_none] at hg
    omega
  | some x => rfl

theorem forState_loop (b : Nat) (st : GenState) (hb : b < st.blocks.length) :
    ∃ p, (forState b st).blocks.get? st.blocks.length =
      some ⟨"block-" ++ toString st.blockIndex ++ "-for", p, [], none⟩ := by
  obtain ⟨p, q, h⟩ := forState_blocks b st
  refine ⟨p, ?_⟩
  rw [h, get?_updateAt_ne _ _ _ _ (by omega), get?_append_length]

theorem forState_leave (b : Nat) (st : GenState) (hb : b < st.blocks.length) :
    ∃ q, (forState b st).blocks.get? (st.blocks.length + 1) =
      some ⟨"block-" ++ toString st.blockIndex ++ "-leave-for", q, [], none⟩ := by
  obtain ⟨p, q, h⟩ := forState_blocks b st
  refine ⟨q, ?_⟩
  rw [h, get?_updateAt_ne _ _ _ _ (by omega), get?_append_length_succ]

theorem ifBlocks_blocks (els : Node) (b : Nat) (st : GenState) :
    ∃ p q r, (ifBlocks els b st).blocks =
      st.blocks ++ (⟨"block-" ++ toString st.blockIndex ++ "-then", p, [], none⟩ ::
        ⟨"block-" ++ toString st.blockIndex ++ "-leave", q, [], none⟩ ::
        (if els ≠ .null then [⟨"block-" ++ toString st.blockIndex ++ "-else", r, [], none⟩]
          else [])) := by
  by_cases he : els = .null
  · subst he
    refine ⟨(blockName st).2.parentOf b, ((blockName st).2.newBlock ((blockName st).2.parentOf b)
      ((blockName st).1 ++ "-then")).2.parentOf b, 0, ?_⟩
    have h : (ifBlocks .null b st).blocks =
        (st.blocks ++ [⟨"block-" ++ toString st.blockIndex ++ "-then",
            (blockName st).2.parentOf b, [], none⟩]) ++
          [⟨"block-" ++ toString st.blockIndex ++ "-leave",
            ((blockName st).2.newBlock ((blockName st).2.parentOf b)
              ((blockName st).1 ++ "-then")).2.parentOf b, [], none⟩] := rfl
    rw [List.append_assoc] at h
    simpa using h
  · refine ⟨(blockName st).2.parentOf b, ((blockName st).2.newBlock ((blockName st).2.parentOf b)
      ((blockName st).1 ++ "-then")).2.parentOf b,
      (((blockName st).2.newBlock ((blockName st).2.parentOf b)
        ((blockName st).1 ++ "-then")).2.newBlock
          (((blockName st).2.newBlock ((blockName st).2.parentOf b)
            ((blockName st).1 ++ "-then")).2.parentOf b)
          ((blockName st).1 ++ "-leave")).2.parentOf b, ?_⟩
    have h : (ifBlocks els b st).blocks =
        ((st.blocks ++ [⟨"block-" ++ toString st.blockIndex ++ "-then",
            (blockName st).2.parentOf b, [], none⟩]) ++
          [⟨"block-" ++ toString st.blockIndex ++ "-leave",
            ((blockName st).2.newBlock ((blockName st).2.parentOf b)
              ((blockName st).1 ++ "-then")).2.parentOf b, [], none⟩]) ++
          [⟨"block-" ++ toString st.blockIndex ++ "-else",
            (((blockName st).2.newBlock ((blockName st).2.parentOf b)
              ((blockName st).1 ++ "-then")).2.newBlock
                (((blockName st).2.newBlock ((blockName st).2.parentOf b)
                  ((blockName st).1 ++ "-then")).2.parentOf b)
                ((blockName st).1 ++ "-leave")).2.parentOf b, [], none⟩] := by
      simp only [ifBlocks, ne_eq, he, not_false_eq_true, ↓reduceIte]
      rfl
    rw [List.append_assoc, List.append_assoc] at h
    simpa [he] using h

theorem ifBlocks_vars (els : Node) (b : Nat) (st : GenState) :
    (ifBlocks els b st).vars = st.vars := by
  by_cases he : els = .null
  · subst he
    rfl
  · simp only [ifBlocks, ne_eq, he, not_false_eq_true, ↓reduceIte]
    rfl

theorem ifBlocks_functions (els : Node) (b : Nat) (st : GenState) :
    (ifBlocks els b st).functions = st.functions := by
  by_cases he : els = .null
  · subst he
    rfl
  · simp only [ifBlocks, ne_eq, he, not_false_eq_true, ↓reduceIte]
    rfl

theorem ifBlocks_blockIndex (els : Node) (b : Nat) (st : GenState) :
    (ifBlocks els b st).blockIndex = (st.blockIndex + 1) % 2 ^ 64 := by
  by_cases he : els = .null
  · subst he
    rfl
  · simp only [ifBlocks, ne_eq, he, not_false_eq_true, ↓reduceIte]
    rfl

theorem ifBlocks_blocks_length (els : Node) (b : Nat) (st : GenState) :
    (ifBlocks els b st).blocks.length = st.blocks.length + (if els ≠ .null then 3 else 2) := by
  obtain ⟨p, q, r, h⟩ := ifBlocks_blocks els b st
  rw [h]
  by_cases he : els = .null <;> simp [he]

theorem frame_ifBlocks (els : Node) (b vs fs : Nat) (st : GenState) :
    Frame b vs fs st (ifBlocks els b st) := by
  obtain ⟨p, q, r, h⟩ := ifBlocks_blocks els b st
  refine ⟨?_, Nat.le_of_eq (by rw [ifBlocks_vars]), Nat.le_of_eq (by rw [ifBlocks_functions]),
    ?_, ?_, fun m _ _ => by rw [ifBlocks_vars], fun m _ _ => by rw [ifBlocks_functions]⟩
  · rw [ifBlocks_blocks_length]
    omega
  · intro k hk _
    rw [h, get?_append_old _ _ _ hk]
  · intro k hk
    rw [h, get?_append_old _ _ _ hk]

theorem ifEnter_inv {s : Scope} {b : Nat} {pv pf : BlockContext} {fs vs : Nat}
    (hctx : s.ctx = .mk b pv pf fs vs) {cond els : Node} {st : GenState} {e : IfEntry}
    (h : ifEnter cond els s st = .ok e) :
    ∃ c st1, resolveExpr cond s.ctx (ifBlocks els b st) = .ok (c, st1) ∧
      e = { thenBlock := st.blocks.length
            leaveBlock := st.blocks.length + 1
            elseBlock := if els ≠ .null then st.blocks.length + 2 else st.blocks.length + 1
            thenScope :=
              childScope s st.blocks.length (some (st.blocks.length + 1)) s.forLeaveBlock st
            state := ((st1.setTerm b (.condBr c st.blocks.length
              (if els ≠ .null then st.blocks.length + 2
                else st.blocks.length + 1))).newFunctions.2).newVars.2 } := by
  rcases s with ⟨ctx, il, fl, fn⟩
  simp only at hctx
  subst hctx
  by_cases he : els = .null
  · subst he
    have h0 : ifEnter cond .null ⟨.mk b pv pf fs vs, il, fl, fn⟩ st =
        (resolveExpr cond (.mk b pv pf fs vs) (ifBlocks .null b st)) >>= fun r =>
          .ok { thenBlock := st.blocks.length
                leaveBlock := (st.blocks ++ [(⟨"block-" ++ toString st.blockIndex ++ "-then",
                  (blockName st).2.parentOf b, [], none⟩ : Block)]).length
                elseBlock := (st.blocks ++ [(⟨"block-" ++ toString st.blockIndex ++ "-then",
                  (blockName st).2.parentOf b, [], none⟩ : Block)]).length
                thenScope :=
                  { ctx := .mk st.blocks.length (.mk b pv pf fs vs) (.mk b pv pf fs vs)
                      r.2.functions.length r.2.vars.length
                    ifLeaveBlock := some (st.blocks ++ [(⟨"block-" ++ toString st.blockIndex ++
                      "-then", (blockName st).2.parentOf b, [], none⟩ : Block)]).length
                    forLeaveBlock := fl
                    functions := none }
                state := ((r.2.setTerm b (.condBr r.1 st.blocks.length
                  (st.blocks ++ [(⟨"block-" ++ toString st.blockIndex ++ "-then",
                    (blockName st).2.parentOf b, [], none⟩ :
                      Block)]).length)).newFunctions.2).newVars.2 } :=
      rfl
    rw [h0] at h
    obtain ⟨⟨c, st1⟩, h1, h⟩ := bind_ok _ _ _ h
    have hf := resolveExpr_frame h1
    refine ⟨c, st1, h1, ?_⟩
    injection h with h
    rw [← h]
    simp [hf.functions_eq, hf.vars_eq, ifBlocks_vars, ifBlocks_functions, childScope]
  · cases els with
    | null => exact absurd rfl he
    | mk t l r v sr c th el nx bb ar ad =>
      simp only [ifEnter, BlockContext.blockOf, bind, Except.bind, pure, Except.pure, ne_eq,
        reduceCtorEq, not_false_eq_true, ↓reduceIte] at h
      generalize hX : resolveExpr cond _ _ = x at h
      have hX' : resolveExpr cond (.mk b pv pf fs vs)
          (ifBlocks (.mk t l r v sr c th el nx bb ar ad) b st) = x := hX
      cases x with
      | error e => cases h
      | ok r =>
        obtain ⟨c, st1⟩ := r
        have hf := resolveExpr_frame hX'
        refine ⟨c, st1, hX', ?_⟩
        simp only at h
        injection h with h
        rw [← h]
        simp [hf.functions_eq, hf.vars_eq, ifBlocks_vars, ifBlocks_functions, blockName,
          GenState.newBlock, BlockContext.newChildContext, GenState.newFunctions,
          GenState.newVars, Scope.newChildScope, GenState.setTerm, childScope]

theorem functionEnter_eq {s : Scope} {b : Nat} {pv pf : BlockContext} {fs vs : Nat}
    (hctx : s.ctx = .mk b pv pf fs vs) (str : String) (argDefs : List String) (st : GenState) :
    functionEnter str argDefs s st = .ok
      (st.blocks.length,
        { ctx := .mk st.blocks.length .null s.ctx st.functions.length st.vars.length
          ifLeaveBlock := none
          forLeaveBlock := none
          functions := none },
        functionState str argDefs b fs st) := by
  rcases s with ⟨ctx, il, fl, fn⟩
  simp only at hctx
  subst hctx
  rfl

theorem frame_functionState (str : String) (argDefs : List String) (b vs fs : Nat)
    (st : GenState) : Frame b vs fs st (functionState str argDefs b fs st) := by
  have h : functionState str argDefs b fs st =
      bindParams st.vars.length st.funcs.length argDefs 0
        (((((blockName (st.newFunc (st.funcName (st.parentOf b) ++ "_" ++ str) .I32
          (argDefs.map fun arg => (arg, .I32))).2).2.newBlock st.funcs.length
            ("block-" ++ toString st.blockIndex)).2.newFunctions.2).newVars.2).setFunction fs str
              st.funcs.length) := rfl
  rw [h]
  refine Frame.trans (Frame.trans (Frame.trans (Frame.trans (Frame.trans
    (frame_newFunc st b vs fs _ _ _) (frame_blockName _ b vs fs) ?_ ?_ ?_)
    (frame_newBlock _ b vs fs _ _) ?_ ?_ ?_) (frame_newTables _ b vs fs) ?_ ?_ ?_)
    (frame_setFunction _ b vs fs _ _) ?_ ?_ ?_)
    (frame_bindParams b st.vars.length fs st.funcs.length argDefs 0 _) ?_ ?_ ?_
  all_goals first
    | exact Or.inl rfl
    | exact Or.inr (Nat.le_refl _)

theorem bindParams_blocks (vars fnc : Nat) (args : List String) (i : Nat) (st : GenState) :
    (bindParams vars fnc args i st).blocks = st.blocks ∧
      (bindParams vars fnc args i st).functions = st.functions ∧
      (bindParams vars fnc args i st).blockIndex = st.blockIndex ∧
      (bindParams vars fnc args i st).vars.length = st.vars.length := by
  induction args generalizing i st with
  | nil => exact ⟨rfl, rfl, rfl, rfl⟩
  | cons a rest ih =>
    simp only [bindParams]
    obtain ⟨h1, h2, h3, h4⟩ := ih (i + 1) (st.setVar vars a (.param fnc i .I32))
    refine ⟨h1, h2, h3, ?_⟩
    rw [h4]
    simp [GenState.setVar, updateAt_length]

theorem functionState_blocks (str : String) (argDefs : List String) (b fs : Nat)
    (st : GenState) :
    (functionState str argDefs b fs st).blocks =
      st.blocks ++ [⟨"block-" ++ toString st.blockIndex, st.funcs.length, [], none⟩] := by
  have h : functionState str argDefs b fs st =
      bindParams st.vars.length st.funcs.length argDefs 0
        (((((blockName (st.newFunc (st.funcName (st.parentOf b) ++ "_" ++ str) .I32
          (argDefs.map fun arg => (arg, .I32))).2).2.newBlock st.funcs.length
            ("block-" ++ toString st.blockIndex)).2.newFunctions.2).newVars.2).setFunction fs str
              st.funcs.length) := rfl
  rw [h, (bindParams_blocks _ _ _ _ _).1]
  rfl

theorem functionState_blockIndex (str : String) (argDefs : List String) (b fs : Nat)
    (st : GenState) :
    (functionState str argDefs b fs st).blockIndex = (st.blockIndex + 1) % 2 ^ 64 := by
  have h : functionState str argDefs b fs st =
      bindParams st.vars.length st.funcs.length argDefs 0
        (((((blockName (st.newFunc (st.funcName (st.parentOf b) ++ "_" ++ str) .I32
          (argDefs.map fun arg => (arg, .I32))).2).2.newBlock st.funcs.length
            ("block-" ++ toString st.blockIndex)).2.newFunctions.2).newVars.2).setFunction fs str
              st.funcs.length) := rfl
  rw [h, (bindParams_blocks _ _ _ _ _).2.2.1]
  rfl

theorem functionState_functions (str : String) (argDefs : List String) (b fs : Nat)
    (st : GenState) :
    (functionState str argDefs b fs st).functions =
      updateAt (fun t => (str, st.funcs.length) :: t) fs (st.functions ++ [[]]) := by
  have h : functionState str argDefs b fs st =
      bindParams st.vars.length st.funcs.length argDefs 0
        (((((blockName (st.newFunc (st.funcName (st.parentOf b) ++ "_" ++ str) .I32
          (argDefs.map fun arg => (arg, .I32))).2).2.newBlock st.funcs.length
            ("block-" ++ toString st.blockIndex)).2.newFunctions.2).newVars.2).setFunction fs str
              st.funcs.length) := rfl
  rw [h, (bindParams_blocks _ _ _ _ _).2.1]
  rfl

/-! ## Lowering of statements: what it leaves alone -/

theorem forLeave_inv {s : Scope} {b : Nat} {pv pf : BlockContext} {fs vs : Nat}
    (hctx : s.ctx = .mk b pv pf fs vs) {loopBlock leaveBlock : Nat} {r : Scope × GenState}
    {b2 : Nat} {pv2 pf2 : BlockContext} {fs2 vs2 : Nat}
    (hr : r.1.ctx = .mk b2 pv2 pf2 fs2 vs2) {s' : Scope} {st' : GenState}
    (h : forLeave s loopBlock leaveBlock r = .ok (s', st')) :
    s' = { s with ctx := .mk leaveBlock pv pf fs vs } ∧
      st' = r.2.setTerm b2 (.br (some loopBlock)) := by
  simp only [forLeave, hr, hctx, BlockContext.blockOf, BlockContext.copyContext, bind,
    Except.bind, pure, Except.pure] at h
  injection h with h
  injection h with h1 h2
  exact ⟨h1.symm, h2.symm⟩

theorem resolveStmtWith_for_inv {thenS elsS bodyS : StmtLowering} (hbody : bodyS.Frames)
    {lhs rhs : Node} {str : String} {cond els args : Node} {argDefs : List String}
    {s s' : Scope} {st st' : GenState} {b : Nat} {pv pf : BlockContext} {fs vs : Nat}
    (hctx : s.ctx = .mk b pv pf fs vs)
    (h : resolveStmtWith thenS elsS bodyS .NodeTypeFor lhs rhs str cond els args argDefs s st =
      .ok (s', st')) :
    ∃ r b2,
      bodyS (childScope s st.blocks.length none (some (st.blocks.length + 1)) st)
        (forState b st) = .ok r ∧
      r.1 = { childScope s st.blocks.length none (some (st.blocks.length + 1)) st with
              ctx := .mk b2 s.ctx s.ctx st.functions.length st.vars.length } ∧
      (b2 = st.blocks.length ∨ st.blocks.length + 2 ≤ b2) ∧ b2 < r.2.blocks.length ∧
      Frame st.blocks.length st.vars.length st.functions.length (forState b st) r.2 ∧
      s' = { s with ctx := .mk (st.blocks.length + 1) pv pf fs vs } ∧
      st' = r.2.setTerm b2 (.br (some st.blocks.length)) := by
  rw [resolveStmtWith_for] at h
  obtain ⟨e, he, h⟩ := bind_ok _ _ _ h
  rw [forEnter_eq hctx] at he
  injection he with he
  subst he
  simp only at h
  obtain ⟨r, hr, h⟩ := bind_ok _ _ _ h
  have hlen := forState_blocks_length b st
  obtain ⟨b2, hs2, hb2, hv2, hf2⟩ := hbody _ _ r.1 r.2 _ _ _ _ _ rfl (by omega) hr
  have hr1 : r.1.ctx = .mk b2 s.ctx s.ctx st.functions.length st.vars.length := by rw [hs2]
  obtain ⟨h1, h2⟩ := forLeave_inv hctx hr1 h
  refine ⟨r, b2, hr, hs2, ?_, hv2, hf2, h1, h2⟩
  omega

theorem resolveStmtWith_for_frames {thenS elsS bodyS : StmtLowering} (hbody : bodyS.Frames)
    {lhs rhs : Node} {str : String} {cond els args : Node} {argDefs : List String}
    {s s' : Scope} {st st' : GenState} {b : Nat} {pv pf : BlockContext} {fs vs : Nat}
    (hctx : s.ctx = .mk b pv pf fs vs)
    (h : resolveStmtWith thenS elsS bodyS .NodeTypeFor lhs rhs str cond els args argDefs s st =
      .ok (s', st')) :
    s' = { s with ctx := .mk (st.blocks.length + 1) pv pf fs vs } ∧
      st.blocks.length + 1 < st'.blocks.length ∧ ∀ vs' fs', Frame b vs' fs' st st' := by
  obtain ⟨r, b2, hr, hr1, hb2, hv2, hf2, h1, h2⟩ := resolveStmtWith_for_inv hbody hctx h
  have hlen := forState_blocks_length b st
  have hle := hf2.blocks_le
  refine ⟨h1, ?_, ?_⟩
  · rw [h2]
    simp only [GenState.setTerm, updateAt_length]
    omega
  · intro vs' fs'
    rw [h2]
    have hA : Frame b vs' fs' st r.2 :=
      Frame.trans (frame_forState b vs' fs' st) hf2 (Or.inr (Nat.le_refl _))
        (Or.inr (Nat.le_refl _)) (Or.inr (Nat.le_refl _))
    refine Frame.trans hA (frame_setTerm r.2 b2 vs' fs' _) ?_ (Or.inl rfl) (Or.inl rfl)
    right
    omega

/-! ### if -/

theorem ifEnter_thenBlock {s : Scope} {b : Nat} {pv pf : BlockContext} {fs vs : Nat}
    (hctx : s.ctx = .mk b pv pf fs vs) {cond els : Node} {st : GenState} {e : IfEntry}
    (h : ifEnter cond els s st = .ok e) :
    e.thenBlock = st.blocks.length ∧ e.leaveBlock = st.blocks.length + 1 ∧
      e.elseBlock = (if els ≠ .null then st.blocks.length + 2 else st.blocks.length + 1) ∧
      e.thenScope =
        childScope s st.blocks.length (some (st.blocks.length + 1)) s.forLeaveBlock st := by
  obtain ⟨c, st1, _, he⟩ := ifEnter_inv hctx h
  subst he
  exact ⟨rfl, rfl, rfl, rfl⟩

theorem ifEnter_frame {s : Scope} {b : Nat} {pv pf : BlockContext} {fs vs : Nat}
    (hctx : s.ctx = .mk b pv pf fs vs) {cond els : Node} {st : GenState} {e : IfEntry}
    (h : ifEnter cond els s st = .ok e) (vs' fs' : Nat) : Frame b vs' fs' st e.state := by
  obtain ⟨c, st1, h1, he⟩ := ifEnter_inv hctx h
  subst he
  rw [hctx] at h1
  refine Frame.trans (Frame.trans (Frame.trans (frame_ifBlocks els b vs' fs' st)
    ((resolveExpr_frame h1).frame vs' fs') ?_ ?_ ?_) (frame_setTerm _ b vs' fs' _) ?_ ?_ ?_)
    (frame_newTables _ b vs' fs') ?_ ?_ ?_
  all_goals exact Or.inl rfl

theorem ifEnter_lengths {s : Scope} {b : Nat} {pv pf : BlockContext} {fs vs : Nat}
    (hctx : s.ctx = .mk b pv pf fs vs) {cond els : Node} {st : GenState} {e : IfEntry}
    (h : ifEnter cond els s st = .ok e) :
    e.state.blocks.length = st.blocks.length + (if els ≠ .null then 3 else 2) ∧
      e.state.vars = st.vars ++ [[]] ∧ e.state.functions = st.functions ++ [[]] ∧
      e.state.blockIndex = (st.blockIndex + 1) % 2 ^ 64 := by
  obtain ⟨c, st1, h1, he⟩ := ifEnter_inv hctx h
  subst he
  rw [hctx] at h1
  have hf := resolveExpr_frame h1
  refine ⟨?_, ?_, ?_, ?_⟩
  · simp only [GenState.newVars, GenState.newFunctions, GenState.setTerm, updateAt_length]
    rw [hf.blocks_len, ifBlocks_blocks_length]
  · simp only [GenState.newVars, GenState.newFunctions, GenState.setTerm]
    rw [hf.vars_eq, ifBlocks_vars]
  · simp only [GenState.newVars, GenState.newFunctions, GenState.setTerm]
    rw [hf.functions_eq, ifBlocks_functions]
  · simp only [GenState.newVars, GenState.newFunctions, GenState.setTerm]
    rw [hf.blockIndex_eq, ifBlocks_blockIndex]

theorem frame_ifFallThrough (thenBlock leaveBlock vs fs : Nat) (st : GenState) :
    Frame thenBlock vs fs st (ifFallThrough thenBlock leaveBlock st) := by
  unfold ifFallThrough
  split
  · exact frame_setTerm _ _ _ _ _
  · exact Frame.refl _ _ _ _

theorem ifFallThrough_fields (thenBlock leaveBlock : Nat) (st : GenState) :
    (ifFallThrough thenBlock leaveBlock st).blocks.length = st.blocks.length ∧
      (ifFallThrough thenBlock leaveBlock st).vars = st.vars ∧
      (ifFallThrough thenBlock leaveBlock st).functions = st.functions ∧
      (ifFallThrough thenBlock leaveBlock st).blockIndex = st.blockIndex := by
  unfold ifFallThrough
  split
  · exact ⟨by simp [GenState.setTerm, updateAt_length], rfl, rfl, rfl⟩
  · exact ⟨rfl, rfl, rfl, rfl⟩

theorem elseEnter_eq (s : Scope) (elseBlock leaveBlock : Nat) (st : GenState) :
    elseEnter s elseBlock leaveBlock st =
      (childScope s elseBlock (some leaveBlock) s.forLeaveBlock st,
        st.newFunctions.2.newVars.2) :=
  rfl

theorem ifLeave_inv {s : Scope} {b : Nat} {pv pf : BlockContext} {fs vs : Nat}
    (hctx : s.ctx = .mk b pv pf fs vs) {leaveBlock : Nat} {st : GenState} {s' : Scope}
    {st' : GenState} (h : ifLeave s leaveBlock st = .ok (s', st')) :
    s' = { s with ctx := .mk leaveBlock pv pf fs vs } ∧
      st' = (match s.ifLeaveBlock with
        | some outer => st.setTerm leaveBlock (.br (some outer))
        | none => st) := by
  rcases s with ⟨ctx, il, fl, fn⟩
  simp only at hctx
  subst hctx
  cases il with
  | none =>
    simp only [ifLeave, BlockContext.copyContext, bind, Except.bind, pure, Except.pure] at h
    injection h with h
    injection h with h1 h2
    exact ⟨h1.symm, h2.symm⟩
  | some o =>
    simp only [ifLeave, BlockContext.copyContext, bind, Except.bind, pure, Except.pure] at h
    injection h with h
    injection h with h1 h2
    exact ⟨h1.symm, h2.symm⟩

theorem frame_ifLeaveState (il : Option Nat) (leaveBlock vs fs : Nat) (st : GenState) :
    Frame leaveBlock vs fs st (match il with
        | some outer => st.setTerm leaveBlock (.br (some outer))
        | none => st) := by
  cases il with
  | none => exact Frame.refl _ _ _ _
  | some o => exact frame_setTerm _ _ _ _ _

theorem resolveStmtWith_if_inv {thenS elsS bodyS : StmtLowering} (hthen : thenS.Frames)
    (hels : elsS.Frames) {lhs rhs : Node} {str : String} {cond els args : Node}
    {argDefs : List String} {s s' : Scope} {st st' : GenState} {b : Nat}
    {pv pf : BlockContext} {fs vs : Nat} (hctx : s.ctx = .mk b pv pf fs vs)
    (h : resolveStmtWith thenS elsS bodyS .NodeTypeIF lhs rhs str cond els args argDefs s st =
      .ok (s', st')) :
    ∃ e r b2 st7,
      ifEnter cond els s st = .ok e ∧
      thenS e.thenScope e.state = .ok r ∧
      r.1 = { e.thenScope with
              ctx := .mk b2 s.ctx s.ctx st.functions.length st.vars.length } ∧
      (b2 = st.blocks.length ∨ e.state.blocks.length ≤ b2) ∧ b2 < r.2.blocks.length ∧
      Frame st.blocks.length st.vars.length st.functions.length e.state r.2 ∧
      ((els = .null ∧ st7 = ifFallThrough e.thenBlock e.leaveBlock r.2) ∨
       (els ≠ .null ∧ ∃ r2 b3,
          elsS (childScope s e.elseBlock (some e.leaveBlock) s.forLeaveBlock
                 (ifFallThrough e.thenBlock e.leaveBlock r.2))
               (ifFallThrough e.thenBlock e.leaveBlock r.2).newFunctions.2.newVars.2 = .ok r2 ∧
          r2.1 = { childScope s e.elseBlock (some e.leaveBlock) s.forLeaveBlock
                     (ifFallThrough e.thenBlock e.leaveBlock r.2) with
                   ctx := .mk b3 s.ctx s.ctx r.2.functions.length r.2.vars.length } ∧
          (b3 = st.blocks.length + 2 ∨ r.2.blocks.length ≤ b3) ∧ b3 < r2.2.blocks.length ∧
          Frame (st.blocks.length + 2) r.2.vars.length r.2.functions.length
            (ifFallThrough e.thenBlock e.leaveBlock r.2).newFunctions.2.newVars.2 r2.2 ∧
          st7 = r2.2)) ∧
      s' = { s with ctx := .mk (st.blocks.length + 1) pv pf fs vs } ∧
      st' = (match s.ifLeaveBlock with
        | some outer => st7.setTerm (st.blocks.length + 1) (.br (some outer))
        | none => st7) := by
  rw [resolveStmtWith_if] at h
  obtain ⟨e, he, h⟩ := bind_ok _ _ _ h
  obtain ⟨r, hr, h⟩ := bind_ok _ _ _ h
  obtain ⟨st7, h7, h⟩ := bind_ok _ _ _ h
  obtain ⟨hT, hL, hE, hS⟩ := ifEnter_thenBlock hctx he
  obtain ⟨hlen, hvars, hfuns, _⟩ := ifEnter_lengths hctx he
  have hlt : st.blocks.length < e.state.blocks.length := by
    rw [hlen]
    split <;> omega
  obtain ⟨b2, hs2, hb2, hv2, hf2⟩ := hthen e.thenScope e.state r.1 r.2 st.blocks.length s.ctx
    s.ctx st.functions.length st.vars.length (by rw [hS]; rfl) hlt hr
  obtain ⟨h1, h2⟩ := ifLeave_inv hctx h
  rw [hL] at h1 h2
  refine ⟨e, r, b2, st7, he, hr, hs2, hb2, hv2, ?_, ?_, h1, h2⟩
  · have hv : e.state.vars.length = st.vars.length + 1 := by rw [hvars]; simp
    have hf : e.state.functions.length = st.functions.length + 1 := by rw [hfuns]; simp
    exact hf2
  · by_cases hn : els = .null
    · left
      simp only [hn, ne_eq, not_true_eq_false, ↓reduceIte] at h7
      injection h7 with h7
      exact ⟨hn, h7.symm⟩
    · right
      simp only [ne_eq, hn, not_false_eq_true, ↓reduceIte, elseEnter_eq] at h7
      cases hr2 : elsS (childScope s e.elseBlock (some e.leaveBlock) s.forLeaveBlock
          (ifFallThrough e.thenBlock e.leaveBlock r.2))
          (ifFallThrough e.thenBlock e.leaveBlock r.2).newFunctions.2.newVars.2 with
      | error err =>
        rw [hr2] at h7
        cases h7
      | ok r2 =>
        rw [hr2] at h7
        simp only [Except.map] at h7
        injection h7 with h7
        obtain ⟨fl, fv, ff, _⟩ := ifFallThrough_fields e.thenBlock e.leaveBlock r.2
        have hle := hf2.blocks_le
        have hEb : e.elseBlock = st.blocks.length + 2 := by
          rw [hE]
          simp [hn]
        have hlen3 : e.state.blocks.length = st.blocks.length + 3 := by
          rw [hlen]
          simp [hn]
        obtain ⟨b3, hs3, hb3, hv3, hf3⟩ := hels _ _ r2.1 r2.2 e.elseBlock s.ctx s.ctx
          (ifFallThrough e.thenBlock e.leaveBlock r.2).functions.length
          (ifFallThrough e.thenBlock e.leaveBlock r.2).vars.length rfl
          (by
            simp only [GenState.newVars, GenState.newFunctions]
            rw [fl]
            omega) hr2
        refine ⟨hn, r2, b3, rfl, ?_, ?_, hv3, ?_, h7.symm⟩
        · rw [hs3, ff, fv]
        · rcases hb3 with hb3 | hb3
          · left
            omega
          · right
            simp only [GenState.newVars, GenState.newFunctions] at hb3
            omega
        · rw [ff, fv, hEb] at hf3
          exact hf3

theorem resolveStmtWith_if_frames {thenS elsS bodyS : StmtLowering} (hthen : thenS.Frames)
    (hels : elsS.Frames) {lhs rhs : Node} {str : String} {cond els args : Node}
    {argDefs : List String} {s s' : Scope} {st st' : GenState} {b : Nat}
    {pv pf : BlockContext} {fs vs : Nat} (hctx : s.ctx = .mk b pv pf fs vs)
    (h : resolveStmtWith thenS elsS bodyS .NodeTypeIF lhs rhs str cond els args argDefs s st =
      .ok (s', st')) :
    s' = { s with ctx := .mk (st.blocks.length + 1) pv pf fs vs } ∧
      st.blocks.length + 1 < st'.blocks.length ∧ ∀ vs' fs', Frame b vs' fs' st st' := by
  obtain ⟨e, r, b2, st7, he, hr, hs2, hb2, hv2, hf2, h7, h1, h2⟩ :=
    resolveStmtWith_if_inv hthen hels hctx h
  obtain ⟨hT, hL, hE, hS⟩ := ifEnter_thenBlock hctx he
  obtain ⟨hlen, hvars, hfuns, _⟩ := ifEnter_lengths hctx he
  have hlen2 : st.blocks.length + 2 ≤ e.state.blocks.length := by
    rw [hlen]
    split <;> omega
  have hv : e.state.vars.length = st.vars.length + 1 := by rw [hvars]; simp
  have hf : e.state.functions.length = st.functions.length + 1 := by rw [hfuns]; simp
  have hle := hf2.blocks_le
  obtain ⟨fl, fv, ff, _⟩ := ifFallThrough_fields e.thenBlock e.leaveBlock r.2
  -- the state after the then-branch and its fall-through
  have hA : ∀ vs' fs', Frame b vs' fs' st (ifFallThrough e.thenBlock e.leaveBlock r.2) := by
    intro vs' fs'
    have h0 := ifEnter_frame hctx he vs' fs'
    have h3 : Frame b vs' fs' st r.2 :=
      Frame.trans h0 hf2 (Or.inr (Nat.le_refl _)) (Or.inr (Nat.le_refl _))
        (Or.inr (Nat.le_refl _))
    refine Frame.trans h3 (frame_ifFallThrough e.thenBlock e.leaveBlock vs' fs' r.2)
      (Or.inr ?_) (Or.inl rfl) (Or.inl rfl)
    rw [hT]
  have hB : (∀ vs' fs', Frame b vs' fs' st st7) ∧ st.blocks.length + 2 ≤ st7.blocks.length := by
    rcases h7 with ⟨_, h7⟩ | ⟨_, r2, b3, hr2, hs3, hb3, hv3, hf3, h7⟩
    · subst h7
      exact ⟨hA, by omega⟩
    · subst h7
      have hle3 := hf3.blocks_le
      have hlv := hf2.vars_le
      have hlf := hf2.functions_le
      refine ⟨fun vs' fs' => ?_, ?_⟩
      · have h4 : Frame b vs' fs' st
            (ifFallThrough e.thenBlock e.leaveBlock r.2).newFunctions.2.newVars.2 :=
          Frame.trans (hA vs' fs') (frame_newTables _ b vs' fs') (Or.inl rfl) (Or.inl rfl)
            (Or.inl rfl)
        refine Frame.trans h4 hf3 (Or.inr ?_) (Or.inr ?_) (Or.inr ?_) <;> omega
      · simp only [GenState.newVars, GenState.newFunctions] at hle3
        omega
  refine ⟨h1, ?_, ?_⟩
  · rw [h2]
    cases s.ifLeaveBlock with
    | none =>
      simp only
      omega
    | some o =>
      simp only [GenState.setTerm, updateAt_length]
      omega
  · intro vs' fs'
    rw [h2]
    exact Frame.trans (hB.1 vs' fs') (frame_ifLeaveState s.ifLeaveBlock _ vs' fs' st7)
      (Or.inr (by omega)) (Or.inl rfl) (Or.inl rfl)

/-! ### fnc -/

theorem frame_functionLeave (fncBlock vs fs : Nat) (st : GenState) :
    Frame fncBlock vs fs st (functionLeave fncBlock st) := by
  unfold functionLeave
  split
  · exact frame_setTerm _ _ _ _ _
  · exact Frame.refl _ _ _ _

theorem functionLeave_fields (fncBlock : Nat) (st : GenState) :
    (functionLeave fncBlock st).blocks.length = st.blocks.length ∧
      (functionLeave fncBlock st).vars = st.vars ∧
      (functionLeave fncBlock st).functions = st.functions ∧
      (functionLeave fncBlock st).blockIndex = st.blockIndex := by
  unfold functionLeave
  split
  · exact ⟨by simp [GenState.setTerm, updateAt_length], rfl, rfl, rfl⟩
  · exact ⟨rfl, rfl, rfl, rfl⟩

theorem resolveStmtWith_function_inv {thenS elsS bodyS : StmtLowering} (hbody : bodyS.Frames)
    {lhs rhs : Node} {str : String} {cond els args : Node} {argDefs : List String}
    {s s' : Scope} {st st' : GenState} {b : Nat} {pv pf : BlockContext} {fs vs : Nat}
    (hctx : s.ctx = .mk b pv pf fs vs)
    (h : resolveStmtWith thenS elsS bodyS .NodeTypeFunction lhs rhs str cond els args argDefs
      s st = .ok (s', st')) :
    ∃ r b2,
      bodyS { ctx := .mk st.blocks.length .null s.ctx st.functions.length st.vars.length
              ifLeaveBlock := none
              forLeaveBlock := none
              functions := none } (functionState str argDefs b fs st) = .ok r ∧
      r.1.ctx = .mk b2 .null s.ctx st.functions.length st.vars.length ∧
      r.1.forLeaveBlock = none ∧
      (b2 = st.blocks.length ∨ st.blocks.length + 1 ≤ b2) ∧ b2 < r.2.blocks.length ∧
      Frame st.blocks.length st.vars.length st.functions.length
        (functionState str argDefs b fs st) r.2 ∧
      s' = s ∧ st' = functionLeave st.blocks.length r.2 := by
  rw [resolveStmtWith_function] at h
  obtain ⟨e, he, h⟩ := bind_ok _ _ _ h
  rw [functionEnter_eq hctx] at he
  injection he with he
  subst he
  simp only at h
  obtain ⟨r, hr, h⟩ := bind_ok _ _ _ h
  have hlen : (functionState str argDefs b fs st).blocks.length = st.blocks.length + 1 := by
    rw [functionState_blocks]
    simp
  obtain ⟨b2, hs2, hb2, hv2, hf2⟩ := hbody _ _ r.1 r.2 _ _ _ _ _ rfl (by omega) hr
  injection h with h
  injection h with h1 h2
  refine ⟨r, b2, hr, by rw [hs2], by rw [hs2], ?_, hv2, hf2, h1.symm, h2.symm⟩
  omega

theorem resolveStmtWith_function_frames {thenS elsS bodyS : StmtLowering}
    (hbody : bodyS.Frames) {lhs rhs : Node} {str : String} {cond els args : Node}
    {argDefs : List String} {s s' : Scope} {st st' : GenState} {b : Nat}
    {pv pf : BlockContext} {fs vs : Nat} (hctx : s.ctx = .mk b pv pf fs vs)
    (h : resolveStmtWith thenS elsS bodyS .NodeTypeFunction lhs rhs str cond els args argDefs
      s st = .ok (s', st')) :
    s' = s ∧ st.blocks.length < st'.blocks.length ∧ ∀ vs', Frame b vs' fs st st' := by
  obtain ⟨r, b2, hr, hr1, _, hb2, hv2, hf2, h1, h2⟩ :=
    resolveStmtWith_function_inv hbody hctx h
  have hlen : (functionState str argDefs b fs st).blocks.length = st.blocks.length + 1 := by
    rw [functionState_blocks]
    simp
  have hle := hf2.blocks_le
  obtain ⟨fl, _, _, _⟩ := functionLeave_fields st.blocks.length r.2
  refine ⟨h1, ?_, ?_⟩
  · rw [h2, fl]
    omega
  · intro vs'
    rw [h2]
    have hA : Frame b vs' fs st r.2 :=
      Frame.trans (frame_functionState str argDefs b vs' fs st) hf2 (Or.inr (Nat.le_refl _))
        (Or.inr (Nat.le_refl _)) (Or.inr (Nat.le_refl _))
    exact Frame.trans hA (frame_functionLeave _ vs' fs r.2) (Or.inr (Nat.le_refl _))
      (Or.inl rfl) (Or.inl rfl)

/-! ### the cases without a body -/

theorem resolveStmtWith_return_inv {thenS elsS bodyS : StmtLowering} {lhs rhs : Node}
    {str : String} {cond els args : Node} {argDefs : List String} {s s' : Scope}
    {st st' : GenState} {b : Nat} {pv pf : BlockContext} {fs vs : Nat}
    (hctx : s.ctx = .mk b pv pf fs vs)
    (h : resolveStmtWith thenS elsS bodyS .NodeTypeReturn lhs rhs str cond els args argDefs
      s st = .ok (s', st')) :
    ∃ v st1, resolveExpr lhs s.ctx st = .ok (v, st1) ∧ s' = s ∧
      st' = st1.setTerm b (.ret (some v)) := by
  simp only [resolveStmtWith] at h
  obtain ⟨⟨v, st1⟩, h1, h⟩ := bind_ok _ _ _ h
  simp only [hctx, BlockContext.blockOf, bind, Except.bind, pure, Except.pure] at h
  injection h with h
  injection h with h2 h3
  exact ⟨v, st1, h1, h2.symm, h3.symm⟩

theorem resolveStmtWith_break_eq (thenS elsS bodyS : StmtLowering) (lhs rhs : Node)
    (str : String) (cond els args : Node) (argDefs : List String) {s : Scope} (st : GenState)
    {b : Nat} {pv pf : BlockContext} {fs vs : Nat} (hctx : s.ctx = .mk b pv pf fs vs) :
    resolveStmtWith thenS elsS bodyS .NodeTypeBreak lhs rhs str cond els args argDefs s st =
      .ok (s, st.setTerm b (.br s.forLeaveBlock)) := by
  simp only [resolveStmtWith, hctx, BlockContext.blockOf, bind, Except.bind, pure, Except.pure]

theorem resolveStmtWith_call_inv {thenS elsS bodyS : StmtLowering} {lhs rhs : Node}
    {str : String} {cond els args : Node} {argDefs : List String} {s s' : Scope}
    {st st' : GenState}
    (h : resolveStmtWith thenS elsS bodyS .NodeTypeFunctionCall lhs rhs str cond els args
      argDefs s st = .ok (s', st')) :
    ∃ v, callFunctionWith (resolveArgs args) str s.ctx st = .ok (v, st') ∧ s' = s := by
  simp only [resolveStmtWith] at h
  obtain ⟨⟨v, st1⟩, h1, h⟩ := bind_ok _ _ _ h
  simp only [pure, Except.pure] at h
  injection h with h
  injection h with h2 h3
  subst h3
  exact ⟨v, h1, h2.symm⟩

theorem resolveStmtWith_assign_inv {thenS elsS bodyS : StmtLowering} {lhs rhs : Node}
    {str : String} {cond els args : Node} {argDefs : List String} {s s' : Scope}
    {st st' : GenState} {b : Nat} {pv pf : BlockContext} {fs vs : Nat}
    (hctx : s.ctx = .mk b pv pf fs vs)
    (h : resolveStmtWith thenS elsS bodyS .NodeTypeAssign lhs rhs str cond els args argDefs
      s st = .ok (s', st')) :
    ∃ name v vr st1, lhs.strOf = .ok name ∧ s.ctx.findVariable name st = .ok v ∧
      resolveExpr rhs s.ctx st = .ok (vr, st1) ∧ s' = s ∧
      st' = st1.appendInst b (.store vr v) := by
  simp only [resolveStmtWith] at h
  obtain ⟨name, h0, h⟩ := bind_ok _ _ _ h
  obtain ⟨v, h1, h⟩ := bind_ok _ _ _ h
  obtain ⟨⟨vr, st1⟩, h2, h⟩ := bind_ok _ _ _ h
  simp only [hctx, BlockContext.blockOf, bind, Except.bind, pure, Except.pure] at h
  injection h with h
  injection h with h3 h4
  exact ⟨name, v, vr, st1, h0, h1, h2, h3.symm, h4.symm⟩

theorem resolveStmtWith_alloc_inv {thenS elsS bodyS : StmtLowering} {lhs rhs : Node}
    {str : String} {cond els args : Node} {argDefs : List String} {s s' : Scope}
    {st st' : GenState} {b : Nat} {pv pf : BlockContext} {fs vs : Nat}
    (hctx : s.ctx = .mk b pv pf fs vs)
    (h : resolveStmtWith thenS elsS bodyS .NodeTypeAlloc lhs rhs str cond els args argDefs
      s st = .ok (s', st')) :
    ∃ name vr st1, lhs.strOf = .ok name ∧
      resolveExpr rhs s.ctx (st.newInst b (fun id => .alloca id .I32) (.Pointer .I32)).2 =
        .ok (vr, st1) ∧ s' = s ∧
      st' = (st1.appendInst b (.store vr (.inst st.nextId (.Pointer .I32)))).setVar vs name
        (.inst st.nextId (.Pointer .I32)) := by
  simp only [resolveStmtWith, hctx, BlockContext.blockOf, BlockContext.varsOf, bind,
    Except.bind, pure, Except.pure] at h
  rw [← hctx] at h
  generalize hX : resolveExpr rhs _ _ = x at h
  have hX' : resolveExpr rhs s.ctx
      (st.newInst b (fun id => .alloca id .I32) (.Pointer .I32)).2 = x := hX
  cases x with
  | error e => cases h
  | ok r =>
    obtain ⟨vr, st1⟩ := r
    simp only at h
    cases hn : lhs.strOf with
    | error e =>
      rw [hn] at h
      cases h
    | ok name =>
      rw [hn] at h
      simp only at h
      injection h with h
      injection h with h3 h4
      exact ⟨name, vr, st1, rfl, rfl, h3.symm, h4.symm⟩

theorem callFunctionWith_frame {args : Node} {name : String} {b : Nat} {pv pf : BlockContext}
    {fs vs : Nat} {st st' : GenState} {v : Value}
    (h : callFunctionWith (resolveArgs args) name (.mk b pv pf fs vs) st = .ok (v, st')) :
    ExprFrame b st st' :=
  callFunctionWith_frames _ (resolveExpr_resolveArgs_frames args).2 name _ _ _ _ _ _ _ _ h

theorem resolveStmtWith_frames {thenS elsS bodyS : StmtLowering} (hthen : thenS.Frames)
    (hels : elsS.Frames) (hbody : bodyS.Frames) (t : NodeType) (lhs rhs : Node) (str : String)
    (cond els args : Node) (argDefs : List String) :
    StmtLowering.Frames
      (resolveStmtWith thenS elsS bodyS t lhs rhs str cond els args argDefs) := by
  intro s st s' st' b pv pf fs vs hctx hb h
  have same : ∀ {st1 : GenState}, s' = s → Frame b vs fs st st1 → st' = st1 →
      ∃ b', s' = { s with ctx := .mk b' pv pf fs vs } ∧ (b' = b ∨ st.blocks.length ≤ b') ∧
        b' < st'.blocks.length ∧ Frame b vs fs st st' := by
    intro st1 hs hf he
    subst he
    refine ⟨b, ?_, Or.inl rfl, Nat.lt_of_lt_of_le hb hf.blocks_le, hf⟩
    rw [hs]
    rcases s with ⟨ctx, il, fl, fn⟩
    simp only at hctx
    subst hctx
    rfl
  cases t
  case NodeTypeReturn =>
    obtain ⟨v, st1, h1, h2, h3⟩ := resolveStmtWith_return_inv hctx h
    rw [hctx] at h1
    exact same h2 (Frame.trans ((resolveExpr_frame h1).frame vs fs) (frame_setTerm _ b vs fs _)
      (Or.inl rfl) (Or.inl rfl) (Or.inl rfl)) h3
  case NodeTypeIF =>
    obtain ⟨h1, h2, h3⟩ := resolveStmtWith_if_frames hthen hels hctx h
    exact ⟨_, h1, Or.inr (by omega), h2, h3 vs fs⟩
  case NodeTypeFunction =>
    obtain ⟨h1, h2, h3⟩ := resolveStmtWith_function_frames hbody hctx h
    exact same h1 (h3 vs) rfl
  case NodeTypeFunctionCall =>
    obtain ⟨v, h1, h2⟩ := resolveStmtWith_call_inv h
    rw [hctx] at h1
    exact same h2 ((callFunctionWith_frame h1).frame vs fs) rfl
  case NodeTypeAssign =>
    obtain ⟨name, v, vr, st1, _, _, h1, h2, h3⟩ := resolveStmtWith_assign_inv hctx h
    rw [hctx] at h1
    exact same h2 (Frame.trans ((resolveExpr_frame h1).frame vs fs)
      (frame_appendInst _ b vs fs _) (Or.inl rfl) (Or.inl rfl) (Or.inl rfl)) h3
  case NodeTypeAlloc =>
    obtain ⟨name, vr, st1, _, h1, h2, h3⟩ := resolveStmtWith_alloc_inv hctx h
    rw [hctx] at h1
    refine same h2 ?_ h3
    refine Frame.trans (Frame.trans (Frame.trans (frame_newInst st b vs fs _ _)
      ((resolveExpr_frame h1).frame vs fs) ?_ ?_ ?_) (frame_appendInst _ b vs fs _) ?_ ?_ ?_)
      (frame_setVar _ b vs fs _ _) ?_ ?_ ?_
    all_goals exact Or.inl rfl
  case NodeTypeFor =>
    obtain ⟨h1, h2, h3⟩ := resolveStmtWith_for_frames hbody hctx h
    exact ⟨_, h1, Or.inr (by omega), h2, h3 vs fs⟩
  case NodeTypeBreak =>
    rw [resolveStmtWith_break_eq _ _ _ _ _ _ _ _ _ _ _ hctx] at h
    injection h with h
    injection h with h1 h2
    exact same h1.symm (frame_setTerm st b vs fs _) h2.symm
  case NodeTypeBlock => exact hbody s st s' st' b pv pf fs vs hctx hb h
  all_goals
    simp only [resolveStmtWith] at h
    injection h with h
    injection h with h1 h2
    exact same h1.symm (Frame.refl b vs fs st) h2.symm

theorem bind_frames {f g : StmtLowering} (hf : f.Frames) (hg : g.Frames) :
    StmtLowering.Frames (fun s st => f s st >>= fun r => g r.1 r.2) := by
  intro s st s' st' b pv pf fs vs hctx hb h
  obtain ⟨⟨s1, st1⟩, h1, h⟩ := bind_ok _ _ _ h
  obtain ⟨b1, hs1, hb1, hv1, hf1⟩ := hf s st s1 st1 b pv pf fs vs hctx hb h1
  obtain ⟨b2, hs2, hb2, hv2, hf2⟩ := hg s1 st1 s' st' b1 pv pf fs vs (by rw [hs1]) hv1 h
  have hle := hf1.blocks_le
  refine ⟨b2, ?_, ?_, hv2, Frame.trans hf1 hf2 hb1 (Or.inl rfl) (Or.inl rfl)⟩
  · rw [hs2, hs1]
  · omega

theorem resolveStmts_frames (n : Node) : (resolveStmts n).Frames := by
  induction n with
  | null =>
    intro s st s' st' b pv pf fs vs hctx hb h
    simp only [resolveStmts] at h
    injection h with h
    injection h with h1 h2
    subst h1 h2
    refine ⟨b, ?_, Or.inl rfl, hb, Frame.refl _ _ _ _⟩
    rcases s with ⟨ctx, il, fl, fn⟩
    simp only at hctx
    subst hctx
    rfl
  | mk t l r v sr c th el nx bb ar ad _ _ _ ihth ihel ihnx ihbb _ =>
    have hw := resolveStmtWith_frames ihth ihel ihbb t l r sr c el ar ad
    intro s st s' st' b pv pf fs vs hctx hb h
    rw [resolveStmts] at h
    exact bind_frames hw ihnx s st s' st' b pv pf fs vs hctx hb h

theorem resolveStmt_frames (n : Node) : (resolveStmt n).Frames := by
  cases n with
  | null =>
    intro s st s' st' b pv pf fs vs hctx hb h
    cases h
  | mk t l r v sr c th el nx bb ar ad =>
    exact resolveStmtWith_frames (resolveStmts_frames th) (resolveStmts_frames el)
      (resolveStmts_frames bb) t l r sr c el ar ad

/-! ## Lookup of names along the chains of contexts -/

theorem findVariable_mk (pv : BlockContext) :
    ∀ (b : Nat) (pf : BlockContext) (fs vs : Nat) (name : String) (st : GenState),
      (BlockContext.mk b pv pf fs vs).findVariable name st =
        match st.innermostVar name (BlockContext.mk b pv pf fs vs).varChain with
        | some v => .ok v
        | none => .error (.panic "Not Found Variable") := by
  induction pv with
  | null =>
    intro b pf fs vs name st
    simp only [BlockContext.findVariable, BlockContext.varChain, GenState.innermostVar]
    cases st.lookupVar vs name <;> rfl
  | mk b' pv' pf' fs' vs' ihv _ =>
    intro b pf fs vs name st
    rw [BlockContext.findVariable, BlockContext.varChain, GenState.innermostVar]
    cases st.lookupVar vs name with
    | some v => rfl
    | none => exact ihv b' pf' fs' vs' name st

theorem findFunction_mk (pf : BlockContext) :
    ∀ (b : Nat) (pv : BlockContext) (fs vs : Nat) (name : String) (st : GenState),
      (BlockContext.mk b pv pf fs vs).findFunction name st =
        match st.innermostFunction name (BlockContext.mk b pv pf fs vs).functionChain with
        | some f => .ok f
        | none => .error (.panic "Not Found Function") := by
  induction pf with
  | null =>
    intro b pv fs vs name st
    simp only [BlockContext.findFunction, BlockContext.functionChain,
      GenState.innermostFunction]
    cases st.lookupFunction fs name <;> rfl
  | mk b' pv' pf' fs' vs' _ ihf =>
    intro b pv fs vs name st
    rw [BlockContext.findFunction, BlockContext.functionChain, GenState.innermostFunction]
    cases st.lookupFunction fs name with
    | some v => rfl
    | none => exact ihf b' pv' fs' vs' name st

theorem innermostVar_congr {st st' : GenState} (name : String) (chain : List Nat)
    (h : ∀ m ∈ chain, st'.vars.getD m [] = st.vars.getD m []) :
    st'.innermostVar name chain = st.innermostVar name chain := by
  induction chain with
  | nil => rfl
  | cons m ms ih =>
    simp only [GenState.innermostVar, GenState.lookupVar]
    rw [h m (List.mem_cons_self _ _), ih (fun k hk => h k (List.mem_cons_of_mem _ hk))]

theorem innermostFunction_congr {st st' : GenState} (name : String) (chain : List Nat)
    (h : ∀ m ∈ chain, st'.functions.getD m [] = st.functions.getD m []) :
    st'.innermostFunction name chain = st.innermostFunction name chain := by
  induction chain with
  | nil => rfl
  | cons m ms ih =>
    simp only [GenState.innermostFunction, GenState.lookupFunction]
    rw [h m (List.mem_cons_self _ _), ih (fun k hk => h k (List.mem_cons_of_mem _ hk))]

theorem findVariable_congr {st st' : GenState} (ctx : BlockContext) (name : String)
    (h : ∀ m ∈ ctx.varChain, st'.vars.getD m [] = st.vars.getD m []) :
    ctx.findVariable name st' = ctx.findVariable name st := by
  cases ctx with
  | null => rfl
  | mk b pv pf fs vs => rw [findVariable_mk, findVariable_mk, innermostVar_congr name _ h]

theorem findFunction_congr {st st' : GenState} (ctx : BlockContext) (name : String)
    (h : ∀ m ∈ ctx.functionChain, st'.functions.getD m [] = st.functions.getD m []) :
    ctx.findFunction name st' = ctx.findFunction name st := by
  cases ctx with
  | null => rfl
  | mk b pv pf fs vs => rw [findFunction_mk, findFunction_mk, innermostFunction_congr name _ h]

theorem getD_of_get? {α : Type} {l l' : List α} {m : Nat} (d : α)
    (h : l'.get? m = l.get? m) : l'.getD m d = l.getD m d := by
  simp only [List.getD_eq_getElem?_getD, ← List.get?_eq_getElem?, h]

theorem callFunctionWith_not_found {args : Node} {name : String} {b : Nat}
    {pv pf : BlockContext} {fs vs : Nat} {st : GenState}
    (h : st.innermostFunction name (BlockContext.mk b pv pf fs vs).functionChain = none) :
    (∀ r, resolveArgs args (.mk b pv pf fs vs) st = .ok r →
      callFunctionWith (resolveArgs args) name (.mk b pv pf fs vs) st =
        .error (.panic "Not Found Function")) ∧
    ∀ r, callFunctionWith (resolveArgs args) name (.mk b pv pf fs vs) st ≠ .ok r := by
  have key : ∀ r, resolveArgs args (.mk b pv pf fs vs) st = .ok r →
      callFunctionWith (resolveArgs args) name (.mk b pv pf fs vs) st =
        .error (.panic "Not Found Function") := by
    intro r hr
    obtain ⟨vals, st1⟩ := r
    have hf := resolveArgs_frame hr
    have hfind : (BlockContext.mk b pv pf fs vs).findFunction name st1 =
        .error (.panic "Not Found Function") := by
      have hc : st1.innermostFunction name (BlockContext.mk b pv pf fs vs).functionChain =
          st.innermostFunction name (BlockContext.mk b pv pf fs vs).functionChain :=
        innermostFunction_congr name _ (fun m _ => by rw [hf.functions_eq])
      rw [findFunction_mk, hc, h]
    simp only [callFunctionWith, hr, hfind, bind, Except.bind]
  refine ⟨key, ?_⟩
  intro r hc
  cases ha : resolveArgs args (.mk b pv pf fs vs) st with
  | error e =>
    simp only [callFunctionWith, ha, bind, Except.bind] at hc
    cases hc
  | ok a =>
    rw [key a ha] at hc
    cases hc

/-! ## Lowering: tables of names -/

theorem GenerateIR_eq (node : Node) :
    GenerateIR node = (resolveStmts node mainScope.1 mainScope.2).map Prod.snd :=
  rfl

theorem isOk_exists {ε α : Type} {x : Except ε α} (h : x.isOk = true) : ∃ r, x = .ok r := by
  cases x with
  | error e => cases h
  | ok r => exact ⟨r, rfl⟩

theorem forEnter_null {s : Scope} (hc : s.ctx = .null) (st : GenState) :
    forEnter s st = .error .nilDeref := by
  simp only [forEnter, hc, BlockContext.blockOf, bind, Except.bind]

theorem ifEnter_null {s : Scope} (hc : s.ctx = .null) (cond els : Node) (st : GenState) :
    ifEnter cond els s st = .error .nilDeref := by
  simp only [ifEnter, hc, BlockContext.blockOf, bind, Except.bind]

theorem withBlock_findVariable (ctx : BlockContext) (b : Nat) (name : String) (st : GenState) :
    (ctx.withBlock b).findVariable name st = ctx.findVariable name st := by
  cases ctx with
  | null => rfl
  | mk b0 pv pf fs vs =>
    simp only [BlockContext.withBlock]
    rw [findVariable_mk, findVariable_mk]
    rfl

theorem withBlock_findFunction (ctx : BlockContext) (b : Nat) (name : String) (st : GenState) :
    (ctx.withBlock b).findFunction name st = ctx.findFunction name st := by
  cases ctx with
  | null => rfl
  | mk b0 pv pf fs vs =>
    simp only [BlockContext.withBlock]
    rw [findFunction_mk, findFunction_mk]
    rfl

theorem tables_of_frames {b : Nat} {st st' : GenState}
    (h : ∀ vs' fs', Frame b vs' fs' st st') :
    (∀ m, m < st.vars.length → st'.vars.get? m = st.vars.get? m) ∧
      (∀ m, m < st.functions.length → st'.functions.get? m = st.functions.get? m) :=
  ⟨fun m hm => (h st.vars.length st.functions.length).vars_old m hm (by omega),
    fun m hm => (h st.vars.length st.functions.length).functions_old m hm (by omega)⟩

theorem findVariable_of_tables {st st' : GenState} (ctx : BlockContext) (name : String)
    (hv : ∀ m ∈ ctx.varChain, m < st.vars.length)
    (h : ∀ m, m < st.vars.length → st'.vars.get? m = st.vars.get? m) :
    ctx.findVariable name st' = ctx.findVariable name st :=
  findVariable_congr ctx name (fun m hm => getD_of_get? [] (h m (hv m hm)))

theorem findFunction_of_tables {st st' : GenState} (ctx : BlockContext) (name : String)
    (hv : ∀ m ∈ ctx.functionChain, m < st.functions.length)
    (h : ∀ m, m < st.functions.length → st'.functions.get? m = st.functions.get? m) :
    ctx.findFunction name st' = ctx.findFunction name st :=
  findFunction_congr ctx name (fun m hm => getD_of_get? [] (h m (hv m hm)))

theorem lookup_cons_self {β : Type} (name : String) (v : β) (t : List (String × β)) :
    List.lookup name ((name, v) :: t) = some v := by
  simp [List.lookup]

theorem lookup_cons_ne {β : Type} {name other : String} (v : β) (t : List (String × β))
    (h : other ≠ name) : List.lookup name ((other, v) :: t) = List.lookup name t := by
  have : (name == other) = false := by
    simp only [beq_eq_false_iff_ne, ne_eq]
    exact fun e => h e.symm
  simp [List.lookup, this]

theorem getD_updateAt_eq {α : Type} (f : α → α) (i : Nat) (l : List α) (d : α)
    (h : i < l.length) : (updateAt f i l).getD i d = f (l.getD i d) := by
  have h1 := get?_updateAt_eq f i l
  have h2 : l.get? i = some (l.get ⟨i, h⟩) := List.get?_eq_get h
  rw [h2] at h1
  simp only [List.getD_eq_getElem?_getD, ← List.get?_eq_getElem?, h1, h2, Option.map_some',
    Option.getD_some]

theorem lookupVar_setVar_eq (st : GenState) (vs : Nat) (name : String) (v : Value)
    (h : vs < st.vars.length) : (st.setVar vs name v).lookupVar vs name = some v := by
  simp only [GenState.lookupVar, GenState.setVar, getD_updateAt_eq _ _ _ _ h, lookup_cons_self]

theorem lookupVar_setVar_ne (st : GenState) (vs : Nat) {name other : String} (v : Value)
    (hne : other ≠ name) :
    (st.setVar vs other v).lookupVar vs name = st.lookupVar vs name := by
  by_cases h : vs < st.vars.length
  · simp only [GenState.lookupVar, GenState.setVar, getD_updateAt_eq _ _ _ _ h,
      lookup_cons_ne _ _ hne]
  · have h1 : (st.setVar vs other v).vars.get? vs = st.vars.get? vs := by
      have hl : (st.setVar vs other v).vars.length = st.vars.length := by
        simp [GenState.setVar, updateAt_length]
      rw [List.get?_eq_none.2 (by omega), List.get?_eq_none.2 (by omega)]
    simp only [GenState.lookupVar, getD_of_get? [] h1]

theorem lookupVar_of_get? {st st' : GenState} {vs : Nat} (name : String)
    (h : st'.vars.get? vs = st.vars.get? vs) :
    st'.lookupVar vs name = st.lookupVar vs name := by
  simp only [GenState.lookupVar, getD_of_get? [] h]

theorem lookupFunction_of_get? {st st' : GenState} {fs : Nat} (name : String)
    (h : st'.functions.get? fs = st.functions.get? fs) :
    st'.lookupFunction fs name = st.lookupFunction fs name := by
  simp only [GenState.lookupFunction, getD_of_get? [] h]

theorem findVariable_of_lookupVar {b : Nat} {pv pf : BlockContext} {fs vs : Nat}
    {name : String} {st : GenState} {v : Value} (h : st.lookupVar vs name = some v) :
    (BlockContext.mk b pv pf fs vs).findVariable name st = .ok v := by
  rw [findVariable_mk]
  simp only [BlockContext.varChain, GenState.innermostVar, h]

theorem findFunction_of_lookupFunction {b : Nat} {pv pf : BlockContext} {fs vs : Nat}
    {name : String} {st : GenState} {f : Nat} (h : st.lookupFunction fs name = some f) :
    (BlockContext.mk b pv pf fs vs).findFunction name st = .ok f := by
  rw [findFunction_mk]
  simp only [BlockContext.functionChain, GenState.innermostFunction, h]

/-! ### what a declaration and a function definition bind -/

theorem resolveStmtWith_alloc_binds {thenS elsS bodyS : StmtLowering} {lhs rhs : Node}
    {str : String} {cond els args : Node} {argDefs : List String} {s s' : Scope}
    {st st' : GenState} {b : Nat} {pv pf : BlockContext} {fs vs : Nat}
    (hctx : s.ctx = .mk b pv pf fs vs) (hvs : vs < st.vars.length)
    (h : resolveStmtWith thenS elsS bodyS .NodeTypeAlloc lhs rhs str cond els args argDefs
      s st = .ok (s', st')) :
    ∃ name, lhs.strOf = .ok name ∧ s' = s ∧
      st'.lookupVar vs name = some (.inst st.nextId (.Pointer .I32)) ∧
      ∀ other, other ≠ name → st'.lookupVar vs other = st.lookupVar vs other := by
  obtain ⟨name, vr, st1, hn, h1, h2, h3⟩ := resolveStmtWith_alloc_inv hctx h
  rw [hctx] at h1
  have hf := resolveExpr_frame h1
  have hv1 : (st1.appendInst b (.store vr (.inst st.nextId (.Pointer .I32)))).vars = st.vars := by
    show st1.vars = st.vars
    rw [hf.vars_eq]
    rfl
  refine ⟨name, hn, h2, ?_, ?_⟩
  · rw [h3]
    apply lookupVar_setVar_eq
    rw [hv1]
    exact hvs
  · intro other hne
    rw [h3, lookupVar_setVar_ne _ _ _ (fun e => hne e.symm)]
    simp only [GenState.lookupVar, hv1]

theorem resolveStmtWith_function_binds {thenS elsS bodyS : StmtLowering}
    (hbody : bodyS.Frames) {lhs rhs : Node} {str : String} {cond els args : Node}
    {argDefs : List String} {s s' : Scope} {st st' : GenState} {b : Nat}
    {pv pf : BlockContext} {fs vs : Nat} (hctx : s.ctx = .mk b pv pf fs vs)
    (hfs : fs < st.functions.length)
    (h : resolveStmtWith thenS elsS bodyS .NodeTypeFunction lhs rhs str cond els args argDefs
      s st = .ok (s', st')) :
    s' = s ∧ st'.lookupFunction fs str = some st.funcs.length := by
  obtain ⟨r, b2, hr, hr1, _, hb2, hv2, hf2, h1, h2⟩ :=
    resolveStmtWith_function_inv hbody hctx h
  refine ⟨h1, ?_⟩
  have hlenF : (functionState str argDefs b fs st).functions.length =
      st.functions.length + 1 := by
    rw [functionState_functions, updateAt_length]
    simp
  have h3 : st'.functions = r.2.functions := by
    rw [h2]
    exact (functionLeave_fields _ _).2.2.1
  have h4 : r.2.functions.get? fs = (functionState str argDefs b fs st).functions.get? fs :=
    hf2.functions_old fs (by omega) (by omega)
  have h5 : (functionState str argDefs b fs st).lookupFunction fs str =
      some st.funcs.length := by
    simp only [GenState.lookupFunction, functionState_functions]
    rw [getD_updateAt_eq _ _ _ _ (by simp; omega), lookup_cons_self]
  rw [← h5]
  simp only [GenState.lookupFunction, h3, getD_of_get? [] h4]

/-! ### statements that do not declare a name keep its binding -/

theorem resolveStmtWith_keeps {name : String} {thenS elsS bodyS : StmtLowering}
    (hthen : thenS.Frames) (hels : elsS.Frames) (hbody : bodyS.Frames) (t : NodeType)
    (lhs rhs : Node) (str : String) (cond els args : Node) (argDefs : List String)
    (hAlloc : t = .NodeTypeAlloc → lhs.strOf ≠ .ok name)
    (hBlock : t = .NodeTypeBlock → bodyS.Keeps name) :
    StmtLowering.Keeps name
      (resolveStmtWith thenS elsS bodyS t lhs rhs str cond els args argDefs) := by
  intro s st s' st' b pv pf fs vs hctx hb hvs h
  have ofVars : ∀ st1 : GenState, st' = st1 → st1.vars = st.vars →
      st'.lookupVar vs name = st.lookupVar vs name := by
    intro st1 h2 h1
    rw [h2]
    simp only [GenState.lookupVar, h1]
  cases t
  case NodeTypeReturn =>
    obtain ⟨v, st1, h1, h2, h3⟩ := resolveStmtWith_return_inv hctx h
    rw [hctx] at h1
    exact ofVars _ h3 (resolveExpr_frame h1).vars_eq
  case NodeTypeIF =>
    obtain ⟨_, _, h3⟩ := resolveStmtWith_if_frames hthen hels hctx h
    exact lookupVar_of_get? name ((tables_of_frames h3).1 vs hvs)
  case NodeTypeFunction =>
    obtain ⟨_, _, h3⟩ := resolveStmtWith_function_frames hbody hctx h
    exact lookupVar_of_get? name ((h3 st.vars.length).vars_old vs hvs (by omega))
  case NodeTypeFunctionCall =>
    obtain ⟨v, h1, h2⟩ := resolveStmtWith_call_inv h
    rw [hctx] at h1
    exact ofVars _ rfl (callFunctionWith_frame h1).vars_eq
  case NodeTypeAssign =>
    obtain ⟨n, v, vr, st1, _, _, h1, h2, h3⟩ := resolveStmtWith_assign_inv hctx h
    rw [hctx] at h1
    exact ofVars _ h3 (resolveExpr_frame h1).vars_eq
  case NodeTypeAlloc =>
    obtain ⟨n, hn, _, _, h4⟩ := resolveStmtWith_alloc_binds hctx hvs h
    apply h4
    intro e
    apply hAlloc rfl
    rw [hn, e]
  case NodeTypeFor =>
    obtain ⟨_, _, h3⟩ := resolveStmtWith_for_frames hbody hctx h
    exact lookupVar_of_get? name ((tables_of_frames h3).1 vs hvs)
  case NodeTypeBreak =>
    rw [resolveStmtWith_break_eq _ _ _ _ _ _ _ _ _ _ _ hctx] at h
    injection h with h
    injection h with h1 h2
    exact ofVars _ h2.symm rfl
  case NodeTypeBlock => exact hBlock rfl s st s' st' b pv pf fs vs hctx hb hvs h
  all_goals
    simp only [resolveStmtWith] at h
    injection h with h
    injection h with h1 h2
    exact ofVars _ h2.symm rfl

theorem bind_keeps {name : String} {f g : StmtLowering} (hf : f.Frames) (kf : f.Keeps name)
    (kg : g.Keeps name) :
    StmtLowering.Keeps name (fun s st => f s st >>= fun r => g r.1 r.2) := by
  intro s st s' st' b pv pf fs vs hctx hb hvs h
  obtain ⟨⟨s1, st1⟩, h1, h⟩ := bind_ok _ _ _ h
  obtain ⟨b1, hs1, hb1, hv1, hf1⟩ := hf s st s1 st1 b pv pf fs vs hctx hb h1
  have hle := hf1.vars_le
  rw [kg s1 st1 s' st' b1 pv pf fs vs (by rw [hs1]) hv1 (by omega) h,
    kf s st s1 st1 b pv pf fs vs hctx hb hvs h1]

theorem resolveStmts_keeps (name : String) (n : Node) :
    n.declares name = false → (resolveStmts n).Keeps name := by
  induction n with
  | null =>
    intro _ s st s' st' b pv pf fs vs hctx hb hvs h
    simp only [resolveStmts] at h
    injection h with h
    injection h with h1 h2
    rw [h2]
  | mk t l r v sr c th el nx bb ar ad _ _ _ _ _ ihnx ihbb _ =>
    intro hd
    simp only [Node.declares, Bool.or_eq_false_iff, Bool.and_eq_false_iff,
      decide_eq_false_iff_not, not_and] at hd
    obtain ⟨⟨hA, hB⟩, hN⟩ := hd
    have hw := @resolveStmtWith_keeps name _ _ _ (resolveStmts_frames th)
      (resolveStmts_frames el) (resolveStmts_frames bb) t l r sr c el ar ad hA
      (fun ht => ihbb (by
        rcases hB with hB | hB
        · exact absurd ht hB
        · exact hB))
    intro s st s' st' b pv pf fs vs hctx hb hvs h
    rw [resolveStmts] at h
    exact bind_keeps (resolveStmtWith_frames (resolveStmts_frames th) (resolveStmts_frames el)
      (resolveStmts_frames bb) t l r sr c el ar ad) hw (ihnx hN) s st s' st' b pv pf fs vs hctx
      hb hvs h

/-! ### an `if` and a `for` leave the tables of the enclosing scope alone -/

theorem tables_finds {s s' : Scope} {st st' : GenState} {b b' : Nat} {pv pf : BlockContext}
    {fs vs : Nat} (hctx : s.ctx = .mk b pv pf fs vs)
    (hs : s' = { s with ctx := .mk b' pv pf fs vs })
    (hf : ∀ vs' fs', Frame b vs' fs' st st') :
    s'.ctx = .mk b' pv pf fs vs ∧
      (∀ m, m < st.vars.length → st'.vars.get? m = st.vars.get? m) ∧
      (∀ m, m < st.functions.length → st'.functions.get? m = st.functions.get? m) ∧
      ((∀ m ∈ s.ctx.varChain, m < st.vars.length) →
        ∀ name, s'.ctx.findVariable name st' = s.ctx.findVariable name st) ∧
      ((∀ m ∈ s.ctx.functionChain, m < st.functions.length) →
        ∀ name, s'.ctx.findFunction name st' = s.ctx.findFunction name st) := by
  obtain ⟨hv, hfn⟩ := tables_of_frames hf
  have hw : s'.ctx = s.ctx.withBlock b' := by
    rw [hs, hctx]
    rfl
  refine ⟨by rw [hs], hv, hfn, ?_, ?_⟩
  · intro hc name
    rw [hw, withBlock_findVariable]
    exact findVariable_of_tables s.ctx name hc hv
  · intro hc name
    rw [hw, withBlock_findFunction]
    exact findFunction_of_tables s.ctx name hc hfn

theorem resolveStmt_ifNode_tables {cond then_ els : Node} {s s' : Scope} {st st' : GenState}
    {b : Nat} {pv pf : BlockContext} {fs vs : Nat} (hctx : s.ctx = .mk b pv pf fs vs)
    (h : resolveStmt (Node.ifNode cond then_ els) s st = .ok (s', st')) :
    s'.ctx = .mk (st.blocks.length + 1) pv pf fs vs ∧
      (∀ m, m < st.vars.length → st'.vars.get? m = st.vars.get? m) ∧
      (∀ m, m < st.functions.length → st'.functions.get? m = st.functions.get? m) ∧
      ((∀ m ∈ s.ctx.varChain, m < st.vars.length) →
        ∀ name, s'.ctx.findVariable name st' = s.ctx.findVariable name st) ∧
      ((∀ m ∈ s.ctx.functionChain, m < st.functions.length) →
        ∀ name, s'.ctx.findFunction name st' = s.ctx.findFunction name st) := by
  have h' : resolveStmtWith (resolveStmts then_) (resolveStmts els) (resolveStmts .null)
      .NodeTypeIF .null .null "" cond els .null [] s st = .ok (s', st') := h
  obtain ⟨h1, _, h3⟩ :=
    resolveStmtWith_if_frames (resolveStmts_frames then_) (resolveStmts_frames els) hctx h'
  exact tables_finds hctx h1 h3

theorem resolveStmt_forNode_tables {body : Node} {s s' : Scope} {st st' : GenState}
    {b : Nat} {pv pf : BlockContext} {fs vs : Nat} (hctx : s.ctx = .mk b pv pf fs vs)
    (h : resolveStmt (Node.forNode body) s st = .ok (s', st')) :
    s'.ctx = .mk (st.blocks.length + 1) pv pf fs vs ∧
      (∀ m, m < st.vars.length → st'.vars.get? m = st.vars.get? m) ∧
      (∀ m, m < st.functions.length → st'.functions.get? m = st.functions.get? m) ∧
      ((∀ m ∈ s.ctx.varChain, m < st.vars.length) →
        ∀ name, s'.ctx.findVariable name st' = s.ctx.findVariable name st) ∧
      ((∀ m ∈ s.ctx.functionChain, m < st.functions.length) →
        ∀ name, s'.ctx.findFunction name st' = s.ctx.findFunction name st) := by
  have h' : resolveStmtWith (resolveStmts .null) (resolveStmts .null) (resolveStmts body)
      .NodeTypeFor .null .null "" .null .null .null [] s st = .ok (s', st') := h
  obtain ⟨h1, _, h3⟩ := resolveStmtWith_for_frames (resolveStmts_frames body) hctx h'
  exact tables_finds hctx h1 h3

theorem ifEnter_child {s : Scope} {b : Nat} {pv pf : BlockContext} {fs vs : Nat}
    (hctx : s.ctx = .mk b pv pf fs vs) {cond els : Node} {st : GenState} {e : IfEntry}
    (h : ifEnter cond els s st = .ok e) :
    e.thenScope.ctx = .mk st.blocks.length s.ctx s.ctx st.functions.length st.vars.length ∧
      e.state.vars = st.vars ++ [[]] ∧ e.state.functions = st.functions ++ [[]] := by
  obtain ⟨_, _, _, hS⟩ := ifEnter_thenBlock hctx h
  obtain ⟨_, hv, hf, _⟩ := ifEnter_lengths hctx h
  exact ⟨by rw [hS]; rfl, hv, hf⟩

theorem forEnter_child {s : Scope} {b : Nat} {pv pf : BlockContext} {fs vs : Nat}
    (hctx : s.ctx = .mk b pv pf fs vs) {st : GenState} {e : ForEntry}
    (h : forEnter s st = .ok e) :
    e.loopScope.ctx = .mk st.blocks.length s.ctx s.ctx st.functions.length st.vars.length ∧
      e.state.vars = st.vars ++ [[]] ∧ e.state.functions = st.functions ++ [[]] := by
  rw [forEnter_eq hctx] at h
  injection h with h
  subst h
  exact ⟨rfl, rfl, rfl⟩

/-! ## Block names -/

theorem digitsValue_append (l1 l2 : List Char) (acc : Nat) :
    digitsValue (l1 ++ l2) acc = (digitsValue l1 acc).bind (digitsValue l2) := by
  induction l1 generalizing acc with
  | nil => rfl
  | cons c cs ih =>
    simp only [List.cons_append, digitsValue]
    split
    · exact ih _
    · rfl

theorem toDigitsCore_append (b fuel : Nat) :
    ∀ (n : Nat) (ds : List Char),
      Nat.toDigitsCore b fuel n ds = Nat.toDigitsCore b fuel n [] ++ ds := by
  induction fuel with
  | zero =>
    intro n ds
    rfl
  | succ fuel ih =>
    intro n ds
    simp only [Nat.toDigitsCore]
    split
    · rfl
    · rw [ih (n / b) (Nat.digitChar (n % b) :: ds), ih (n / b) [Nat.digitChar (n % b)]]
      simp

theorem digitChar_digit :
    ∀ k, k < 10 → ('0' ≤ Nat.digitChar k ∧ Nat.digitChar k ≤ '9') ∧
      (Nat.digitChar k).toNat - '0'.toNat = k := by
  decide

theorem digitsValue_toDigitsCore (fuel : Nat) :
    ∀ n, n < fuel → digitsValue (Nat.toDigitsCore 10 fuel n []) 0 = some n := by
  induction fuel with
  | zero =>
    intro n h
    omega
  | succ fuel ih =>
    intro n h
    obtain ⟨hd, hv⟩ := digitChar_digit (n % 10) (Nat.mod_lt _ (by decide))
    simp only [Nat.toDigitsCore]
    split
    · rename_i h0
      simp only [digitsValue, hd, and_self, ↓reduceIte, hv]
      congr 1
      omega
    · rename_i h0
      rw [toDigitsCore_append, digitsValue_append, ih (n / 10) (by omega)]
      simp only [Option.bind, digitsValue, hd, and_self, ↓reduceIte, hv]
      congr 1
      omega

theorem digitsValue_toDigits (n : Nat) : digitsValue (Nat.toDigits 10 n) 0 = some n :=
  digitsValue_toDigitsCore (n + 1) n (Nat.lt_succ_self n)

theorem toDigits_injective {n m : Nat} (h : Nat.toDigits 10 n = Nat.toDigits 10 m) : n = m := by
  have h1 := digitsValue_toDigits n
  rw [h, digitsValue_toDigits m] at h1
  injection h1 with h1
  exact h1.symm

theorem toDigits_digits (n : Nat) : ∀ c ∈ Nat.toDigits 10 n, '0' ≤ c ∧ c ≤ '9' :=
  digitsValue_all _ 0 n (digitsValue_toDigits n)

theorem digits_append_cancel (xs ys s t : List Char)
    (hx : ∀ c ∈ xs, '0' ≤ c ∧ c ≤ '9') (hy : ∀ c ∈ ys, '0' ≤ c ∧ c ≤ '9')
    (hs : ∀ c ∈ s.head?, ¬('0' ≤ c ∧ c ≤ '9')) (ht : ∀ c ∈ t.head?, ¬('0' ≤ c ∧ c ≤ '9'))
    (h : xs ++ s = ys ++ t) : xs = ys ∧ s = t := by
  induction xs generalizing ys with
  | nil =>
    cases ys with
    | nil => exact ⟨rfl, h⟩
    | cons y ys =>
      exfalso
      simp only [List.nil_append, List.cons_append] at h
      subst h
      exact hs y rfl (hy y (List.mem_cons_self _ _))
  | cons x xs ih =>
    cases ys with
    | nil =>
      exfalso
      simp only [List.nil_append, List.cons_append] at h
      subst h
      exact ht x rfl (hx x (List.mem_cons_self _ _))
    | cons y ys =>
      simp only [List.cons_append, List.cons.injEq] at h
      obtain ⟨h1, h2⟩ := h
      obtain ⟨h3, h4⟩ := ih ys (fun c hc => hx c (List.mem_cons_of_mem _ hc))
        (fun c hc => hy c (List.mem_cons_of_mem _ hc)) h2
      exact ⟨by rw [h1, h3], h4⟩

theorem blockSuffixes_head :
    ∀ s ∈ blockSuffixes, ∀ c ∈ s.data.head?, ¬('0' ≤ c ∧ c ≤ '9') := by
  decide

theorem blockLabel_data (i : Nat) (s : String) :
    (blockLabel i s).data = "block-".data ++ (Nat.toDigits 10 i ++ s.data) := by
  simp only [blockLabel, String.data_append, List.append_assoc]
  rfl

theorem blockLabel_injective {i j : Nat} {s t : String} (hs : s ∈ blockSuffixes)
    (ht : t ∈ blockSuffixes) (h : blockLabel i s = blockLabel j t) : i = j ∧ s = t := by
  have hd := congrArg String.data h
  rw [blockLabel_data, blockLabel_data] at hd
  have hd2 := List.append_cancel_left hd
  obtain ⟨h1, h2⟩ := digits_append_cancel _ _ _ _ (toDigits_digits i) (toDigits_digits j)
    (blockSuffixes_head s hs) (blockSuffixes_head t ht) hd2
  exact ⟨toDigits_injective h1, String.ext h2⟩

theorem SameNames.same (st : GenState) : SameNames st st :=
  ⟨rfl, fun _ => rfl, rfl⟩

theorem SameNames.followedBy {st st1 st2 : GenState} (h1 : SameNames st st1)
    (h2 : SameNames st1 st2) : SameNames st st2 :=
  ⟨h2.blocks_len.trans h1.blocks_len, fun k => (h2.names k).trans (h1.names k),
    h2.blockIndex_eq.trans h1.blockIndex_eq⟩

theorem sameNames_of_blocks {st st' : GenState} (f : Block → Block)
    (hf : ∀ x, (f x).name = x.name) (i : Nat) (hb : st'.blocks = updateAt f i st.blocks)
    (hi : st'.blockIndex = st.blockIndex) : SameNames st st' := by
  refine ⟨by rw [hb, updateAt_length], ?_, hi⟩
  intro k
  simp only [GenState.nameOf, hb]
  exact get?_map_updateAt f Block.name i k st.blocks hf

theorem sameNames_setTerm (st : GenState) (b : Nat) (t : Terminator) :
    SameNames st (st.setTerm b t) :=
  sameNames_of_blocks (fun x => { x with term := some t }) (fun _ => rfl) b rfl rfl

theorem sameNames_appendInst (st : GenState) (b : Nat) (i : Inst) :
    SameNames st (st.appendInst b i) :=
  sameNames_of_blocks (fun x => { x with insts := x.insts ++ [i] }) (fun _ => rfl) b rfl rfl

theorem sameNames_newInst (st : GenState) (b : Nat) (build : Nat → Inst) (typ : IRType) :
    SameNames st (st.newInst b build typ).2 :=
  sameNames_of_blocks (fun x => { x with insts := x.insts ++ [build st.nextId] })
    (fun _ => rfl) b rfl rfl

theorem sameNames_of_eq {st st' : GenState} (hb : st'.blocks = st.blocks)
    (hi : st'.blockIndex = st.blockIndex) : SameNames st st' :=
  ⟨by rw [hb], fun k => by simp only [GenState.nameOf, hb], hi⟩

theorem sameNames_newTables (st : GenState) : SameNames st st.newFunctions.2.newVars.2 :=
  sameNames_of_eq rfl rfl

theorem sameNames_setVar (st : GenState) (vs : Nat) (name : String) (v : Value) :
    SameNames st (st.setVar vs name v) :=
  sameNames_of_eq rfl rfl

theorem ExprFrame.sameNames {b : Nat} {st st' : GenState} (h : ExprFrame b st st') :
    SameNames st st' :=
  ⟨h.blocks_len, fun k => h.sig k (fun x => x.1), h.blockIndex_eq⟩

theorem sameNames_ifFallThrough (thenBlock leaveBlock : Nat) (st : GenState) :
    SameNames st (ifFallThrough thenBlock leaveBlock st) := by
  unfold ifFallThrough
  split
  · exact sameNames_setTerm _ _ _
  · exact SameNames.same _

theorem sameNames_functionLeave (fncBlock : Nat) (st : GenState) :
    SameNames st (functionLeave fncBlock st) := by
  unfold functionLeave
  split
  · exact sameNames_setTerm _ _ _
  · exact SameNames.same _

theorem sameNames_ifLeaveState (il : Option Nat) (leaveBlock : Nat) (st : GenState) :
    SameNames st (match il with
      | some outer => st.setTerm leaveBlock (.br (some outer))
      | none => st) := by
  cases il with
  | none => exact SameNames.same _
  | some o => exact sameNames_setTerm _ _ _

theorem NewNames.none {st st' : GenState} (h : SameNames st st') : NewNames st st' := by
  refine ⟨?_, ?_⟩
  · intro k h1 h2
    rw [h.blocks_len] at h2
    omega
  · intro k k' h1 h2
    rw [h.blocks_len] at h2
    omega

theorem NewNames.comp {st st1 st2 : GenState} (h1 : NewNames st st1) (h2 : NewNames st1 st2)
    (hn : ∀ k, k < st1.blocks.length → st2.nameOf k = st1.nameOf k)
    (hi : st.blockIndex ≤ st1.blockIndex) (hi2 : st1.blockIndex ≤ st2.blockIndex) :
    NewNames st st2 := by
  refine ⟨?_, ?_⟩
  · intro k hk1 hk2
    by_cases hk : k < st1.blocks.length
    · obtain ⟨i, s, a, b, c, d⟩ := h1.labelled k hk1 hk
      exact ⟨i, s, a, by omega, c, by rw [hn k hk, d]⟩
    · obtain ⟨i, s, a, b, c, d⟩ := h2.labelled k (by omega) hk2
      exact ⟨i, s, by omega, b, c, d⟩
  · intro k k' hk1 hk2 hk1' hk2' he
    by_cases hk : k < st1.blocks.length
    · by_cases hk' : k' < st1.blocks.length
      · rw [hn k hk, hn k' hk'] at he
        exact h1.distinct k k' hk1 hk hk1' hk' he
      · exfalso
        obtain ⟨i, s, a, b, c, d⟩ := h1.labelled k hk1 hk
        obtain ⟨i', s', a', b', c', d'⟩ := h2.labelled k' (by omega) hk2'
        rw [hn k hk, d, d'] at he
        injection he with he
        have := (blockLabel_injective c c' he).1
        omega
    · by_cases hk' : k' < st1.blocks.length
      · exfalso
        obtain ⟨i, s, a, b, c, d⟩ := h2.labelled k (by omega) hk2
        obtain ⟨i', s', a', b', c', d'⟩ := h1.labelled k' hk1' hk'
        rw [hn k' hk', d, d'] at he
        injection he with he
        have := (blockLabel_injective c c' he).1
        omega
      · exact h2.distinct k k' (by omega) hk2 (by omega) hk2' he

theorem NewNames.then_same {st st1 st2 : GenState} (h1 : NewNames st st1)
    (h2 : SameNames st1 st2) (hi : st.blockIndex ≤ st1.blockIndex) : NewNames st st2 :=
  NewNames.comp h1 (NewNames.none h2) (fun k _ => h2.names k) hi
    (Nat.le_of_eq h2.blockIndex_eq.symm)

theorem NewNames.after_same {st st1 st2 : GenState} (h1 : SameNames st st1)
    (h2 : NewNames st1 st2) : NewNames st st2 := by
  refine ⟨?_, ?_⟩
  · intro k hk1 hk2
    rw [← h1.blocks_len] at hk1
    obtain ⟨i, s, a, b, c, d⟩ := h2.labelled k hk1 hk2
    exact ⟨i, s, by rw [← h1.blockIndex_eq]; exact a, b, c, d⟩
  · intro k k' hk1 hk2 hk1' hk2' he
    rw [← h1.blocks_len] at hk1 hk1'
    exact h2.distinct k k' hk1 hk2 hk1' hk2' he

theorem mem_of_get?_eq {α : Type} {l : List α} {n : Nat} {a : α} (h : l.get? n = some a) :
    a ∈ l := by
  induction l generalizing n with
  | nil => cases h
  | cons x xs ih =>
    cases n with
    | zero =>
      injection h with h
      rw [h]
      exact List.mem_cons_self _ _
    | succ n => exact List.mem_cons_of_mem _ (ih h)

/-- The blocks appended by one name request. -/
theorem newNames_of_append {st st' : GenState} (names : List String)
    (hb : st'.blocks.map Block.name = st.blocks.map Block.name ++
      names.map (blockLabel st.blockIndex))
    (hs : ∀ s ∈ names, s ∈ blockSuffixes) (hd : names.Nodup)
    (hi : st'.blockIndex = st.blockIndex + 1) : NewNames st st' := by
  have hlen : st'.blocks.length = st.blocks.length + names.length := by
    have := congrArg List.length hb
    simpa using this
  have hname : ∀ k, st.blocks.length ≤ k → k < st'.blocks.length →
      ∃ s, names.get? (k - st.blocks.length) = some s ∧
        st'.nameOf k = some (blockLabel st.blockIndex s) := by
    intro k hk1 hk2
    have h1 : (st'.blocks.map Block.name).get? k = st'.nameOf k := by
      simp [GenState.nameOf]
    have hk3 : k - st.blocks.length < names.length := by omega
    refine ⟨names.get ⟨k - st.blocks.length, hk3⟩, List.get?_eq_get hk3, ?_⟩
    rw [← h1, hb]
    simp only [List.get?_eq_getElem?]
    rw [List.getElem?_append_right (by simpa using hk1)]
    simp [List.getElem?_eq_getElem hk3]
  refine ⟨?_, ?_⟩
  · intro k hk1 hk2
    obtain ⟨s, h1, h2⟩ := hname k hk1 hk2
    exact ⟨st.blockIndex, s, Nat.le_refl _, by omega, hs s (mem_of_get?_eq h1), h2⟩
  · intro k k' hk1 hk2 hk1' hk2' he
    obtain ⟨s, h1, h2⟩ := hname k hk1 hk2
    obtain ⟨s', h1', h2'⟩ := hname k' hk1' hk2'
    rw [h2, h2'] at he
    injection he with he
    have hss := (blockLabel_injective (hs s (mem_of_get?_eq h1))
      (hs s' (mem_of_get?_eq h1')) he).2
    subst hss
    have hk3 : k - st.blocks.length < names.length := by omega
    have hk3' : k' - st.blocks.length < names.length := by omega
    rw [List.get?_eq_get hk3] at h1
    rw [List.get?_eq_get hk3'] at h1'
    injection h1 with h1
    injection h1' with h1'
    have := (List.Nodup.get_inj_iff hd).1 (h1.trans h1'.symm)
    simp only [Fin.mk.injEq] at this
    omega

theorem map_updateAt_of {α β : Type} (f : α → α) (g : α → β) (i : Nat) (l : List α)
    (hg : ∀ a, g (f a) = g a) : (updateAt f i l).map g = l.map g := by
  induction l generalizing i with
  | nil => cases i <;> rfl
  | cons x xs ih =>
    cases i with
    | zero => simp [updateAt, hg]
    | succ i => simp [updateAt, ih]

theorem frame_nameOf {b vs fs : Nat} {st st' : GenState} (h : Frame b vs fs st st') (k : Nat)
    (hk : k < st.blocks.length) : st'.nameOf k = st.nameOf k :=
  h.blocks_name k hk

theorem newNames_forState (b : Nat) (st : GenState) (hi : st.blockIndex + 1 < 2 ^ 64) :
    NewNames st (forState b st) ∧ (forState b st).blockIndex = st.blockIndex + 1 := by
  have hidx : (forState b st).blockIndex = st.blockIndex + 1 := by
    rw [forState_blockIndex, Nat.mod_eq_of_lt hi]
  refine ⟨newNames_of_append ["-for", "-leave-for"] ?_ (by decide) (by decide) hidx, hidx⟩
  obtain ⟨p, q, h⟩ := forState_blocks b st
  rw [h, map_updateAt_of (fun x => { x with term := some (.br (some st.blocks.length)) })
    Block.name b _ (fun _ => rfl)]
  simp [blockLabel]

theorem newNames_ifBlocks (els : Node) (b : Nat) (st : GenState)
    (hi : st.blockIndex + 1 < 2 ^ 64) :
    NewNames st (ifBlocks els b st) ∧ (ifBlocks els b st).blockIndex = st.blockIndex + 1 := by
  have hidx : (ifBlocks els b st).blockIndex = st.blockIndex + 1 := by
    rw [ifBlocks_blockIndex, Nat.mod_eq_of_lt hi]
  obtain ⟨p, q, r, h⟩ := ifBlocks_blocks els b st
  by_cases he : els = .null
  · refine ⟨newNames_of_append ["-then", "-leave"] ?_ (by decide) (by decide) hidx, hidx⟩
    rw [h]
    simp [blockLabel, he]
  · refine ⟨newNames_of_append ["-then", "-leave", "-else"] ?_ (by decide) (by decide) hidx,
      hidx⟩
    rw [h]
    simp [blockLabel, he]

theorem newNames_functionState (str : String) (argDefs : List String) (b fs : Nat)
    (st : GenState) (hi : st.blockIndex + 1 < 2 ^ 64) :
    NewNames st (functionState str argDefs b fs st) ∧
      (functionState str argDefs b fs st).blockIndex = st.blockIndex + 1 := by
  have hidx : (functionState str argDefs b fs st).blockIndex = st.blockIndex + 1 := by
    rw [functionState_blockIndex, Nat.mod_eq_of_lt hi]
  refine ⟨newNames_of_append [""] ?_ (by decide) (by decide) hidx, hidx⟩
  rw [functionState_blocks]
  simp [blockLabel]

/-! ### the counter and the names over the lowering of statements -/

theorem names_of_same {st st' : GenState} (h : SameNames st st') :
    st'.blockIndex = st.blockIndex + 0 ∧ NewNames st st' :=
  ⟨h.blockIndex_eq, NewNames.none h⟩

theorem ifEnter_names {s : Scope} {b : Nat} {pv pf : BlockContext} {fs vs : Nat}
    (hctx : s.ctx = .mk b pv pf fs vs) {cond els : Node} {st : GenState} {e : IfEntry}
    (h : ifEnter cond els s st = .ok e) (hi : st.blockIndex + 1 < 2 ^ 64) :
    NewNames st e.state ∧ e.state.blockIndex = st.blockIndex + 1 := by
  obtain ⟨c, st1, h1, he⟩ := ifEnter_inv hctx h
  subst he
  rw [hctx] at h1
  obtain ⟨hn, hidx⟩ := newNames_ifBlocks els b st hi
  have hs : SameNames (ifBlocks els b st)
      ((st1.setTerm b (.condBr c st.blocks.length
        (if els ≠ .null then st.blocks.length + 2
          else st.blocks.length + 1))).newFunctions.2).newVars.2 :=
    ((resolveExpr_frame h1).sameNames.followedBy (sameNames_setTerm _ _ _)).followedBy
      (sameNames_newTables _)
  exact ⟨NewNames.then_same hn hs (by omega), hs.blockIndex_eq.trans hidx⟩

theorem resolveStmtWith_for_names {thenS elsS bodyS : StmtLowering} (hbody : bodyS.Frames)
    {k3 : Nat} (nbody : bodyS.Names k3) {lhs rhs : Node} {str : String}
    {cond els args : Node} {argDefs : List String} {s s' : Scope} {st st' : GenState}
    {b : Nat} {pv pf : BlockContext} {fs vs : Nat} (hctx : s.ctx = .mk b pv pf fs vs)
    (hi : st.blockIndex + (1 + k3) < 2 ^ 64)
    (h : resolveStmtWith thenS elsS bodyS .NodeTypeFor lhs rhs str cond els args argDefs s st =
      .ok (s', st')) :
    st'.blockIndex = st.blockIndex + (1 + k3) ∧ NewNames st st' := by
  obtain ⟨r, b2, hr, hs2, hb2, hv2, hf2, h1, h2⟩ := resolveStmtWith_for_inv hbody hctx h
  obtain ⟨hn0, hi0⟩ := newNames_forState b st (by omega)
  have hlen := forState_blocks_length b st
  obtain ⟨hi1, hn1⟩ := nbody _ _ r.1 r.2 st.blocks.length s.ctx s.ctx st.functions.length
    st.vars.length rfl (by omega) (by omega) hr
  have hn2 : NewNames st r.2 :=
    NewNames.comp hn0 hn1 (fun k hk => frame_nameOf hf2 k hk) (by omega) (by omega)
  have hsame := sameNames_setTerm r.2 b2 (.br (some st.blocks.length))
  rw [h2]
  exact ⟨by rw [hsame.blockIndex_eq]; omega, NewNames.then_same hn2 hsame (by omega)⟩

theorem resolveStmtWith_function_names {thenS elsS bodyS : StmtLowering}
    (hbody : bodyS.Frames) {k3 : Nat} (nbody : bodyS.Names k3) {lhs rhs : Node}
    {str : String} {cond els args : Node} {argDefs : List String} {s s' : Scope}
    {st st' : GenState} {b : Nat} {pv pf : BlockContext} {fs vs : Nat}
    (hctx : s.ctx = .mk b pv pf fs vs) (hi : st.blockIndex + (1 + k3) < 2 ^ 64)
    (h : resolveStmtWith thenS elsS bodyS .NodeTypeFunction lhs rhs str cond els args argDefs
      s st = .ok (s', st')) :
    st'.blockIndex = st.blockIndex + (1 + k3) ∧ NewNames st st' := by
  obtain ⟨r, b2, hr, hr1, _, hb2, hv2, hf2, h1, h2⟩ :=
    resolveStmtWith_function_inv hbody hctx h
  obtain ⟨hn0, hi0⟩ := newNames_functionState str argDefs b fs st (by omega)
  have hlen : (functionState str argDefs b fs st).blocks.length = st.blocks.length + 1 := by
    rw [functionState_blocks]
    simp
  obtain ⟨hi1, hn1⟩ := nbody _ _ r.1 r.2 st.blocks.length .null s.ctx st.functions.length
    st.vars.length rfl (by omega) (by omega) hr
  have hn2 : NewNames st r.2 :=
    NewNames.comp hn0 hn1 (fun k hk => frame_nameOf hf2 k hk) (by omega) (by omega)
  have hsame := sameNames_functionLeave st.blocks.length r.2
  rw [h2]
  exact ⟨by rw [hsame.blockIndex_eq]; omega, NewNames.then_same hn2 hsame (by omega)⟩

theorem resolveStmtWith_if_names {thenS elsS bodyS : StmtLowering} (hthen : thenS.Frames)
    (hels : elsS.Frames) {k1 k2 : Nat} (nthen : thenS.Names k1) (nels : elsS.Names k2)
    {lhs rhs : Node} {str : String} {cond els args : Node} {argDefs : List String}
    (hk2 : els = .null → k2 = 0) {s s' : Scope} {st st' : GenState} {b : Nat}
    {pv pf : BlockContext} {fs vs : Nat} (hctx : s.ctx = .mk b pv pf fs vs)
    (hi : st.blockIndex + (1 + k1 + k2) < 2 ^ 64)
    (h : resolveStmtWith thenS elsS bodyS .NodeTypeIF lhs rhs str cond els args argDefs s st =
      .ok (s', st')) :
    st'.blockIndex = st.blockIndex + (1 + k1 + k2) ∧ NewNames st st' := by
  obtain ⟨e, r, b2, st7, he, hr, hs2, hb2, hv2, hf2, h7, h1, h2⟩ :=
    resolveStmtWith_if_inv hthen hels hctx h
  obtain ⟨hT, hL, hE, hS⟩ := ifEnter_thenBlock hctx he
  obtain ⟨hlen, _, _, _⟩ := ifEnter_lengths hctx he
  obtain ⟨hn0, hi0⟩ := ifEnter_names hctx he (by omega)
  have hlt : st.blocks.length < e.state.blocks.length := by
    rw [hlen]
    split <;> omega
  obtain ⟨hi1, hn1⟩ := nthen e.thenScope e.state r.1 r.2 st.blocks.length s.ctx s.ctx
    st.functions.length st.vars.length (by rw [hS]; rfl) hlt (by omega) hr
  have hn2 : NewNames st r.2 :=
    NewNames.comp hn0 hn1 (fun k hk => frame_nameOf hf2 k hk) (by omega) (by omega)
  have hfall := sameNames_ifFallThrough e.thenBlock e.leaveBlock r.2
  have key : st7.blockIndex = st.blockIndex + (1 + k1 + k2) ∧ NewNames st st7 := by
    rcases h7 with ⟨hn, h7⟩ | ⟨hn, r2, b3, hr2, hs3, hb3, hv3, hf3, h7⟩
    · subst h7
      have := hk2 hn
      exact ⟨by rw [hfall.blockIndex_eq]; omega, NewNames.then_same hn2 hfall (by omega)⟩
    · subst h7
      have htab := sameNames_newTables (ifFallThrough e.thenBlock e.leaveBlock r.2)
      have hsame := hfall.followedBy htab
      have hle := hf2.blocks_le
      have hlen3 : e.state.blocks.length = st.blocks.length + 3 := by
        rw [hlen]
        simp [hn]
      have hEb : e.elseBlock = st.blocks.length + 2 := by
        rw [hE]
        simp [hn]
      obtain ⟨hi3, hn3⟩ := nels _ _ r2.1 r2.2 e.elseBlock s.ctx s.ctx
        (ifFallThrough e.thenBlock e.leaveBlock r.2).functions.length
        (ifFallThrough e.thenBlock e.leaveBlock r.2).vars.length rfl
        (by rw [hsame.blocks_len]; omega) (by rw [hsame.blockIndex_eq]; omega) hr2
      have hn4 : NewNames st
          (ifFallThrough e.thenBlock e.leaveBlock r.2).newFunctions.2.newVars.2 :=
        NewNames.then_same hn2 hsame (by omega)
      refine ⟨by rw [hi3, hsame.blockIndex_eq]; omega, ?_⟩
      exact NewNames.comp hn4 hn3 (fun k hk => frame_nameOf hf3 k hk)
        (by rw [hsame.blockIndex_eq]; omega) (by omega)
  have hleave := sameNames_ifLeaveState s.ifLeaveBlock (st.blocks.length + 1) st7
  rw [h2]
  exact ⟨by rw [hleave.blockIndex_eq]; exact key.1,
    NewNames.then_same key.2 hleave (by omega)⟩

theorem resolveStmtWith_names {thenS elsS bodyS : StmtLowering} (hthen : thenS.Frames)
    (hels : elsS.Frames) (hbody : bodyS.Frames) {k1 k2 k3 : Nat} (nthen : thenS.Names k1)
    (nels : elsS.Names k2) (nbody : bodyS.Names k3) (t : NodeType) (lhs rhs : Node)
    (str : String) (cond els args : Node) (argDefs : List String)
    (hk2 : els = .null → k2 = 0) :
    StmtLowering.Names
      (match t with
        | .NodeTypeIF => 1 + k1 + k2
        | .NodeTypeFor => 1 + k3
        | .NodeTypeFunction => 1 + k3
        | .NodeTypeBlock => k3
        | _ => 0)
      (resolveStmtWith thenS elsS bodyS t lhs rhs str cond els args argDefs) := by
  intro s st s' st' b pv pf fs vs hctx hb hi h
  cases t
  case NodeTypeReturn =>
    obtain ⟨v, st1, h1, h2, h3⟩ := resolveStmtWith_return_inv hctx h
    rw [hctx] at h1
    rw [h3]
    exact names_of_same ((resolveExpr_frame h1).sameNames.followedBy (sameNames_setTerm _ _ _))
  case NodeTypeIF => exact resolveStmtWith_if_names hthen hels nthen nels hk2 hctx hi h
  case NodeTypeFunction => exact resolveStmtWith_function_names hbody nbody hctx hi h
  case NodeTypeFunctionCall =>
    obtain ⟨v, h1, h2⟩ := resolveStmtWith_call_inv h
    rw [hctx] at h1
    exact names_of_same (callFunctionWith_frame h1).sameNames
  case NodeTypeAssign =>
    obtain ⟨n, v, vr, st1, _, _, h1, h2, h3⟩ := resolveStmtWith_assign_inv hctx h
    rw [hctx] at h1
    rw [h3]
    exact names_of_same ((resolveExpr_frame h1).sameNames.followedBy (sameNames_appendInst _ _ _))
  case NodeTypeAlloc =>
    obtain ⟨n, vr, st1, _, h1, h2, h3⟩ := resolveStmtWith_alloc_inv hctx h
    rw [hctx] at h1
    rw [h3]
    exact names_of_same ((((sameNames_newInst st b _ _).followedBy
      (resolveExpr_frame h1).sameNames).followedBy (sameNames_appendInst _ _ _)).followedBy
      (sameNames_setVar _ _ _ _))
  case NodeTypeFor => exact resolveStmtWith_for_names hbody nbody hctx hi h
  case NodeTypeBreak =>
    rw [resolveStmtWith_break_eq _ _ _ _ _ _ _ _ _ _ _ hctx] at h
    injection h with h
    injection h with h1 h2
    rw [← h2]
    exact names_of_same (sameNames_setTerm _ _ _)
  case NodeTypeBlock => exact nbody s st s' st' b pv pf fs vs hctx hb hi h
  all_goals
    simp only [resolveStmtWith] at h
    injection h with h
    injection h with h1 h2
    rw [← h2]
    exact names_of_same (SameNames.same _)

theorem bind_names {f g : StmtLowering} (hf : f.Frames) (hg : g.Frames) {k1 k2 : Nat}
    (nf : f.Names k1) (ng : g.Names k2) :
    StmtLowering.Names (k1 + k2) (fun s st => f s st >>= fun r => g r.1 r.2) := by
  intro s st s' st' b pv pf fs vs hctx hb hi h
  obtain ⟨⟨s1, st1⟩, h1, h⟩ := bind_ok _ _ _ h
  obtain ⟨b1, hs1, hb1, hv1, hf1⟩ := hf s st s1 st1 b pv pf fs vs hctx hb h1
  obtain ⟨b2, hs2, hb2, hv2, hf2⟩ := hg s1 st1 s' st' b1 pv pf fs vs (by rw [hs1]) hv1 h
  obtain ⟨hi1, hn1⟩ := nf s st s1 st1 b pv pf fs vs hctx hb (by omega) h1
  obtain ⟨hi2, hn2⟩ := ng s1 st1 s' st' b1 pv pf fs vs (by rw [hs1]) hv1 (by omega) h
  exact ⟨by omega, NewNames.comp hn1 hn2 (fun k hk => frame_nameOf hf2 k hk) (by omega)
    (by omega)⟩

theorem resolveStmts_names (n : Node) : (resolveStmts n).Names n.nameRequests := by
  induction n with
  | null =>
    intro s st s' st' b pv pf fs vs hctx hb hi h
    simp only [resolveStmts] at h
    injection h with h
    injection h with h1 h2
    rw [← h2]
    exact names_of_same (SameNames.same _)
  | mk t l r v sr c th el nx bb ar ad _ _ _ ihth ihel ihnx ihbb _ =>
    have hw := resolveStmtWith_names (resolveStmts_frames th) (resolveStmts_frames el)
      (resolveStmts_frames bb) ihth ihel ihbb t l r sr c el ar ad
      (fun he => by rw [he]; rfl)
    have hb := bind_names (resolveStmtWith_frames (resolveStmts_frames th)
      (resolveStmts_frames el) (resolveStmts_frames bb) t l r sr c el ar ad)
      (resolveStmts_frames nx) hw ihnx
    intro s st s' st' b pv pf fs vs hctx hbv hi h
    rw [resolveStmts] at h
    exact hb s st s' st' b pv pf fs vs hctx hbv hi h

/-! ### the points of the lowering at which a name resolves to a slot -/

theorem innermostVar_of_lookups {st st' : GenState} (name : String) (chain : List Nat)
    (h : ∀ m ∈ chain, st'.lookupVar m name = st.lookupVar m name) :
    st'.innermostVar name chain = st.innermostVar name chain := by
  induction chain with
  | nil => rfl
  | cons m ms ih =>
    simp only [GenState.innermostVar]
    rw [h m (List.mem_cons_self _ _), ih (fun k hk => h k (List.mem_cons_of_mem _ hk))]

theorem resolves_of_lookups {name : String} {slot : Value} {b b' : Nat} {pv pf : BlockContext}
    {fs vs : Nat} {st st' : GenState} (h : Resolves name slot (.mk b pv pf fs vs) st)
    (hl : ∀ m ∈ (BlockContext.mk b pv pf fs vs).varChain,
      st'.lookupVar m name = st.lookupVar m name)
    (hlen : st.vars.length ≤ st'.vars.length) (hb : b' < st'.blocks.length) :
    Resolves name slot (.mk b' pv pf fs vs) st' := by
  refine ⟨⟨b', pv, pf, fs, vs, rfl, hb⟩, ?_, ?_⟩
  · intro m hm
    exact Nat.lt_of_lt_of_le (h.chain m hm) hlen
  · have h1 := h.finds
    rw [findVariable_mk] at h1 ⊢
    have hc : (BlockContext.mk b' pv pf fs vs).varChain =
        (BlockContext.mk b pv pf fs vs).varChain := rfl
    rw [hc, innermostVar_of_lookups name _ hl]
    exact h1

theorem resolves_of_tables {name : String} {slot : Value} {b b' : Nat} {pv pf : BlockContext}
    {fs vs : Nat} {st st' : GenState} (h : Resolves name slot (.mk b pv pf fs vs) st)
    (hv : ∀ m, m < st.vars.length → st'.vars.get? m = st.vars.get? m)
    (hlen : st.vars.length ≤ st'.vars.length) (hb : b' < st'.blocks.length) :
    Resolves name slot (.mk b' pv pf fs vs) st' :=
  resolves_of_lookups h (fun m hm => lookupVar_of_get? name (hv m (h.chain m hm))) hlen hb

theorem resolves_of_exprFrame {name : String} {slot : Value} {b k : Nat} {pv pf : BlockContext}
    {fs vs : Nat} {st st' : GenState} (h : Resolves name slot (.mk b pv pf fs vs) st)
    (hf : ExprFrame k st st') : Resolves name slot (.mk b pv pf fs vs) st' := by
  obtain ⟨b0, _, _, _, _, hc, hb0⟩ := h.block
  injection hc with hc
  subst hc
  exact resolves_of_tables h (fun m _ => by rw [hf.vars_eq]) (by rw [hf.vars_eq])
    (by rw [hf.blocks_len]; exact hb0)

theorem resolves_child {name : String} {slot : Value} {ctx : BlockContext} {st st' : GenState}
    (h : Resolves name slot ctx st) (blk fs k : Nat)
    (hv : ∀ m, m < st.vars.length → st'.vars.get? m = st.vars.get? m)
    (hlen : st.vars.length ≤ k) (hk : st'.vars.get? k = some [])
    (hb : blk < st'.blocks.length) : Resolves name slot (.mk blk ctx ctx fs k) st' := by
  have hk' : k < st'.vars.length := by
    rcases Nat.lt_or_ge k st'.vars.length with h1 | h1
    · exact h1
    · rw [List.get?_eq_none.2 h1] at hk
      cases hk
  refine ⟨⟨blk, ctx, ctx, fs, k, rfl, hb⟩, ?_, ?_⟩
  · intro m hm
    simp only [BlockContext.varChain, List.mem_cons] at hm
    rcases hm with rfl | hm
    · exact hk'
    · have := h.chain m hm
      omega
  · obtain ⟨b0, pv0, pf0, fs0, vs0, hc, _⟩ := h.block
    have h1 := h.finds
    have hnone : st'.lookupVar k name = none := by
      have : st'.vars.getD k [] = [] := by
        simp only [List.getD_eq_getElem?_getD, ← List.get?_eq_getElem?, hk, Option.getD_some]
      simp only [GenState.lookupVar, this, List.lookup]
    have hsame : ctx.findVariable name st' = ctx.findVariable name st :=
      findVariable_of_tables ctx name h.chain hv
    rw [findVariable_mk]
    simp only [BlockContext.varChain, GenState.innermostVar, hnone]
    rw [← hsame, hc, findVariable_mk] at h1
    rw [hc]
    exact h1

theorem resolveStmts_single (t : NodeType) (lhs rhs : Node) (v : Int) (str : String)
    (cond th el nx bb ar : Node) (ad : List String) (s : Scope) (st : GenState) :
    resolveStmts ((Node.mk t lhs rhs v str cond th el nx bb ar ad).setNext .null) s st =
      resolveStmt (.mk t lhs rhs v str cond th el nx bb ar ad) s st := by
  simp only [Node.setNext, resolveStmts, resolveStmt, bind, Except.bind]
  cases resolveStmtWith (resolveStmts th) (resolveStmts el) (resolveStmts bb) t lhs rhs str cond
    el ar ad s st <;> rfl

theorem step_resolves {name : String} {slot : Value} {p q : Point} {k : StepKind}
    (hs : Step p k q) (hk : k ≠ .functionBody)
    (hn : k = .next → (p.node.setNext .null).declares name = false)
    (hp : Resolves name slot p.ctx p.state) : Resolves name slot q.ctx q.state := by
  obtain ⟨b, pv, pf, fs, vs, hctx, hb⟩ := hp.block
  cases hs with
  | next t lhs rhs v str cond th el nx bb ar ad s s1 st st1 h =>
    simp only [Point.ctx, Point.state] at hp hctx hb ⊢
    obtain ⟨b', hs1, _, hb', hf⟩ := resolveStmt_frames _ s st s1 st1 b pv pf fs vs hctx hb h
    have hvs : vs < st.vars.length := hp.chain vs (by rw [hctx]; exact List.mem_cons_self _ _)
    have hkeep := resolveStmts_keeps name _ (hn rfl) s st s1 st1 b pv pf fs vs hctx hb hvs
      ((resolveStmts_single t lhs rhs v str cond th el nx bb ar ad s st).trans h)
    rw [hctx] at hp
    have hc1 : s1.ctx = .mk b' pv pf fs vs := by rw [hs1]
    rw [hc1]
    refine resolves_of_lookups hp ?_ hf.vars_le hb'
    intro m hm
    by_cases hmv : m = vs
    · rw [hmv]
      exact hkeep
    · exact lookupVar_of_get? name (hf.vars_old m (hp.chain m hm) hmv)
  | thenBranch lhs rhs v str cond th el nx bb ar ad s st e h =>
    simp only [Point.ctx, Point.state] at hp hctx hb ⊢
    obtain ⟨h1, h2, _⟩ := ifEnter_child hctx h
    obtain ⟨h3, _⟩ := ifEnter_lengths hctx h
    rw [h1]
    refine resolves_child hp _ _ _ ?_ (Nat.le_refl _) ?_ ?_
    · intro m hm
      rw [h2, get?_append_old _ _ _ hm]
    · rw [h2, get?_append_length]
    · rw [h3]
      split <;> omega
  | elseBranch lhs rhs v str cond th el nx bb ar ad s st e r h hr hel =>
    simp only [Point.ctx, Point.state] at hp hctx hb ⊢
    obtain ⟨h1, h2, _⟩ := ifEnter_child hctx h
    obtain ⟨h3, _⟩ := ifEnter_lengths hctx h
    obtain ⟨_, _, h4, _⟩ := ifEnter_thenBlock hctx h
    have hlen : e.state.vars.length = st.vars.length + 1 := by
      rw [h2, List.length_append]
      rfl
    have hbT : st.blocks.length < e.state.blocks.length := by
      rw [h3]
      split <;> omega
    obtain ⟨_, _, _, _, hfr⟩ := resolveStmts_frames th e.thenScope e.state r.1 r.2 _ _ _ _ _ h1
      hbT hr
    obtain ⟨f1, f2, _, _⟩ := ifFallThrough_fields e.thenBlock e.leaveBlock r.2
    rw [elseEnter_eq]
    refine resolves_child hp _ _ _ ?_ ?_ ?_ ?_
    · intro m hm
      show ((ifFallThrough e.thenBlock e.leaveBlock r.2).vars ++ [[]]).get? m = _
      have hm2 : m < r.2.vars.length := by
        have := hfr.vars_le
        omega
      rw [f2, get?_append_old _ _ _ hm2, hfr.vars_old m (by omega) (by omega), h2,
        get?_append_old _ _ _ hm]
    · rw [f2]
      have := hfr.vars_le
      omega
    · show ((ifFallThrough e.thenBlock e.leaveBlock r.2).vars ++ [[]]).get? _ = _
      rw [get?_append_length]
    · show e.elseBlock < (ifFallThrough e.thenBlock e.leaveBlock r.2).blocks.length
      have := hfr.blocks_le
      rw [f1, h4]
      rw [h3] at this
      rw [if_pos hel] at this ⊢
      omega
  | loopBody lhs rhs v str cond th el nx bb ar ad s st e h =>
    simp only [Point.ctx, Point.state] at hp hctx hb ⊢
    obtain ⟨h1, h2, _⟩ := forEnter_child hctx h
    rw [forEnter_eq hctx] at h
    injection h with h
    subst h
    rw [h1]
    refine resolves_child hp _ _ _ ?_ (Nat.le_refl _) ?_ ?_
    · intro m hm
      rw [h2, get?_append_old _ _ _ hm]
    · rw [h2, get?_append_length]
    · show st.blocks.length < (forState b st).blocks.length
      rw [forState_blocks_length]
      omega
  | blockBody lhs rhs v str cond th el nx bb ar ad s st => exact hp
  | functionBody lhs rhs v str cond th el nx bb ar ad s st e h => exact absurd rfl hk
  | returned lhs rhs v str cond th el nx bb ar ad s st => exact hp
  | condition lhs rhs v str cond th el nx bb ar ad s st b0 h =>
    simp only [Point.ctx, Point.state] at hp hctx hb ⊢
    rw [hctx] at hp ⊢
    refine resolves_of_tables hp (fun m _ => by rw [ifBlocks_vars]) (by rw [ifBlocks_vars]) ?_
    rw [ifBlocks_blocks_length]
    omega
  | assigned lhs rhs v str cond th el nx bb ar ad s st n sl h1 h2 => exact hp
  | declared lhs rhs v str cond th el nx bb ar ad s st b0 h =>
    simp only [Point.ctx, Point.state] at hp hctx hb ⊢
    rw [hctx] at hp ⊢
    exact resolves_of_exprFrame hp (exprFrame_newInst st b0 _ _)
  | called lhs rhs v str cond th el nx bb ar ad s st => exact hp
  | left t lhs rhs v str cond th el nx bb ar ad ctx st ht => exact hp
  | right t lhs rhs v str cond th el nx bb ar ad ctx st st1 l ht h =>
    simp only [Point.ctx, Point.state] at hp hctx hb ⊢
    rw [hctx] at hp h ⊢
    exact resolves_of_exprFrame hp (resolveExpr_frame h)
  | arguments lhs rhs v str cond th el nx bb ar ad ctx st => exact hp
  | argument t lhs rhs v str cond th el nx bb ar ad ctx st => exact hp
  | nextArgument t lhs rhs v str cond th el nx bb ar ad ctx st st1 a h =>
    simp only [Point.ctx, Point.state] at hp hctx hb ⊢
    rw [hctx] at hp h ⊢
    exact resolves_of_exprFrame hp (resolveExpr_frame h)

theorem inScope_resolves {name : String} {slot : Value} {p q : Point}
    (h : InScope name p q) (hp : Resolves name slot p.ctx p.state) :
    Resolves name slot q.ctx q.state := by
  induction h with
  | refl => exact hp
  | tail _ hstep ih =>
    obtain ⟨k, hs, hk, hn⟩ := hstep
    exact step_resolves hs hk hn ih

/-! ### a `break` at the end of the body of a loop -/

theorem updateAt_updateAt {α : Type} (f g : α → α) (i : Nat) (l : List α) :
    updateAt f i (updateAt g i l) = updateAt (fun x => f (g x)) i l := by
  induction l generalizing i with
  | nil => cases i <;> rfl
  | cons x xs ih =>
    cases i with
    | zero => rfl
    | succ i => simp only [updateAt, ih]

theorem setTerm_setTerm (st : GenState) (b : Nat) (t1 t2 : Terminator) :
    (st.setTerm b t1).setTerm b t2 = st.setTerm b t2 := by
  simp only [GenState.setTerm, updateAt_updateAt]

theorem forLeave_after_break (s0 : Scope) (loopBlock leaveBlock : Nat) (s : Scope)
    (st : GenState) :
    (resolveStmts (Node.new .NodeTypeBreak) s st).bind (forLeave s0 loopBlock leaveBlock) =
      forLeave s0 loopBlock leaveBlock (s, st) := by
  rcases s with ⟨ctx, il, fl, fn⟩
  cases ctx with
  | null => rfl
  | mk b pv pf fs vs =>
    show forLeave s0 loopBlock leaveBlock (_, st.setTerm b (.br fl)) = _
    simp only [forLeave, BlockContext.blockOf, setTerm_setTerm, bind, Except.bind]

theorem resolveStmts_trailing_break (s0 : Scope) (loopBlock leaveBlock : Nat) (S : List Node) :
    ∀ (s : Scope) (st : GenState),
      (resolveStmts (Node.link (S ++ [Node.new .NodeTypeBreak])) s st).bind
          (forLeave s0 loopBlock leaveBlock) =
        (resolveStmts (Node.link S) s st).bind (forLeave s0 loopBlock leaveBlock) := by
  induction S with
  | nil =>
    intro s st
    exact forLeave_after_break s0 loopBlock leaveBlock s st
  | cons n S ih =>
    intro s st
    cases n with
    | null => rfl
    | mk t l r v sr c th el nx bb ar ad =>
      show ((resolveStmtWith (resolveStmts th) (resolveStmts el) (resolveStmts bb) t l r sr c
          el ar ad s st).bind fun p =>
            resolveStmts (Node.link (S ++ [Node.new .NodeTypeBreak])) p.1 p.2).bind
          (forLeave s0 loopBlock leaveBlock) =
        ((resolveStmtWith (resolveStmts th) (resolveStmts el) (resolveStmts bb) t l r sr c
          el ar ad s st).bind fun p => resolveStmts (Node.link S) p.1 p.2).bind
          (forLeave s0 loopBlock leaveBlock)
      cases resolveStmtWith (resolveStmts th) (resolveStmts el) (resolveStmts bb) t l r sr c
          el ar ad s st with
      | error e => rfl
      | ok p => exact ih p.1 p.2

theorem resolveStmts_block (B : Node) (s : Scope) (st : GenState) :
    resolveStmts (Node.block B) s st = resolveStmts B s st := by
  show (resolveStmts B s st).bind (fun p => resolveStmts .null p.1 p.2) = _
  cases resolveStmts B s st <;> rfl

/-! ## Claims about the lowering -/

/-- C1: lowering `var x = 1;` completes and leaves the entry block of `main`,
its only block, without a terminator; the block of `printValue` has its `ret`. -/
theorem C1_main_entry_block_unterminated :
    (compileSource "var x = 1;").map
        (fun st => st.funcs.map fun f => (f.name, f.blocks.map st.termOf)) =
      .ok [("printf", []), ("printValue", [some (.ret none)]), ("main", [none])] := by
  decide!

/-- C11: a `break` outside every loop is lowered without a failure. In a scope
whose `forLeaveBlock` is absent the `NodeTypeBreak` case returns normally and
the current block gets a branch with no target; the scope of a function body
always has no `forLeaveBlock`; the program `break;` and a function body with a
`break` inside a loop are lowered to modules with such a branch. -/
theorem C11_break_outside_loop_emits_branch :
    (∀ (b : Nat) (pv pf : BlockContext) (fs vs : Nat) (il fn : Option Nat) (st : GenState),
      resolveStmt (Node.new .NodeTypeBreak) ⟨.mk b pv pf fs vs, il, none, fn⟩ st =
        .ok (⟨.mk b pv pf fs vs, il, none, fn⟩, st.setTerm b (.br none))) ∧
    (∀ (str : String) (argDefs : List String) (s : Scope) (st : GenState)
        (e : Nat × Scope × GenState),
      functionEnter str argDefs s st = .ok e → e.2.1.forLeaveBlock = none) ∧
    (compileSource "break;").map GenState.blockTerms =
      .ok [("", some (.ret none)), ("", some (.br none))] ∧
    (compileSource "for \x7b fnc f() \x7b break; \x7d \x7d").map GenState.blockTerms =
      .ok [("", some (.ret none)), ("", some (.br (some 2))),
        ("block-0-for", some (.br (some 2))), ("block-0-leave-for", none),
        ("block-1", some (.br none))] := by
  refine ⟨fun b pv pf fs vs il fn st => rfl, ?_, by decide!, by decide!⟩
  intro str argDefs s st e h
  rcases hc : s.ctx with _ | ⟨b, pv, pf, fs, vs⟩
  · simp only [functionEnter, hc, BlockContext.blockOf, bind, Except.bind] at h
    cases h
  · rw [functionEnter_eq hc] at h
    injection h with h
    subst h
    rfl

/-- C15: lowering sets a terminator on a block that already has one. In
`return 1; return 2;` the second `return` replaces the `ret` the first one
stored in the entry block of `main`; in `for { break; }` the loop block has no
terminator when the body starts, the `break` stores a branch to the leave block
in it, and the `for` case then replaces that branch by the one back to the loop
block. -/
theorem C15_terminator_overwritten :
    parseSource "return 1; return 2;" =
      .ok (Node.link [Node.ret (Node.num 1), Node.ret (Node.num 2)]) ∧
    ((resolveStmt (Node.ret (Node.num 1)) mainScope.1 mainScope.2).bind fun r1 =>
      (resolveStmt (Node.ret (Node.num 2)) r1.1 r1.2).map fun r2 =>
        (r1.2.termOf 1, r2.2.termOf 1)) =
      .ok (some (.ret (some (.constInt .I32 1))), some (.ret (some (.constInt .I32 2)))) ∧
    (compileSource "return 1; return 2;").map GenState.blockTerms =
      .ok [("", some (.ret none)), ("", some (.ret (some (.constInt .I32 2))))] ∧
    parseSource "for \x7b break; \x7d" =
      .ok (Node.forNode (Node.block (Node.new .NodeTypeBreak))) ∧
    resolveStmt (Node.forNode (Node.block (Node.new .NodeTypeBreak))) mainScope.1 mainScope.2 =
      ((forEnter mainScope.1 mainScope.2).bind fun e =>
        (resolveStmts (Node.block (Node.new .NodeTypeBreak)) e.loopScope e.state).bind
          (forLeave mainScope.1 e.loopBlock e.leaveBlock)) ∧
    ((forEnter mainScope.1 mainScope.2).bind fun e =>
      (resolveStmts (Node.block (Node.new .NodeTypeBreak)) e.loopScope e.state).bind fun r =>
        (forLeave mainScope.1 e.loopBlock e.leaveBlock r).map fun f =>
          (e.loopBlock, e.leaveBlock, e.state.termOf e.loopBlock, r.2.termOf e.loopBlock,
            f.2.termOf e.loopBlock)) =
      .ok (2, 3, none, some (.br (some 3)), some (.br (some 2))) ∧
    (compileSource "for \x7b break; \x7d").map GenState.blockTerms =
      .ok [("", some (.ret none)), ("", some (.br (some 2))),
        ("block-0-for", some (.br (some 2))), ("block-0-leave-for", none)] := by
  refine ⟨by decide, by decide!, by decide!, by decide, ?_, by decide!, by decide!⟩
  exact resolveStmtWith_for (resolveStmts .null) (resolveStmts .null)
    (resolveStmts (Node.block (Node.new .NodeTypeBreak))) .null .null "" .null .null .null []
    mainScope.1 mainScope.2

/-- C16: the final block of a branch of an `if` can be left without a terminator.
The else-branch never gets a branch to the leave block: in
`if (c) { x = 1; } else { x = 2; }` the block `block-0-else` has none. The
then-branch gets one only in its first block: in `if (c) { for { break; } }` the
then-branch ends in the leave block of the loop, `block-1-leave-for`, which has
none. -/
theorem C16_branch_final_block_unterminated :
    (compileSource
        "var c = 1; var x = 0; if (c) \x7b x = 1; \x7d else \x7b x = 2; \x7d").map
        GenState.blockTerms =
      .ok [("", some (.ret none)), ("", some (.condBr (.inst 3 .I32) 2 4)),
        ("block-0-then", some (.br (some 3))), ("block-0-leave", none),
        ("block-0-else", none)] ∧
    (compileSource "var c = 1; if (c) \x7b for \x7b break; \x7d \x7d").map
        GenState.blockTerms =
      .ok [("", some (.ret none)), ("", some (.condBr (.inst 2 .I32) 2 3)),
        ("block-0-then", some (.br (some 4))), ("block-0-leave", none),
        ("block-1-for", some (.br (some 4))), ("block-1-leave-for", none)] ∧
    ((ifEnter (Node.num 1) .null mainScope.1 mainScope.2).bind fun e =>
      (resolveStmts (Node.block (Node.forNode (Node.block (Node.new .NodeTypeBreak))))
          e.thenScope e.state).bind fun r =>
        r.1.ctx.blockOf.map fun final =>
          (e.thenBlock, e.leaveBlock, final,
            (ifFallThrough e.thenBlock e.leaveBlock r.2).termOf final)) =
      .ok (2, 3, 5, none) := by
  refine ⟨by decide!, by decide!, by decide!⟩

/-- C17: the final block of a function body can be left without a terminator.
The `ret` is stored only when the entry block has none: in
`fnc f(a) { if (a) { return 1; } }` the body ends in the leave block of the
`if`, block 4 named `block-1-leave`, which has no terminator after the body and
none after the function case is done. -/
theorem C17_function_final_block_unterminated :
    parseSource "fnc f(a) \x7b if (a) \x7b return 1; \x7d \x7d" =
      .ok (Node.function "f" ["a"]
        (Node.block (Node.ifNode (Node.lvar "a") (Node.block (Node.ret (Node.num 1))) .null))) ∧
    ((functionEnter "f" ["a"] mainScope.1 mainScope.2).bind fun e =>
      (resolveStmts
          (Node.block (Node.ifNode (Node.lvar "a") (Node.block (Node.ret (Node.num 1))) .null))
          e.2.1 e.2.2).bind fun r =>
        r.1.ctx.blockOf.map fun final =>
          (e.1, final, r.2.termOf final, (functionLeave e.1 r.2).termOf final)) =
      .ok (2, 4, none, none) ∧
    (compileSource "fnc f(a) \x7b if (a) \x7b return 1; \x7d \x7d").map GenState.blockTerms =
      .ok [("", some (.ret none)), ("", none),
        ("block-0", some (.condBr (.param 3 0 .I32) 3 4)),
        ("block-1-then", some (.ret (some (.constInt .I32 1)))), ("block-1-leave", none)] := by
  refine ⟨by decide, by decide!, by decide!⟩

/-- C12: references to undefined names fail fast. In every non-nil context
`findVariable` returns the innermost binding of the name among the `vars` maps
of the `parentVariableContext` chain and panics with `Not Found Variable` when
there is none, and `findFunction` does the same with the `functions` maps of the
`parentFunctionContext` chain and `Not Found Function`. So lowering a read of,
or an assignment to, a name bound in no `vars` map of the chain panics, and
lowering a call of a name bound in no `functions` map of the chain never
succeeds: it panics with `Not Found Function` once the arguments are lowered. -/
theorem C12_undefined_names_fail_fast :
    (∀ (b : Nat) (pv pf : BlockContext) (fs vs : Nat) (name : String) (st : GenState),
      (BlockContext.mk b pv pf fs vs).findVariable name st =
        match st.innermostVar name (BlockContext.mk b pv pf fs vs).varChain with
        | some v => .ok v
        | none => .error (.panic "Not Found Variable")) ∧
    (∀ (b : Nat) (pv pf : BlockContext) (fs vs : Nat) (name : String) (st : GenState),
      (BlockContext.mk b pv pf fs vs).findFunction name st =
        match st.innermostFunction name (BlockContext.mk b pv pf fs vs).functionChain with
        | some f => .ok f
        | none => .error (.panic "Not Found Function")) ∧
    (∀ (b : Nat) (pv pf : BlockContext) (fs vs : Nat) (name : String) (st : GenState),
      st.innermostVar name (BlockContext.mk b pv pf fs vs).varChain = none →
        resolveExpr (Node.lvar name) (.mk b pv pf fs vs) st =
          .error (.panic "Not Found Variable") ∧
        ∀ (rhs : Node) (il fl fn : Option Nat),
          resolveStmt (Node.binary .NodeTypeAssign (Node.lvar name) rhs)
            ⟨.mk b pv pf fs vs, il, fl, fn⟩ st = .error (.panic "Not Found Variable")) ∧
    (∀ (b : Nat) (pv pf : BlockContext) (fs vs : Nat) (name : String) (st : GenState),
      st.innermostFunction name (BlockContext.mk b pv pf fs vs).functionChain = none →
        ∀ (args : Node),
          (∀ r, resolveArgs args (.mk b pv pf fs vs) st = .ok r →
            callFunction (Node.call name args) (.mk b pv pf fs vs) st =
              .error (.panic "Not Found Function")) ∧
          (∀ r, callFunction (Node.call name args) (.mk b pv pf fs vs) st ≠ .ok r) ∧
          (∀ r, resolveExpr (Node.call name args) (.mk b pv pf fs vs) st ≠ .ok r) ∧
          ∀ (il fl fn : Option Nat) r,
            resolveStmt (Node.call name args) ⟨.mk b pv pf fs vs, il, fl, fn⟩ st ≠ .ok r) := by
  refine ⟨fun b pv pf fs vs name st => findVariable_mk pv b pf fs vs name st,
    fun b pv pf fs vs name st => findFunction_mk pf b pv fs vs name st, ?_, ?_⟩
  · intro b pv pf fs vs name st h
    have hfind : (BlockContext.mk b pv pf fs vs).findVariable name st =
        .error (.panic "Not Found Variable") := by
      rw [findVariable_mk, h]
    constructor
    · simp only [Node.lvar, resolveExpr, resolveExprWith, hfind, bind, Except.bind]
    · intro rhs il fl fn
      simp only [Node.binary, resolveStmt, resolveStmtWith, Node.lvar, Node.strOf, hfind, bind,
        Except.bind]
  · intro b pv pf fs vs name st h args
    obtain ⟨h1, h2⟩ := @callFunctionWith_not_found args name b pv pf fs vs st h
    refine ⟨h1, h2, ?_, ?_⟩
    · intro r hr
      simp only [Node.call, resolveExpr, resolveExprWith] at hr
      exact h2 r hr
    · intro il fl fn r hr
      simp only [Node.call, resolveStmt, resolveStmtWith] at hr
      obtain ⟨x, hx, _⟩ := bind_ok _ _ _ hr
      exact h2 x hx

/-- C12 at the start of `main`, where only `printValue` is bound: a read of `y`
and a call of `g` fail. -/
theorem C12_witness :
    (mainScope.2.innermostVar "y" (BlockContext.mk 1 .null .null 0 0).varChain = none ∧
      resolveExpr (Node.lvar "y") (.mk 1 .null .null 0 0) mainScope.2 =
        .error (.panic "Not Found Variable")) ∧
    (mainScope.2.innermostFunction "g" (BlockContext.mk 1 .null .null 0 0).functionChain =
        none ∧
      callFunction (Node.call "g" .null) (.mk 1 .null .null 0 0) mainScope.2 =
        .error (.panic "Not Found Function")) :=
  ⟨⟨by decide!,
    (C12_undefined_names_fail_fast.2.2.1 1 .null .null 0 0 "y" mainScope.2 (by decide!)).1⟩,
   ⟨by decide!,
    (C12_undefined_names_fail_fast.2.2.2 1 .null .null 0 0 "g" mainScope.2 (by decide!)
      .null).1 ([], mainScope.2) rfl⟩⟩

/-- C13, counterexample: in programs of the shape
`var x = 1; if (x) { var x = 2; ... } ...` a read of `x` in the body of a
function defined inside the body of the `if`, and an assignment to `x` in the
body of a function defined after the `if`, fail with `Not Found Variable`; an
assignment to `x` that follows a second declaration of `x` in the body of the
`if` stores to the slot of that second declaration, instruction 4, not to the
slot of the first, instruction 3. -/
theorem C13_counterexample :
    compileSource
        "var x = 1; if (x) \x7b var x = 2; fnc f() \x7b return x; \x7d \x7d" =
      .error (.panic "Not Found Variable") ∧
    compileSource
        "var x = 1; if (x) \x7b var x = 2; \x7d fnc f() \x7b x = 3; \x7d" =
      .error (.panic "Not Found Variable") ∧
    (compileSource
        "var x = 1; if (x) \x7b var x = 2; var x = 3; x = 4; \x7d").map
        (fun st => (st.blocks.get? 2).map Block.insts) =
      .ok (some [.alloca 3 .I32, .store (.constInt .I32 2) (.inst 3 (.Pointer .I32)),
        .alloca 4 .I32, .store (.constInt .I32 3) (.inst 4 (.Pointer .I32)),
        .store (.constInt .I32 4) (.inst 4 (.Pointer .I32))]) := by
  refine ⟨by decide!, by decide!, by decide!⟩

/-- C13, amended: scope shadowing in a program
`var x = e1; if (c) { var x = e2; S } else ... T`, lowered in any scope whose
context has a current block and `vars` maps that exist. The slot of a
declaration is the value `NewAlloca` returns in it. At every point of the
lowering that is reached from the start of `S`, just after the inner
declaration, without entering the body of a function and without going on past
a further declaration of `x`, `findVariable` of `x` returns the slot of the
inner declaration; at every such point reached from the start of `T`, just
after the `if`, it returns the slot of the outer declaration; and the `vars` map
of the outer scope binds `x` to the slot of the outer declaration before and
after the `if`. The points include the statements in the branches of nested
`if`s, the bodies of nested loops and blocks, and every expression and
argument lowered in them. A read of `x` at a point where `x` resolves to a slot
loads from that slot, and an assignment to `x` stores to it. -/
theorem C13_shadowing_within_scope (x : String) (e1 c e2 els : Node) (S T : List Node)
    (s s1 : Scope) (st st1 : GenState) (b : Nat) (pv pf : BlockContext) (fs vs : Nat)
    (hctx : s.ctx = .mk b pv pf fs vs) (hb : b < st.blocks.length)
    (hchain : ∀ m ∈ s.ctx.varChain, m < st.vars.length)
    (h1 : resolveStmt (Node.binary .NodeTypeAlloc (Node.lvar x) e1) s st = .ok (s1, st1)) :
    (∀ (e : IfEntry) (s2 : Scope) (st2 : GenState), ifEnter c els s1 st1 = .ok e →
      resolveStmt (Node.binary .NodeTypeAlloc (Node.lvar x) e2) e.thenScope e.state =
        .ok (s2, st2) →
      Reaches
        (.stmts (Node.link (Node.binary .NodeTypeAlloc (Node.lvar x) e1 ::
          Node.ifNode c (Node.block (Node.link
            (Node.binary .NodeTypeAlloc (Node.lvar x) e2 :: S))) els :: T)) s st)
        (.stmts (Node.link S) s2 st2) ∧
      ∀ q, InScope x (.stmts (Node.link S) s2 st2) q →
        q.ctx.findVariable x q.state =
          .ok (e.state.newInst e.thenBlock (fun id => .alloca id .I32) (.Pointer .I32)).1) ∧
    (∀ (s3 : Scope) (st3 : GenState),
      resolveStmt (Node.ifNode c (Node.block (Node.link
        (Node.binary .NodeTypeAlloc (Node.lvar x) e2 :: S))) els) s1 st1 = .ok (s3, st3) →
      Reaches
        (.stmts (Node.link (Node.binary .NodeTypeAlloc (Node.lvar x) e1 ::
          Node.ifNode c (Node.block (Node.link
            (Node.binary .NodeTypeAlloc (Node.lvar x) e2 :: S))) els :: T)) s st)
        (.stmts (Node.link T) s3 st3) ∧
      st1.lookupVar vs x =
        some (st.newInst b (fun id => .alloca id .I32) (.Pointer .I32)).1 ∧
      st3.lookupVar vs x =
        some (st.newInst b (fun id => .alloca id .I32) (.Pointer .I32)).1 ∧
      ∀ q, InScope x (.stmts (Node.link T) s3 st3) q →
        q.ctx.findVariable x q.state =
          .ok (st.newInst b (fun id => .alloca id .I32) (.Pointer .I32)).1) ∧
    (∀ (lhs rhs : Node) (v : Int) (cond th el nx bb ar : Node) (ad : List String)
      (ctx : BlockContext) (st0 : GenState) (b0 i : Nat), ctx.blockOf = .ok b0 →
      ctx.findVariable x st0 = .ok (.inst i (.Pointer .I32)) →
      resolveExpr (.mk .NodeTypeLVar lhs rhs v x cond th el nx bb ar ad) ctx st0 =
        .ok (st0.newInst b0 (fun id => .load id .I32 (.inst i (.Pointer .I32))) .I32)) ∧
    (∀ (lhs rhs : Node) (v : Int) (str : String) (cond th el nx bb ar : Node)
      (ad : List String) (s0 s0' : Scope) (st0 st0' : GenState) (b0 : Nat) (slot : Value),
      lhs.strOf = .ok x → s0.ctx.blockOf = .ok b0 → s0.ctx.findVariable x st0 = .ok slot →
      resolveStmt (.mk .NodeTypeAssign lhs rhs v str cond th el nx bb ar ad) s0 st0 =
        .ok (s0', st0') →
      ∃ vr st1, resolveExpr rhs s0.ctx st0 = .ok (vr, st1) ∧
        st0' = st1.appendInst b0 (.store vr slot)) := by
  have hvs : vs < st.vars.length := hchain vs (by rw [hctx]; exact List.mem_cons_self _ _)
  have h1' : resolveStmtWith (resolveStmts .null) (resolveStmts .null) (resolveStmts .null)
      .NodeTypeAlloc (Node.lvar x) e1 "" .null .null .null [] s st = .ok (s1, st1) := h1
  obtain ⟨n, hn, hs1, hbind, _⟩ := resolveStmtWith_alloc_binds hctx hvs h1'
  have hname : n = x := by
    simp only [Node.lvar, Node.strOf] at hn
    injection hn with hn
    exact hn.symm
  subst hname
  subst hs1
  obtain ⟨_, _, _, _, hf1⟩ := resolveStmt_frames _ s1 st s1 st1 b pv pf fs vs hctx hb h1
  have hb1 : b < st1.blocks.length := Nat.lt_of_lt_of_le hb hf1.blocks_le
  have hout : Resolves n (.inst st.nextId (.Pointer .I32)) s1.ctx st1 := by
    refine ⟨⟨b, pv, pf, fs, vs, hctx, hb1⟩, fun m hm => ?_, ?_⟩
    · exact Nat.lt_of_lt_of_le (hchain m hm) hf1.vars_le
    · rw [hctx]
      exact findVariable_of_lookupVar hbind
  refine ⟨?_, ?_, ?_, ?_⟩
  · intro e s2 st2 he h2
    have hthen : Resolves n (.inst st.nextId (.Pointer .I32)) e.thenScope.ctx e.state :=
      @step_resolves n _ (.stmts (Node.ifNode c .null els) s1 st1) _ _
        (Step.thenBranch .null .null 0 "" c .null els .null .null .null [] s1 st1 e he)
        (by decide) (fun hk => by cases hk) hout
    obtain ⟨hc2, hv2, _⟩ := ifEnter_child hctx he
    obtain ⟨hl2, _⟩ := ifEnter_lengths hctx he
    obtain ⟨hT, _⟩ := ifEnter_thenBlock hctx he
    have hbT : st1.blocks.length < e.state.blocks.length := by
      rw [hl2]
      split <;> omega
    have hvT : st1.vars.length < e.state.vars.length := by
      rw [hv2, List.length_append]
      exact Nat.lt_succ_self _
    have h2' : resolveStmtWith (resolveStmts .null) (resolveStmts .null) (resolveStmts .null)
        .NodeTypeAlloc (Node.lvar n) e2 "" .null .null .null [] e.thenScope e.state =
          .ok (s2, st2) := h2
    obtain ⟨n2, hn2, hs2, hbind2, _⟩ := resolveStmtWith_alloc_binds hc2 hvT h2'
    have hname2 : n2 = n := by
      simp only [Node.lvar, Node.strOf] at hn2
      injection hn2 with hn2
      exact hn2.symm
    subst hname2
    obtain ⟨_, _, _, _, hf2⟩ :=
      resolveStmt_frames _ e.thenScope e.state s2 st2 _ _ _ _ _ hc2 hbT h2
    have hin : Resolves n2 (.inst e.state.nextId (.Pointer .I32)) s2.ctx st2 := by
      rw [hs2]
      refine ⟨⟨_, _, _, _, _, hc2, Nat.lt_of_lt_of_le hbT hf2.blocks_le⟩,
        fun m hm => ?_, ?_⟩
      · exact Nat.lt_of_lt_of_le (hthen.chain m hm) hf2.vars_le
      · rw [hc2]
        exact findVariable_of_lookupVar hbind2
    refine ⟨?_, fun q hq => (inScope_resolves hq hin).finds⟩
    have r1 : Reaches
        (.stmts (Node.link (Node.binary .NodeTypeAlloc (Node.lvar n2) e1 ::
          Node.ifNode c (Node.block (Node.link
            (Node.binary .NodeTypeAlloc (Node.lvar n2) e2 :: S))) els :: T)) s1 st)
        (.stmts (Node.link (Node.ifNode c (Node.block (Node.link
            (Node.binary .NodeTypeAlloc (Node.lvar n2) e2 :: S))) els :: T)) s1 st1) :=
      Relation.ReflTransGen.single ⟨.next,
        Step.next .NodeTypeAlloc (Node.lvar n2) e1 0 "" .null .null .null _ .null .null []
          _ _ _ _ h1⟩
    have r2 : Reaches
        (.stmts (Node.link (Node.binary .NodeTypeAlloc (Node.lvar n2) e1 ::
          Node.ifNode c (Node.block (Node.link
            (Node.binary .NodeTypeAlloc (Node.lvar n2) e2 :: S))) els :: T)) s1 st)
        (.stmts (Node.block (Node.link (Node.binary .NodeTypeAlloc (Node.lvar n2) e2 :: S)))
          e.thenScope e.state) :=
      Relation.ReflTransGen.tail r1 ⟨.thenBranch,
        Step.thenBranch .null .null 0 "" c _ els _ .null .null [] s1 st1 e he⟩
    have r3 : Reaches
        (.stmts (Node.link (Node.binary .NodeTypeAlloc (Node.lvar n2) e1 ::
          Node.ifNode c (Node.block (Node.link
            (Node.binary .NodeTypeAlloc (Node.lvar n2) e2 :: S))) els :: T)) s1 st)
        (.stmts (Node.link (Node.binary .NodeTypeAlloc (Node.lvar n2) e2 :: S))
          e.thenScope e.state) :=
      Relation.ReflTransGen.tail r2 ⟨.blockBody,
        Step.blockBody .null .null 0 "" .null .null .null .null _ .null [] _ _⟩
    exact Relation.ReflTransGen.tail r3 ⟨.next,
      Step.next .NodeTypeAlloc (Node.lvar n2) e2 0 "" .null .null .null _ .null .null []
        _ _ _ _ h2⟩
  · intro s3 st3 h3
    obtain ⟨_, hv3, _, _, _⟩ := resolveStmt_ifNode_tables hctx h3
    obtain ⟨b3, hs3, _, hb3, hf3⟩ :=
      resolveStmt_frames _ s1 st1 s3 st3 b pv pf fs vs hctx hb1 h3
    have hvs1 : vs < st1.vars.length := Nat.lt_of_lt_of_le hvs hf1.vars_le
    have hafter : Resolves n (.inst st.nextId (.Pointer .I32)) s3.ctx st3 := by
      rw [hs3]
      rw [hctx] at hout
      exact resolves_of_tables hout hv3 hf3.vars_le hb3
    refine ⟨?_, hbind, ?_, fun q hq => (inScope_resolves hq hafter).finds⟩
    · have r1 : Reaches
          (.stmts (Node.link (Node.binary .NodeTypeAlloc (Node.lvar n) e1 ::
            Node.ifNode c (Node.block (Node.link
              (Node.binary .NodeTypeAlloc (Node.lvar n) e2 :: S))) els :: T)) s1 st)
          (.stmts (Node.link (Node.ifNode c (Node.block (Node.link
              (Node.binary .NodeTypeAlloc (Node.lvar n) e2 :: S))) els :: T)) s1 st1) :=
        Relation.ReflTransGen.single ⟨.next,
          Step.next .NodeTypeAlloc (Node.lvar n) e1 0 "" .null .null .null _ .null .null []
            _ _ _ _ h1⟩
      exact Relation.ReflTransGen.tail r1 ⟨.next,
        Step.next .NodeTypeIF .null .null 0 "" c _ els _ .null .null [] _ _ _ _ h3⟩
    · rw [lookupVar_of_get? n (hv3 vs hvs1)]
      exact hbind
  · intro lhs rhs v cond th el nx bb ar ad ctx st0 b0 i hb0 hfind
    simp only [resolveExpr, resolveExprWith, hfind, hb0, Value.type, bind, Except.bind,
      if_true, pure, Except.pure]
  · intro lhs rhs v str cond th el nx bb ar ad s0 s0' st0 st0' b0 slot hl hb0 hfind h
    rcases hc : s0.ctx with _ | ⟨b', pv', pf', fs', vs'⟩
    · rw [hc] at hb0
      cases hb0
    · have h' : resolveStmtWith (resolveStmts th) (resolveStmts el) (resolveStmts bb)
          .NodeTypeAssign lhs rhs str cond el ar ad s0 st0 = .ok (s0', st0') := h
      obtain ⟨name, v', vr, st1', hn', hf', hr', _, hst'⟩ := resolveStmtWith_assign_inv hc h'
      rw [hl] at hn'
      injection hn' with hn'
      subst hn'
      rw [hfind] at hf'
      injection hf' with hf'
      subst hf'
      rw [hc] at hb0 hr'
      injection hb0 with hb0
      subst hb0
      exact ⟨vr, st1', hr', hst'⟩

/-- C13, amended, at `var x = 1; if (x) { var x = 2; x = 3; } x = 4;` from the
start of `main`: the four lowerings named in the theorem return; at `x = 3;`
the name resolves to the slot of the inner declaration, at `x = 4;` to
instruction 1, the slot of the outer declaration. -/
theorem C13_witness :
    ∃ (r1 : Scope × GenState) (e : IfEntry) (r2 r3 : Scope × GenState),
      resolveStmt (Node.binary .NodeTypeAlloc (Node.lvar "x") (Node.num 1)) mainScope.1
        mainScope.2 = .ok r1 ∧
      ifEnter (Node.lvar "x") .null r1.1 r1.2 = .ok e ∧
      resolveStmt (Node.binary .NodeTypeAlloc (Node.lvar "x") (Node.num 2)) e.thenScope
        e.state = .ok r2 ∧
      resolveStmt (Node.ifNode (Node.lvar "x") (Node.block (Node.link
        [Node.binary .NodeTypeAlloc (Node.lvar "x") (Node.num 2),
          Node.binary .NodeTypeAssign (Node.lvar "x") (Node.num 3)])) .null) r1.1 r1.2 =
        .ok r3 ∧
      r2.1.ctx.findVariable "x" r2.2 =
        .ok (e.state.newInst e.thenBlock (fun id => .alloca id .I32) (.Pointer .I32)).1 ∧
      r3.1.ctx.findVariable "x" r3.2 =
        .ok (mainScope.2.newInst 1 (fun id => .alloca id .I32) (.Pointer .I32)).1 ∧
      (mainScope.2.newInst 1 (fun id => .alloca id .I32) (.Pointer .I32)).1 =
        .inst 1 (.Pointer .I32) := by
  obtain ⟨r2, h⟩ := isOk_exists (show
    ((resolveStmt (Node.binary .NodeTypeAlloc (Node.lvar "x") (Node.num 1)) mainScope.1
      mainScope.2).bind fun r1 =>
        (ifEnter (Node.lvar "x") .null r1.1 r1.2).bind fun e =>
          resolveStmt (Node.binary .NodeTypeAlloc (Node.lvar "x") (Node.num 2)) e.thenScope
            e.state).isOk = true by decide!)
  obtain ⟨r1, h1, h⟩ := bind_ok _ _ _ h
  obtain ⟨e, he, h2⟩ := bind_ok _ _ _ h
  obtain ⟨r3, h⟩ := isOk_exists (show
    ((resolveStmt (Node.binary .NodeTypeAlloc (Node.lvar "x") (Node.num 1)) mainScope.1
      mainScope.2).bind fun r1 =>
        resolveStmt (Node.ifNode (Node.lvar "x") (Node.block (Node.link
          [Node.binary .NodeTypeAlloc (Node.lvar "x") (Node.num 2),
            Node.binary .NodeTypeAssign (Node.lvar "x") (Node.num 3)])) .null) r1.1
          r1.2).isOk = true by decide!)
  obtain ⟨r1', h1', h3⟩ := bind_ok _ _ _ h
  rw [h1] at h1'
  injection h1' with h1'
  subst h1'
  have key := C13_shadowing_within_scope "x" (Node.num 1) (Node.lvar "x") (Node.num 2) .null
    [Node.binary .NodeTypeAssign (Node.lvar "x") (Node.num 3)]
    [Node.binary .NodeTypeAssign (Node.lvar "x") (Node.num 4)] mainScope.1 r1.1 mainScope.2
    r1.2 1 .null .null 0 0 (by decide!) (by decide!) (by decide!) h1
  exact ⟨r1, e, r2, r3, h1, he, h2, h3,
    (key.1 e r2.1 r2.2 he h2).2 _ Relation.ReflTransGen.refl,
    (key.2.1 r3.1 r3.2 h3).2.2.2 _ Relation.ReflTransGen.refl, rfl⟩

/-- C14: lowering `for { }` gives `main` a loop block, block 2 named
`block-0-for`, whose terminator is a branch to block 2 itself and which the
entry block branches to. For every for-loop lowered in a context whose current
block `b` exists: the loop block and the leave block are the next two blocks,
the body starts in the loop block, `b` ends in a branch to the loop block, the
block that is current when the body is done ends in a branch to the loop block,
and the current block afterwards is the leave block, which has no terminator. -/
theorem C14_for_loop_back_edge :
    parseSource "for \x7b \x7d" = .ok (Node.forNode (Node.block .null)) ∧
    (compileSource "for \x7b \x7d").map GenState.blockTerms =
      .ok [("", some (.ret none)), ("", some (.br (some 2))),
        ("block-0-for", some (.br (some 2))), ("block-0-leave-for", none)] ∧
    ∀ (body : Node) (s s' : Scope) (st st' : GenState) (b : Nat) (pv pf : BlockContext)
      (fs vs : Nat), s.ctx = .mk b pv pf fs vs → b < st.blocks.length →
      resolveStmt (Node.forNode body) s st = .ok (s', st') →
      ∃ e r final,
        forEnter s st = .ok e ∧ e.loopBlock = st.blocks.length ∧
        e.leaveBlock = st.blocks.length + 1 ∧ e.loopScope.ctx.blockOf = .ok e.loopBlock ∧
        resolveStmts body e.loopScope e.state = .ok r ∧ r.1.ctx.blockOf = .ok final ∧
        st'.termOf b = some (.br (some e.loopBlock)) ∧
        st'.termOf final = some (.br (some e.loopBlock)) ∧
        s'.ctx.blockOf = .ok e.leaveBlock ∧ e.leaveBlock < st'.blocks.length ∧
        st'.termOf e.leaveBlock = none := by
  refine ⟨by decide, by decide!, ?_⟩
  intro body s s' st st' b pv pf fs vs hctx hb h
  have h' : resolveStmtWith (resolveStmts .null) (resolveStmts .null) (resolveStmts body)
      .NodeTypeFor .null .null "" .null .null .null [] s st = .ok (s', st') := h
  obtain ⟨r, b2, hr, hs2, hb2, hv2, hf2, h1, h2⟩ :=
    resolveStmtWith_for_inv (resolveStmts_frames body) hctx h'
  have hlen := forState_blocks_length b st
  have hle := hf2.blocks_le
  refine ⟨_, r, b2, forEnter_eq hctx st, rfl, rfl, rfl, hr, by rw [hs2]; rfl, ?_, ?_, ?_, ?_,
    ?_⟩ <;> dsimp only
  · rw [h2, termOf_setTerm_ne _ _ _ _ (by omega),
      termOf_eq_of_get? (hf2.blocks_old b (by omega) (by omega)), forState_termOf b st hb]
  · rw [h2]
    exact termOf_setTerm_eq _ _ _ hv2
  · rw [h1]
    rfl
  · rw [h2]
    simp only [GenState.setTerm, updateAt_length]
    omega
  · obtain ⟨q, hq⟩ := forState_leave b st hb
    rw [h2, termOf_setTerm_ne _ _ _ _ (by omega),
      termOf_eq_of_get? (hf2.blocks_old (st.blocks.length + 1) (by omega) (by omega))]
    simp only [GenState.termOf, hq]
    rfl

/-- C14 for `for { }` at the start of `main`: the loop block is block 2, the
leave block is block 3, and the entry block and the final block of the body end
in a branch to block 2. -/
theorem C14_witness :
    mainScope.1.ctx = .mk 1 .null .null 0 0 ∧ 1 < mainScope.2.blocks.length ∧
    resolveStmt (Node.forNode (Node.block .null)) mainScope.1 mainScope.2 =
      .ok ({ mainScope.1 with ctx := .mk 3 .null .null 0 0 },
        (forState 1 mainScope.2).setTerm 2 (.br (some 2))) ∧
    ∃ e r final,
      forEnter mainScope.1 mainScope.2 = .ok e ∧ e.loopBlock = 2 ∧ e.leaveBlock = 3 ∧
      resolveStmts (Node.block .null) e.loopScope e.state = .ok r ∧
      r.1.ctx.blockOf = .ok final ∧
      ((forState 1 mainScope.2).setTerm 2 (.br (some 2))).termOf final =
        some (.br (some e.loopBlock)) :=
  ⟨by decide!, by decide!, by decide!,
    match C14_for_loop_back_edge.2.2 (Node.block .null) mainScope.1
      { mainScope.1 with ctx := .mk 3 .null .null 0 0 } mainScope.2
      ((forState 1 mainScope.2).setTerm 2 (.br (some 2))) 1 .null .null 0 0 (by decide!)
      (by decide!) (by decide!) with
    | ⟨e, r, final, h1, h2, h3, _, h5, h6, _, h8, _⟩ =>
      ⟨e, r, final, h1, h2.trans (by decide!), h3.trans (by decide!), h5, h6, h8⟩⟩

/-- C18: the branch of a `break` to the leave block of its loop is lost when the
`break` is the last statement of the body of the loop. The `break` stores its
branch in the block current at that moment, and the `NodeTypeFor` case then
stores the branch back to the loop block in the same block. So for any
statements `S`, in any scope and state, `for { S break; }` is lowered to exactly
what `for { S }` is lowered to. The modules of `for { break; }` and of
`for { for { } break; }` have no branch to block 3, the leave block
`block-0-leave-for` of the loop the `break` is in; the loops have no exit. In
`for { if (1) { break; } }`, where the `break` is the last statement of a
branch of an `if`, the branch to block 3 is kept, in `block-1-then`. -/
theorem C18_trailing_break_is_lost :
    (∀ (S : List Node) (s : Scope) (st : GenState),
      resolveStmt
          (Node.forNode (Node.block (Node.link (S ++ [Node.new .NodeTypeBreak])))) s st =
        resolveStmt (Node.forNode (Node.block (Node.link S))) s st) ∧
    parseSource "for \x7b break; \x7d" =
      .ok (Node.forNode (Node.block (Node.link ([] ++ [Node.new .NodeTypeBreak])))) ∧
    parseSource "for \x7b for \x7b \x7d break; \x7d" =
      .ok (Node.forNode (Node.block (Node.link
        ([Node.forNode (Node.block (Node.link []))] ++ [Node.new .NodeTypeBreak])))) ∧
    compileSource "for \x7b break; \x7d" = compileSource "for \x7b \x7d" ∧
    compileSource "for \x7b for \x7b \x7d break; \x7d" =
      compileSource "for \x7b for \x7b \x7d \x7d" ∧
    (compileSource "for \x7b break; \x7d").map GenState.blockTerms =
      .ok [("", some (.ret none)), ("", some (.br (some 2))),
        ("block-0-for", some (.br (some 2))), ("block-0-leave-for", none)] ∧
    (compileSource "for \x7b for \x7b \x7d break; \x7d").map GenState.blockTerms =
      .ok [("", some (.ret none)), ("", some (.br (some 2))),
        ("block-0-for", some (.br (some 4))), ("block-0-leave-for", none),
        ("block-1-for", some (.br (some 4))), ("block-1-leave-for", some (.br (some 2)))] ∧
    (compileSource "for \x7b if (1) \x7b break; \x7d \x7d").map GenState.blockTerms =
      .ok [("", some (.ret none)), ("", some (.br (some 2))),
        ("block-0-for", some (.condBr (.constInt .I32 1) 4 5)), ("block-0-leave-for", none),
        ("block-1-then", some (.br (some 3))), ("block-1-leave", some (.br (some 2)))] := by
  refine ⟨?_, by decide, by decide, by decide!, by decide!, by decide!, by decide!,
    by decide!⟩
  intro S s st
  show resolveStmtWith (resolveStmts .null) (resolveStmts .null)
      (resolveStmts (Node.block (Node.link (S ++ [Node.new .NodeTypeBreak]))))
      .NodeTypeFor .null .null "" .null .null .null [] s st =
    resolveStmtWith (resolveStmts .null) (resolveStmts .null)
      (resolveStmts (Node.block (Node.link S))) .NodeTypeFor .null .null "" .null .null
      .null [] s st
  rw [resolveStmtWith_for, resolveStmtWith_for]
  cases forEnter s st with
  | error e => rfl
  | ok e =>
    show (resolveStmts (Node.block (Node.link (S ++ [Node.new .NodeTypeBreak]))) e.loopScope
        e.state).bind (forLeave s e.loopBlock e.leaveBlock) =
      (resolveStmts (Node.block (Node.link S)) e.loopScope e.state).bind
        (forLeave s e.loopBlock e.leaveBlock)
    rw [resolveStmts_block, resolveStmts_block]
    exact resolveStmts_trailing_break s e.loopBlock e.leaveBlock S e.loopScope e.state

/-- C19, counterexample: a call after an `if` to a function defined in its body
fails, because the function is bound in the `functions` map of the body's own
context, map 1, not in map 0 of the enclosing scope. -/
theorem C19_counterexample :
    compileSource "if (1) \x7b fnc f() \x7b return 1; \x7d \x7d f();" =
      .error (.panic "Not Found Function") ∧
    (compileSource "if (1) \x7b fnc f() \x7b return 1; \x7d f(); \x7d").map
        (fun st => st.functions) =
      .ok [[("printValue", 1)], [("f", 3)], []] := by
  refine ⟨by decide!, by decide!⟩

/-- C19, amended: a child scope opened for a branch of an `if` or the body of a
`for` has a new empty `functions` map and a new empty `vars` map of its own,
and the context of the enclosing scope as parent for both lookups. A function
definition binds the name in the `functions` map of the context it is lowered
in. Lowering an `if` or a `for` leaves every `functions` map and every `vars`
map that existed before as it was, so in the enclosing scope every function
name and every variable name resolves afterwards to what it resolved to
before. -/
theorem C19_child_scope_has_own_tables :
    (∀ (cond els : Node) (s : Scope) (st : GenState) (e : IfEntry) (b : Nat)
      (pv pf : BlockContext) (fs vs : Nat), s.ctx = .mk b pv pf fs vs →
      ifEnter cond els s st = .ok e →
      e.thenScope.ctx = .mk st.blocks.length s.ctx s.ctx st.functions.length st.vars.length ∧
      e.state.vars = st.vars ++ [[]] ∧ e.state.functions = st.functions ++ [[]]) ∧
    (∀ (s : Scope) (elseBlock leaveBlock : Nat) (st : GenState),
      (elseEnter s elseBlock leaveBlock st).1.ctx =
        .mk elseBlock s.ctx s.ctx st.functions.length st.vars.length ∧
      (elseEnter s elseBlock leaveBlock st).2.vars = st.vars ++ [[]] ∧
      (elseEnter s elseBlock leaveBlock st).2.functions = st.functions ++ [[]]) ∧
    (∀ (s : Scope) (st : GenState) (e : ForEntry) (b : Nat) (pv pf : BlockContext)
      (fs vs : Nat), s.ctx = .mk b pv pf fs vs → forEnter s st = .ok e →
      e.loopScope.ctx = .mk st.blocks.length s.ctx s.ctx st.functions.length st.vars.length ∧
      e.state.vars = st.vars ++ [[]] ∧ e.state.functions = st.functions ++ [[]]) ∧
    (∀ (name : String) (argDefs : List String) (body : Node) (s s' : Scope)
      (st st' : GenState) (b : Nat) (pv pf : BlockContext) (fs vs : Nat),
      s.ctx = .mk b pv pf fs vs → fs < st.functions.length →
      resolveStmt (Node.function name argDefs body) s st = .ok (s', st') →
      s' = s ∧ st'.lookupFunction fs name = some st.funcs.length ∧
      s'.ctx.findFunction name st' = .ok st.funcs.length) ∧
    (∀ (n : Node) (s s' : Scope) (st st' : GenState) (b : Nat) (pv pf : BlockContext)
      (fs vs : Nat), s.ctx = .mk b pv pf fs vs →
      ((∃ cond then_ els, n = Node.ifNode cond then_ els) ∨ ∃ body, n = Node.forNode body) →
      resolveStmt n s st = .ok (s', st') →
      s'.ctx = .mk (st.blocks.length + 1) pv pf fs vs ∧
      (∀ m, m < st.vars.length → st'.vars.get? m = st.vars.get? m) ∧
      (∀ m, m < st.functions.length → st'.functions.get? m = st.functions.get? m) ∧
      ((∀ m ∈ s.ctx.varChain, m < st.vars.length) →
        ∀ name, s'.ctx.findVariable name st' = s.ctx.findVariable name st) ∧
      ((∀ m ∈ s.ctx.functionChain, m < st.functions.length) →
        ∀ name, s'.ctx.findFunction name st' = s.ctx.findFunction name st)) := by
  refine ⟨fun cond els s st e b pv pf fs vs hctx h => ifEnter_child hctx h,
    fun s eb lb st => ⟨rfl, rfl, rfl⟩,
    fun s st e b pv pf fs vs hctx h => forEnter_child hctx h, ?_, ?_⟩
  · intro name argDefs body s s' st st' b pv pf fs vs hctx hfs h
    have h' : resolveStmtWith (resolveStmts .null) (resolveStmts .null) (resolveStmts body)
        .NodeTypeFunction .null .null name .null .null .null argDefs s st = .ok (s', st') := h
    obtain ⟨h1, h2⟩ := resolveStmtWith_function_binds (resolveStmts_frames body) hctx hfs h'
    refine ⟨h1, h2, ?_⟩
    rw [h1, hctx]
    exact findFunction_of_lookupFunction h2
  · intro n s s' st st' b pv pf fs vs hctx hn h
    rcases hn with ⟨cond, then_, els, hn⟩ | ⟨body, hn⟩
    · subst hn
      exact resolveStmt_ifNode_tables hctx h
    · subst hn
      exact resolveStmt_forNode_tables hctx h

/-- C19, amended, at the start of `main`: after
`if (1) { fnc f() { return 1; } }` the name `f` is not found in the enclosing
scope, as before the `if`. -/
theorem C19_witness :
    mainScope.1.ctx = .mk 1 .null .null 0 0 ∧
    (∀ m ∈ mainScope.1.ctx.functionChain, m < mainScope.2.functions.length) ∧
    ∃ r, resolveStmt (Node.ifNode (Node.num 1)
        (Node.block (Node.function "f" [] (Node.block (Node.ret (Node.num 1))))) .null)
        mainScope.1 mainScope.2 = .ok r ∧
      r.1.ctx.findFunction "f" r.2 = mainScope.1.ctx.findFunction "f" mainScope.2 ∧
      mainScope.1.ctx.findFunction "f" mainScope.2 = .error (.panic "Not Found Function") :=
  ⟨by decide!, by decide!,
    match isOk_exists (show (resolveStmt (Node.ifNode (Node.num 1)
      (Node.block (Node.function "f" [] (Node.block (Node.ret (Node.num 1))))) .null)
      mainScope.1 mainScope.2).isOk = true by decide!) with
    | ⟨r, hr⟩ =>
      ⟨r, hr, (C19_child_scope_has_own_tables.2.2.2.2 _ mainScope.1 r.1 mainScope.2 r.2 1 .null
        .null 0 0 (by decide!) (Or.inl ⟨_, _, _, rfl⟩) hr).2.2.2.2 (by decide!) "f",
        by decide!⟩⟩

/-- C20, counterexample: the counter is a `uint64`, and at the value 2^64 - 1 a
name request gives the name `block-18446744073709551615` and wraps the counter
to 0, so it does not increase. -/
theorem C20_counterexample :
    (blockName { mainScope.2 with blockIndex := 2 ^ 64 - 1 }).1 =
      "block-18446744073709551615" ∧
    (blockName { mainScope.2 with blockIndex := 2 ^ 64 - 1 }).2.blockIndex = 0 := by
  refine ⟨by decide!, by decide!⟩

/-- C20, amended: while the counter does not wrap, block names are unique. A name
request below 2^64 - 1 returns `block-N` for the counter value `N` and leaves
the counter one higher. Lowering statements that make `k` name requests from a
counter value `c` with `c + k < 2^64` ends with the counter at `c + k`; every
block it makes is named `block-N` followed by one of the endings `-then`,
`-leave`, `-else`, `-for`, `-leave-for` or nothing, with `c ≤ N < c + k`; and no
two of the blocks it makes have the same name. Two such names are equal only
when the counter values and the endings are. -/
theorem C20_block_names_unique :
    (∀ st : GenState, st.blockIndex + 1 < 2 ^ 64 →
      (blockName st).1 = "block-" ++ toString st.blockIndex ∧
      (blockName st).2.blockIndex = st.blockIndex + 1) ∧
    (∀ (n : Node) (s s' : Scope) (st st' : GenState) (b : Nat) (pv pf : BlockContext)
      (fs vs : Nat), s.ctx = .mk b pv pf fs vs → b < st.blocks.length →
      st.blockIndex + n.nameRequests < 2 ^ 64 → resolveStmts n s st = .ok (s', st') →
      st'.blockIndex = st.blockIndex + n.nameRequests ∧
      (∀ k, st.blocks.length ≤ k → k < st'.blocks.length →
        ∃ i suffix, st.blockIndex ≤ i ∧ i < st'.blockIndex ∧ suffix ∈ blockSuffixes ∧
          st'.nameOf k = some (blockLabel i suffix)) ∧
      (∀ k k', st.blocks.length ≤ k → k < st'.blocks.length → st.blocks.length ≤ k' →
        k' < st'.blocks.length → st'.nameOf k = st'.nameOf k' → k = k')) ∧
    (∀ (i j : Nat) (s t : String), s ∈ blockSuffixes → t ∈ blockSuffixes →
      blockLabel i s = blockLabel j t → i = j ∧ s = t) := by
  refine ⟨?_, ?_, fun i j s t hs ht h => blockLabel_injective hs ht h⟩
  · intro st h
    exact ⟨rfl, Nat.mod_eq_of_lt h⟩
  · intro n s s' st st' b pv pf fs vs hctx hb hi h
    obtain ⟨h1, h2⟩ := resolveStmts_names n s st s' st' b pv pf fs vs hctx hb hi h
    exact ⟨h1, h2.labelled, h2.distinct⟩

/-- C20, amended, at the start of `main`: lowering
`if (1) { for { } } else { fnc f() { } }` makes three name requests and leaves
the counter at 3. -/
theorem C20_witness :
    mainScope.1.ctx = .mk 1 .null .null 0 0 ∧ 1 < mainScope.2.blocks.length ∧
    mainScope.2.blockIndex + (Node.ifNode (Node.num 1)
      (Node.block (Node.forNode (Node.block .null)))
      (Node.block (Node.function "f" [] (Node.block .null)))).nameRequests < 2 ^ 64 ∧
    ∃ r, resolveStmts (Node.ifNode (Node.num 1) (Node.block (Node.forNode (Node.block .null)))
        (Node.block (Node.function "f" [] (Node.block .null)))) mainScope.1 mainScope.2 =
          .ok r ∧
      r.2.blockIndex = mainScope.2.blockIndex + (Node.ifNode (Node.num 1)
        (Node.block (Node.forNode (Node.block .null)))
        (Node.block (Node.function "f" [] (Node.block .null)))).nameRequests :=
  ⟨by decide!, by decide!, by decide!,
    match isOk_exists (show (resolveStmts (Node.ifNode (Node.num 1)
      (Node.block (Node.forNode (Node.block .null)))
      (Node.block (Node.function "f" [] (Node.block .null)))) mainScope.1
      mainScope.2).isOk = true by decide!) with
    | ⟨r, hr⟩ =>
      ⟨r, hr, (C20_block_names_unique.2.1 _ mainScope.1 r.1 mainScope.2 r.2 1 .null .null 0 0
        (by decide!) (by decide!) (by decide!) hr).1⟩⟩

/-! ## Parser: `>` and `>=` -/

/-- One round of the loop of `relational` at `>`: the operands are exchanged. -/
theorem relationalLoop_greater (e : Parser Node) (k : Nat) (node b : Node) (v : Int)
    (t t' : List Token) (hb : add e t = .ok (b, t')) :
    relationalLoop e (k + 1) node
        ({ tokenType := TokenTypeReserved, str := ">", value := v } :: t) =
      relationalLoop e k (Node.binary NodeTypeLT b node) t' := by
  simp only [relationalLoop, consume_other "<" ">" v t (by decide),
    consume_other "<=" ">" v t (by decide), consume_reserved, hb, bind, Except.bind]

/-- One round of the loop of `relational` at `>=`: the operands are exchanged. -/
theorem relationalLoop_greaterEqual (e : Parser Node) (k : Nat) (node b : Node) (v : Int)
    (t t' : List Token) (hb : add e t = .ok (b, t')) :
    relationalLoop e (k + 1) node
        ({ tokenType := TokenTypeReserved, str := ">=", value := v } :: t) =
      relationalLoop e k (Node.binary NodeTypeLE b node) t' := by
  simp only [relationalLoop, consume_other "<" ">=" v t (by decide),
    consume_other "<=" ">=" v t (by decide), consume_other ">" ">=" v t (by decide),
    consume_reserved, hb, bind, Except.bind]

/-- `relational` at one `>` or `>=` between two operands builds `LT` or `LE`
with the operands exchanged. -/
theorem relational_swapped (e : Parser Node) (toks t r : List Token) (a b : Node)
    (op : String) (ty : NodeType) (v : Int)
    (hop : (op, ty) ∈ [(">", NodeTypeLT), (">=", NodeTypeLE)])
    (ha : add e toks = .ok (a, { tokenType := TokenTypeReserved, str := op, value := v } :: t))
    (hb : add e t = .ok (b, r)) (hr : startsWithNone ["<", "<=", ">", ">="] r) :
    relational e toks = .ok (Node.binary ty b a, r) := by
  have hp := Level.parser_eq .relational e toks
  simp only [Level.parser, Level.operand, Level.loop] at hp
  rw [hp, ha]
  simp only [Except.bind, List.length_cons]
  cases t with
  | nil =>
    have := Level.operand_nil .relational e
    simp only [Level.operand] at this
    rw [this] at hb
    cases hb
  | cons x xs =>
    simp only [List.mem_cons, List.mem_singleton, List.not_mem_nil, or_false,
      Prod.mk.injEq] at hop
    rcases hop with ⟨rfl, rfl⟩ | ⟨rfl, rfl⟩
    · rw [relationalLoop_greater e _ a b v (x :: xs) r hb]
      exact Level.loop_stop .relational e _ _ r hr
    · rw [relationalLoop_greaterEqual e _ a b v (x :: xs) r hb]
      exact Level.loop_stop .relational e _ _ r hr

/-- A primary is an additive expression. -/
theorem isAdditive_of_isPrimary (d : Nat) (toks : List Token) (a : Node)
    (h : IsPrimary d toks a) : IsAdditive d toks a := by
  intro e he r hr
  have sub : ∀ ops : List String, (∀ s ∈ ops, s ∈ ["(", "*", "/", "+", "-"]) →
      startsWithNone ops r := fun ops hs => startsWithNone_mono ops _ r hs hr
  exact add_of_mul _ _ _ _
    (mul_of_unary _ _ _ _ (unary_isPrimary d toks a h e he r (sub _ (by decide)))
      (sub _ (by decide))) (sub _ (by decide))

/-- C21: `>` and `>=` are parsed by exchanging the operands of `<` and `<=`.
For additive expressions `a` and `b` (token lists `ta`, `tb`) and a rest that
starts with no binary operator and no `(`, `expr` returns `LT(b, a)` both for
`a > b` and for `b < a`, and `LE(b, a)` both for `a >= b` and for `b <= a`,
each time leaving the rest. The kinds of node are the nineteen of `NodeType`,
none of them a greater-than. -/
theorem C21_greater_than_swaps_operands :
    (∀ (d : Nat) (ta tb rest : List Token) (a b : Node), IsAdditive d ta a →
      IsAdditive d tb b → startsWithNone ("(" :: binaryOperators) rest → ∀ e, d ≤ e →
      expr (e + 1) (ta ++ (reserved ">" :: (tb ++ rest))) =
        .ok (Node.binary NodeTypeLT b a, rest) ∧
      expr (e + 1) (tb ++ (reserved "<" :: (ta ++ rest))) =
        .ok (Node.binary NodeTypeLT b a, rest) ∧
      expr (e + 1) (ta ++ (reserved ">=" :: (tb ++ rest))) =
        .ok (Node.binary NodeTypeLE b a, rest) ∧
      expr (e + 1) (tb ++ (reserved "<=" :: (ta ++ rest))) =
        .ok (Node.binary NodeTypeLE b a, rest)) ∧
    ∀ t : NodeType, t ∈ [NodeType.NodeTypeSum, .NodeTypeSub, .NodeTypeMul, .NodeTypeDiv,
      .NodeTypeEqual, .NodeTypeNotEqual, .NodeTypeLT, .NodeTypeLE, .NodeTypeReturn,
      .NodeTypeAlloc, .NodeTypeAssign, .NodeTypeLVar, .NodeTypeIF, .NodeTypeBlock,
      .NodeTypeNum, .NodeTypeFor, .NodeTypeBreak, .NodeTypeFunction,
      .NodeTypeFunctionCall] := by
  refine ⟨?_, fun t => by cases t <;> decide⟩
  intro d ta tb rest a b ha hb hrest e he
  have sub : ∀ ops : List String, (∀ s ∈ ops, s ∈ "(" :: binaryOperators) →
      startsWithNone ops rest := fun ops h => startsWithNone_mono ops _ rest h hrest
  have rs : ∀ (ops : List String) (s : String) (t : List Token), s ∉ ops →
      startsWithNone ops (reserved s :: t) := fun ops s t h =>
    startsWithNone_reserved ops s 0 t h
  have aa : ∀ (s : String) (t : List Token), s ∉ ["(", "*", "/", "+", "-"] →
      add (expr e) (ta ++ (reserved s :: t)) = .ok (a, reserved s :: t) := fun s t hs =>
    ha e he _ (rs _ s t hs)
  have ab : ∀ (s : String) (t : List Token), s ∉ ["(", "*", "/", "+", "-"] →
      add (expr e) (tb ++ (reserved s :: t)) = .ok (b, reserved s :: t) := fun s t hs =>
    hb e he _ (rs _ s t hs)
  have ra : add (expr e) (ta ++ rest) = .ok (a, rest) := ha e he rest (sub _ (by decide))
  have rb : add (expr e) (tb ++ rest) = .ok (b, rest) := hb e he rest (sub _ (by decide))
  refine ⟨?_, ?_, ?_, ?_⟩
  · show equality (expr e) _ = _
    refine equality_of_relational _ _ _ _ ?_ (sub _ (by decide))
    exact relational_swapped (expr e) _ _ rest a b ">" NodeTypeLT 0 (by decide)
      (aa ">" _ (by decide)) rb (sub _ (by decide))
  · show equality (expr e) _ = _
    refine equality_of_relational _ _ _ _ ?_ (sub _ (by decide))
    exact Level.parser_pair .relational (expr e) _ _ rest b a "<" NodeTypeLT 0 (by decide)
      (ab "<" _ (by decide)) ra (sub _ (by decide))
  · show equality (expr e) _ = _
    refine equality_of_relational _ _ _ _ ?_ (sub _ (by decide))
    exact relational_swapped (expr e) _ _ rest a b ">=" NodeTypeLE 0 (by decide)
      (aa ">=" _ (by decide)) rb (sub _ (by decide))
  · show equality (expr e) _ = _
    refine equality_of_relational _ _ _ _ ?_ (sub _ (by decide))
    exact Level.parser_pair .relational (expr e) _ _ rest b a "<=" NodeTypeLE 0 (by decide)
      (ab "<=" _ (by decide)) ra (sub _ (by decide))

/-- C21 at the names `a` and `b` followed by `;`, and `Parse` of the four source
texts: `a > b;` and `b < a;` give the same tree, and so do `a >= b;` and
`b <= a;`. -/
theorem C21_witness :
    (expr 1 ([identifier "a"] ++ (reserved ">" :: ([identifier "b"] ++
        [reserved ";", eofToken]))) =
      .ok (Node.binary NodeTypeLT (Node.lvar "b") (Node.lvar "a"), [reserved ";", eofToken]) ∧
    expr 1 ([identifier "b"] ++ (reserved "<" :: ([identifier "a"] ++
        [reserved ";", eofToken]))) =
      .ok (Node.binary NodeTypeLT (Node.lvar "b") (Node.lvar "a"), [reserved ";", eofToken]) ∧
    expr 1 ([identifier "a"] ++ (reserved ">=" :: ([identifier "b"] ++
        [reserved ";", eofToken]))) =
      .ok (Node.binary NodeTypeLE (Node.lvar "b") (Node.lvar "a"), [reserved ";", eofToken]) ∧
    expr 1 ([identifier "b"] ++ (reserved "<=" :: ([identifier "a"] ++
        [reserved ";", eofToken]))) =
      .ok (Node.binary NodeTypeLE (Node.lvar "b") (Node.lvar "a"),
        [reserved ";", eofToken])) ∧
    parseSource "a > b;" = .ok (Node.binary NodeTypeLT (Node.lvar "b") (Node.lvar "a")) ∧
    parseSource "b < a;" = .ok (Node.binary NodeTypeLT (Node.lvar "b") (Node.lvar "a")) ∧
    parseSource "a >= b;" = .ok (Node.binary NodeTypeLE (Node.lvar "b") (Node.lvar "a")) ∧
    parseSource "b <= a;" = .ok (Node.binary NodeTypeLE (Node.lvar "b") (Node.lvar "a")) :=
  ⟨C21_greater_than_swaps_operands.1 0 [identifier "a"] [identifier "b"]
      [reserved ";", eofToken] (Node.lvar "a") (Node.lvar "b")
      (isAdditive_of_isPrimary 0 _ _ (isPrimary_identifier "a" (by decide)))
      (isAdditive_of_isPrimary 0 _ _ (isPrimary_identifier "b" (by decide)))
      (startsWithNone_reserved _ ";" 0 [eofToken] (by decide)) 0 (Nat.le_refl 0),
    by decide, by decide, by decide, by decide⟩

end Carrot
